import Mathlib

/-! ManaScript: the AST-to-IR lowering engine (`src/codegen.cpp`).

A shallow embedding of `mana::CodeGenerator` and of the collaborators it drives
(`ast.hpp`, `symbol_table.cpp`, `error.cpp`), followed by one of the parser that builds
its input (`parser.cpp`).

The generator is written against the LLVM C++ API, which is a library and not part of
the sources.  The part of it the generator uses is modelled structurally:

* blocks and functions live in arenas and are named by their index (pointer identity);
* an instruction is a record of the builder call that made it, a `Value` is a constant,
  a global, a function argument or the result of an instruction;
* a C++ pointer that may be null is an `Option`; where the source hands a null pointer
  to the library (a null operand of a store or a call) the instruction is recorded
  with that operand `none`;
* the builder's constant folder and the library's verifier are parameters (`LLVM`):
  a builder call either folds to a constant (no instruction is inserted) or inserts its
  instruction at the end of the insertion block;
* assertions inside the library (operand type agreement, argument counts) are not
  modelled: the instruction is recorded as built.
-/

namespace mana

/-! ## Tokens (`token.cpp`) -/

/-- The token kinds listed by `tokenTypeToString`. -/
inductive TokenType where
  | END_OF_FILE | ERROR | IDENTIFIER | INTEGER_LITERAL | FLOAT_LITERAL | STRING_LITERAL
  | BOOL_LITERAL | FUNCTION | VAR | CONST | IF | ELSE | WHILE | FOR | RETURN | BREAK
  | CONTINUE | TRUE | FALSE | NIL | PLUS | MINUS | STAR | SLASH | PERCENT | EQUAL
  | EQUAL_EQUAL | BANG | BANG_EQUAL | LESS | LESS_EQUAL | GREATER | GREATER_EQUAL
  | AND | OR | DOT | COMMA | SEMICOLON | COLON | LEFT_PAREN | RIGHT_PAREN | LEFT_BRACE
  | RIGHT_BRACE | LEFT_BRACKET | RIGHT_BRACKET
  deriving DecidableEq, Repr

/-- A token: kind, lexeme and source position. -/
structure Token where
  type : TokenType
  lexeme : String
  line : Int
  column : Int
  deriving DecidableEq, Repr

/-! ## The syntax tree (`ast.hpp`) -/

/-- A C++ `double`, kept as its bit pattern: lowering never computes with it. -/
structure Double where
  bits : Nat
  deriving DecidableEq, Repr

/-- The variant `LiteralExpr::LiteralValue`: int, double, string, bool, nullptr. -/
inductive LiteralValue where
  | int (v : Int)
  | double (v : Double)
  | string (v : String)
  | bool (v : Bool)
  | null
  deriving DecidableEq, Repr

/-- Expression nodes.  Child expressions are never null in a tree the parser builds. -/
inductive Expr where
  | LiteralExpr (value : LiteralValue)
  | UnaryExpr (op : Token) (right : Expr)
  | BinaryExpr (left : Expr) (op : Token) (right : Expr)
  | GroupingExpr (expression : Expr)
  | VariableExpr (name : Token)
  | AssignExpr (name : Token) (value : Expr)
  | CallExpr (callee : Expr) (paren : Token) (arguments : List Expr)
  deriving Repr

/-- Statement nodes.  An entry of a statement list may be null (`none`): the parser
stores a null pointer for a declaration it gave up on.  An initializer, an else branch
and a return value are optional. -/
inductive Stmt where
  | ExpressionStmt (expression : Expr)
  | VarDeclStmt (name : Token) (initializer : Option Expr) (is_const : Bool)
  | BlockStmt (statements : List (Option Stmt))
  | IfStmt (condition : Expr) (then_branch : Stmt) (else_branch : Option Stmt)
  | WhileStmt (condition : Expr) (body : Stmt)
  | FunctionStmt (name : Token) (params : List Token) (body : List (Option Stmt))
  | ReturnStmt (keyword : Token) (value : Option Expr)
  deriving Repr

/-! ## Diagnostics (`error.hpp`, `error.cpp`) -/

/-- Severity levels of a diagnostic. -/
inductive DiagnosticSeverity where
  | INFO | WARNING | ERROR | FATAL
  deriving DecidableEq, Repr

/-- A source position. -/
structure SourceLocation where
  filename : String := ""
  line : Int := 0
  column : Int := 0
  deriving DecidableEq, Repr

/-- One diagnostic message. -/
structure Diagnostic where
  severity : DiagnosticSeverity
  message : String
  location : SourceLocation
  code_context : String := ""
  deriving DecidableEq, Repr

/-- The diagnostics sink: the stored list and the aggregate error flag. -/
structure DiagnosticManager where
  diagnostics : List Diagnostic := []
  has_errors : Bool := false
  deriving DecidableEq, Repr

/-- `DiagnosticManager::report(const Diagnostic&)`. -/
def DiagnosticManager.reportDiagnostic (m : DiagnosticManager) (diagnostic : Diagnostic) :
    DiagnosticManager :=
  let diagnostics := m.diagnostics ++ [diagnostic]
  if diagnostic.severity = DiagnosticSeverity.ERROR ∨
      diagnostic.severity = DiagnosticSeverity.FATAL then
    { diagnostics := diagnostics, has_errors := true }
  else
    { diagnostics := diagnostics, has_errors := m.has_errors }

/-- `DiagnosticManager::report(severity, message, location, code_context)`. -/
def DiagnosticManager.report (m : DiagnosticManager) (severity : DiagnosticSeverity)
    (message : String) (location : SourceLocation) (code_context : String) :
    DiagnosticManager :=
  m.reportDiagnostic
    { severity := severity, message := message, location := location,
      code_context := code_context }

/-- `DiagnosticManager::hasErrors`. -/
def DiagnosticManager.hasErrors (m : DiagnosticManager) : Bool := m.has_errors

/-- `DiagnosticManager::getDiagnostics`. -/
def DiagnosticManager.getDiagnostics (m : DiagnosticManager) : List Diagnostic :=
  m.diagnostics

/-- `DiagnosticManager::clear`. -/
def DiagnosticManager.clear (_m : DiagnosticManager) : DiagnosticManager :=
  { diagnostics := [], has_errors := false }

/-! ## The symbol table (`symbol_table.hpp`, `symbol_table.cpp`) -/

/-- `Symbol::Kind`. -/
inductive SymbolKind where
  | VARIABLE | FUNCTION | PARAMETER
  deriving DecidableEq, Repr

/-- A symbol.  `Type` is only forward-declared in the sources, so the optional type is
an uninterpreted handle. -/
structure Symbol where
  name : String
  kind : SymbolKind
  type : Option Nat := none
  deriving DecidableEq, Repr

/-- A scope: its own symbols (a map, kept as an association list) and its parent. -/
inductive Scope where
  | mk (symbols : List (String × Symbol)) (parent : Option Scope)
  deriving Repr

mutual
/-- Equality of scopes is decidable. -/
def Scope.decEq : (a b : Scope) → Decidable (a = b)
  | .mk s1 p1, .mk s2 p2 =>
    if hs : s1 = s2 then
      match Scope.decEqOpt p1 p2 with
      | isTrue h => isTrue (by rw [hs, h])
      | isFalse h => isFalse (fun h2 => h (Scope.mk.inj h2).2)
    else isFalse (fun h2 => hs (Scope.mk.inj h2).1)
/-- Equality of optional scopes is decidable. -/
def Scope.decEqOpt : (a b : Option Scope) → Decidable (a = b)
  | none, none => isTrue rfl
  | none, some _ => isFalse (fun h => Option.noConfusion h)
  | some _, none => isFalse (fun h => Option.noConfusion h)
  | some a, some b =>
    match Scope.decEq a b with
    | isTrue h => isTrue (by rw [h])
    | isFalse h => isFalse (fun h2 => h (Option.some.inj h2))
end

instance : DecidableEq Scope := Scope.decEq

/-- The symbols of a scope. -/
def Scope.symbols : Scope → List (String × Symbol)
  | .mk symbols _ => symbols

/-- `Scope::getParent`. -/
def Scope.getParent : Scope → Option Scope
  | .mk _ parent => parent

/-- `Scope::resolveLocal`. -/
def Scope.resolveLocal (s : Scope) (name : String) : Option Symbol :=
  s.symbols.lookup name

/-- `Scope::define`: the result flag and the scope afterwards. -/
def Scope.define (s : Scope) (name : String) (kind : SymbolKind) (type : Option Nat) :
    Bool × Scope :=
  match s.symbols.lookup name with
  | some _ => (false, s)
  | none =>
    (true, .mk (s.symbols ++ [(name, { name := name, kind := kind, type := type })])
      s.getParent)

/-- `Scope::resolve`: this scope first, then the parent chain. -/
def Scope.resolve : Scope → String → Option Symbol
  | .mk symbols none, name => symbols.lookup name
  | .mk symbols (some parent), name =>
    match symbols.lookup name with
    | some sym => some sym
    | none => parent.resolve name

/-- The outermost scope of a chain. -/
def Scope.root : Scope → Scope
  | .mk symbols none => .mk symbols none
  | .mk _ (some parent) => parent.root

/-- The symbol table.  `global_scope` and `current_scope` are shared pointers into one
chain, the global scope being the root of the chain of the current scope; the table is
therefore given by its current scope. -/
structure SymbolTable where
  current_scope : Scope := .mk [] none
  deriving DecidableEq, Repr

/-- `SymbolTable::getGlobalScope`. -/
def SymbolTable.getGlobalScope (t : SymbolTable) : Scope := t.current_scope.root

/-- `SymbolTable::enterScope`. -/
def SymbolTable.enterScope (t : SymbolTable) : SymbolTable :=
  { current_scope := .mk [] (some t.current_scope) }

/-- `SymbolTable::exitScope`. -/
def SymbolTable.exitScope (t : SymbolTable) : SymbolTable :=
  match t.current_scope.getParent with
  | some parent => { current_scope := parent }
  | none => t

/-- `SymbolTable::define`. -/
def SymbolTable.define (t : SymbolTable) (name : String) (kind : SymbolKind)
    (type : Option Nat) : Bool × SymbolTable :=
  ((t.current_scope.define name kind type).1,
    { current_scope := (t.current_scope.define name kind type).2 })

/-- `SymbolTable::resolve`. -/
def SymbolTable.resolve (t : SymbolTable) (name : String) : Option Symbol :=
  t.current_scope.resolve name

/-! ## The LLVM objects the generator builds -/

/-- The types of the library that the generator meets. -/
inductive Ty where
  | integer (bits : Nat)
  | double
  | void
  | pointer (element : Ty)
  | array (n : Nat) (element : Ty)
  | func (ret : Ty) (params : List Ty) (isVarArg : Bool)
  deriving Repr

mutual
/-- Equality of types is decidable. -/
def Ty.decEq : (a b : Ty) → Decidable (a = b)
  | .integer a, .integer b =>
    if h : a = b then isTrue (by rw [h]) else isFalse (fun h2 => h (Ty.integer.inj h2))
  | .double, .double => isTrue rfl
  | .void, .void => isTrue rfl
  | .pointer a, .pointer b =>
    match Ty.decEq a b with
    | isTrue h => isTrue (by rw [h])
    | isFalse h => isFalse (fun h2 => h (Ty.pointer.inj h2))
  | .array n a, .array m b =>
    if hn : n = m then
      match Ty.decEq a b with
      | isTrue h => isTrue (by rw [hn, h])
      | isFalse h => isFalse (fun h2 => h (Ty.array.inj h2).2)
    else isFalse (fun h2 => hn (Ty.array.inj h2).1)
  | .func r ps v, .func r2 ps2 v2 =>
    match Ty.decEq r r2, Ty.decEqList ps ps2 with
    | isTrue h1, isTrue h2 =>
      if hv : v = v2 then isTrue (by rw [h1, h2, hv])
      else isFalse (fun h => hv (Ty.func.inj h).2.2)
    | isFalse h1, _ => isFalse (fun h => h1 (Ty.func.inj h).1)
    | _, isFalse h2 => isFalse (fun h => h2 (Ty.func.inj h).2.1)
  | .integer _, .double => isFalse (fun h => Ty.noConfusion h)
  | .integer _, .void => isFalse (fun h => Ty.noConfusion h)
  | .integer _, .pointer _ => isFalse (fun h => Ty.noConfusion h)
  | .integer _, .array _ _ => isFalse (fun h => Ty.noConfusion h)
  | .integer _, .func _ _ _ => isFalse (fun h => Ty.noConfusion h)
  | .double, .integer _ => isFalse (fun h => Ty.noConfusion h)
  | .double, .void => isFalse (fun h => Ty.noConfusion h)
  | .double, .pointer _ => isFalse (fun h => Ty.noConfusion h)
  | .double, .array _ _ => isFalse (fun h => Ty.noConfusion h)
  | .double, .func _ _ _ => isFalse (fun h => Ty.noConfusion h)
  | .void, .integer _ => isFalse (fun h => Ty.noConfusion h)
  | .void, .double => isFalse (fun h => Ty.noConfusion h)
  | .void, .pointer _ => isFalse (fun h => Ty.noConfusion h)
  | .void, .array _ _ => isFalse (fun h => Ty.noConfusion h)
  | .void, .func _ _ _ => isFalse (fun h => Ty.noConfusion h)
  | .pointer _, .integer _ => isFalse (fun h => Ty.noConfusion h)
  | .pointer _, .double => isFalse (fun h => Ty.noConfusion h)
  | .pointer _, .void => isFalse (fun h => Ty.noConfusion h)
  | .pointer _, .array _ _ => isFalse (fun h => Ty.noConfusion h)
  | .pointer _, .func _ _ _ => isFalse (fun h => Ty.noConfusion h)
  | .array _ _, .integer _ => isFalse (fun h => Ty.noConfusion h)
  | .array _ _, .double => isFalse (fun h => Ty.noConfusion h)
  | .array _ _, .void => isFalse (fun h => Ty.noConfusion h)
  | .array _ _, .pointer _ => isFalse (fun h => Ty.noConfusion h)
  | .array _ _, .func _ _ _ => isFalse (fun h => Ty.noConfusion h)
  | .func _ _ _, .integer _ => isFalse (fun h => Ty.noConfusion h)
  | .func _ _ _, .double => isFalse (fun h => Ty.noConfusion h)
  | .func _ _ _, .void => isFalse (fun h => Ty.noConfusion h)
  | .func _ _ _, .pointer _ => isFalse (fun h => Ty.noConfusion h)
  | .func _ _ _, .array _ _ => isFalse (fun h => Ty.noConfusion h)
/-- Equality of lists of types is decidable. -/
def Ty.decEqList : (as bs : List Ty) → Decidable (as = bs)
  | [], [] => isTrue rfl
  | [], _ :: _ => isFalse (fun h => List.noConfusion h)
  | _ :: _, [] => isFalse (fun h => List.noConfusion h)
  | a :: as, b :: bs =>
    match Ty.decEq a b, Ty.decEqList as bs with
    | isTrue h1, isTrue h2 => isTrue (by rw [h1, h2])
    | isFalse h1, _ => isFalse (fun h => h1 (List.cons.inj h).1)
    | _, isFalse h2 => isFalse (fun h => h2 (List.cons.inj h).2)
end

instance : DecidableEq Ty := Ty.decEq

/-- `Type::isIntegerTy()`. -/
def Ty.isIntegerTy : Ty → Bool
  | .integer _ => true
  | _ => false

/-- `Type::isIntegerTy(bits)`. -/
def Ty.isIntegerTyOf (bits : Nat) : Ty → Bool
  | .integer b => b == bits
  | _ => false

/-- `Type::isFloatingPointTy()`. -/
def Ty.isFloatingPointTy : Ty → Bool
  | .double => true
  | _ => false

/-- `Type::isPointerTy()`. -/
def Ty.isPointerTy : Ty → Bool
  | .pointer _ => true
  | _ => false

/-- `Type::isFunctionTy()`. -/
def Ty.isFunctionTy : Ty → Bool
  | .func _ _ _ => true
  | _ => false

/-- `PointerType::getElementType()`; the source calls it on pointer types only. -/
def Ty.getElementType : Ty → Ty
  | .pointer element => element
  | t => t

/-- `getIntType()`: `i32`. -/
def getIntType : Ty := .integer 32

/-- `getFloatType()`: `double`. -/
def getFloatType : Ty := .double

/-- `getBoolType()`: `i1`. -/
def getBoolType : Ty := .integer 1

/-- `getVoidType()`. -/
def getVoidType : Ty := .void

/-- `getStringType()`: `i8*`. -/
def getStringType : Ty := .pointer (.integer 8)

/-- The builder calls that yield a value and that the builder's folder may fold; each
is named after its `IRBuilder::Create...` method. -/
inductive BuilderOp where
  | Neg | FNeg | Not | SIToFP | InBoundsGEP
  | Add | Sub | Mul | SDiv | SRem | FAdd | FSub | FMul | FDiv
  | ICmpEQ | ICmpNE | ICmpSLT | ICmpSLE | ICmpSGT | ICmpSGE
  | FCmpOEQ | FCmpONE | FCmpOLT | FCmpOLE | FCmpOGT | FCmpOGE
  deriving DecidableEq, Repr

/-- An `llvm::Value`: a constant, a global, a function argument, or the result of the
instruction with the given identity. -/
inductive Value where
  | ConstantInt (ty : Ty) (v : Int)
  | ConstantFP (ty : Ty) (v : Double)
  | ConstantPointerNull (ty : Ty)
  | ConstantExpr (op : BuilderOp) (operands : List Value) (ty : Ty)
  | GlobalVariable (id : Nat) (ty : Ty)
  | Argument (function : Nat) (index : Nat) (ty : Ty)
  | Instruction (id : Nat) (ty : Ty)
  deriving Repr

mutual
/-- Equality of values is decidable. -/
def Value.decEq : (a b : Value) → Decidable (a = b)
  | .ConstantInt a1 a2, .ConstantInt b1 b2 =>
    if h : a1 = b1 ∧ a2 = b2 then isTrue (by rw [h.1, h.2])
    else isFalse (fun h2 => h (Value.ConstantInt.inj h2))
  | .ConstantFP a1 a2, .ConstantFP b1 b2 =>
    if h : a1 = b1 ∧ a2 = b2 then isTrue (by rw [h.1, h.2])
    else isFalse (fun h2 => h (Value.ConstantFP.inj h2))
  | .ConstantPointerNull a1, .ConstantPointerNull b1 =>
    if h : a1 = b1 then isTrue (by rw [h]) else isFalse (fun h2 => h (Value.ConstantPointerNull.inj h2))
  | .ConstantExpr a1 a2 a3, .ConstantExpr b1 b2 b3 =>
    match Value.decEqList a2 b2 with
    | isTrue h2 =>
      if h : a1 = b1 ∧ a3 = b3 then isTrue (by rw [h.1, h2, h.2])
      else isFalse (fun h3 => h ⟨(Value.ConstantExpr.inj h3).1, (Value.ConstantExpr.inj h3).2.2⟩)
    | isFalse h2 => isFalse (fun h3 => h2 (Value.ConstantExpr.inj h3).2.1)
  | .GlobalVariable a1 a2, .GlobalVariable b1 b2 =>
    if h : a1 = b1 ∧ a2 = b2 then isTrue (by rw [h.1, h.2])
    else isFalse (fun h2 => h (Value.GlobalVariable.inj h2))
  | .Argument a1 a2 a3, .Argument b1 b2 b3 =>
    if h : a1 = b1 ∧ a2 = b2 ∧ a3 = b3 then isTrue (by rw [h.1, h.2.1, h.2.2])
    else isFalse (fun h2 => h (Value.Argument.inj h2))
  | .Instruction a1 a2, .Instruction b1 b2 =>
    if h : a1 = b1 ∧ a2 = b2 then isTrue (by rw [h.1, h.2])
    else isFalse (fun h2 => h (Value.Instruction.inj h2))
  | .ConstantInt _ _, .ConstantFP _ _ => isFalse (fun h => Value.noConfusion h)
  | .ConstantInt _ _, .ConstantPointerNull _ => isFalse (fun h => Value.noConfusion h)
  | .ConstantInt _ _, .ConstantExpr _ _ _ => isFalse (fun h => Value.noConfusion h)
  | .ConstantInt _ _, .GlobalVariable _ _ => isFalse (fun h => Value.noConfusion h)
  | .ConstantInt _ _, .Argument _ _ _ => isFalse (fun h => Value.noConfusion h)
  | .ConstantInt _ _, .Instruction _ _ => isFalse (fun h => Value.noConfusion h)
  | .ConstantFP _ _, .ConstantInt _ _ => isFalse (fun h => Value.noConfusion h)
  | .ConstantFP _ _, .ConstantPointerNull _ => isFalse (fun h => Value.noConfusion h)
  | .ConstantFP _ _, .ConstantExpr _ _ _ => isFalse (fun h => Value.noConfusion h)
  | .ConstantFP _ _, .GlobalVariable _ _ => isFalse (fun h => Value.noConfusion h)
  | .ConstantFP _ _, .Argument _ _ _ => isFalse (fun h => Value.noConfusion h)
  | .ConstantFP _ _, .Instruction _ _ => isFalse (fun h => Value.noConfusion h)
  | .ConstantPointerNull _, .ConstantInt _ _ => isFalse (fun h => Value.noConfusion h)
  | .ConstantPointerNull _, .ConstantFP _ _ => isFalse (fun h => Value.noConfusion h)
  | .ConstantPointerNull _, .ConstantExpr _ _ _ => isFalse (fun h => Value.noConfusion h)
  | .ConstantPointerNull _, .GlobalVariable _ _ => isFalse (fun h => Value.noConfusion h)
  | .ConstantPointerNull _, .Argument _ _ _ => isFalse (fun h => Value.noConfusion h)
  | .ConstantPointerNull _, .Instruction _ _ => isFalse (fun h => Value.noConfusion h)
  | .ConstantExpr _ _ _, .ConstantInt _ _ => isFalse (fun h => Value.noConfusion h)
  | .ConstantExpr _ _ _, .ConstantFP _ _ => isFalse (fun h => Value.noConfusion h)
  | .ConstantExpr _ _ _, .ConstantPointerNull _ => isFalse (fun h => Value.noConfusion h)
  | .ConstantExpr _ _ _, .GlobalVariable _ _ => isFalse (fun h => Value.noConfusion h)
  | .ConstantExpr _ _ _, .Argument _ _ _ => isFalse (fun h => Value.noConfusion h)
  | .ConstantExpr _ _ _, .Instruction _ _ => isFalse (fun h => Value.noConfusion h)
  | .GlobalVariable _ _, .ConstantInt _ _ => isFalse (fun h => Value.noConfusion h)
  | .GlobalVariable _ _, .ConstantFP _ _ => isFalse (fun h => Value.noConfusion h)
  | .GlobalVariable _ _, .ConstantPointerNull _ => isFalse (fun h => Value.noConfusion h)
  | .GlobalVariable _ _, .ConstantExpr _ _ _ => isFalse (fun h => Value.noConfusion h)
  | .GlobalVariable _ _, .Argument _ _ _ => isFalse (fun h => Value.noConfusion h)
  | .GlobalVariable _ _, .Instruction _ _ => isFalse (fun h => Value.noConfusion h)
  | .Argument _ _ _, .ConstantInt _ _ => isFalse (fun h => Value.noConfusion h)
  | .Argument _ _ _, .ConstantFP _ _ => isFalse (fun h => Value.noConfusion h)
  | .Argument _ _ _, .ConstantPointerNull _ => isFalse (fun h => Value.noConfusion h)
  | .Argument _ _ _, .ConstantExpr _ _ _ => isFalse (fun h => Value.noConfusion h)
  | .Argument _ _ _, .GlobalVariable _ _ => isFalse (fun h => Value.noConfusion h)
  | .Argument _ _ _, .Instruction _ _ => isFalse (fun h => Value.noConfusion h)
  | .Instruction _ _, .ConstantInt _ _ => isFalse (fun h => Value.noConfusion h)
  | .Instruction _ _, .ConstantFP _ _ => isFalse (fun h => Value.noConfusion h)
  | .Instruction _ _, .ConstantPointerNull _ => isFalse (fun h => Value.noConfusion h)
  | .Instruction _ _, .ConstantExpr _ _ _ => isFalse (fun h => Value.noConfusion h)
  | .Instruction _ _, .GlobalVariable _ _ => isFalse (fun h => Value.noConfusion h)
  | .Instruction _ _, .Argument _ _ _ => isFalse (fun h => Value.noConfusion h)
/-- Equality of lists of values is decidable. -/
def Value.decEqList : (as bs : List Value) → Decidable (as = bs)
  | [], [] => isTrue rfl
  | [], _ :: _ => isFalse (fun h => List.noConfusion h)
  | _ :: _, [] => isFalse (fun h => List.noConfusion h)
  | a :: as, b :: bs =>
    match Value.decEq a b, Value.decEqList as bs with
    | isTrue h1, isTrue h2 => isTrue (by rw [h1, h2])
    | isFalse h1, _ => isFalse (fun h => h1 (List.cons.inj h).1)
    | _, isFalse h2 => isFalse (fun h => h2 (List.cons.inj h).2)
end

instance : DecidableEq Value := Value.decEq

/-- `Value::getType()`. -/
def Value.getType : Value → Ty
  | .ConstantInt ty _ => ty
  | .ConstantFP ty _ => ty
  | .ConstantPointerNull ty => ty
  | .ConstantExpr _ _ ty => ty
  | .GlobalVariable _ ty => ty
  | .Argument _ _ ty => ty
  | .Instruction _ ty => ty

/-- An instruction as the builder call that made it.  `id` is the identity of the
instruction as a value.  Blocks and functions are named by their arena index. -/
inductive Instruction where
  | Alloca (id : Nat) (allocatedType : Ty) (name : String)
  | Load (id : Nat) (ty : Ty) (ptr : Value) (name : String)
  | Store (value : Option Value) (ptr : Value)
  | Op (id : Nat) (op : BuilderOp) (operands : List Value) (ty : Ty) (name : String)
  | Call (id : Nat) (callee : Option Nat) (args : List (Option Value)) (ty : Ty)
      (name : String)
  | PHI (id : Nat) (ty : Ty) (incoming : List (Value × Option Nat)) (name : String)
  | Br (dest : Nat)
  | CondBr (cond : Value) (ifTrue : Nat) (ifFalse : Nat)
  | Ret (value : Value)
  | RetVoid
  deriving DecidableEq, Repr

/-- `Instruction::isTerminator()`. -/
def Instruction.isTerminator : Instruction → Bool
  | .Br _ => true
  | .CondBr _ _ _ => true
  | .Ret _ => true
  | .RetVoid => true
  | _ => false

/-- Whether the instruction is a store. -/
def Instruction.isStore : Instruction → Bool
  | .Store _ _ => true
  | _ => false

/-- Whether the instruction is a load. -/
def Instruction.isLoad : Instruction → Bool
  | .Load _ _ _ _ => true
  | _ => false

/-- An `llvm::AllocaInst*`: a storage slot. -/
structure AllocaInst where
  id : Nat
  allocatedType : Ty
  name : String
  deriving DecidableEq, Repr

/-- The slot as an address operand. -/
def AllocaInst.value (a : AllocaInst) : Value :=
  .Instruction a.id (.pointer a.allocatedType)

/-- A basic block: its label, the function it is inserted in, its instructions. -/
structure BasicBlock where
  name : String
  parent : Option Nat
  instructions : List Instruction
  deriving DecidableEq, Repr

/-- `BasicBlock::getTerminator()`: the last instruction when it is a terminator. -/
def BasicBlock.getTerminator (b : BasicBlock) : Option Instruction :=
  match b.instructions.getLast? with
  | some i => if i.isTerminator then some i else none
  | none => none

/-- An `llvm::Function`: name, signature, argument names, block list. -/
structure IRFunction where
  name : String
  returnType : Ty
  paramTypes : List Ty
  isVarArg : Bool
  argNames : List String
  blocks : List Nat
  deriving DecidableEq, Repr

/-- A global string constant. -/
structure GlobalVariable where
  name : String
  valueType : Ty
  isConstant : Bool
  initializer : String
  deriving DecidableEq, Repr

/-- The `llvm::LLVMContext` and `llvm::Module` of one generator.  `blocks` and
`functions` are arenas of everything created; `functionList` is the module's function
list, from which `eraseFromParent` removes a function. -/
structure IRModule where
  name : String
  blocks : List BasicBlock := []
  functions : List IRFunction := []
  functionList : List Nat := []
  globals : List GlobalVariable := []
  nextValue : Nat := 0
  lastUnique : Nat := 0
  deriving DecidableEq, Repr

/-- The part of the library that is a parameter of the model: the builder's constant
folder (`some c`: the call yields the constant `c` and inserts nothing) and the
verifier (`verifyFunction` is true, `verifyModule` returns the error text, when the
IR is broken). -/
structure LLVM where
  fold : BuilderOp → List Value → Ty → Option Value
  verifyFunction : IRModule → Nat → Bool
  verifyModule : IRModule → Option String

/-- Changes the element at an index of a list. -/
def updateAt {α : Type} : List α → Nat → (α → α) → List α
  | [], _, _ => []
  | a :: as, 0, f => f a :: as
  | a :: as, n + 1, f => a :: updateAt as n f

/-- `ValueSymbolTable::makeUniqueName`: appends an increasing counter to the base name
until the name is unused. -/
def makeUniqueName (used : List String) (base sep : String) : Nat → Nat → String × Nat
  | 0, last => (base ++ sep ++ toString (last + 1), last + 1)
  | fuel + 1, last =>
    if used.contains (base ++ sep ++ toString (last + 1)) then
      makeUniqueName used base sep fuel (last + 1)
    else (base ++ sep ++ toString (last + 1), last + 1)

/-- The name a value gets in a symbol table where `used` are taken. -/
def uniqueName (used : List String) (name sep : String) (last : Nat) : String × Nat :=
  if used.contains name then makeUniqueName used name sep used.length last
  else (name, last)

/-- The names of the module's symbol table: its functions and its globals. -/
def IRModule.symbolNames (m : IRModule) : List String :=
  (m.functionList.filterMap (fun f => (m.functions[f]?).map (fun fn => fn.name))) ++
    m.globals.map (fun gv => gv.name)

/-- `Module::getFunction(name)`. -/
def IRModule.getFunction (m : IRModule) (name : String) : Option Nat :=
  m.functionList.find? (fun f =>
    match m.functions[f]? with
    | some fn => fn.name == name
    | none => false)

/-- `Function::Create(type, linkage, name, module)`: the new function and the module. -/
def IRModule.createFunction (m : IRModule) (returnType : Ty) (paramTypes : List Ty)
    (isVarArg : Bool) (name : String) : Nat × IRModule :=
  let u := uniqueName m.symbolNames name "." m.lastUnique
  (m.functions.length,
    { m with
      functions := m.functions ++
        [{ name := u.1, returnType := returnType, paramTypes := paramTypes,
           isVarArg := isVarArg, argNames := paramTypes.map (fun _ => ""), blocks := [] }]
      functionList := m.functionList ++ [m.functions.length]
      lastUnique := u.2 })

/-- The names the arguments get from successive `arg.setName` calls. -/
def setArgNames : List String → List String → Nat → List String
  | [], acc, _ => acc
  | n :: rest, acc, last =>
    setArgNames rest (acc ++ [(uniqueName acc n "" last).1]) (uniqueName acc n "" last).2

/-- `new GlobalVariable(module, type, isConstant, PrivateLinkage, init, name)`. -/
def IRModule.createGlobalVariable (m : IRModule) (valueType : Ty) (isConstant : Bool)
    (initializer : String) (name : String) : Value × IRModule :=
  let u := uniqueName m.symbolNames name "." m.lastUnique
  (.GlobalVariable m.globals.length (.pointer valueType),
    { m with
      globals := m.globals ++
        [{ name := u.1, valueType := valueType, isConstant := isConstant,
           initializer := initializer }]
      lastUnique := u.2 })

/-- `BasicBlock::Create(context, name, parent)`: with a parent the block is appended to
the parent's block list. -/
def IRModule.createBlock (m : IRModule) (name : String) (parent : Option Nat) :
    Nat × IRModule :=
  (m.blocks.length,
    { m with
      blocks := m.blocks ++ [{ name := name, parent := parent, instructions := [] }]
      functions :=
        match parent with
        | none => m.functions
        | some f =>
          updateAt m.functions f (fun fn => { fn with blocks := fn.blocks ++ [m.blocks.length] }) })

/-- `function->getBasicBlockList().push_back(bb)`. -/
def IRModule.pushBackBlock (m : IRModule) (function : Option Nat) (bb : Nat) : IRModule :=
  match function with
  | none => m
  | some f =>
    { m with
      blocks := updateAt m.blocks bb (fun b => { b with parent := some f })
      functions := updateAt m.functions f (fun fn => { fn with blocks := fn.blocks ++ [bb] }) }

/-- Appends an instruction to a block. -/
def IRModule.appendInstruction (m : IRModule) (bb : Nat) (i : Instruction) : IRModule :=
  { m with blocks := updateAt m.blocks bb (fun b => { b with instructions := b.instructions ++ [i] }) }

/-- Inserts an instruction at the beginning of a block. -/
def IRModule.prependInstruction (m : IRModule) (bb : Nat) (i : Instruction) : IRModule :=
  { m with blocks := updateAt m.blocks bb (fun b => { b with instructions := i :: b.instructions }) }

/-- `Function::getEntryBlock()`: the first block of the block list. -/
def IRModule.getEntryBlock (m : IRModule) (function : Option Nat) : Option Nat :=
  match function with
  | none => none
  | some f =>
    match m.functions[f]? with
    | some fn => fn.blocks.head?
    | none => none

/-- `bb->getTerminator()` for a block pointer that may be null. -/
def IRModule.getTerminator (m : IRModule) (bb : Option Nat) : Option Instruction :=
  match bb with
  | none => none
  | some b =>
    match m.blocks[b]? with
    | some blk => blk.getTerminator
    | none => none

/-- `Function::eraseFromParent()`: the function leaves the module's function list. -/
def IRModule.eraseFromParent (m : IRModule) (function : Nat) : IRModule :=
  { m with functionList := m.functionList.filter (fun f => f != function) }

/-! ## The generator state and the builder -/

/-- The members of `mana::CodeGenerator`, the builder's insertion block, and the global
diagnostics sink `mana::diagnostics`.  `value_stack` lists the back of the vector
first.  `named_values` and `functions` are maps, kept as association lists.  The
builder always inserts at the end of its insertion block. -/
structure CodeGenerator where
  module : IRModule
  insertBlock : Option Nat := none
  current_function : Option Nat := none
  value_stack : List (Option Value) := []
  named_values : List (String × AllocaInst) := []
  functions : List (String × Nat) := []
  symbol_table : SymbolTable := {}
  diagnostics : DiagnosticManager := {}
  deriving DecidableEq, Repr

/-- `map[key] = value`. -/
def mapAssign {α : Type} (m : List (String × α)) (key : String) (value : α) :
    List (String × α) :=
  (key, value) :: m.filter (fun p => p.1 != key)

/-- `map.erase(key)`. -/
def mapErase {α : Type} (m : List (String × α)) (key : String) : List (String × α) :=
  m.filter (fun p => p.1 != key)

/-- `map.find(key)`, with `none` for `end()`. -/
def mapFind {α : Type} (m : List (String × α)) (key : String) : Option α :=
  m.lookup key

/-- `diagnostics.report(severity, message, SourceLocation())`. -/
def CodeGenerator.report (g : CodeGenerator) (severity : DiagnosticSeverity)
    (message : String) : CodeGenerator :=
  { g with diagnostics := g.diagnostics.report severity message {} "" }

/-- `CodeGenerator::pushValue`. -/
def pushValue (value : Option Value) (g : CodeGenerator) : CodeGenerator :=
  { g with value_stack := value :: g.value_stack }

/-- `CodeGenerator::popValue`: null on an empty stack. -/
def popValue (g : CodeGenerator) : Option Value × CodeGenerator :=
  match g.value_stack with
  | [] => (none, g)
  | value :: rest => (value, { g with value_stack := rest })

/-- `CodeGenerator::getCurrentValue`. -/
def getCurrentValue (g : CodeGenerator) : Option Value :=
  match g.value_stack with
  | [] => none
  | value :: _ => value

/-- `builder->GetInsertBlock()`. -/
def CodeGenerator.GetInsertBlock (g : CodeGenerator) : Option Nat := g.insertBlock

/-- `builder->SetInsertPoint(bb)`. -/
def CodeGenerator.SetInsertPoint (g : CodeGenerator) (bb : Nat) : CodeGenerator :=
  { g with insertBlock := some bb }

/-- `builder->GetInsertBlock()->getParent()`. -/
def CodeGenerator.insertFunction (g : CodeGenerator) : Option Nat :=
  match g.insertBlock with
  | none => none
  | some bb =>
    match g.module.blocks[bb]? with
    | some b => b.parent
    | none => none

/-- `BasicBlock::Create(*context, name, parent)`. -/
def CodeGenerator.createBlock (g : CodeGenerator) (name : String) (parent : Option Nat) :
    Nat × CodeGenerator :=
  ((g.module.createBlock name parent).1, { g with module := (g.module.createBlock name parent).2 })

/-- `function->getBasicBlockList().push_back(bb)`. -/
def CodeGenerator.pushBackBlock (g : CodeGenerator) (function : Option Nat) (bb : Nat) :
    CodeGenerator :=
  { g with module := g.module.pushBackBlock function bb }

/-- The builder inserts an instruction at its insertion point. -/
def CodeGenerator.Insert (g : CodeGenerator) (i : Instruction) : CodeGenerator :=
  match g.insertBlock with
  | none => g
  | some bb => { g with module := g.module.appendInstruction bb i }

/-- Takes the identity of the next instruction. -/
def CodeGenerator.takeValue (g : CodeGenerator) : CodeGenerator :=
  { g with module := { g.module with nextValue := g.module.nextValue + 1 } }

/-- A foldable builder call: the folder's constant, or a new instruction. -/
def CodeGenerator.Create (g : CodeGenerator) (L : LLVM) (op : BuilderOp)
    (operands : List Value) (ty : Ty) (name : String) : Value × CodeGenerator :=
  match L.fold op operands ty with
  | some c => (c, g)
  | none =>
    (.Instruction g.module.nextValue ty,
      g.takeValue.Insert (.Op g.module.nextValue op operands ty name))

/-- `builder->CreateLoad(type, ptr, name)`. -/
def CodeGenerator.CreateLoad (g : CodeGenerator) (ty : Ty) (ptr : Value) (name : String) :
    Value × CodeGenerator :=
  (.Instruction g.module.nextValue ty,
    g.takeValue.Insert (.Load g.module.nextValue ty ptr name))

/-- `builder->CreateStore(value, ptr)`. -/
def CodeGenerator.CreateStore (g : CodeGenerator) (value : Option Value) (ptr : Value) :
    CodeGenerator :=
  g.Insert (.Store value ptr)

/-- The return type of a callee. -/
def IRModule.returnTypeOf (m : IRModule) (callee : Option Nat) : Ty :=
  match callee with
  | none => .void
  | some f =>
    match m.functions[f]? with
    | some fn => fn.returnType
    | none => .void

/-- `builder->CreateCall(callee, args, name)`. -/
def CodeGenerator.CreateCall (g : CodeGenerator) (callee : Option Nat)
    (args : List (Option Value)) (name : String) : Value × CodeGenerator :=
  (.Instruction g.module.nextValue (g.module.returnTypeOf callee),
    g.takeValue.Insert
      (.Call g.module.nextValue callee args (g.module.returnTypeOf callee) name))

/-- `builder->CreateBr(dest)`. -/
def CodeGenerator.CreateBr (g : CodeGenerator) (dest : Nat) : CodeGenerator :=
  g.Insert (.Br dest)

/-- `builder->CreateCondBr(cond, ifTrue, ifFalse)`. -/
def CodeGenerator.CreateCondBr (g : CodeGenerator) (cond : Value) (ifTrue ifFalse : Nat) :
    CodeGenerator :=
  g.Insert (.CondBr cond ifTrue ifFalse)

/-- `builder->CreateRet(value)`. -/
def CodeGenerator.CreateRet (g : CodeGenerator) (value : Value) : CodeGenerator :=
  g.Insert (.Ret value)

/-- `builder->CreateRetVoid()`. -/
def CodeGenerator.CreateRetVoid (g : CodeGenerator) : CodeGenerator :=
  g.Insert .RetVoid

/-- `builder->CreatePHI(type, n, name)` followed by the `addIncoming` calls. -/
def CodeGenerator.CreatePHI (g : CodeGenerator) (ty : Ty)
    (incoming : List (Value × Option Nat)) (name : String) : Value × CodeGenerator :=
  (.Instruction g.module.nextValue ty,
    g.takeValue.Insert (.PHI g.module.nextValue ty incoming name))

/-- `CodeGenerator::createEntryBlockAlloca`: a temporary builder inserts the alloca at
the beginning of the function's entry block. -/
def createEntryBlockAlloca (function : Option Nat) (name : String) (type : Ty)
    (g : CodeGenerator) : AllocaInst × CodeGenerator :=
  ({ id := g.module.nextValue, allocatedType := type, name := name },
    match g.module.getEntryBlock function with
    | none => g.takeValue
    | some entry =>
      { g.takeValue with
        module := g.takeValue.module.prependInstruction entry
          (.Alloca g.module.nextValue type name) })

/-- The block `builder->GetInsertBlock()->getParent()->getEntryBlock().getTerminator()
->getParent()`: the entry block of the function of the insertion block, when that
entry block ends with a terminator. -/
def CodeGenerator.entryTerminatorParent (g : CodeGenerator) : Option Nat :=
  match g.module.getTerminator (g.module.getEntryBlock g.insertFunction) with
  | some _ => g.module.getEntryBlock g.insertFunction
  | none => none

/-! ## Expression visitors (`codegen.cpp`, lines 162-650)

A visitor receives the lowering of its child expressions as functions on the generator
state (`acceptRight` is `expr.getRight()->accept(*this)`). -/

/-- `CodeGenerator::visitLiteralExpr`. -/
def visitLiteralExpr (L : LLVM) (value : LiteralValue) (g : CodeGenerator) : CodeGenerator :=
  match value with
  | .int v => pushValue (some (.ConstantInt getIntType v)) g
  | .double v => pushValue (some (.ConstantFP getFloatType v)) g
  | .bool v => pushValue (some (.ConstantInt getBoolType (if v then 1 else 0))) g
  | .string v =>
    -- Create a global string constant
    let global_str := g.module.createGlobalVariable
      (.array (v.utf8ByteSize + 1) (.integer 8)) true v ".str"
    let g1 : CodeGenerator := { g with module := global_str.2 }
    -- Get a pointer to the start of the string
    let str_ptr := g1.Create L .InBoundsGEP
      [global_str.1, .ConstantInt getIntType 0, .ConstantInt getIntType 0]
      (.pointer (.integer 8)) "str_ptr"
    pushValue (some str_ptr.1) str_ptr.2
  | .null => pushValue (some (.ConstantPointerNull (.pointer (.integer 8)))) g

/-- `CodeGenerator::visitUnaryExpr`. -/
def visitUnaryExpr (L : LLVM) (op : Token) (acceptRight : CodeGenerator → CodeGenerator)
    (g : CodeGenerator) : CodeGenerator :=
  let r := popValue (acceptRight g)
  match r.1 with
  | none => pushValue none (r.2.report .ERROR "Invalid operand for unary operator")
  | some operand =>
    if op.type = .MINUS then
      if operand.getType.isIntegerTy then
        let v := r.2.Create L .Neg [operand] operand.getType "neg"
        pushValue (some v.1) v.2
      else if operand.getType.isFloatingPointTy then
        let v := r.2.Create L .FNeg [operand] operand.getType "fneg"
        pushValue (some v.1) v.2
      else
        pushValue none (r.2.report .ERROR "Invalid operand type for unary minus")
    else if op.type = .BANG then
      if operand.getType.isIntegerTy then
        -- Convert any integer to bool first (0 = false, non-0 = true)
        let bool_val := r.2.Create L .ICmpNE
          [operand, .ConstantInt operand.getType 0] getBoolType "tobool"
        let v := bool_val.2.Create L .Not [bool_val.1] bool_val.1.getType "not"
        pushValue (some v.1) v.2
      else
        pushValue none (r.2.report .ERROR "Invalid operand type for logical not")
    else r.2

/-- "Convert to boolean if needed": a value that is not `i1` is compared not-equal to
the zero of its own type. -/
def toBool (L : LLVM) (name : String) (v : Value) (g : CodeGenerator) :
    Value × CodeGenerator :=
  if v.getType.isIntegerTyOf 1 then (v, g)
  else g.Create L .ICmpNE [v, .ConstantInt v.getType 0] getBoolType name

/-- The blocks of a logical expression and the popped left operand. -/
structure LogicalLeft where
  right_bb : Nat
  merge_bb : Nat
  left : Option Value
  state : CodeGenerator

/-- Logical AND/OR, lines 259-266: the blocks `right` and `merge` are created in the
function of the insertion block, then the left operand is lowered and popped. -/
def logicalLeft (acceptLeft : CodeGenerator → CodeGenerator) (g : CodeGenerator) :
    LogicalLeft :=
  let function := g.insertFunction
  let right_bb := g.createBlock "right" function
  let merge_bb := right_bb.2.createBlock "merge" function
  let l := popValue (acceptLeft merge_bb.2)
  { right_bb := right_bb.1, merge_bb := merge_bb.1, left := l.1, state := l.2 }

/-- Logical AND/OR, lines 278-295: the left value is converted to boolean, the
conditional branch is built and the insertion point moves to `right_bb`. -/
def logicalBranch (L : LLVM) (op : Token) (right_bb merge_bb : Nat) (left : Value)
    (g : CodeGenerator) : CodeGenerator :=
  let c := toBool L "tobool" left g
  let g1 :=
    if op.type = .AND then
      -- AND: if left is false, skip right and use false
      c.2.CreateCondBr c.1 right_bb merge_bb
    else
      -- OR: if left is true, skip right and use true
      c.2.CreateCondBr c.1 merge_bb right_bb
  g1.SetInsertPoint right_bb

/-- Logical AND/OR, lines 309-332: the right value is converted to boolean, the branch
to `merge_bb` is built, and the phi node is set up in `merge_bb` and pushed. -/
def logicalMerge (L : LLVM) (op : Token) (merge_bb : Nat) (right : Value)
    (g : CodeGenerator) : CodeGenerator :=
  let c := toBool L "tobool" right g
  let g1 := c.2.CreateBr merge_bb
  -- Update in case of codegen in right side
  let right_bb := g1.GetInsertBlock
  -- Set up phi node in merge block
  let g2 := g1.SetInsertPoint merge_bb
  let phi := g2.CreatePHI getBoolType
    [(.ConstantInt getBoolType (if op.type = .AND then 0 else 1), g2.entryTerminatorParent),
     (c.1, right_bb)] "logical"
  pushValue (some phi.1) phi.2

/-- Logical AND/OR, lines 297-332: the popped right operand is checked and merged. -/
def logicalRight (L : LLVM) (op : Token) (merge_bb : Nat)
    (r : Option Value × CodeGenerator) : CodeGenerator :=
  match r.1 with
  | none =>
    pushValue none
      (r.2.report .ERROR "Right operand of logical operator must be a boolean")
  | some right =>
    if !right.getType.isIntegerTy then
      pushValue none
        (r.2.report .ERROR "Right operand of logical operator must be a boolean")
    else logicalMerge L op merge_bb right r.2

/-- `CodeGenerator::visitBinaryExpr`, the special case for logical AND/OR. -/
def visitLogicalExpr (L : LLVM) (op : Token)
    (acceptLeft acceptRight : CodeGenerator → CodeGenerator) (g : CodeGenerator) :
    CodeGenerator :=
  let l := logicalLeft acceptLeft g
  match l.left with
  | none =>
    pushValue none
      (l.state.report .ERROR "Left operand of logical operator must be a boolean")
  | some left =>
    if !left.getType.isIntegerTy then
      pushValue none
        (l.state.report .ERROR "Left operand of logical operator must be a boolean")
    else
      -- Evaluate right operand in right_bb
      logicalRight L op l.merge_bb
        (popValue (acceptRight (logicalBranch L op l.right_bb l.merge_bb left l.state)))

/-- One case of the operator switch: the floating-point instruction, the integer
instruction, or the error of that case. -/
def binaryCase (L : LLVM) (is_float_op is_integer_op : Bool)
    (fop : BuilderOp) (fname : String) (iop : BuilderOp) (iname : String) (ty : Ty)
    (message : String) (left right : Value) (g : CodeGenerator) : CodeGenerator :=
  if is_float_op then
    let v := g.Create L fop [left, right] ty fname
    pushValue (some v.1) v.2
  else if is_integer_op then
    let v := g.Create L iop [left, right] ty iname
    pushValue (some v.1) v.2
  else pushValue none (g.report .ERROR message)

/-- "Promote ints to floats if mixed types" (lines 356-362): the operands afterwards. -/
def promoteOperands (L : LLVM) (is_float_op : Bool) (left right : Value)
    (g : CodeGenerator) : (Value × Value) × CodeGenerator :=
  if is_float_op && left.getType.isIntegerTy then
    let c := g.Create L .SIToFP [left] getFloatType "int2float"
    ((c.1, right), c.2)
  else if is_float_op && right.getType.isIntegerTy then
    let c := g.Create L .SIToFP [right] getFloatType "int2float"
    ((left, c.1), c.2)
  else ((left, right), g)

/-- "Generate code based on operator type": the operator switch (lines 365-538). -/
def binarySwitch (L : LLVM) (op : Token) (is_float_op is_integer_op : Bool)
    (left right : Value) (g : CodeGenerator) : CodeGenerator :=
  let arith := binaryCase L is_float_op is_integer_op
  match op.type with
  | .PLUS =>
    arith .FAdd "fadd" .Add "add" left.getType "Invalid operands for addition" left right g
  | .MINUS =>
    arith .FSub "fsub" .Sub "sub" left.getType "Invalid operands for subtraction"
      left right g
  | .STAR =>
    arith .FMul "fmul" .Mul "mul" left.getType "Invalid operands for multiplication"
      left right g
  | .SLASH =>
    arith .FDiv "fdiv" .SDiv "div" left.getType "Invalid operands for division"
      left right g
  | .PERCENT =>
    if is_integer_op then
      let v := g.Create L .SRem [left, right] left.getType "rem"
      pushValue (some v.1) v.2
    else pushValue none (g.report .ERROR "Modulo operator requires integer operands")
  | .EQUAL_EQUAL =>
    arith .FCmpOEQ "feq" .ICmpEQ "eq" getBoolType
      "Invalid operands for equality comparison" left right g
  | .BANG_EQUAL =>
    arith .FCmpONE "fne" .ICmpNE "ne" getBoolType
      "Invalid operands for inequality comparison" left right g
  | .LESS =>
    arith .FCmpOLT "flt" .ICmpSLT "lt" getBoolType
      "Invalid operands for less-than comparison" left right g
  | .LESS_EQUAL =>
    arith .FCmpOLE "fle" .ICmpSLE "le" getBoolType
      "Invalid operands for less-than-or-equal comparison" left right g
  | .GREATER =>
    arith .FCmpOGT "fgt" .ICmpSGT "gt" getBoolType
      "Invalid operands for greater-than comparison" left right g
  | .GREATER_EQUAL =>
    arith .FCmpOGE "fge" .ICmpSGE "ge" getBoolType
      "Invalid operands for greater-than-or-equal comparison" left right g
  | _ => pushValue none (g.report .ERROR "Unknown binary operator")

/-- `CodeGenerator::visitBinaryExpr`, the regular binary operators (lines 335-538). -/
def visitRegularBinaryExpr (L : LLVM) (op : Token)
    (acceptLeft acceptRight : CodeGenerator → CodeGenerator) (g : CodeGenerator) :
    CodeGenerator :=
  let l := popValue (acceptLeft g)
  let r := popValue (acceptRight l.2)
  match l.1, r.1 with
  | some left, some right =>
    let is_integer_op := left.getType.isIntegerTy && right.getType.isIntegerTy
    let is_float_op := left.getType.isFloatingPointTy || right.getType.isFloatingPointTy
    let p := promoteOperands L is_float_op left right r.2
    binarySwitch L op is_float_op is_integer_op p.1.1 p.1.2 p.2
  | _, _ => pushValue none (r.2.report .ERROR "Invalid operands for binary operation")

/-- `CodeGenerator::visitBinaryExpr`. -/
def visitBinaryExpr (L : LLVM) (op : Token)
    (acceptLeft acceptRight : CodeGenerator → CodeGenerator) (g : CodeGenerator) :
    CodeGenerator :=
  if op.type = .AND ∨ op.type = .OR then visitLogicalExpr L op acceptLeft acceptRight g
  else visitRegularBinaryExpr L op acceptLeft acceptRight g

/-- `CodeGenerator::visitGroupingExpr`. -/
def visitGroupingExpr (acceptExpression : CodeGenerator → CodeGenerator)
    (g : CodeGenerator) : CodeGenerator :=
  -- Value is already on the stack
  acceptExpression g

/-- `CodeGenerator::visitVariableExpr`. -/
def visitVariableExpr (name : Token) (g : CodeGenerator) : CodeGenerator :=
  match mapFind g.named_values name.lexeme with
  | none => pushValue none (g.report .ERROR ("Unknown variable name: " ++ name.lexeme))
  | some slot =>
    let value := g.CreateLoad slot.allocatedType slot.value name.lexeme
    pushValue (some value.1) value.2

/-- `CodeGenerator::visitAssignExpr`. -/
def visitAssignExpr (name : Token) (acceptValue : CodeGenerator → CodeGenerator)
    (g : CodeGenerator) : CodeGenerator :=
  let value := popValue (acceptValue g)
  match mapFind value.2.named_values name.lexeme with
  | none =>
    pushValue none (value.2.report .ERROR ("Unknown variable name: " ++ name.lexeme))
  | some slot => pushValue value.1 (value.2.CreateStore value.1 slot.value)

/-- The name of the callee when it is a `VariableExpr` (the `dynamic_cast`). -/
def Expr.asVariableExpr : Expr → Option Token
  | .VariableExpr name => some name
  | _ => none

/-- `CodeGenerator::visitCallExpr`.  `acceptArguments` is the argument loop: it lowers
each argument in order and collects the popped values. -/
def visitCallExpr (var_expr : Option Token)
    (acceptCallee : CodeGenerator → CodeGenerator)
    (acceptArguments : CodeGenerator → List (Option Value) × CodeGenerator)
    (g : CodeGenerator) : CodeGenerator :=
  let finish := fun (callee : Option Nat) (g1 : CodeGenerator) =>
    -- Evaluate arguments
    let args := acceptArguments g1
    -- Create call
    let call := args.2.CreateCall callee args.1 "call"
    pushValue (some call.1) call.2
  match var_expr with
  | some name =>
    -- Handle direct function calls
    match g.module.getFunction name.lexeme with
    | none => pushValue none (g.report .ERROR ("Unknown function name: " ++ name.lexeme))
    | some callee => finish (some callee) g
  | none =>
    -- Handle function pointers
    let callee_val := popValue (acceptCallee g)
    match callee_val.1 with
    | none => pushValue none (callee_val.2.report .ERROR "Expression is not callable")
    | some v =>
      if !v.getType.isPointerTy then
        pushValue none (callee_val.2.report .ERROR "Expression is not callable")
      else if v.getType.getElementType.isFunctionTy then
        -- the bit cast is to the value's own type, for which the builder returns the
        -- value itself; `callee` is still null at the call
        finish none callee_val.2
      else pushValue none (callee_val.2.report .ERROR "Expression is not callable")

mutual
/-- `Expression::accept` with the generator as visitor: dispatch to the visitor of the
node's class. -/
def Expr.accept (L : LLVM) : Expr → CodeGenerator → CodeGenerator
  | .LiteralExpr value => visitLiteralExpr L value
  | .UnaryExpr op right => visitUnaryExpr L op (right.accept L)
  | .BinaryExpr left op right => visitBinaryExpr L op (left.accept L) (right.accept L)
  | .GroupingExpr expression => visitGroupingExpr (expression.accept L)
  | .VariableExpr name => visitVariableExpr name
  | .AssignExpr name value => visitAssignExpr name (value.accept L)
  | .CallExpr callee _ arguments =>
    visitCallExpr callee.asVariableExpr (callee.accept L) (acceptArguments L arguments [])
/-- The argument loop of `visitCallExpr`: `arg->accept(*this); args.push_back(popValue())`. -/
def acceptArguments (L : LLVM) :
    List Expr → List (Option Value) → CodeGenerator → List (Option Value) × CodeGenerator
  | [], args => fun g => (args, g)
  | arg :: rest, args => fun g =>
    acceptArguments L rest (args ++ [(popValue (arg.accept L g)).1]) (popValue (arg.accept L g)).2
end

/-! ## Statement visitors (`codegen.cpp`, lines 652-904) -/

/-- `CodeGenerator::visitExpressionStmt`. -/
def visitExpressionStmt (acceptExpression : CodeGenerator → CodeGenerator)
    (g : CodeGenerator) : CodeGenerator :=
  -- Discard the result
  (popValue (acceptExpression g)).2

/-- `CodeGenerator::visitVarDeclStmt`; `acceptInitializer` is `none` when the
declaration has no initializer. -/
def visitVarDeclStmt (name : Token)
    (acceptInitializer : Option (CodeGenerator → CodeGenerator)) (g : CodeGenerator) :
    CodeGenerator :=
  -- Evaluate initializer if present
  let init_val : Option Value × CodeGenerator :=
    match acceptInitializer with
    | some acceptInit => popValue (acceptInit g)
    | none => (none, g)
  -- Determine type (default to int)
  let var_type :=
    match init_val.1 with
    | some v => v.getType
    | none => getIntType
  -- Create variable in current scope
  let alloca := createEntryBlockAlloca init_val.2.current_function name.lexeme var_type
    init_val.2
  -- Store initial value if present
  let g1 :=
    match init_val.1 with
    | some v => alloca.2.CreateStore (some v) alloca.1.value
    | none => alloca.2
  -- Add to symbol table
  { g1 with
    named_values := mapAssign g1.named_values name.lexeme alloca.1
    symbol_table := (g1.symbol_table.define name.lexeme .VARIABLE none).2 }

/-- `CodeGenerator::visitBlockStmt`; `acceptStatements` is the loop over the block's
statements. -/
def visitBlockStmt (acceptStatements : CodeGenerator → CodeGenerator) (g : CodeGenerator) :
    CodeGenerator :=
  -- Create a new scope
  let g1 := { g with symbol_table := g.symbol_table.enterScope }
  -- Process statements in the block
  let g2 := acceptStatements g1
  -- Exit the scope
  { g2 with symbol_table := g2.symbol_table.exitScope }

/-- `CodeGenerator::visitIfStmt`; `acceptElse` is the identity when there is no else
branch. -/
def visitIfStmt (L : LLVM) (acceptCondition acceptThen acceptElse : CodeGenerator → CodeGenerator)
    (g : CodeGenerator) : CodeGenerator :=
  -- Evaluate condition
  let c := popValue (acceptCondition g)
  match c.1 with
  | none => c.2
  | some cond0 =>
    -- Convert to boolean if needed
    let cond_val := toBool L "ifcond" cond0 c.2
    -- Create basic blocks for the then, else, and merge points
    let function := cond_val.2.insertFunction
    let then_bb := cond_val.2.createBlock "then" function
    let else_bb := then_bb.2.createBlock "else" none
    let merge_bb := else_bb.2.createBlock "ifcont" none
    -- Create conditional branch
    let g1 := merge_bb.2.CreateCondBr cond_val.1 then_bb.1 else_bb.1
    -- Emit then block
    let g2 := (acceptThen (g1.SetInsertPoint then_bb.1)).CreateBr merge_bb.1
    -- Emit else block
    let g3 := (g2.pushBackBlock function else_bb.1).SetInsertPoint else_bb.1
    let g4 := (acceptElse g3).CreateBr merge_bb.1
    -- Emit merge block
    (g4.pushBackBlock function merge_bb.1).SetInsertPoint merge_bb.1

/-- `CodeGenerator::visitWhileStmt`. -/
def visitWhileStmt (L : LLVM) (acceptCondition acceptBody : CodeGenerator → CodeGenerator)
    (g : CodeGenerator) : CodeGenerator :=
  -- Create basic blocks for the condition, loop body, and exit points
  let function := g.insertFunction
  let cond_bb := g.createBlock "while.cond" function
  let body_bb := cond_bb.2.createBlock "while.body" none
  let exit_bb := body_bb.2.createBlock "while.exit" none
  -- Branch to condition
  let g1 := exit_bb.2.CreateBr cond_bb.1
  -- Emit condition block
  let c := popValue (acceptCondition (g1.SetInsertPoint cond_bb.1))
  match c.1 with
  | none => c.2
  | some cond0 =>
    -- Convert to boolean if needed
    let cond_val := toBool L "whilecond" cond0 c.2
    -- Create conditional branch
    let g2 := cond_val.2.CreateCondBr cond_val.1 body_bb.1 exit_bb.1
    -- Emit body block
    let g3 := (g2.pushBackBlock function body_bb.1).SetInsertPoint body_bb.1
    -- Branch back to condition
    let g4 := (acceptBody g3).CreateBr cond_bb.1
    -- Emit exit block
    (g4.pushBackBlock function exit_bb.1).SetInsertPoint exit_bb.1

/-- The parameter loop of `visitFunctionStmt` (lines 835-844): for each argument an
alloca in the entry block, a store of the argument, and the bindings. -/
def bindParameters (function : Nat) :
    List (String × Ty) → Nat → CodeGenerator → CodeGenerator
  | [], _, g => g
  | (argName, argType) :: rest, index, g =>
    let alloca := createEntryBlockAlloca (some function) argName argType g
    let g1 := alloca.2.CreateStore (some (.Argument function index argType)) alloca.1.value
    bindParameters function rest (index + 1)
      { g1 with
        named_values := mapAssign g1.named_values argName alloca.1
        symbol_table := (g1.symbol_table.define argName .PARAMETER none).2 }

/-- `CodeGenerator::visitFunctionStmt`; `acceptBody` is the loop over the body. -/
def visitFunctionStmt (L : LLVM) (name : Token) (params : List Token)
    (acceptBody : CodeGenerator → CodeGenerator) (g : CodeGenerator) : CodeGenerator :=
  -- Create function type and function
  let param_types := params.map (fun _ => getIntType)
  let created := g.module.createFunction getIntType param_types false name.lexeme
  let function := created.1
  -- Set parameter names
  let argNames := setArgNames (params.map (fun p => p.lexeme)) [] 0
  let m1 : IRModule :=
    { created.2 with
      functions := updateAt created.2.functions function
        (fun fn => { fn with argNames := argNames }) }
  -- Add to functions map
  let g1 : CodeGenerator :=
    { g with module := m1, functions := mapAssign g.functions name.lexeme function }
  -- Create a new basic block for the function body
  let entry := g1.createBlock "entry" (some function)
  let g2 := entry.2.SetInsertPoint entry.1
  -- Store the previous function and set the current one
  let prev_function := g2.current_function
  -- Create a new scope for the function
  let g3 : CodeGenerator :=
    { g2 with current_function := some function, symbol_table := g2.symbol_table.enterScope }
  -- Create allocas for parameters and add to symbol table
  let g4 := bindParameters function (argNames.zip param_types) 0 g3
  -- Generate code for function body
  let g5 := acceptBody g4
  -- Add a default return if there isn't one already
  let g6 :=
    match g5.module.getTerminator g5.GetInsertBlock with
    | none => g5.CreateRet (.ConstantInt getIntType 0)
    | some _ => g5
  -- Exit the function scope and restore the previous function
  let g7 : CodeGenerator :=
    { g6 with symbol_table := g6.symbol_table.exitScope, current_function := prev_function }
  -- Verify the function
  if L.verifyFunction g7.module function then
    { g7 with
      module := g7.module.eraseFromParent function
      functions := mapErase g7.functions name.lexeme }.report .ERROR
      ("Function verification failed: " ++ name.lexeme)
  else g7

/-- `CodeGenerator::visitReturnStmt`; `acceptValue` is `none` for a bare `return`. -/
def visitReturnStmt (acceptValue : Option (CodeGenerator → CodeGenerator))
    (g : CodeGenerator) : CodeGenerator :=
  match g.current_function with
  | none => g.report .ERROR "Return statement outside of function"
  | some _ =>
    let return_val : Option Value × CodeGenerator :=
      match acceptValue with
      | some acceptVal => popValue (acceptVal g)
      | none => (some (.ConstantInt getIntType 0), g)
    match return_val.1 with
    | some v => return_val.2.CreateRet v
    | none => return_val.2.CreateRetVoid

mutual
/-- `Statement::accept` with the generator as visitor. -/
def Stmt.accept (L : LLVM) : Stmt → CodeGenerator → CodeGenerator
  | .ExpressionStmt expression => visitExpressionStmt (expression.accept L)
  | .VarDeclStmt name initializer _ =>
    visitVarDeclStmt name (initializer.map (fun e => e.accept L))
  | .BlockStmt statements => visitBlockStmt (acceptStatements L statements)
  | .IfStmt condition then_branch else_branch =>
    visitIfStmt L (condition.accept L) (then_branch.accept L) (acceptIfPresent L else_branch)
  | .WhileStmt condition body => visitWhileStmt L (condition.accept L) (body.accept L)
  | .FunctionStmt name params body =>
    visitFunctionStmt L name params (acceptStatements L body)
  | .ReturnStmt _ value => visitReturnStmt (value.map (fun e => e.accept L))
/-- `if (s) s->accept(*this)`. -/
def acceptIfPresent (L : LLVM) : Option Stmt → CodeGenerator → CodeGenerator
  | none => fun g => g
  | some s => s.accept L
/-- `for (const auto& s : statements) if (s) s->accept(*this)`. -/
def acceptStatements (L : LLVM) : List (Option Stmt) → CodeGenerator → CodeGenerator
  | [] => fun g => g
  | s :: rest => fun g => acceptStatements L rest (acceptIfPresent L s g)
end

/-! ## `initialize` and `generate` (`codegen.cpp`, lines 11-100) -/

/-- `CodeGenerator::createPrintFunction`. -/
def createPrintFunction (g : CodeGenerator) : CodeGenerator :=
  -- Declare printf function
  let printf_func := g.module.createFunction getIntType [.pointer (.integer 8)] true "printf"
  -- Create print function that wraps printf
  let print_func := printf_func.2.createFunction getVoidType [.pointer (.integer 8)] false
    "print"
  -- Set argument name
  let m1 : IRModule :=
    { print_func.2 with
      functions := updateAt print_func.2.functions print_func.1
        (fun fn => { fn with argNames := ["format"] }) }
  -- Create basic block
  let entry := ({ g with module := m1 } : CodeGenerator).createBlock "entry" (some print_func.1)
  let g1 := entry.2.SetInsertPoint entry.1
  -- Call printf with the format string
  let call := g1.CreateCall (g1.module.getFunction "printf")
    [some (.Argument print_func.1 0 (.pointer (.integer 8)))] ""
  -- Return from print
  let g2 := call.2.CreateRetVoid
  -- Add to function map
  { g2 with functions := mapAssign g2.functions "print" print_func.1 }

/-- `CodeGenerator::CodeGenerator()` followed by `CodeGenerator::initialize`, with an
empty diagnostics sink. -/
def CodeGenerator.init (module_name : String) : CodeGenerator :=
  createPrintFunction { module := { name := module_name } }

/-- `CodeGenerator::generate`, lines 21-45: `main` and its entry block are created, the
statements are lowered and the closing `return 0` is built. -/
def lowerMain (L : LLVM) (statements : List (Option Stmt)) (g : CodeGenerator) :
    CodeGenerator :=
  -- Create main function
  let main_func := g.module.createFunction getIntType [] false "main"
  -- Create entry block
  let entry := ({ g with module := main_func.2 } : CodeGenerator).createBlock "entry"
    (some main_func.1)
  let g1 := entry.2.SetInsertPoint entry.1
  -- Set current function
  let g2 : CodeGenerator := { g1 with current_function := some main_func.1 }
  -- Generate code for statements
  let g3 := acceptStatements L statements g2
  -- Return 0 from main
  g3.CreateRet (.ConstantInt getIntType 0)

/-- `CodeGenerator::generate`. -/
def generate (L : LLVM) (statements : List (Option Stmt)) (g : CodeGenerator) :
    CodeGenerator :=
  let g4 := lowerMain L statements g
  -- Verify the module
  match L.verifyModule g4.module with
  | some error_info => g4.report .ERROR ("LLVM IR verification failed: " ++ error_info)
  | none => g4

/-! ## Notions used by the properties -/

mutual
/-- The shape of an expression the parser builds, as far as lowering depends on it:
`Parser::unary` makes a `UnaryExpr` for the operators `!` and `-` only. -/
def Expr.wellFormed : Expr → Bool
  | .LiteralExpr _ => true
  | .UnaryExpr op right => decide (op.type = .BANG ∨ op.type = .MINUS) && right.wellFormed
  | .BinaryExpr left _ right => left.wellFormed && right.wellFormed
  | .GroupingExpr expression => expression.wellFormed
  | .VariableExpr _ => true
  | .AssignExpr _ value => value.wellFormed
  | .CallExpr callee _ arguments => callee.wellFormed && wellFormedArguments arguments
/-- Every argument of a call is well formed. -/
def wellFormedArguments : List Expr → Bool
  | [] => true
  | arg :: rest => arg.wellFormed && wellFormedArguments rest
end

/-- An optional expression is well formed when absent or well formed. -/
def wellFormedOptExpr : Option Expr → Bool
  | none => true
  | some e => e.wellFormed

mutual
/-- A statement all of whose expressions are well formed. -/
def Stmt.wellFormed : Stmt → Bool
  | .ExpressionStmt expression => expression.wellFormed
  | .VarDeclStmt _ initializer _ => wellFormedOptExpr initializer
  | .BlockStmt statements => wellFormedStatements statements
  | .IfStmt condition then_branch else_branch =>
    condition.wellFormed && then_branch.wellFormed && wellFormedIfPresent else_branch
  | .WhileStmt condition body => condition.wellFormed && body.wellFormed
  | .FunctionStmt _ _ body => wellFormedStatements body
  | .ReturnStmt _ value => wellFormedOptExpr value
/-- A null statement is well formed. -/
def wellFormedIfPresent : Option Stmt → Bool
  | none => true
  | some s => s.wellFormed
/-- Every entry of a statement list is well formed. -/
def wellFormedStatements : List (Option Stmt) → Bool
  | [] => true
  | s :: rest => wellFormedIfPresent s && wellFormedStatements rest
end

/-- A state transformer that leaves the value stack one element deeper, the elements
below untouched. -/
def PushesOne (f : CodeGenerator → CodeGenerator) : Prop :=
  ∀ g, ∃ v, (f g).value_stack = v :: g.value_stack

/-- A state transformer that leaves the value stack as it was. -/
def KeepsStack (f : CodeGenerator → CodeGenerator) : Prop :=
  ∀ g, (f g).value_stack = g.value_stack

/-- The blocks of `g` seen from a later state `g1`: no block was removed, every block
of `g` other than the insertion block of `g` is unchanged, and the insertion block is
that of `g` or a block created since. -/
def Frame (g g1 : CodeGenerator) : Prop :=
  g.module.blocks.length ≤ g1.module.blocks.length ∧
  (∀ i, i < g.module.blocks.length → some i ≠ g.insertBlock →
    g1.module.blocks[i]? = g.module.blocks[i]?) ∧
  (g1.insertBlock = g.insertBlock ∨
    ∃ j, g1.insertBlock = some j ∧ g.module.blocks.length ≤ j ∧
      j < g1.module.blocks.length)

/-- The blocks an instruction transfers control to. -/
def Instruction.successors : Instruction → List Nat
  | .Br dest => [dest]
  | .CondBr _ ifTrue ifFalse => [ifTrue, ifFalse]
  | _ => []

/-- The successors of a block: the targets of its terminator. -/
def IRModule.successors (m : IRModule) (bb : Nat) : List Nat :=
  match m.getTerminator (some bb) with
  | some t => t.successors
  | none => []

/-- The predecessors of a block: the blocks whose terminator targets it. -/
def IRModule.predecessors (m : IRModule) (bb : Nat) : List Nat :=
  (List.range m.blocks.length).filter (fun a => (m.successors a).contains bb)

/-- A block is reachable from another along successor edges. -/
def IRModule.Reachable (m : IRModule) : Nat → Nat → Prop :=
  Relation.ReflTransGen (fun a b => b ∈ m.successors a)

/-- The block contains exactly one terminator and it is the last instruction. -/
def BasicBlock.oneTerminatorLast (b : BasicBlock) : Bool :=
  b.instructions.countP Instruction.isTerminator == 1 && b.getTerminator.isSome

/-- Every block reachable from the entry block of a function of the module contains
exactly one terminator, as its last instruction. -/
def IRModule.reachableBlocksTerminated (m : IRModule) : Prop :=
  ∀ f ∈ m.functionList, ∀ entry, m.getEntryBlock (some f) = some entry →
    ∀ bb, m.Reachable entry bb →
      ∃ b, m.blocks[bb]? = some b ∧ b.oneTerminatorLast = true

/-- The instructions of a block of the module (none for an index that is no block). -/
def IRModule.instructionsOf (m : IRModule) (bb : Nat) : List Instruction :=
  match m.blocks[bb]? with
  | some b => b.instructions
  | none => []

/-- The block list of a function of the module. -/
def IRModule.blocksOf (m : IRModule) (function : Nat) : List Nat :=
  match m.functions[function]? with
  | some fn => fn.blocks
  | none => []

/-- A structural check of a function: true (broken) when some block of its block list
does not hold exactly one terminator as its last instruction. -/
def verifyFunctionStructure (m : IRModule) (function : Nat) : Bool :=
  !(m.blocksOf function).all (fun bb =>
    match m.blocks[bb]? with
    | some b => b.oneTerminatorLast
    | none => false)

/-- A library that folds nothing and whose verifier checks the block structure. -/
def LLVM.structural : LLVM :=
  { fold := fun _ _ _ => none
    verifyFunction := verifyFunctionStructure
    verifyModule := fun m =>
      if m.functionList.any (fun f => verifyFunctionStructure m f) then
        some "Basic Block does not have terminator!"
      else none }

/-- A library that folds nothing and whose verifier accepts everything. -/
def LLVM.plain : LLVM :=
  { fold := fun _ _ _ => none, verifyFunction := fun _ _ => false,
    verifyModule := fun _ => none }

/-- An identifier token. -/
def Token.identifier (lexeme : String) : Token :=
  { type := .IDENTIFIER, lexeme := lexeme, line := 1, column := 1 }

/-- An operator or keyword token. -/
def Token.ofType (type : TokenType) (lexeme : String) : Token :=
  { type := type, lexeme := lexeme, line := 1, column := 1 }

/-! ## Further notions used by the properties -/

/-- `isa<Constant>(value)`: constants and globals, not arguments or instructions. -/
def Value.isConstant : Value → Bool
  | .ConstantInt _ _ => true
  | .ConstantFP _ _ => true
  | .ConstantPointerNull _ => true
  | .ConstantExpr _ _ _ => true
  | .GlobalVariable _ _ => true
  | .Argument _ _ _ => false
  | .Instruction _ _ => false

/-- The folder of a default `IRBuilder<>` (`ConstantFolder`): a call all of whose
operands are constants yields a constant and inserts nothing.  The constant it
computes is kept as the unevaluated constant expression. -/
def foldConstants (op : BuilderOp) (operands : List Value) (ty : Ty) : Option Value :=
  if operands.all Value.isConstant then some (.ConstantExpr op operands ty) else none

/-- A library that folds calls on constant operands and whose verifier checks the
block structure. -/
def LLVM.constantFolding : LLVM :=
  { LLVM.structural with fold := foldConstants }

/-- Whether the instruction is a slot allocation. -/
def Instruction.isAlloca : Instruction → Bool
  | .Alloca _ _ _ => true
  | _ => false

/-- Whether the instruction is the given foldable builder call. -/
def Instruction.isOp (op : BuilderOp) : Instruction → Bool
  | .Op _ o _ _ _ => o == op
  | _ => false

/-- The floating-point variant the operator switch uses for an arithmetic operator,
with the name it gives the result. -/
def floatVariant : TokenType → Option (BuilderOp × String)
  | .PLUS => some (.FAdd, "fadd")
  | .MINUS => some (.FSub, "fsub")
  | .STAR => some (.FMul, "fmul")
  | .SLASH => some (.FDiv, "fdiv")
  | _ => none

/-- The folder returns constants of the type the builder call asks for. -/
def LLVM.foldsTyped (L : LLVM) : Prop :=
  ∀ op operands ty v, L.fold op operands ty = some v → v.getType = ty

/-- A relation between generator states that holds across every step an expression
visitor takes: stack operations, diagnostics, instructions other than allocations
inserted at the insertion point, new blocks, moves of the insertion point, new string
constants. -/
structure ExprSteps (R : CodeGenerator → CodeGenerator → Prop) : Prop where
  refl : ∀ g, R g g
  trans : ∀ a b c, R a b → R b c → R a c
  stack : ∀ g s, R g { g with value_stack := s }
  report : ∀ g sev msg, R g (g.report sev msg)
  insert : ∀ g i, i.isAlloca = false → R g (g.Insert i)
  takeValue : ∀ g, R g g.takeValue
  createBlock : ∀ g n p, R g (g.createBlock n p).2
  setInsertPoint : ∀ g bb, R g (g.SetInsertPoint bb)
  createGlobal : ∀ g ty c init n,
    R g { g with module := (g.module.createGlobalVariable ty c init n).2 }

/-- What expression lowering keeps: the bindings, the function table, the current
function, the symbol table, the module's function list, the entry block of every
function that has one, and the allocations of every block. -/
def ExprKeeps (g g1 : CodeGenerator) : Prop :=
  g1.named_values = g.named_values ∧
  g1.functions = g.functions ∧
  g1.current_function = g.current_function ∧
  g1.symbol_table = g.symbol_table ∧
  g1.module.functionList = g.module.functionList ∧
  (∀ f e, g.module.getEntryBlock f = some e → g1.module.getEntryBlock f = some e) ∧
  (∀ b, (g1.module.instructionsOf b).filter Instruction.isAlloca =
    (g.module.instructionsOf b).filter Instruction.isAlloca)

/-- The insertion point is a block of the arena. -/
def ValidInsert (g : CodeGenerator) : Prop :=
  ∃ b, g.insertBlock = some b ∧ b < g.module.blocks.length

/-- The blocks of `g` seen from a state `g1` that statement lowering reaches: no block
was removed, every block of `g` other than the insertion block of `g` still ends with
the instructions it had (a slot allocation may have been put in front of them), and the
insertion block is that of `g` or a block created since. -/
def SFrame (g g1 : CodeGenerator) : Prop :=
  g.module.blocks.length ≤ g1.module.blocks.length ∧
  (∀ i, i < g.module.blocks.length → some i ≠ g.insertBlock →
    g.module.instructionsOf i <:+ g1.module.instructionsOf i) ∧
  (g1.insertBlock = g.insertBlock ∨
    ∃ j, g1.insertBlock = some j ∧ g.module.blocks.length ≤ j ∧
      j < g1.module.blocks.length)

/-- The blocks of an if statement, its condition as a boolean, and the state in which
the then arm is lowered. -/
structure IfStart where
  cond_val : Value
  function : Option Nat
  then_bb : Nat
  else_bb : Nat
  merge_bb : Nat
  state : CodeGenerator

/-- `CodeGenerator::visitIfStmt`, from the conversion of the condition `cond0` to the
move of the insertion point to the then block (lines 716-731); `s` is the state the
condition left. -/
def ifStart (L : LLVM) (cond0 : Value) (s : CodeGenerator) : IfStart :=
  -- Convert to boolean if needed
  let cond_val := toBool L "ifcond" cond0 s
  -- Create basic blocks for the then, else, and merge points
  let function := cond_val.2.insertFunction
  let then_bb := cond_val.2.createBlock "then" function
  let else_bb := then_bb.2.createBlock "else" none
  let merge_bb := else_bb.2.createBlock "ifcont" none
  -- Create conditional branch
  let g1 := merge_bb.2.CreateCondBr cond_val.1 then_bb.1 else_bb.1
  { cond_val := cond_val.1, function := function, then_bb := then_bb.1,
    else_bb := else_bb.1, merge_bb := merge_bb.1, state := g1.SetInsertPoint then_bb.1 }

/-- `CodeGenerator::visitIfStmt`, between the arms: the then arm is closed with the
branch to the merge block, the else block is appended to the function and becomes the
insertion point. -/
def ifElseStart (st : IfStart) (thenEnd : CodeGenerator) : CodeGenerator :=
  ((thenEnd.CreateBr st.merge_bb).pushBackBlock st.function st.else_bb).SetInsertPoint
    st.else_bb

/-- `CodeGenerator::visitIfStmt`, after the arms: the else arm is closed with the branch
to the merge block, the merge block is appended to the function and becomes the
insertion point. -/
def ifEnd (st : IfStart) (elseEnd : CodeGenerator) : CodeGenerator :=
  ((elseEnd.CreateBr st.merge_bb).pushBackBlock st.function st.merge_bb).SetInsertPoint
    st.merge_bb

/-- The blocks of a while statement and the state in which its condition is lowered. -/
structure WhileStart where
  function : Option Nat
  cond_bb : Nat
  body_bb : Nat
  exit_bb : Nat
  state : CodeGenerator

/-- `CodeGenerator::visitWhileStmt`, up to the move of the insertion point to the
condition block (lines 757-768). -/
def whileStart (g : CodeGenerator) : WhileStart :=
  -- Create basic blocks for the condition, loop body, and exit points
  let function := g.insertFunction
  let cond_bb := g.createBlock "while.cond" function
  let body_bb := cond_bb.2.createBlock "while.body" none
  let exit_bb := body_bb.2.createBlock "while.exit" none
  -- Branch to condition
  let g1 := exit_bb.2.CreateBr cond_bb.1
  { function := function, cond_bb := cond_bb.1, body_bb := body_bb.1, exit_bb := exit_bb.1,
    state := g1.SetInsertPoint cond_bb.1 }

/-- `CodeGenerator::visitWhileStmt`, from the conversion of the condition `cond0` to the
move of the insertion point to the body block: the condition as a boolean and the state
in which the body is lowered; `s` is the state the condition left. -/
def whileBodyStart (L : LLVM) (st : WhileStart) (cond0 : Value) (s : CodeGenerator) :
    Value × CodeGenerator :=
  -- Convert to boolean if needed
  let cond_val := toBool L "whilecond" cond0 s
  -- Create conditional branch
  let g2 := cond_val.2.CreateCondBr cond_val.1 st.body_bb st.exit_bb
  (cond_val.1, (g2.pushBackBlock st.function st.body_bb).SetInsertPoint st.body_bb)

/-- `CodeGenerator::visitWhileStmt`, after the body: the branch back to the condition
block, then the exit block is appended to the function and becomes the insertion
point. -/
def whileEnd (st : WhileStart) (bodyEnd : CodeGenerator) : CodeGenerator :=
  ((bodyEnd.CreateBr st.cond_bb).pushBackBlock st.function st.exit_bb).SetInsertPoint
    st.exit_bb

/-- `CodeGenerator::visitFunctionStmt`, up to the parameter loop (lines 800-844): the
state in which the body of the function is lowered. -/
def functionStart (name : Token) (params : List Token) (g : CodeGenerator) :
    CodeGenerator :=
  -- Create function type and function
  let param_types := params.map (fun _ => getIntType)
  let created := g.module.createFunction getIntType param_types false name.lexeme
  let function := created.1
  -- Set parameter names
  let argNames := setArgNames (params.map (fun p => p.lexeme)) [] 0
  let m1 : IRModule :=
    { created.2 with
      functions := updateAt created.2.functions function
        (fun fn => { fn with argNames := argNames }) }
  -- Add to functions map
  let g1 : CodeGenerator :=
    { g with module := m1, functions := mapAssign g.functions name.lexeme function }
  -- Create a new basic block for the function body
  let entry := g1.createBlock "entry" (some function)
  let g2 := entry.2.SetInsertPoint entry.1
  -- Create a new scope for the function
  let g3 : CodeGenerator :=
    { g2 with current_function := some function, symbol_table := g2.symbol_table.enterScope }
  -- Create allocas for parameters and add to symbol table
  bindParameters function (argNames.zip param_types) 0 g3

/-- `CodeGenerator::visitFunctionStmt`, after the body (lines 849-857): the default
return, the exit from the function scope and the restoration of the previous
function.  The result is the state in which the function is verified. -/
def functionEnd (prev_function : Option Nat) (g5 : CodeGenerator) : CodeGenerator :=
  -- Add a default return if there isn't one already
  let g6 :=
    match g5.module.getTerminator g5.GetInsertBlock with
    | none => g5.CreateRet (.ConstantInt getIntType 0)
    | some _ => g5
  -- Exit the function scope and restore the previous function
  { g6 with symbol_table := g6.symbol_table.exitScope, current_function := prev_function }

/-- `CodeGenerator::generate`, lines 21-38: the state in which the statements of the
program are lowered, with `main` created and current and its entry block the insertion
point. -/
def mainStart (g : CodeGenerator) : CodeGenerator :=
  -- Create main function
  let main_func := g.module.createFunction getIntType [] false "main"
  -- Create entry block
  let entry := ({ g with module := main_func.2 } : CodeGenerator).createBlock "entry"
    (some main_func.1)
  let g1 := entry.2.SetInsertPoint entry.1
  -- Set current function
  { g1 with current_function := some main_func.1 }

/-- `CodeGenerator::visitFunctionStmt`, lines 800-822: the function is created in the
module, its parameters are named, and it is entered in the function table. -/
def declareFunction (name : Token) (params : List Token) (g : CodeGenerator) :
    CodeGenerator :=
  -- Create function type and function
  let param_types := params.map (fun _ => getIntType)
  let created := g.module.createFunction getIntType param_types false name.lexeme
  let function := created.1
  -- Set parameter names
  let argNames := setArgNames (params.map (fun p => p.lexeme)) [] 0
  let m1 : IRModule :=
    { created.2 with
      functions := updateAt created.2.functions function
        (fun fn => { fn with argNames := argNames }) }
  -- Add to functions map
  { g with module := m1, functions := mapAssign g.functions name.lexeme function }

/-- `CodeGenerator::visitFunctionStmt`, lines 824-844, for the function `function` with
the parameters `args`: the entry block, the insertion point, the current function, the
function scope and the parameter loop. -/
def enterFunction (function : Nat) (args : List (String × Ty)) (g1 : CodeGenerator) :
    CodeGenerator :=
  -- Create a new basic block for the function body
  let entry := g1.createBlock "entry" (some function)
  let g2 := entry.2.SetInsertPoint entry.1
  -- Create a new scope for the function
  let g3 : CodeGenerator :=
    { g2 with current_function := some function, symbol_table := g2.symbol_table.enterScope }
  -- Create allocas for parameters and add to symbol table
  bindParameters function args 0 g3

mutual
/-- Every function declared in the statement, at any depth, has a name that satisfies
`p`. -/
def Stmt.declaresOnly (p : String → Bool) : Stmt → Bool
  | .ExpressionStmt _ => true
  | .VarDeclStmt _ _ _ => true
  | .BlockStmt statements => declaresOnlyStatements p statements
  | .IfStmt _ then_branch else_branch =>
    then_branch.declaresOnly p && declaresOnlyIfPresent p else_branch
  | .WhileStmt _ body => body.declaresOnly p
  | .FunctionStmt name _ body => p name.lexeme && declaresOnlyStatements p body
  | .ReturnStmt _ _ => true
/-- The same for a statement that may be null. -/
def declaresOnlyIfPresent (p : String → Bool) : Option Stmt → Bool
  | none => true
  | some s => s.declaresOnly p
/-- The same for a list of statements. -/
def declaresOnlyStatements (p : String → Bool) : List (Option Stmt) → Bool
  | [] => true
  | s :: rest => declaresOnlyIfPresent p s && declaresOnlyStatements p rest
end

/-- A relation between generator states that holds across every step a statement
visitor takes, where functions are declared only under names that satisfy `p`.  The
removal of a function that failed verification is a step from any state `x` reached
from `g`, for the function created first since `g`. -/
structure StmtSteps (p : String → Bool) (R : CodeGenerator → CodeGenerator → Prop) :
    Prop where
  expr : ExprSteps R
  pushBackBlock : ∀ g f bb, R g (g.pushBackBlock f bb)
  alloca : ∀ g f n ty, R g (createEntryBlockAlloca f n ty g).2
  bind : ∀ (g : CodeGenerator) nv, R g { g with named_values := nv }
  scope : ∀ (g : CodeGenerator) t, R g { g with symbol_table := t }
  current : ∀ (g : CodeGenerator) c, R g { g with current_function := c }
  declare : ∀ g (name : Token) params, p name.lexeme = true →
    R g (declareFunction name params g)
  erase : ∀ (g x : CodeGenerator) (name : Token), p name.lexeme = true → R g x →
    R g { x with
      module := x.module.eraseFromParent g.module.functions.length
      functions := mapErase x.functions name.lexeme }

/-- The functions of the module of `g` seen from a later state: none was removed from
the arena or from the module's function list. -/
def KeepsFunctions (g g1 : CodeGenerator) : Prop :=
  g.module.functions.length ≤ g1.module.functions.length ∧
  ∀ f, f < g.module.functions.length → f ∈ g.module.functionList →
    f ∈ g1.module.functionList

/-- The entry of the name `n` in the function table is the same in both states. -/
def KeepsName (n : String) (g g1 : CodeGenerator) : Prop :=
  mapFind g1.functions n = mapFind g.functions n

/-! ## The parser (`parser.hpp`, `parser.cpp`)

`Parser` is the recursive descent parser of `src/parser.cpp`.  A parsing method either
returns a value, or leaves by a thrown `ParseError`; both carry the parser state.  The
methods call each other recursively, so each takes a bound on the depth of calls
(`fuel`) and answers `outOfFuel` when the bound is reached.  The diagnostics sink
`mana::diagnostics` is a field of the state.  Reading `tokens[current]` beyond the end
of the vector is undefined in the source; the model reads an END_OF_FILE token there.
`std::stod` is a parameter. -/

/-- `mana::ParseError`: a `std::runtime_error` with its message. -/
structure ParseError where
  message : String
  deriving DecidableEq, Repr

/-- The members of `mana::Parser` and the global diagnostics sink. -/
structure Parser where
  tokens : List Token
  current : Nat := 0
  max_params : Nat := 255
  filename : String := ""
  diagnostics : DiagnosticManager := {}
  deriving DecidableEq, Repr

/-- The result of a parsing method. -/
inductive Outcome (α : Type) where
  | ok (value : α) (p : Parser)
  | thrown (error : ParseError) (p : Parser)
  | outOfFuel

/-- Sequencing of two parsing steps: a thrown error and an exhausted bound propagate. -/
def Outcome.bind {α β : Type} (o : Outcome α) (f : α → Parser → Outcome β) : Outcome β :=
  match o with
  | .ok value p => f value p
  | .thrown error p => .thrown error p
  | .outOfFuel => .outOfFuel

/-- The value of a successful step is transformed. -/
def Outcome.map {α β : Type} (o : Outcome α) (f : α → β) : Outcome β :=
  o.bind (fun value p => .ok (f value) p)

/-- The token read beyond the end of the token vector. -/
def Token.eof : Token := { type := .END_OF_FILE, lexeme := "", line := 0, column := 0 }

/-- `Parser::peek`. -/
def Parser.peek (p : Parser) : Token := p.tokens.getD p.current Token.eof

/-- `Parser::previous`. -/
def Parser.previous (p : Parser) : Token := p.tokens.getD (p.current - 1) Token.eof

/-- `Parser::isAtEnd`. -/
def Parser.isAtEnd (p : Parser) : Bool := decide (p.peek.type = .END_OF_FILE)

/-- `Parser::advance`: the token returned and the state. -/
def Parser.advance (p : Parser) : Token × Parser :=
  let p1 := if !p.isAtEnd then { p with current := p.current + 1 } else p
  (p1.previous, p1)

/-- `Parser::check`. -/
def Parser.check (p : Parser) (type : TokenType) : Bool :=
  if p.isAtEnd then false else decide (p.peek.type = type)

/-- `Parser::match(TokenType)`. -/
def Parser.matchOne (p : Parser) (type : TokenType) : Bool × Parser :=
  if p.check type then (true, p.advance.2) else (false, p)

/-- `Parser::match(std::initializer_list<TokenType>)`. -/
def Parser.matchAny (p : Parser) : List TokenType → Bool × Parser
  | [] => (false, p)
  | type :: types => if p.check type then (true, p.advance.2) else p.matchAny types

/-- `Parser::error`: the diagnostic is reported, the exception object is returned. -/
def Parser.error (p : Parser) (token : Token) (message : String) : ParseError × Parser :=
  let location : SourceLocation :=
    { filename := p.filename, line := token.line, column := token.column }
  ({ message := message },
    if token.type = .END_OF_FILE then
      { p with diagnostics :=
          (p.diagnostics.report .ERROR (message ++ " at end of file") location "") }
    else
      { p with diagnostics :=
          (p.diagnostics.report .ERROR (message ++ " at '" ++ token.lexeme ++ "'")
            location "") })

/-- `Parser::consume`. -/
def Parser.consume (p : Parser) (type : TokenType) (message : String) : Outcome Token :=
  if p.check type then .ok p.advance.1 p.advance.2
  else .thrown (p.error p.peek message).1 (p.error p.peek message).2

/-- The loop of `Parser::synchronize`; `n` bounds the number of iterations. -/
def Parser.synchronizeLoop : Nat → Parser → Parser
  | 0, p => p
  | n + 1, p =>
    if p.isAtEnd then p
    else if p.previous.type = .SEMICOLON then p
    else
      match p.peek.type with
      | .FUNCTION | .VAR | .CONST | .FOR | .IF | .WHILE | .RETURN => p
      | _ => Parser.synchronizeLoop n p.advance.2

/-- `Parser::synchronize`.  Every iteration of the loop moves to the next token, so the
number of tokens bounds the iterations. -/
def Parser.synchronize (p : Parser) : Parser :=
  Parser.synchronizeLoop p.tokens.length p.advance.2

/-- `std::isspace` in the C locale. -/
def isspace (c : Char) : Bool :=
  c.toNat = 32 || (9 ≤ c.toNat && c.toNat ≤ 13)

/-- `std::stoi(str)`: leading white space is skipped, an optional sign and the longest
run of decimal digits are read; `none` when there is no digit
(`std::invalid_argument`) or the value is not an `int` (`std::out_of_range`). -/
def stoi (str : String) : Option Int :=
  let cs := str.toList.dropWhile isspace
  let negative := cs.head? = some (Char.ofNat 45)
  let ds :=
    if cs.head? = some (Char.ofNat 45) ∨ cs.head? = some (Char.ofNat 43) then cs.tail
    else cs
  let digits := ds.takeWhile Char.isDigit
  let magnitude : Int := digits.foldl (fun a c => 10 * a + ((c.toNat : Int) - 48)) 0
  let value : Int := if negative then -magnitude else magnitude
  if digits.isEmpty then none
  else if -2147483648 ≤ value ∧ value ≤ 2147483647 then some value
  else none

/-- The loop `while (match({...}))` of a binary operator level: `operand` parses the
right operand. -/
def binaryLoop (types : List TokenType) (operand : Parser → Outcome Expr) :
    Nat → Expr → Parser → Outcome Expr
  | 0, _, _ => .outOfFuel
  | fuel + 1, expr, p =>
    if (p.matchAny types).1 then
      (operand (p.matchAny types).2).bind (fun right p1 =>
        binaryLoop types operand fuel
          (.BinaryExpr expr (p.matchAny types).2.previous right) p1)
    else .ok expr p

mutual
/-- `Parser::expression`. -/
def expression (stod : String → Option Double) : Nat → Parser → Outcome Expr
  | 0, _ => .outOfFuel
  | fuel + 1, p => assignment stod fuel p
/-- `Parser::assignment`. -/
def assignment (stod : String → Option Double) : Nat → Parser → Outcome Expr
  | 0, _ => .outOfFuel
  | fuel + 1, p =>
    (logicalOr stod fuel p).bind (fun expr p1 =>
      if (p1.matchOne .EQUAL).1 then
        let equals := (p1.matchOne .EQUAL).2.previous
        (assignment stod fuel (p1.matchOne .EQUAL).2).bind (fun value p2 =>
          match expr with
          | .VariableExpr name => .ok (.AssignExpr name value) p2
          | _ => .ok expr (p2.error equals "Invalid assignment target").2)
      else .ok expr p1)
/-- `Parser::logicalOr`. -/
def logicalOr (stod : String → Option Double) : Nat → Parser → Outcome Expr
  | 0, _ => .outOfFuel
  | fuel + 1, p =>
    (logicalAnd stod fuel p).bind (fun expr p1 =>
      binaryLoop [.OR] (fun q => logicalAnd stod fuel q) fuel expr p1)
/-- `Parser::logicalAnd`. -/
def logicalAnd (stod : String → Option Double) : Nat → Parser → Outcome Expr
  | 0, _ => .outOfFuel
  | fuel + 1, p =>
    (equality stod fuel p).bind (fun expr p1 =>
      binaryLoop [.AND] (fun q => equality stod fuel q) fuel expr p1)
/-- `Parser::equality`. -/
def equality (stod : String → Option Double) : Nat → Parser → Outcome Expr
  | 0, _ => .outOfFuel
  | fuel + 1, p =>
    (comparison stod fuel p).bind (fun expr p1 =>
      binaryLoop [.BANG_EQUAL, .EQUAL_EQUAL] (fun q => comparison stod fuel q) fuel expr p1)
/-- `Parser::comparison`. -/
def comparison (stod : String → Option Double) : Nat → Parser → Outcome Expr
  | 0, _ => .outOfFuel
  | fuel + 1, p =>
    (term stod fuel p).bind (fun expr p1 =>
      binaryLoop [.GREATER, .GREATER_EQUAL, .LESS, .LESS_EQUAL] (fun q => term stod fuel q)
        fuel expr p1)
/-- `Parser::term`. -/
def term (stod : String → Option Double) : Nat → Parser → Outcome Expr
  | 0, _ => .outOfFuel
  | fuel + 1, p =>
    (factor stod fuel p).bind (fun expr p1 =>
      binaryLoop [.MINUS, .PLUS] (fun q => factor stod fuel q) fuel expr p1)
/-- `Parser::factor`. -/
def factor (stod : String → Option Double) : Nat → Parser → Outcome Expr
  | 0, _ => .outOfFuel
  | fuel + 1, p =>
    (unary stod fuel p).bind (fun expr p1 =>
      binaryLoop [.SLASH, .STAR, .PERCENT] (fun q => unary stod fuel q) fuel expr p1)
/-- `Parser::unary`. -/
def unary (stod : String → Option Double) : Nat → Parser → Outcome Expr
  | 0, _ => .outOfFuel
  | fuel + 1, p =>
    if (p.matchAny [.BANG, .MINUS]).1 then
      let op := (p.matchAny [.BANG, .MINUS]).2.previous
      (unary stod fuel (p.matchAny [.BANG, .MINUS]).2).map (fun right => .UnaryExpr op right)
    else call stod fuel p
/-- `Parser::call`. -/
def call (stod : String → Option Double) : Nat → Parser → Outcome Expr
  | 0, _ => .outOfFuel
  | fuel + 1, p => (primary stod fuel p).bind (fun expr p1 => callLoop stod fuel expr p1)
/-- The loop `while (true)` of `Parser::call`. -/
def callLoop (stod : String → Option Double) : Nat → Expr → Parser → Outcome Expr
  | 0, _, _ => .outOfFuel
  | fuel + 1, expr, p =>
    if (p.matchOne .LEFT_PAREN).1 then
      (finishCall stod fuel expr (p.matchOne .LEFT_PAREN).2).bind (fun expr1 p1 =>
        callLoop stod fuel expr1 p1)
    else .ok expr p
/-- `Parser::finishCall`. -/
def finishCall (stod : String → Option Double) : Nat → Expr → Parser → Outcome Expr
  | 0, _, _ => .outOfFuel
  | fuel + 1, callee, p =>
    -- Parse arguments
    (if !p.check .RIGHT_PAREN then argumentLoop stod fuel [] p else .ok [] p).bind
      (fun arguments p1 =>
        (p1.consume .RIGHT_PAREN "Expect ')' after arguments").map (fun paren =>
          .CallExpr callee paren arguments))
/-- The loop `do ... while (match(COMMA))` of `Parser::finishCall`. -/
def argumentLoop (stod : String → Option Double) :
    Nat → List Expr → Parser → Outcome (List Expr)
  | 0, _, _ => .outOfFuel
  | fuel + 1, arguments, p =>
    let p0 :=
      if arguments.length ≥ p.max_params then
        (p.error p.peek ("Cannot have more than " ++ toString p.max_params ++
          " arguments")).2
      else p
    (expression stod fuel p0).bind (fun argument p1 =>
      if (p1.matchOne .COMMA).1 then
        argumentLoop stod fuel (arguments ++ [argument]) (p1.matchOne .COMMA).2
      else .ok (arguments ++ [argument]) p1)
/-- `Parser::primary`. -/
def primary (stod : String → Option Double) : Nat → Parser → Outcome Expr
  | 0, _ => .outOfFuel
  | fuel + 1, p =>
    if (p.matchOne .FALSE).1 then
      .ok (.LiteralExpr (.bool false)) (p.matchOne .FALSE).2
    else if (p.matchOne .TRUE).1 then
      .ok (.LiteralExpr (.bool true)) (p.matchOne .TRUE).2
    else if (p.matchOne .NIL).1 then
      .ok (.LiteralExpr .null) (p.matchOne .NIL).2
    else if (p.matchOne .INTEGER_LITERAL).1 then
      let p1 := (p.matchOne .INTEGER_LITERAL).2
      match stoi p1.previous.lexeme with
      | some value => .ok (.LiteralExpr (.int value)) p1
      | none => .ok (.LiteralExpr (.int 0)) (p1.error p1.previous "Invalid integer literal").2
    else if (p.matchOne .FLOAT_LITERAL).1 then
      let p1 := (p.matchOne .FLOAT_LITERAL).2
      match stod p1.previous.lexeme with
      | some value => .ok (.LiteralExpr (.double value)) p1
      | none =>
        .ok (.LiteralExpr (.double { bits := 0 }))
          (p1.error p1.previous "Invalid float literal").2
    else if (p.matchOne .STRING_LITERAL).1 then
      .ok (.LiteralExpr (.string (p.matchOne .STRING_LITERAL).2.previous.lexeme))
        (p.matchOne .STRING_LITERAL).2
    else if (p.matchOne .IDENTIFIER).1 then
      .ok (.VariableExpr (p.matchOne .IDENTIFIER).2.previous) (p.matchOne .IDENTIFIER).2
    else if (p.matchOne .LEFT_PAREN).1 then
      (expression stod fuel (p.matchOne .LEFT_PAREN).2).bind (fun expr p1 =>
        (p1.consume .RIGHT_PAREN "Expect ')' after expression").map (fun _ =>
          .GroupingExpr expr))
    else .thrown (p.error p.peek "Expect expression").1 (p.error p.peek "Expect expression").2
end

/-- `Parser::varDeclaration`. -/
def varDeclaration (stod : String → Option Double) (fuel : Nat) (is_const : Bool)
    (p : Parser) : Outcome Stmt :=
  (p.consume .IDENTIFIER "Expect variable name").bind (fun name p1 =>
    let initializer : Outcome (Option Expr) :=
      if (p1.matchOne .EQUAL).1 then
        (expression stod fuel (p1.matchOne .EQUAL).2).map some
      else if is_const then
        .thrown (p1.error name "Const declarations must have an initializer").1
          (p1.error name "Const declarations must have an initializer").2
      else .ok none p1
    initializer.bind (fun init p2 =>
      (p2.consume .SEMICOLON "Expect ';' after variable declaration").map (fun _ =>
        .VarDeclStmt name init is_const)))

/-- `Parser::returnStatement`. -/
def returnStatement (stod : String → Option Double) (fuel : Nat) (p : Parser) :
    Outcome Stmt :=
  let keyword := p.previous
  (if !p.check .SEMICOLON then (expression stod fuel p).map some else .ok none p).bind
    (fun value p1 =>
      (p1.consume .SEMICOLON "Expect ';' after return value").map (fun _ =>
        .ReturnStmt keyword value))

/-- `Parser::expressionStatement`. -/
def expressionStatement (stod : String → Option Double) (fuel : Nat) (p : Parser) :
    Outcome Stmt :=
  (expression stod fuel p).bind (fun expr p1 =>
    (p1.consume .SEMICOLON "Expect ';' after expression").map (fun _ =>
      .ExpressionStmt expr))

/-- The loop `do ... while (match(COMMA))` of `Parser::functionDeclaration`. -/
def parameterLoop : Nat → List Token → Parser → Outcome (List Token)
  | 0, _, _ => .outOfFuel
  | fuel + 1, parameters, p =>
    let p0 :=
      if parameters.length ≥ p.max_params then
        (p.error p.peek ("Cannot have more than " ++ toString p.max_params ++
          " parameters")).2
      else p
    (p0.consume .IDENTIFIER "Expect parameter name").bind (fun parameter p1 =>
      if (p1.matchOne .COMMA).1 then
        parameterLoop fuel (parameters ++ [parameter]) (p1.matchOne .COMMA).2
      else .ok (parameters ++ [parameter]) p1)

/-- The loop `while (!check(RIGHT_BRACE) && !isAtEnd())` over the declarations of a
function body or of a block; `declaration` parses one. -/
def declarationLoop (declaration : Parser → Outcome (Option Stmt)) :
    Nat → List (Option Stmt) → Parser → Outcome (List (Option Stmt))
  | 0, _, _ => .outOfFuel
  | fuel + 1, statements, p =>
    if !p.check .RIGHT_BRACE && !p.isAtEnd then
      (declaration p).bind (fun s p1 =>
        declarationLoop declaration fuel (statements ++ [s]) p1)
    else .ok statements p

mutual
/-- `Parser::declaration`: a `ParseError` thrown below is caught, the parser
synchronizes and the declaration is null. -/
def declaration (stod : String → Option Double) : Nat → Parser → Outcome (Option Stmt)
  | 0, _ => .outOfFuel
  | fuel + 1, p =>
    match
      (if (p.matchOne .FUNCTION).1 then
        (functionDeclaration stod fuel (p.matchOne .FUNCTION).2).map some
      else if (p.matchOne .VAR).1 then
        (varDeclaration stod fuel false (p.matchOne .VAR).2).map some
      else if (p.matchOne .CONST).1 then
        (varDeclaration stod fuel true (p.matchOne .CONST).2).map some
      else (statement stod fuel p).map some) with
    | .ok s p1 => .ok s p1
    | .thrown _ p1 => .ok none p1.synchronize
    | .outOfFuel => .outOfFuel
/-- `Parser::functionDeclaration`. -/
def functionDeclaration (stod : String → Option Double) : Nat → Parser → Outcome Stmt
  | 0, _ => .outOfFuel
  | fuel + 1, p =>
    (p.consume .IDENTIFIER "Expect function name").bind (fun name p1 =>
      (p1.consume .LEFT_PAREN "Expect '(' after function name").bind (fun _ p2 =>
        (if !p2.check .RIGHT_PAREN then parameterLoop fuel [] p2 else .ok [] p2).bind
          (fun parameters p3 =>
            (p3.consume .RIGHT_PAREN "Expect ')' after parameters").bind (fun _ p4 =>
              (p4.consume .LEFT_BRACE "Expect '\x7b' before function body").bind (fun _ p5 =>
                (declarationLoop (fun q => declaration stod fuel q) fuel [] p5).bind
                  (fun body p6 =>
                    (p6.consume .RIGHT_BRACE "Expect '\x7d' after function body").map
                      (fun _ => .FunctionStmt name parameters body)))))))
/-- `Parser::statement`. -/
def statement (stod : String → Option Double) : Nat → Parser → Outcome Stmt
  | 0, _ => .outOfFuel
  | fuel + 1, p =>
    if (p.matchOne .IF).1 then ifStatement stod fuel (p.matchOne .IF).2
    else if (p.matchOne .WHILE).1 then whileStatement stod fuel (p.matchOne .WHILE).2
    else if (p.matchOne .RETURN).1 then returnStatement stod fuel (p.matchOne .RETURN).2
    else if (p.matchOne .LEFT_BRACE).1 then
      blockStatement stod fuel (p.matchOne .LEFT_BRACE).2
    else expressionStatement stod fuel p
/-- `Parser::ifStatement`. -/
def ifStatement (stod : String → Option Double) : Nat → Parser → Outcome Stmt
  | 0, _ => .outOfFuel
  | fuel + 1, p =>
    (p.consume .LEFT_PAREN "Expect '(' after 'if'").bind (fun _ p1 =>
      (expression stod fuel p1).bind (fun condition p2 =>
        (p2.consume .RIGHT_PAREN "Expect ')' after if condition").bind (fun _ p3 =>
          (statement stod fuel p3).bind (fun thenBranch p4 =>
            if (p4.matchOne .ELSE).1 then
              (statement stod fuel (p4.matchOne .ELSE).2).map (fun elseBranch =>
                .IfStmt condition thenBranch (some elseBranch))
            else .ok (.IfStmt condition thenBranch none) p4))))
/-- `Parser::whileStatement`. -/
def whileStatement (stod : String → Option Double) : Nat → Parser → Outcome Stmt
  | 0, _ => .outOfFuel
  | fuel + 1, p =>
    (p.consume .LEFT_PAREN "Expect '(' after 'while'").bind (fun _ p1 =>
      (expression stod fuel p1).bind (fun condition p2 =>
        (p2.consume .RIGHT_PAREN "Expect ')' after while condition").bind (fun _ p3 =>
          (statement stod fuel p3).map (fun body => .WhileStmt condition body))))
/-- `Parser::blockStatement`. -/
def blockStatement (stod : String → Option Double) : Nat → Parser → Outcome Stmt
  | 0, _ => .outOfFuel
  | fuel + 1, p =>
    (declarationLoop (fun q => declaration stod fuel q) fuel [] p).bind
      (fun statements p1 =>
        (p1.consume .RIGHT_BRACE "Expect '\x7d' after block").map (fun _ =>
          .BlockStmt statements))
end

/-- The loop `while (!isAtEnd())` of `Parser::parse` inside its `try`: a `ParseError`
that reaches it ends the loop, and the statements collected so far are returned.
`none` when the bound on the depth of calls is reached. -/
def parseLoop (stod : String → Option Double) :
    Nat → List (Option Stmt) → Parser → Option (List (Option Stmt) × Parser)
  | 0, _, _ => none
  | fuel + 1, statements, p =>
    if !p.isAtEnd then
      match declaration stod fuel p with
      | .ok s p1 => parseLoop stod fuel (statements ++ [s]) p1
      | .thrown _ p1 => some (statements, p1)
      | .outOfFuel => none
    else some (statements, p)

/-- `Parser::parse`: the statements and the final state. -/
def parse (stod : String → Option Double) (fuel : Nat) (p : Parser) :
    Option (List (Option Stmt) × Parser) :=
  parseLoop stod fuel [] p

/-! ## Further notions used by the properties -/

/-- An operation on a `DiagnosticManager`: one of its two mutating methods. -/
inductive DiagnosticOp where
  | report (diagnostic : Diagnostic)
  | clear
  deriving DecidableEq, Repr

/-- The manager after one operation. -/
def DiagnosticManager.apply (m : DiagnosticManager) : DiagnosticOp → DiagnosticManager
  | .report diagnostic => m.reportDiagnostic diagnostic
  | .clear => m.clear

/-- The manager after a sequence of operations. -/
def DiagnosticManager.run (m : DiagnosticManager) (ops : List DiagnosticOp) :
    DiagnosticManager :=
  ops.foldl DiagnosticManager.apply m

/-- The diagnostic has severity ERROR or FATAL. -/
def Diagnostic.isError (d : Diagnostic) : Bool :=
  decide (d.severity = .ERROR ∨ d.severity = .FATAL)

/-- The flag of the manager agrees with its list. -/
def DiagnosticManager.Consistent (m : DiagnosticManager) : Prop :=
  m.hasErrors = m.getDiagnostics.any Diagnostic.isError

/-- Every block of `g` is, in `g1`, the same list of instructions with further
instructions after it. -/
def Appends (g g1 : CodeGenerator) : Prop :=
  ∀ i, g.module.instructionsOf i <+: g1.module.instructionsOf i

/-- One iteration of the argument loop of a call: the argument is lowered and its value
popped; the state afterwards. -/
def argumentStep (L : LLVM) (s : CodeGenerator) (argument : Expr) : CodeGenerator :=
  (popValue (argument.accept L s)).2

/-- "Evaluate initializer if present" (`visitVarDeclStmt`, lines 664-672): the value of
the initializer, null when there is none, and the state afterwards. -/
def acceptInitializer (L : LLVM) (initializer : Option Expr) (g : CodeGenerator) :
    Option Value × CodeGenerator :=
  match initializer with
  | some e => popValue (e.accept L g)
  | none => (none, g)

/-- The counter of instruction identities has not gone back. -/
def NextValueLe (g g1 : CodeGenerator) : Prop :=
  g.module.nextValue ≤ g1.module.nextValue

/-- The slot allocations of a parameter loop, in the order in which they are made; the
first takes the identity `first`. -/
def parameterAllocas (first : Nat) : List (String × Ty) → List Instruction
  | [] => []
  | (argName, argType) :: rest =>
    .Alloca first argType argName :: parameterAllocas (first + 1) rest

/-- The stores of a parameter loop: the argument `index` of `function` goes to the slot
of identity `first`, the next argument to the next slot. -/
def parameterStores (function index first : Nat) : List (String × Ty) → List Instruction
  | [] => []
  | (_, argType) :: rest =>
    .Store (some (.Argument function index argType))
        (.Instruction first (.pointer argType)) ::
      parameterStores function (index + 1) (first + 1) rest

/-- The scopes on the chain from a scope to the global scope, innermost first. -/
def Scope.chain : Scope → List Scope
  | .mk symbols none => [.mk symbols none]
  | .mk symbols (some parent) => .mk symbols (some parent) :: parent.chain

/-! ## The prototype parser (`src/src/lexer.h`, `src/src/parser.h`, `src/src/parser.cpp`)

The prototype of the front end has its own token and expression types and its own
`Parser`; they live in the namespace `prototype`.  `Parser::parse` is a loop, so it takes
a bound on the number of iterations (`fuel`) and answers `outOfFuel` when the bound is
reached.  Reading `tokens[current]` beyond the end of the vector is undefined in the
source; the model reads an END_OF_FILE token there. -/

namespace prototype

/-- `TokenType` of `lexer.h`. -/
inductive TokenType where
  | LET | IDENTIFIER | EQUALS | NUMBER | SEMICOLON | END_OF_FILE
  deriving DecidableEq, Repr

/-- `Token` of `lexer.h`. -/
structure Token where
  type : TokenType
  text : String
  deriving DecidableEq, Repr

/-- The expression classes of `parser.h`. -/
inductive Expr where
  | NumberExpr (value : Int)
  | BinaryExpr (left right : Expr)
  | VariableExpr (name : String)
  deriving DecidableEq, Repr

/-- The members of the prototype `Parser`. -/
structure Parser where
  tokens : List Token
  current : Nat := 0
  deriving DecidableEq, Repr

/-- What leaves a parsing method by `throw`: a `std::runtime_error` with its message,
or the `std::invalid_argument` / `std::out_of_range` of `std::stoi`, which are
`std::logic_error`s. -/
inductive Exception where
  | runtime_error (what : String)
  | logic_error
  deriving DecidableEq, Repr

/-- The result of a parsing method. -/
inductive Outcome (α : Type) where
  | ok (value : α) (p : Parser)
  | thrown (exception : Exception) (p : Parser)
  | outOfFuel
  deriving DecidableEq, Repr

/-- `Parser::peek`. -/
def Parser.peek (p : Parser) : Token :=
  p.tokens.getD p.current { type := .END_OF_FILE, text := "" }

/-- `Parser::isAtEnd`. -/
def Parser.isAtEnd (p : Parser) : Bool := decide (p.peek.type = .END_OF_FILE)

/-- `Parser::advance`: the token returned and the state. -/
def Parser.advance (p : Parser) : Token × Parser :=
  let p1 := if !p.isAtEnd then { p with current := p.current + 1 } else p
  (p1.tokens.getD (p1.current - 1) { type := .END_OF_FILE, text := "" }, p1)

/-- `Parser::match`. -/
def Parser.matchOne (p : Parser) (type : TokenType) : Bool × Parser :=
  if p.peek.type = type then (true, p.advance.2) else (false, p)

/-- `Parser::parsePrimary`. -/
def Parser.parsePrimary (p : Parser) : Outcome Expr :=
  if (p.matchOne .NUMBER).1 then
    let p1 := (p.matchOne .NUMBER).2
    match stoi (p1.tokens.getD (p1.current - 1) { type := .END_OF_FILE, text := "" }).text with
    | some val => .ok (.NumberExpr val) p1
    | none => .thrown .logic_error p1
  else if (p.matchOne .IDENTIFIER).1 then
    let p1 := (p.matchOne .IDENTIFIER).2
    .ok (.VariableExpr
      (p1.tokens.getD (p1.current - 1) { type := .END_OF_FILE, text := "" }).text) p1
  else .thrown (.runtime_error "Expected number or identifier") p

/-- `Parser::parseExpr`. -/
def Parser.parseExpr (p : Parser) : Outcome Expr := p.parsePrimary

/-- The loop `while (!isAtEnd())` of `Parser::parse`, with the value of `result`. -/
def Parser.parseLoop : Nat → Option Expr → Parser → Outcome (Option Expr)
  | 0, _, _ => .outOfFuel
  | fuel + 1, result, p =>
    if !p.isAtEnd then
      if (p.matchOne .LET).1 then
        let p1 := (p.matchOne .LET).2
        -- Expect identifier
        if !(p1.matchOne .IDENTIFIER).1 then
          .thrown (.runtime_error "Expected identifier after 'let'") p1
        else
          let p2 := (p1.matchOne .IDENTIFIER).2
          -- Expect equals
          if !(p2.matchOne .EQUALS).1 then
            .thrown (.runtime_error "Expected '=' after identifier") p2
          else
            -- Parse expression
            match (p2.matchOne .EQUALS).2.parseExpr with
            | .ok e p3 =>
              -- Expect semicolon
              if !(p3.matchOne .SEMICOLON).1 then
                .thrown (.runtime_error "Expected ';' after expression") p3
              else Parser.parseLoop fuel (some e) (p3.matchOne .SEMICOLON).2
            | .thrown exception p3 => .thrown exception p3
            | .outOfFuel => .outOfFuel
      else Parser.parseLoop fuel result p
    else .ok result p

/-- `Parser::parse`. -/
def Parser.parse (fuel : Nat) (p : Parser) : Outcome (Option Expr) :=
  Parser.parseLoop fuel none p

end prototype

/-! ## Notions used by the properties of the parser -/

/-- The number of tokens from the cursor to the end of the token vector. -/
def Parser.rest (p : Parser) : Nat := p.tokens.length - p.current

/-- The cursor is inside the token vector, and the last token of the vector is an
END_OF_FILE token. -/
def Parser.InBounds (p : Parser) : Prop :=
  p.current < p.tokens.length ∧
  p.tokens.getLast?.map (fun token => token.type) = some .END_OF_FILE

/-- The state `q` is reached from `p` by moving the cursor forward over `k` tokens at
least: the tokens are the same, and a cursor inside the vector stays inside. -/
def Parser.Reaches (k : Nat) (p q : Parser) : Prop :=
  q.tokens = p.tokens ∧ q.rest + k ≤ p.rest ∧ (p.InBounds → q.InBounds)

/-- The outcome of a parsing method started in `p`: the method has returned or has
thrown, in a state reached from `p`, and when it has returned the cursor has moved by
`k` tokens at least. -/
def Outcome.Advances {α : Type} (k : Nat) (p : Parser) : Outcome α → Prop
  | .ok _ q => p.Reaches k q
  | .thrown _ q => p.Reaches 0 q
  | .outOfFuel => False

/-- The `try` block of `Parser::declaration`. -/
def declarationTry (stod : String → Option Double) (fuel : Nat) (p : Parser) :
    Outcome (Option Stmt) :=
  if (p.matchOne .FUNCTION).1 then
    (functionDeclaration stod fuel (p.matchOne .FUNCTION).2).map some
  else if (p.matchOne .VAR).1 then
    (varDeclaration stod fuel false (p.matchOne .VAR).2).map some
  else if (p.matchOne .CONST).1 then
    (varDeclaration stod fuel true (p.matchOne .CONST).2).map some
  else (statement stod fuel p).map some

/-- The expression methods of the parser return or throw, and advance, from every state
with `n` tokens left at most, when the bound on the depth of calls is large enough. -/
structure ExpressionsTerminate (stod : String → Option Double) (n : Nat) : Prop where
  primary : ∀ p fuel, p.rest ≤ n → 20 * n + 1 ≤ fuel → (primary stod fuel p).Advances 1 p
  callLoop : ∀ p fuel expr, p.rest ≤ n → 20 * n + 1 ≤ fuel →
    (callLoop stod fuel expr p).Advances 0 p
  call : ∀ p fuel, p.rest ≤ n → 20 * n + 2 ≤ fuel → (call stod fuel p).Advances 1 p
  unary : ∀ p fuel, p.rest ≤ n → 20 * n + 3 ≤ fuel → (unary stod fuel p).Advances 1 p
  factor : ∀ p fuel, p.rest ≤ n → 20 * n + 4 ≤ fuel → (factor stod fuel p).Advances 1 p
  term : ∀ p fuel, p.rest ≤ n → 20 * n + 5 ≤ fuel → (term stod fuel p).Advances 1 p
  comparison : ∀ p fuel, p.rest ≤ n → 20 * n + 6 ≤ fuel →
    (comparison stod fuel p).Advances 1 p
  equality : ∀ p fuel, p.rest ≤ n → 20 * n + 7 ≤ fuel → (equality stod fuel p).Advances 1 p
  logicalAnd : ∀ p fuel, p.rest ≤ n → 20 * n + 8 ≤ fuel →
    (logicalAnd stod fuel p).Advances 1 p
  logicalOr : ∀ p fuel, p.rest ≤ n → 20 * n + 9 ≤ fuel → (logicalOr stod fuel p).Advances 1 p
  assignment : ∀ p fuel, p.rest ≤ n → 20 * n + 10 ≤ fuel →
    (assignment stod fuel p).Advances 1 p
  expression : ∀ p fuel, p.rest ≤ n → 20 * n + 11 ≤ fuel →
    (expression stod fuel p).Advances 1 p
  argumentLoop : ∀ p fuel arguments, p.rest ≤ n → 20 * n + 12 ≤ fuel →
    (argumentLoop stod fuel arguments p).Advances 1 p
  finishCall : ∀ p fuel callee, p.rest ≤ n → 20 * n + 13 ≤ fuel →
    (finishCall stod fuel callee p).Advances 1 p

/-- The outcome of `Parser::declaration` started in `p`: it has returned, in a state
reached from `p`, and the cursor has moved when `p` was not at the end. -/
def Outcome.Returns {α : Type} (p : Parser) : Outcome α → Prop
  | .ok _ q => p.Reaches 0 q ∧ (p.isAtEnd = false → q.rest + 1 ≤ p.rest)
  | .thrown _ _ => False
  | .outOfFuel => False

/-- The statement methods of the parser return or throw, and advance, from every state
with `n` tokens left at most, when the bound on the depth of calls is large enough;
`declaration` returns. -/
structure StatementsTerminate (stod : String → Option Double) (n : Nat) : Prop where
  statement : ∀ p fuel, p.rest ≤ n → 20 * n + 12 ≤ fuel → (statement stod fuel p).Advances 1 p
  declaration : ∀ p fuel, p.rest ≤ n → 20 * n + 13 ≤ fuel →
    (declaration stod fuel p).Returns p
  ifStatement : ∀ p fuel, p.rest ≤ n → 20 * n + 12 ≤ fuel →
    (ifStatement stod fuel p).Advances 1 p
  whileStatement : ∀ p fuel, p.rest ≤ n → 20 * n + 12 ≤ fuel →
    (whileStatement stod fuel p).Advances 1 p
  blockStatement : ∀ p fuel, p.rest ≤ n → 20 * n + 14 ≤ fuel →
    (blockStatement stod fuel p).Advances 1 p
  functionDeclaration : ∀ p fuel, p.rest ≤ n → 20 * n + 14 ≤ fuel →
    (functionDeclaration stod fuel p).Advances 1 p

/-- A run of the loop of a binary operator level from the state `p` to the state `q`:
at each step an operator of the level is matched and `operand` parses the right operand
after it; at `q` no operator of the level follows.  The run is given by the operator
tokens and the right operands, in the order met. -/
def LoopRun (types : List TokenType) (operand : Parser → Outcome Expr) :
    Parser → List (Token × Expr) → Parser → Prop
  | p, [], q => (p.matchAny types).1 = false ∧ q = p
  | p, (op, right) :: rest, q =>
    (p.matchAny types).1 = true ∧ op = (p.matchAny types).2.previous ∧
      ∃ p1, operand (p.matchAny types).2 = .ok right p1 ∧ LoopRun types operand p1 rest q

/-- The expression that `Parser::expression` returns on the given tokens followed by an
END_OF_FILE token, when it returns one; `std::stod` is not called on tokens without a
float literal. -/
def expressionOf (tokens : List Token) : Option Expr :=
  match expression (fun _ => none) 40
      { tokens := tokens ++ [Token.ofType .END_OF_FILE ""] } with
  | .ok expr _ => some expr
  | _ => none

/-- The variable expression of an identifier. -/
def Expr.variable (name : String) : Expr := .VariableExpr (Token.identifier name)

/-! ## The block structure of a function under construction -/

/-- No instruction of the list is a terminator. -/
def NoTerm (l : List Instruction) : Prop := ∀ i ∈ l, i.isTerminator = false

/-- The list ends with a terminator, it holds no other terminator, and every target of
that terminator satisfies `T`. -/
def Closed (T : Nat → Prop) (l : List Instruction) : Prop :=
  ∃ body t, l = body ++ [t] ∧ NoTerm body ∧ t.isTerminator = true ∧
    ∀ d ∈ t.successors, T d

/-- `BasicBlock::getParent()` of a block of the module. -/
def IRModule.parentOf (m : IRModule) (bb : Nat) : Option Nat :=
  match m.blocks[bb]? with
  | some b => b.parent
  | none => none

/-- The blocks of the function `f` while the function is built; `opened` are the blocks
that still await their terminator.  Every block of the block list of `f` is a block of
the arena with `f` as parent; an opened block is a block of the arena without a
terminator; every other block of the list ends with its only terminator, whose targets
are in the list or opened. -/
structure Building (f : Nat) (opened : List Nat) (m : IRModule) : Prop where
  inList : ∀ c ∈ m.blocksOf f, c < m.blocks.length ∧ m.parentOf c = some f
  awaiting : ∀ c ∈ opened, c < m.blocks.length ∧ NoTerm (m.instructionsOf c)
  closed : ∀ c ∈ m.blocksOf f, c ∉ opened →
    Closed (fun d => d ∈ m.blocksOf f ∨ d ∈ opened) (m.instructionsOf c)

/-- The generator builds the function `f` at the block `b`: `b` is the insertion block,
it is in the block list of `f`, and the blocks that await their terminator are `b` and
the blocks `pending`, which the statements being lowered around will continue in. -/
structure BuildingAt (f : Nat) (pending : List Nat) (x : CodeGenerator) (b : Nat) :
    Prop where
  current : x.insertBlock = some b
  listed : b ∈ x.module.blocksOf f
  fresh : b ∉ pending
  blocks : Building f (b :: pending) x.module

/-- The state `y` holds as many diagnostics as `x` at least, and every block of the block
list of the function `f` in `x` is a block of the list in `y`. -/
def Grows (f : Nat) (x y : CodeGenerator) : Prop :=
  x.diagnostics.diagnostics.length ≤ y.diagnostics.diagnostics.length ∧
  ∀ c ∈ x.module.blocksOf f, c ∈ y.module.blocksOf f

/-- A piece of lowering from the state `x` to the state `y` that, unless it reports a
diagnostic, takes the function `f` built at some block to the function built at some
block, whatever blocks are pending. -/
def Lowers (f : Nat) (x y : CodeGenerator) : Prop :=
  Grows f x y ∧
  (y.diagnostics.diagnostics.length = x.diagnostics.diagnostics.length →
    ∀ P b, BuildingAt f P x b → ∃ b1, BuildingAt f P y b1)

mutual
/-- The statement holds no return statement and no function declaration, at any
depth. -/
def Stmt.plain : Stmt → Bool
  | .ExpressionStmt _ => true
  | .VarDeclStmt _ _ _ => true
  | .BlockStmt statements => plainStatements statements
  | .IfStmt _ then_branch else_branch => then_branch.plain && plainIfPresent else_branch
  | .WhileStmt _ body => body.plain
  | .FunctionStmt _ _ _ => false
  | .ReturnStmt _ _ => false
/-- The same for a statement that may be null. -/
def plainIfPresent : Option Stmt → Bool
  | none => true
  | some s => s.plain
/-- The same for a list of statements. -/
def plainStatements : List (Option Stmt) → Bool
  | [] => true
  | s :: rest => plainIfPresent s && plainStatements rest
end

/-! ## The trees the parser builds -/

/-- The value of a parsing step that returned satisfies `P`. -/
def Outcome.Holds {α : Type} (P : α → Prop) : Outcome α → Prop
  | .ok value _ => P value
  | .thrown _ _ => True
  | .outOfFuel => True

/-- Every expression that a method of the expression grammar returns, with the bound
`fuel` on the depth of calls, is well formed; the methods that extend an expression or
an argument list return a well-formed one when they are given one. -/
structure ParsesWellFormed (stod : String → Option Double) (fuel : Nat) : Prop where
  expression : ∀ p, (expression stod fuel p).Holds (fun e => e.wellFormed = true)
  assignment : ∀ p, (assignment stod fuel p).Holds (fun e => e.wellFormed = true)
  logicalOr : ∀ p, (logicalOr stod fuel p).Holds (fun e => e.wellFormed = true)
  logicalAnd : ∀ p, (logicalAnd stod fuel p).Holds (fun e => e.wellFormed = true)
  equality : ∀ p, (equality stod fuel p).Holds (fun e => e.wellFormed = true)
  comparison : ∀ p, (comparison stod fuel p).Holds (fun e => e.wellFormed = true)
  term : ∀ p, (term stod fuel p).Holds (fun e => e.wellFormed = true)
  factor : ∀ p, (factor stod fuel p).Holds (fun e => e.wellFormed = true)
  unary : ∀ p, (unary stod fuel p).Holds (fun e => e.wellFormed = true)
  call : ∀ p, (call stod fuel p).Holds (fun e => e.wellFormed = true)
  callLoop : ∀ expr p, expr.wellFormed = true →
    (callLoop stod fuel expr p).Holds (fun e => e.wellFormed = true)
  finishCall : ∀ callee p, callee.wellFormed = true →
    (finishCall stod fuel callee p).Holds (fun e => e.wellFormed = true)
  argumentLoop : ∀ arguments p, wellFormedArguments arguments = true →
    (argumentLoop stod fuel arguments p).Holds (fun l => wellFormedArguments l = true)
  primary : ∀ p, (primary stod fuel p).Holds (fun e => e.wellFormed = true)
/-! ## The value stack under the builder calls -/

@[simp] theorem value_stack_pushValue (v : Option Value) (g : CodeGenerator) :
    (pushValue v g).value_stack = v :: g.value_stack := rfl

@[simp] theorem value_stack_report (g : CodeGenerator) (s : DiagnosticSeverity) (m : String) :
    (g.report s m).value_stack = g.value_stack := rfl

@[simp] theorem value_stack_Insert (g : CodeGenerator) (i : Instruction) :
    (g.Insert i).value_stack = g.value_stack := by
  unfold CodeGenerator.Insert
  split <;> rfl

@[simp] theorem value_stack_takeValue (g : CodeGenerator) :
    g.takeValue.value_stack = g.value_stack := rfl

@[simp] theorem value_stack_SetInsertPoint (g : CodeGenerator) (bb : Nat) :
    (g.SetInsertPoint bb).value_stack = g.value_stack := rfl

@[simp] theorem value_stack_createBlock (g : CodeGenerator) (n : String) (p : Option Nat) :
    (g.createBlock n p).2.value_stack = g.value_stack := rfl

@[simp] theorem value_stack_pushBackBlock (g : CodeGenerator) (f : Option Nat) (bb : Nat) :
    (g.pushBackBlock f bb).value_stack = g.value_stack := rfl

@[simp] theorem value_stack_Create (g : CodeGenerator) (L : LLVM) (op : BuilderOp)
    (operands : List Value) (ty : Ty) (n : String) :
    (g.Create L op operands ty n).2.value_stack = g.value_stack := by
  unfold CodeGenerator.Create
  split <;> simp

@[simp] theorem value_stack_CreateLoad (g : CodeGenerator) (ty : Ty) (p : Value) (n : String) :
    (g.CreateLoad ty p n).2.value_stack = g.value_stack := by
  simp [CodeGenerator.CreateLoad]

@[simp] theorem value_stack_CreateStore (g : CodeGenerator) (v : Option Value) (p : Value) :
    (g.CreateStore v p).value_stack = g.value_stack := by
  simp [CodeGenerator.CreateStore]

@[simp] theorem value_stack_CreateCall (g : CodeGenerator) (c : Option Nat)
    (args : List (Option Value)) (n : String) :
    (g.CreateCall c args n).2.value_stack = g.value_stack := by
  simp [CodeGenerator.CreateCall]

@[simp] theorem value_stack_CreateBr (g : CodeGenerator) (d : Nat) :
    (g.CreateBr d).value_stack = g.value_stack := by
  simp [CodeGenerator.CreateBr]

@[simp] theorem value_stack_CreateCondBr (g : CodeGenerator) (c : Value) (t f : Nat) :
    (g.CreateCondBr c t f).value_stack = g.value_stack := by
  simp [CodeGenerator.CreateCondBr]

@[simp] theorem value_stack_CreateRet (g : CodeGenerator) (v : Value) :
    (g.CreateRet v).value_stack = g.value_stack := by
  simp [CodeGenerator.CreateRet]

@[simp] theorem value_stack_CreateRetVoid (g : CodeGenerator) :
    g.CreateRetVoid.value_stack = g.value_stack := by
  simp [CodeGenerator.CreateRetVoid]

@[simp] theorem value_stack_CreatePHI (g : CodeGenerator) (ty : Ty)
    (inc : List (Value × Option Nat)) (n : String) :
    (g.CreatePHI ty inc n).2.value_stack = g.value_stack := by
  simp [CodeGenerator.CreatePHI]

@[simp] theorem value_stack_createEntryBlockAlloca (f : Option Nat) (n : String) (ty : Ty)
    (g : CodeGenerator) :
    (createEntryBlockAlloca f n ty g).2.value_stack = g.value_stack := by
  unfold createEntryBlockAlloca
  split <;> rfl

@[simp] theorem value_stack_toBool (L : LLVM) (n : String) (v : Value) (g : CodeGenerator) :
    (toBool L n v g).2.value_stack = g.value_stack := by
  unfold toBool
  split <;> simp

@[simp] theorem value_stack_logicalBranch (L : LLVM) (op : Token) (r m : Nat) (v : Value)
    (g : CodeGenerator) :
    (logicalBranch L op r m v g).value_stack = g.value_stack := by
  unfold logicalBranch
  split <;> simp

/-- Popping after a push gives back the value and the stack below. -/
theorem popValue_of_cons {g : CodeGenerator} {v : Option Value} {s : List (Option Value)}
    (h : g.value_stack = v :: s) :
    (popValue g).1 = v ∧ (popValue g).2.value_stack = s := by
  unfold popValue
  rw [h]
  exact ⟨rfl, rfl⟩

/-- After a transformer that pushes one value, `popValue` restores the stack. -/
theorem value_stack_pop_of_pushesOne {f : CodeGenerator → CodeGenerator} (hf : PushesOne f)
    (g : CodeGenerator) : (popValue (f g)).2.value_stack = g.value_stack := by
  obtain ⟨v, hv⟩ := hf g
  exact (popValue_of_cons hv).2

/-! ## Every expression visitor pushes exactly one value -/

theorem visitLiteralExpr_pushesOne (L : LLVM) (value : LiteralValue) :
    PushesOne (visitLiteralExpr L value) := by
  intro g
  cases value <;> simp [visitLiteralExpr]

theorem visitUnaryExpr_pushesOne (L : LLVM) (op : Token)
    (hop : op.type = .BANG ∨ op.type = .MINUS)
    {acceptRight : CodeGenerator → CodeGenerator} (h : PushesOne acceptRight) :
    PushesOne (visitUnaryExpr L op acceptRight) := by
  intro g
  have hp := value_stack_pop_of_pushesOne h g
  unfold visitUnaryExpr
  simp only []
  split
  · simp [hp]
  · split
    · split
      · simp [hp]
      · split <;> simp [hp]
    · split
      · split <;> simp [hp]
      · rcases hop with hop | hop <;> contradiction

theorem logicalLeft_value_stack {acceptLeft : CodeGenerator → CodeGenerator}
    (h : PushesOne acceptLeft) (g : CodeGenerator) :
    (logicalLeft acceptLeft g).state.value_stack = g.value_stack := by
  unfold logicalLeft
  simp only []
  rw [value_stack_pop_of_pushesOne h]
  simp

theorem logicalRight_value_stack (L : LLVM) (op : Token) (merge_bb : Nat)
    (r : Option Value × CodeGenerator) :
    ∃ v, (logicalRight L op merge_bb r).value_stack = v :: r.2.value_stack := by
  unfold logicalRight
  split
  · simp
  · split
    · simp
    · simp [logicalMerge]

theorem visitLogicalExpr_pushesOne (L : LLVM) (op : Token)
    {acceptLeft acceptRight : CodeGenerator → CodeGenerator}
    (hl : PushesOne acceptLeft) (hr : PushesOne acceptRight) :
    PushesOne (visitLogicalExpr L op acceptLeft acceptRight) := by
  intro g
  have h1 := logicalLeft_value_stack hl g
  unfold visitLogicalExpr
  simp only []
  split
  · simp [h1]
  · split
    · simp [h1]
    · rename_i left _ _
      obtain ⟨v, hv⟩ := logicalRight_value_stack L op (logicalLeft acceptLeft g).merge_bb
        (popValue (acceptRight (logicalBranch L op (logicalLeft acceptLeft g).right_bb
          (logicalLeft acceptLeft g).merge_bb left (logicalLeft acceptLeft g).state)))
      refine ⟨v, ?_⟩
      rw [hv, value_stack_pop_of_pushesOne hr, value_stack_logicalBranch, h1]

theorem binaryCase_pushesOne (L : LLVM) (f i : Bool) (fop : BuilderOp) (fname : String)
    (iop : BuilderOp) (iname : String) (ty : Ty) (msg : String) (l r : Value) :
    PushesOne (binaryCase L f i fop fname iop iname ty msg l r) := by
  intro g
  unfold binaryCase
  split
  · simp
  · split <;> simp

@[simp] theorem value_stack_promoteOperands (L : LLVM) (f : Bool) (l r : Value)
    (g : CodeGenerator) : (promoteOperands L f l r g).2.value_stack = g.value_stack := by
  unfold promoteOperands
  split
  · simp
  · split <;> simp

theorem binarySwitch_pushesOne (L : LLVM) (op : Token) (f i : Bool) (l r : Value) :
    PushesOne (binarySwitch L op f i l r) := by
  intro g
  unfold binarySwitch
  simp only []
  split <;>
    first
    | exact binaryCase_pushesOne L _ _ _ _ _ _ _ _ _ _ g
    | (split <;> simp)
    | simp

theorem visitRegularBinaryExpr_pushesOne (L : LLVM) (op : Token)
    {acceptLeft acceptRight : CodeGenerator → CodeGenerator}
    (hl : PushesOne acceptLeft) (hr : PushesOne acceptRight) :
    PushesOne (visitRegularBinaryExpr L op acceptLeft acceptRight) := by
  intro g
  have h1 := value_stack_pop_of_pushesOne hl g
  have h2 := value_stack_pop_of_pushesOne hr (popValue (acceptLeft g)).2
  unfold visitRegularBinaryExpr
  simp only []
  split
  · obtain ⟨v, hv⟩ := binarySwitch_pushesOne L op _ _ _ _
      (promoteOperands L _ _ _ (popValue (acceptRight (popValue (acceptLeft g)).2)).2).2
    exact ⟨v, by rw [hv]; simp [h1, h2]⟩
  · simp [h1, h2]

theorem visitBinaryExpr_pushesOne (L : LLVM) (op : Token)
    {acceptLeft acceptRight : CodeGenerator → CodeGenerator}
    (hl : PushesOne acceptLeft) (hr : PushesOne acceptRight) :
    PushesOne (visitBinaryExpr L op acceptLeft acceptRight) := by
  intro g
  unfold visitBinaryExpr
  split
  · exact visitLogicalExpr_pushesOne L op hl hr g
  · exact visitRegularBinaryExpr_pushesOne L op hl hr g

theorem visitVariableExpr_pushesOne (name : Token) : PushesOne (visitVariableExpr name) := by
  intro g
  unfold visitVariableExpr
  split <;> simp

theorem visitAssignExpr_pushesOne (name : Token)
    {acceptValue : CodeGenerator → CodeGenerator} (h : PushesOne acceptValue) :
    PushesOne (visitAssignExpr name acceptValue) := by
  intro g
  have hp := value_stack_pop_of_pushesOne h g
  unfold visitAssignExpr
  simp only []
  split <;> simp [hp]

theorem visitCallExpr_pushesOne (var_expr : Option Token)
    {acceptCallee : CodeGenerator → CodeGenerator}
    {acceptArgs : CodeGenerator → List (Option Value) × CodeGenerator}
    (hc : PushesOne acceptCallee)
    (ha : ∀ g, (acceptArgs g).2.value_stack = g.value_stack) :
    PushesOne (visitCallExpr var_expr acceptCallee acceptArgs) := by
  intro g
  have hp := value_stack_pop_of_pushesOne hc g
  unfold visitCallExpr
  simp only []
  split
  · split <;> simp [ha]
  · split
    · simp [hp]
    · split
      · simp [hp]
      · split <;> simp [ha, hp]

mutual
/-- Lowering a well-formed expression pushes exactly one value. -/
theorem Expr.accept_pushesOne (L : LLVM) :
    ∀ e : Expr, e.wellFormed = true → PushesOne (e.accept L)
  | .LiteralExpr value, _ => by
    rw [Expr.accept]
    exact visitLiteralExpr_pushesOne L value
  | .UnaryExpr op right, h => by
    rw [Expr.accept]
    simp only [Expr.wellFormed, Bool.and_eq_true, decide_eq_true_eq] at h
    exact visitUnaryExpr_pushesOne L op h.1 (Expr.accept_pushesOne L right h.2)
  | .BinaryExpr left op right, h => by
    rw [Expr.accept]
    simp only [Expr.wellFormed, Bool.and_eq_true] at h
    exact visitBinaryExpr_pushesOne L op (Expr.accept_pushesOne L left h.1)
      (Expr.accept_pushesOne L right h.2)
  | .GroupingExpr expression, h => by
    rw [Expr.accept]
    simp only [Expr.wellFormed] at h
    exact Expr.accept_pushesOne L expression h
  | .VariableExpr name, _ => by
    rw [Expr.accept]
    exact visitVariableExpr_pushesOne name
  | .AssignExpr name value, h => by
    rw [Expr.accept]
    simp only [Expr.wellFormed] at h
    exact visitAssignExpr_pushesOne name (Expr.accept_pushesOne L value h)
  | .CallExpr callee paren arguments, h => by
    rw [Expr.accept]
    simp only [Expr.wellFormed, Bool.and_eq_true] at h
    exact visitCallExpr_pushesOne _ (Expr.accept_pushesOne L callee h.1)
      (acceptArguments_value_stack L arguments h.2 [])
/-- The argument loop of a call leaves the value stack as it was. -/
theorem acceptArguments_value_stack (L : LLVM) :
    ∀ arguments : List Expr, wellFormedArguments arguments = true →
      ∀ (args : List (Option Value)) (g : CodeGenerator),
        (acceptArguments L arguments args g).2.value_stack = g.value_stack
  | [], _ => by
    intro args g
    rw [acceptArguments]
  | arg :: rest, h => by
    intro args g
    simp only [wellFormedArguments, Bool.and_eq_true] at h
    rw [acceptArguments]
    rw [acceptArguments_value_stack L rest h.2]
    exact value_stack_pop_of_pushesOne (Expr.accept_pushesOne L arg h.1) g
end

/-! ## Every statement visitor leaves the value stack as it was -/

theorem visitExpressionStmt_keepsStack {acceptExpression : CodeGenerator → CodeGenerator}
    (h : PushesOne acceptExpression) : KeepsStack (visitExpressionStmt acceptExpression) := by
  intro g
  exact value_stack_pop_of_pushesOne h g

theorem visitVarDeclStmt_keepsStack (name : Token)
    (acceptInitializer : Option (CodeGenerator → CodeGenerator))
    (h : ∀ f, acceptInitializer = some f → PushesOne f) :
    KeepsStack (visitVarDeclStmt name acceptInitializer) := by
  intro g
  unfold visitVarDeclStmt
  simp only []
  cases acceptInitializer with
  | none => simp
  | some f =>
    have hp := value_stack_pop_of_pushesOne (h f rfl) g
    simp only []
    split <;> simp [hp]

theorem visitBlockStmt_keepsStack {acceptStatements : CodeGenerator → CodeGenerator}
    (h : KeepsStack acceptStatements) : KeepsStack (visitBlockStmt acceptStatements) := by
  intro g
  unfold visitBlockStmt
  simp only []
  rw [h]

theorem visitIfStmt_keepsStack (L : LLVM)
    {acceptCondition acceptThen acceptElse : CodeGenerator → CodeGenerator}
    (hc : PushesOne acceptCondition) (ht : KeepsStack acceptThen)
    (he : KeepsStack acceptElse) :
    KeepsStack (visitIfStmt L acceptCondition acceptThen acceptElse) := by
  intro g
  have hp := value_stack_pop_of_pushesOne hc g
  unfold visitIfStmt
  simp only []
  split
  · exact hp
  · simp [he _, ht _, hp]

theorem visitWhileStmt_keepsStack (L : LLVM)
    {acceptCondition acceptBody : CodeGenerator → CodeGenerator}
    (hc : PushesOne acceptCondition) (hb : KeepsStack acceptBody) :
    KeepsStack (visitWhileStmt L acceptCondition acceptBody) := by
  intro g
  have hp := fun s => value_stack_pop_of_pushesOne hc s
  unfold visitWhileStmt
  simp only []
  split
  · simp [hp]
  · simp [hb _, hp]

theorem bindParameters_value_stack (function : Nat) :
    ∀ (args : List (String × Ty)) (index : Nat) (g : CodeGenerator),
      (bindParameters function args index g).value_stack = g.value_stack
  | [], _, _ => rfl
  | (_, _) :: rest, index, g => by
    rw [bindParameters, bindParameters_value_stack function rest]
    simp

theorem visitFunctionStmt_keepsStack (L : LLVM) (name : Token) (params : List Token)
    {acceptBody : CodeGenerator → CodeGenerator} (hb : KeepsStack acceptBody) :
    KeepsStack (visitFunctionStmt L name params acceptBody) := by
  intro g
  unfold visitFunctionStmt
  simp only []
  split <;> split <;> simp [hb _, bindParameters_value_stack]

theorem visitReturnStmt_keepsStack (acceptValue : Option (CodeGenerator → CodeGenerator))
    (h : ∀ f, acceptValue = some f → PushesOne f) :
    KeepsStack (visitReturnStmt acceptValue) := by
  intro g
  unfold visitReturnStmt
  split
  · simp
  · cases acceptValue with
    | none => simp
    | some f =>
      have hp := value_stack_pop_of_pushesOne (h f rfl) g
      simp only []
      split <;> simp [hp]

theorem optExpr_pushesOne (L : LLVM) (e : Option Expr) (h : wellFormedOptExpr e = true) :
    ∀ f, e.map (fun e => e.accept L) = some f → PushesOne f := by
  intro f hf
  cases e with
  | none => simp at hf
  | some e =>
    simp only [Option.map_some', Option.some.injEq] at hf
    rw [← hf]
    exact Expr.accept_pushesOne L e h

mutual
/-- Lowering a well-formed statement leaves the value stack as it was. -/
theorem Stmt.accept_keepsStack (L : LLVM) :
    ∀ s : Stmt, s.wellFormed = true → KeepsStack (s.accept L)
  | .ExpressionStmt expression, h => by
    rw [Stmt.accept]
    simp only [Stmt.wellFormed] at h
    exact visitExpressionStmt_keepsStack (Expr.accept_pushesOne L expression h)
  | .VarDeclStmt name initializer is_const, h => by
    rw [Stmt.accept]
    simp only [Stmt.wellFormed] at h
    exact visitVarDeclStmt_keepsStack name _ (optExpr_pushesOne L initializer h)
  | .BlockStmt statements, h => by
    rw [Stmt.accept]
    simp only [Stmt.wellFormed] at h
    exact visitBlockStmt_keepsStack (acceptStatements_keepsStack L statements h)
  | .IfStmt condition then_branch else_branch, h => by
    rw [Stmt.accept]
    simp only [Stmt.wellFormed, Bool.and_eq_true] at h
    exact visitIfStmt_keepsStack L (Expr.accept_pushesOne L condition h.1.1)
      (Stmt.accept_keepsStack L then_branch h.1.2)
      (acceptIfPresent_keepsStack L else_branch h.2)
  | .WhileStmt condition body, h => by
    rw [Stmt.accept]
    simp only [Stmt.wellFormed, Bool.and_eq_true] at h
    exact visitWhileStmt_keepsStack L (Expr.accept_pushesOne L condition h.1)
      (Stmt.accept_keepsStack L body h.2)
  | .FunctionStmt name params body, h => by
    rw [Stmt.accept]
    simp only [Stmt.wellFormed] at h
    exact visitFunctionStmt_keepsStack L name params (acceptStatements_keepsStack L body h)
  | .ReturnStmt keyword value, h => by
    rw [Stmt.accept]
    simp only [Stmt.wellFormed] at h
    exact visitReturnStmt_keepsStack _ (optExpr_pushesOne L value h)
/-- Lowering an optional statement leaves the value stack as it was. -/
theorem acceptIfPresent_keepsStack (L : LLVM) :
    ∀ s : Option Stmt, wellFormedIfPresent s = true → KeepsStack (acceptIfPresent L s)
  | none, _ => by
    rw [acceptIfPresent]
    intro g
    rfl
  | some s, h => by
    rw [acceptIfPresent]
    simp only [wellFormedIfPresent] at h
    exact Stmt.accept_keepsStack L s h
/-- Lowering a statement list leaves the value stack as it was. -/
theorem acceptStatements_keepsStack (L : LLVM) :
    ∀ ss : List (Option Stmt), wellFormedStatements ss = true →
      KeepsStack (acceptStatements L ss)
  | [], _ => by
    rw [acceptStatements]
    intro g
    rfl
  | s :: rest, h => by
    simp only [wellFormedStatements, Bool.and_eq_true] at h
    rw [acceptStatements]
    intro g
    simp only []
    rw [acceptStatements_keepsStack L rest h.2, acceptIfPresent_keepsStack L s h.1]
end

/-! ## Lists changed at one index -/

theorem length_updateAt {α : Type} (f : α → α) :
    ∀ (l : List α) (n : Nat), (updateAt l n f).length = l.length
  | [], _ => rfl
  | _ :: _, 0 => rfl
  | _ :: as, n + 1 => by
    simp [updateAt, length_updateAt f as n]

theorem getElem?_updateAt_ne {α : Type} (f : α → α) :
    ∀ (l : List α) (n i : Nat), i ≠ n → (updateAt l n f)[i]? = l[i]?
  | [], _, _, _ => rfl
  | _ :: _, 0, 0, h => absurd rfl h
  | _ :: _, 0, i + 1, _ => by simp [updateAt]
  | _ :: _, n + 1, 0, _ => by simp [updateAt]
  | _ :: as, n + 1, i + 1, h => by
    simp only [updateAt, List.getElem?_cons_succ]
    exact getElem?_updateAt_ne f as n i (fun e => h (by rw [e]))

theorem getElem?_updateAt_self {α : Type} (f : α → α) :
    ∀ (l : List α) (n : Nat), (updateAt l n f)[n]? = (l[n]?).map f
  | [], _ => rfl
  | _ :: _, 0 => by simp [updateAt]
  | _ :: as, n + 1 => by
    simp only [updateAt, List.getElem?_cons_succ]
    exact getElem?_updateAt_self f as n

/-! ## The blocks under the builder calls -/

theorem Frame.refl (g : CodeGenerator) : Frame g g :=
  ⟨Nat.le_refl _, fun _ _ _ => rfl, Or.inl rfl⟩

theorem Frame.trans {a b c : CodeGenerator} (h1 : Frame a b) (h2 : Frame b c) :
    Frame a c := by
  obtain ⟨l1, u1, i1⟩ := h1
  obtain ⟨l2, u2, i2⟩ := h2
  refine ⟨Nat.le_trans l1 l2, ?_, ?_⟩
  · intro i hi hne
    rw [← u1 i hi hne]
    apply u2 i (Nat.lt_of_lt_of_le hi l1)
    rcases i1 with e | ⟨j, ej, hj, _⟩
    · rw [e]
      exact hne
    · rw [ej]
      intro e
      have : i = j := Option.some.inj e
      omega
  · rcases i2 with e2 | ⟨j2, ej2, hj2, hlt2⟩
    · rcases i1 with e1 | ⟨j1, ej1, hj1, hlt1⟩
      · exact Or.inl (e2.trans e1)
      · exact Or.inr ⟨j1, e2.trans ej1, hj1, Nat.lt_of_lt_of_le hlt1 l2⟩
    · exact Or.inr ⟨j2, ej2, Nat.le_trans l1 hj2, hlt2⟩

/-- A step that changes neither the blocks nor the insertion block. -/
theorem Frame.of_same {g x y : CodeGenerator} (h : Frame g x)
    (hb : y.module.blocks = x.module.blocks) (hi : y.insertBlock = x.insertBlock) :
    Frame g y := by
  unfold Frame at *
  rw [hb, hi]
  exact h

theorem Frame.pushValue {g x : CodeGenerator} (v : Option Value) (h : Frame g x) :
    Frame g (pushValue v x) :=
  h.of_same rfl rfl

theorem Frame.report {g x : CodeGenerator} (s : DiagnosticSeverity) (m : String)
    (h : Frame g x) : Frame g (x.report s m) :=
  h.of_same rfl rfl

theorem Frame.popValue {g x : CodeGenerator} (h : Frame g x) : Frame g (popValue x).2 := by
  unfold mana.popValue
  split
  · exact h
  · exact h.of_same rfl rfl

theorem Frame.takeValue {g x : CodeGenerator} (h : Frame g x) : Frame g x.takeValue :=
  h.of_same rfl rfl

theorem Frame.Insert {g x : CodeGenerator} (i : Instruction) (h : Frame g x) :
    Frame g (x.Insert i) := by
  unfold CodeGenerator.Insert
  split
  · exact h
  · rename_i bb hbb
    obtain ⟨l, u, ib⟩ := h
    refine ⟨?_, ?_, ?_⟩
    · simpa [IRModule.appendInstruction, length_updateAt] using l
    · intro k hk hne
      rw [← u k hk hne]
      simp only [IRModule.appendInstruction]
      apply getElem?_updateAt_ne
      rcases ib with e | ⟨j, ej, hj, _⟩
      · intro e2
        apply hne
        rw [← e, hbb, e2]
      · intro e2
        rw [hbb] at ej
        have : bb = j := Option.some.inj ej
        omega
    · simpa [IRModule.appendInstruction, length_updateAt] using ib

theorem Frame.createBlock {g x : CodeGenerator} (n : String) (p : Option Nat)
    (h : Frame g x) : Frame g (x.createBlock n p).2 := by
  obtain ⟨l, u, ib⟩ := h
  refine ⟨?_, ?_, ?_⟩
  · simp only [CodeGenerator.createBlock, IRModule.createBlock, List.length_append,
      List.length_singleton]
    omega
  · intro k hk hne
    rw [← u k hk hne]
    simp only [CodeGenerator.createBlock, IRModule.createBlock]
    exact List.getElem?_append_left (Nat.lt_of_lt_of_le hk l)
  · rcases ib with e | ⟨j, ej, hj, hlt⟩
    · exact Or.inl e
    · refine Or.inr ⟨j, ej, hj, ?_⟩
      simp only [CodeGenerator.createBlock, IRModule.createBlock, List.length_append,
        List.length_singleton]
      omega

/-- Moving the insertion point to a block created since `g`. -/
theorem Frame.SetInsertPoint {g x : CodeGenerator} (bb : Nat) (h : Frame g x)
    (h1 : g.module.blocks.length ≤ bb) (h2 : bb < x.module.blocks.length) :
    Frame g (x.SetInsertPoint bb) :=
  ⟨h.1, h.2.1, Or.inr ⟨bb, rfl, h1, h2⟩⟩

theorem Frame.Create {g x : CodeGenerator} (L : LLVM) (op : BuilderOp)
    (operands : List Value) (ty : Ty) (n : String) (h : Frame g x) :
    Frame g (x.Create L op operands ty n).2 := by
  unfold CodeGenerator.Create
  split
  · exact h
  · exact h.takeValue.Insert _

theorem Frame.CreateLoad {g x : CodeGenerator} (ty : Ty) (p : Value) (n : String)
    (h : Frame g x) : Frame g (x.CreateLoad ty p n).2 :=
  h.takeValue.Insert _

theorem Frame.CreateStore {g x : CodeGenerator} (v : Option Value) (p : Value)
    (h : Frame g x) : Frame g (x.CreateStore v p) :=
  h.Insert _

theorem Frame.CreateCall {g x : CodeGenerator} (c : Option Nat) (args : List (Option Value))
    (n : String) (h : Frame g x) : Frame g (x.CreateCall c args n).2 :=
  h.takeValue.Insert _

theorem Frame.CreateBr {g x : CodeGenerator} (d : Nat) (h : Frame g x) :
    Frame g (x.CreateBr d) :=
  h.Insert _

theorem Frame.CreateCondBr {g x : CodeGenerator} (c : Value) (t f : Nat) (h : Frame g x) :
    Frame g (x.CreateCondBr c t f) :=
  h.Insert _

theorem Frame.CreatePHI {g x : CodeGenerator} (ty : Ty) (inc : List (Value × Option Nat))
    (n : String) (h : Frame g x) : Frame g (x.CreatePHI ty inc n).2 :=
  h.takeValue.Insert _

theorem Frame.toBool {g x : CodeGenerator} (L : LLVM) (n : String) (v : Value)
    (h : Frame g x) : Frame g (toBool L n v x).2 := by
  unfold mana.toBool
  split
  · exact h
  · exact h.Create _ _ _ _ _

/-- A child lowering that frames every state also frames from an earlier state. -/
theorem Frame.accept {g x : CodeGenerator} {f : CodeGenerator → CodeGenerator}
    (hf : ∀ s, Frame s (f s)) (h : Frame g x) : Frame g (f x) :=
  h.trans (hf x)

/-! ## Expression lowering only adds to the insertion block and to new blocks -/

theorem visitLiteralExpr_frame (L : LLVM) (value : LiteralValue) (g : CodeGenerator) :
    Frame g (visitLiteralExpr L value g) := by
  cases value with
  | string v =>
    simp only [visitLiteralExpr]
    apply Frame.pushValue
    apply Frame.Create
    exact (Frame.refl g).of_same rfl rfl
  | _ => exact (Frame.refl g).pushValue _

theorem visitUnaryExpr_frame (L : LLVM) (op : Token)
    {acceptRight : CodeGenerator → CodeGenerator} (h : ∀ s, Frame s (acceptRight s))
    (g : CodeGenerator) : Frame g (visitUnaryExpr L op acceptRight g) := by
  have hr : Frame g (popValue (acceptRight g)).2 := (h g).popValue
  unfold visitUnaryExpr
  simp only []
  split
  · exact (hr.report _ _).pushValue _
  · split
    · split
      · exact (hr.Create _ _ _ _ _).pushValue _
      · split
        · exact (hr.Create _ _ _ _ _).pushValue _
        · exact (hr.report _ _).pushValue _
    · split
      · split
        · exact ((hr.Create _ _ _ _ _).Create _ _ _ _ _).pushValue _
        · exact (hr.report _ _).pushValue _
      · exact hr

/-- The blocks `right` and `merge` are the next two indices of the block arena. -/
theorem logicalLeft_blocks (acceptLeft : CodeGenerator → CodeGenerator) (g : CodeGenerator) :
    (logicalLeft acceptLeft g).right_bb = g.module.blocks.length ∧
    (logicalLeft acceptLeft g).merge_bb = g.module.blocks.length + 1 := by
  simp [logicalLeft, CodeGenerator.createBlock, IRModule.createBlock]

/-- The state in which the left operand of a logical expression is lowered. -/
theorem logicalLeft_state (acceptLeft : CodeGenerator → CodeGenerator) (g : CodeGenerator) :
    (logicalLeft acceptLeft g).state =
      (popValue (acceptLeft
        ((g.createBlock "right" g.insertFunction).2.createBlock "merge"
          g.insertFunction).2)).2 := rfl

theorem logicalLeft_frame {acceptLeft : CodeGenerator → CodeGenerator}
    (h : ∀ s, Frame s (acceptLeft s)) (g : CodeGenerator) :
    Frame g (logicalLeft acceptLeft g).state := by
  rw [logicalLeft_state]
  exact ((((Frame.refl g).createBlock _ _).createBlock _ _).accept h).popValue

/-- After the left operand, the arena holds at least the two new blocks. -/
theorem logicalLeft_length {acceptLeft : CodeGenerator → CodeGenerator}
    (h : ∀ s, Frame s (acceptLeft s)) (g : CodeGenerator) :
    g.module.blocks.length + 2 ≤ (logicalLeft acceptLeft g).state.module.blocks.length := by
  rw [logicalLeft_state]
  have h1 := ((h ((g.createBlock "right" g.insertFunction).2.createBlock "merge"
    g.insertFunction).2).popValue).1
  have e : ((g.createBlock "right" g.insertFunction).2.createBlock "merge"
      g.insertFunction).2.module.blocks.length = g.module.blocks.length + 2 := by
    simp [CodeGenerator.createBlock, IRModule.createBlock]
  omega

theorem logicalBranch_frame {g x : CodeGenerator} (L : LLVM) (op : Token)
    (right_bb merge_bb : Nat) (left : Value) (h : Frame g x)
    (h1 : g.module.blocks.length ≤ right_bb) (h2 : right_bb < x.module.blocks.length) :
    Frame g (logicalBranch L op right_bb merge_bb left x) := by
  unfold logicalBranch
  simp only []
  have hlen : ∀ y, Frame x y → right_bb < y.module.blocks.length :=
    fun y hy => Nat.lt_of_lt_of_le h2 hy.1
  split
  · exact ((h.toBool L _ _).CreateCondBr _ _ _).SetInsertPoint _ h1
      (hlen _ (((Frame.refl x).toBool L _ _).CreateCondBr _ _ _))
  · exact ((h.toBool L _ _).CreateCondBr _ _ _).SetInsertPoint _ h1
      (hlen _ (((Frame.refl x).toBool L _ _).CreateCondBr _ _ _))

theorem logicalBranch_length (L : LLVM) (op : Token) (right_bb merge_bb : Nat)
    (left : Value) (x : CodeGenerator) :
    x.module.blocks.length ≤
      (logicalBranch L op right_bb merge_bb left x).module.blocks.length := by
  unfold logicalBranch
  simp only []
  split
  · exact (((Frame.refl x).toBool L _ _).CreateCondBr _ _ _).1
  · exact (((Frame.refl x).toBool L _ _).CreateCondBr _ _ _).1

theorem logicalMerge_frame {g x : CodeGenerator} (L : LLVM) (op : Token) (merge_bb : Nat)
    (right : Value) (h : Frame g x)
    (h1 : g.module.blocks.length ≤ merge_bb) (h2 : merge_bb < x.module.blocks.length) :
    Frame g (logicalMerge L op merge_bb right x) := by
  unfold logicalMerge
  simp only []
  apply Frame.pushValue
  apply Frame.CreatePHI
  exact ((h.toBool L _ _).CreateBr _).SetInsertPoint _ h1
    (Nat.lt_of_lt_of_le h2 (((Frame.refl x).toBool L _ _).CreateBr _).1)

theorem logicalRight_frame {g : CodeGenerator} (L : LLVM) (op : Token) (merge_bb : Nat)
    (r : Option Value × CodeGenerator) (h : Frame g r.2)
    (h1 : g.module.blocks.length ≤ merge_bb) (h2 : merge_bb < r.2.module.blocks.length) :
    Frame g (logicalRight L op merge_bb r) := by
  unfold logicalRight
  split
  · exact (h.report _ _).pushValue _
  · split
    · exact (h.report _ _).pushValue _
    · exact logicalMerge_frame L op merge_bb _ h h1 h2

theorem visitLogicalExpr_frame (L : LLVM) (op : Token)
    {acceptLeft acceptRight : CodeGenerator → CodeGenerator}
    (hl : ∀ s, Frame s (acceptLeft s)) (hr : ∀ s, Frame s (acceptRight s))
    (g : CodeGenerator) : Frame g (visitLogicalExpr L op acceptLeft acceptRight g) := by
  have hs := logicalLeft_frame hl g
  have hlen := logicalLeft_length hl g
  obtain ⟨hrb, hmb⟩ := logicalLeft_blocks acceptLeft g
  unfold visitLogicalExpr
  simp only []
  split
  · exact (hs.report _ _).pushValue _
  · split
    · exact (hs.report _ _).pushValue _
    · rename_i left _ _
      have hb : Frame g (logicalBranch L op (logicalLeft acceptLeft g).right_bb
          (logicalLeft acceptLeft g).merge_bb left (logicalLeft acceptLeft g).state) :=
        logicalBranch_frame L op _ _ left hs (by omega) (by omega)
      have hp := (hb.accept hr).popValue
      refine logicalRight_frame L op _ _ hp (by omega) ?_
      have h3 := logicalBranch_length L op (logicalLeft acceptLeft g).right_bb
        (logicalLeft acceptLeft g).merge_bb left (logicalLeft acceptLeft g).state
      have h4 := (((Frame.refl (logicalBranch L op (logicalLeft acceptLeft g).right_bb
        (logicalLeft acceptLeft g).merge_bb left (logicalLeft acceptLeft g).state)).accept
          hr).popValue).1
      omega

theorem binaryCase_frame {g x : CodeGenerator} (L : LLVM) (f i : Bool) (fop : BuilderOp)
    (fname : String) (iop : BuilderOp) (iname : String) (ty : Ty) (msg : String)
    (l r : Value) (h : Frame g x) :
    Frame g (binaryCase L f i fop fname iop iname ty msg l r x) := by
  unfold binaryCase
  split
  · exact (h.Create _ _ _ _ _).pushValue _
  · split
    · exact (h.Create _ _ _ _ _).pushValue _
    · exact (h.report _ _).pushValue _

theorem promoteOperands_frame {g x : CodeGenerator} (L : LLVM) (f : Bool) (l r : Value)
    (h : Frame g x) : Frame g (promoteOperands L f l r x).2 := by
  unfold promoteOperands
  split
  · exact h.Create _ _ _ _ _
  · split
    · exact h.Create _ _ _ _ _
    · exact h

theorem binarySwitch_frame {g x : CodeGenerator} (L : LLVM) (op : Token) (f i : Bool)
    (l r : Value) (h : Frame g x) : Frame g (binarySwitch L op f i l r x) := by
  unfold binarySwitch
  simp only []
  split <;>
    first
    | exact binaryCase_frame L _ _ _ _ _ _ _ _ _ _ h
    | exact (h.report _ _).pushValue _
    | (split
       · exact (h.Create _ _ _ _ _).pushValue _
       · exact (h.report _ _).pushValue _)

theorem visitRegularBinaryExpr_frame (L : LLVM) (op : Token)
    {acceptLeft acceptRight : CodeGenerator → CodeGenerator}
    (hl : ∀ s, Frame s (acceptLeft s)) (hr : ∀ s, Frame s (acceptRight s))
    (g : CodeGenerator) : Frame g (visitRegularBinaryExpr L op acceptLeft acceptRight g) := by
  have h2 : Frame g (popValue (acceptRight (popValue (acceptLeft g)).2)).2 :=
    (((hl g).popValue).accept hr).popValue
  unfold visitRegularBinaryExpr
  simp only []
  split
  · exact binarySwitch_frame L op _ _ _ _ (promoteOperands_frame L _ _ _ h2)
  · exact (h2.report _ _).pushValue _

theorem visitBinaryExpr_frame (L : LLVM) (op : Token)
    {acceptLeft acceptRight : CodeGenerator → CodeGenerator}
    (hl : ∀ s, Frame s (acceptLeft s)) (hr : ∀ s, Frame s (acceptRight s))
    (g : CodeGenerator) : Frame g (visitBinaryExpr L op acceptLeft acceptRight g) := by
  unfold visitBinaryExpr
  split
  · exact visitLogicalExpr_frame L op hl hr g
  · exact visitRegularBinaryExpr_frame L op hl hr g

theorem visitVariableExpr_frame (name : Token) (g : CodeGenerator) :
    Frame g (visitVariableExpr name g) := by
  unfold visitVariableExpr
  split
  · exact ((Frame.refl g).report _ _).pushValue _
  · exact ((Frame.refl g).CreateLoad _ _ _).pushValue _

theorem visitAssignExpr_frame (name : Token) {acceptValue : CodeGenerator → CodeGenerator}
    (h : ∀ s, Frame s (acceptValue s)) (g : CodeGenerator) :
    Frame g (visitAssignExpr name acceptValue g) := by
  have hp : Frame g (popValue (acceptValue g)).2 := (h g).popValue
  unfold visitAssignExpr
  simp only []
  split
  · exact (hp.report _ _).pushValue _
  · exact (hp.CreateStore _ _).pushValue _

theorem visitCallExpr_frame (var_expr : Option Token)
    {acceptCallee : CodeGenerator → CodeGenerator}
    {acceptArgs : CodeGenerator → List (Option Value) × CodeGenerator}
    (hc : ∀ s, Frame s (acceptCallee s)) (ha : ∀ s, Frame s (acceptArgs s).2)
    (g : CodeGenerator) : Frame g (visitCallExpr var_expr acceptCallee acceptArgs g) := by
  have hp : Frame g (popValue (acceptCallee g)).2 := (hc g).popValue
  unfold visitCallExpr
  simp only []
  split
  · split
    · exact ((Frame.refl g).report _ _).pushValue _
    · exact ((ha g).CreateCall _ _ _).pushValue _
  · split
    · exact (hp.report _ _).pushValue _
    · split
      · exact (hp.report _ _).pushValue _
      · split
        · exact ((hp.trans (ha _)).CreateCall _ _ _).pushValue _
        · exact (hp.report _ _).pushValue _

mutual
/-- Lowering an expression leaves every block other than the insertion block as it
was, and ends in the insertion block it started in or in a block it created. -/
theorem Expr.accept_frame (L : LLVM) : ∀ (e : Expr) (g : CodeGenerator), Frame g (e.accept L g)
  | .LiteralExpr value => by
    rw [Expr.accept]
    exact visitLiteralExpr_frame L value
  | .UnaryExpr op right => by
    rw [Expr.accept]
    exact visitUnaryExpr_frame L op (Expr.accept_frame L right)
  | .BinaryExpr left op right => by
    rw [Expr.accept]
    exact visitBinaryExpr_frame L op (Expr.accept_frame L left) (Expr.accept_frame L right)
  | .GroupingExpr expression => by
    rw [Expr.accept]
    exact Expr.accept_frame L expression
  | .VariableExpr name => by
    rw [Expr.accept]
    exact visitVariableExpr_frame name
  | .AssignExpr name value => by
    rw [Expr.accept]
    exact visitAssignExpr_frame name (Expr.accept_frame L value)
  | .CallExpr callee paren arguments => by
    rw [Expr.accept]
    exact visitCallExpr_frame _ (Expr.accept_frame L callee)
      (acceptArguments_frame L arguments [])
/-- The argument loop of a call frames every state. -/
theorem acceptArguments_frame (L : LLVM) :
    ∀ (arguments : List Expr) (args : List (Option Value)) (g : CodeGenerator),
      Frame g (acceptArguments L arguments args g).2
  | [], _ => by
    intro g
    rw [acceptArguments]
    exact Frame.refl g
  | arg :: rest, args => by
    intro g
    rw [acceptArguments]
    exact ((Expr.accept_frame L arg g).popValue).trans (acceptArguments_frame L rest _ _)
end

/-! ## The branch of a logical expression -/

@[simp] theorem insertBlock_Insert (g : CodeGenerator) (i : Instruction) :
    (g.Insert i).insertBlock = g.insertBlock := by
  unfold CodeGenerator.Insert
  split <;> simp_all

@[simp] theorem insertBlock_Create (g : CodeGenerator) (L : LLVM) (op : BuilderOp)
    (operands : List Value) (ty : Ty) (n : String) :
    (g.Create L op operands ty n).2.insertBlock = g.insertBlock := by
  unfold CodeGenerator.Create
  split
  · rfl
  · simp [CodeGenerator.takeValue]

@[simp] theorem insertBlock_toBool (L : LLVM) (n : String) (v : Value) (g : CodeGenerator) :
    (toBool L n v g).2.insertBlock = g.insertBlock := by
  unfold toBool
  split <;> simp

theorem instructionsOf_appendInstruction (m : IRModule) (bb : Nat) (i : Instruction)
    (h : bb < m.blocks.length) :
    (m.appendInstruction bb i).instructionsOf bb = m.instructionsOf bb ++ [i] := by
  unfold IRModule.instructionsOf IRModule.appendInstruction
  simp only [getElem?_updateAt_self]
  rw [List.getElem?_eq_getElem h]
  rfl

/-- The module after the branch of a logical expression: the conditional branch is
appended to the insertion block. -/
theorem logicalBranch_module (L : LLVM) (op : Token) (right_bb merge_bb : Nat)
    (left : Value) (x : CodeGenerator) :
    (logicalBranch L op right_bb merge_bb left x).module =
      ((toBool L "tobool" left x).2.Insert
        (if op.type = .AND then .CondBr (toBool L "tobool" left x).1 right_bb merge_bb
         else .CondBr (toBool L "tobool" left x).1 merge_bb right_bb)).module := by
  unfold logicalBranch
  simp only []
  split <;> rfl

theorem logicalBranch_insertBlock (L : LLVM) (op : Token) (right_bb merge_bb : Nat)
    (left : Value) (x : CodeGenerator) :
    (logicalBranch L op right_bb merge_bb left x).insertBlock = some right_bb := rfl

/-- With an integer-typed left operand, a logical expression is lowered by lowering the
right operand in the state the branch leaves, then merging. -/
theorem visitLogicalExpr_of_left (L : LLVM) (op : Token)
    (acceptLeft acceptRight : CodeGenerator → CodeGenerator) (g : CodeGenerator) (l : Value)
    (hl : (logicalLeft acceptLeft g).left = some l) (hint : l.getType.isIntegerTy = true) :
    visitLogicalExpr L op acceptLeft acceptRight g =
      logicalRight L op (logicalLeft acceptLeft g).merge_bb
        (popValue (acceptRight (logicalBranch L op (logicalLeft acceptLeft g).right_bb
          (logicalLeft acceptLeft g).merge_bb l (logicalLeft acceptLeft g).state))) := by
  unfold visitLogicalExpr
  simp only [hl, hint, Bool.not_true, Bool.false_eq_true, if_false]

/-- The two blocks of a logical expression are empty after the branch is built, and the
branch is the last instruction of the block that was current after the left operand. -/
theorem logicalBranch_blocks (L : LLVM) (op : Token)
    {acceptLeft : CodeGenerator → CodeGenerator} (hf : ∀ s, Frame s (acceptLeft s))
    (g : CodeGenerator) (l : Value)
    (hib : ∃ b, g.insertBlock = some b ∧ b < g.module.blocks.length) :
    ∃ h, (logicalLeft acceptLeft g).state.insertBlock = some h ∧
      h ≠ g.module.blocks.length ∧ h ≠ g.module.blocks.length + 1 ∧
      h < (logicalLeft acceptLeft g).state.module.blocks.length ∧
      ((logicalBranch L op (logicalLeft acceptLeft g).right_bb
        (logicalLeft acceptLeft g).merge_bb l
        (logicalLeft acceptLeft g).state).module.instructionsOf h).getLast? =
        some (if op.type = .AND then
            .CondBr (toBool L "tobool" l (logicalLeft acceptLeft g).state).1
              (logicalLeft acceptLeft g).right_bb (logicalLeft acceptLeft g).merge_bb
          else
            .CondBr (toBool L "tobool" l (logicalLeft acceptLeft g).state).1
              (logicalLeft acceptLeft g).merge_bb (logicalLeft acceptLeft g).right_bb) ∧
      (logicalBranch L op (logicalLeft acceptLeft g).right_bb
        (logicalLeft acceptLeft g).merge_bb l
        (logicalLeft acceptLeft g).state).module.instructionsOf
          (logicalLeft acceptLeft g).right_bb = [] ∧
      (logicalBranch L op (logicalLeft acceptLeft g).right_bb
        (logicalLeft acceptLeft g).merge_bb l
        (logicalLeft acceptLeft g).state).module.instructionsOf
          (logicalLeft acceptLeft g).merge_bb = [] := by
  obtain ⟨b, hb, hblt⟩ := hib
  obtain ⟨hrb, hmb⟩ := logicalLeft_blocks acceptLeft g
  -- the state after the two blocks are created
  have hg2 : ∃ g2 : CodeGenerator, g2 = ((g.createBlock "right" g.insertFunction).2.createBlock
      "merge" g.insertFunction).2 := ⟨_, rfl⟩
  obtain ⟨g2, hg2⟩ := hg2
  have hg2b : g2.module.blocks = g.module.blocks ++
      [{ name := "right", parent := g.insertFunction, instructions := [] }] ++
      [{ name := "merge", parent := g.insertFunction, instructions := [] }] := by
    rw [hg2]
    rfl
  have hR : g2.module.blocks[g.module.blocks.length]? =
      some { name := "right", parent := g.insertFunction, instructions := [] } := by
    rw [hg2b, List.append_assoc, List.getElem?_append_right (Nat.le_refl _)]
    simp
  have hM : g2.module.blocks[g.module.blocks.length + 1]? =
      some { name := "merge", parent := g.insertFunction, instructions := [] } := by
    rw [hg2b, List.append_assoc, List.getElem?_append_right (by omega)]
    simp
  have hg2i : g2.insertBlock = some b := by
    rw [hg2]
    exact hb
  have hg2l : g2.module.blocks.length = g.module.blocks.length + 2 := by
    rw [hg2b]
    simp
  have hst : (logicalLeft acceptLeft g).state = (popValue (acceptLeft g2)).2 := by
    rw [hg2, logicalLeft_state]
  -- from there to the state holding the branch
  have F0 : Frame g2 (logicalLeft acceptLeft g).state := by
    rw [hst]
    exact (hf g2).popValue
  generalize hS : (logicalLeft acceptLeft g).state = S at *
  have hibS : ∃ h, S.insertBlock = some h ∧ h ≠ g.module.blocks.length ∧
      h ≠ g.module.blocks.length + 1 ∧ h < S.module.blocks.length := by
    rcases F0.2.2 with e | ⟨j, ej, hj, hlt⟩
    · refine ⟨b, e.trans hg2i, ?_, ?_, ?_⟩
      · omega
      · omega
      · have := F0.1
        omega
    · exact ⟨j, ej, by omega, by omega, hlt⟩
  obtain ⟨h, hh, hne1, hne2, hlt⟩ := hibS
  have F1 : Frame g2 (toBool L "tobool" l S).2 := F0.toBool L _ _
  have hT : (toBool L "tobool" l S).2.insertBlock = some h := by
    rw [insertBlock_toBool]
    exact hh
  have hTl : h < (toBool L "tobool" l S).2.module.blocks.length :=
    Nat.lt_of_lt_of_le hlt ((Frame.refl S).toBool L "tobool" l).1
  have hmod := logicalBranch_module L op (logicalLeft acceptLeft g).right_bb
    (logicalLeft acceptLeft g).merge_bb l S
  have hIns : ∀ i : Instruction, ((toBool L "tobool" l S).2.Insert i).module =
      (toBool L "tobool" l S).2.module.appendInstruction h i := by
    intro i
    unfold CodeGenerator.Insert
    rw [hT]
  have keep : ∀ (i : Instruction) (k : Nat), k < g2.module.blocks.length → k ≠ b → k ≠ h →
      ((toBool L "tobool" l S).2.module.appendInstruction h i).blocks[k]? =
        g2.module.blocks[k]? := by
    intro i k hk hkb hkh
    rw [← F1.2.1 k hk (by rw [hg2i]; exact fun e => hkb (Option.some.inj e))]
    simp only [IRModule.appendInstruction]
    exact getElem?_updateAt_ne _ _ _ _ hkh
  refine ⟨h, hh, hne1, hne2, hlt, ?_, ?_, ?_⟩
  · rw [hmod, hIns, instructionsOf_appendInstruction _ _ _ hTl]
    simp
  · rw [hmod, hIns, hrb]
    unfold IRModule.instructionsOf
    rw [keep _ _ (by omega) (by omega) (fun e => hne1 e.symm), hR]
  · rw [hmod, hIns, hmb]
    unfold IRModule.instructionsOf
    rw [keep _ _ (by omega) (by omega) (fun e => hne2 e.symm), hM]

/-! ## Lowering an assignment to an unbound name -/

theorem updateAt_append_length {α : Type} (f : α → α) (a : α) :
    ∀ l : List α, updateAt (l ++ [a]) l.length f = l ++ [f a]
  | [] => rfl
  | x :: l => by
    show x :: updateAt (l ++ [a]) l.length f = x :: (l ++ [f a])
    rw [updateAt_append_length f a l]

/-- Appending an instruction to the last block of the arena. -/
theorem Insert_last (g : CodeGenerator) (bs : List BasicBlock) (b : BasicBlock)
    (i : Instruction) (hb : g.module.blocks = bs ++ [b])
    (hi : g.insertBlock = some bs.length) :
    (g.Insert i).module.blocks = bs ++ [{ b with instructions := b.instructions ++ [i] }] ∧
    (g.Insert i).insertBlock = some bs.length := by
  unfold CodeGenerator.Insert
  rw [hi]
  simp only [IRModule.appendInstruction, hb]
  exact ⟨updateAt_append_length _ _ _, trivial⟩

theorem named_values_Insert (g : CodeGenerator) (i : Instruction) :
    (g.Insert i).named_values = g.named_values := by
  unfold CodeGenerator.Insert
  split <;> rfl

theorem diagnostics_Insert (g : CodeGenerator) (i : Instruction) :
    (g.Insert i).diagnostics = g.diagnostics := by
  unfold CodeGenerator.Insert
  split <;> rfl

/-- A foldable builder call at the last block of the arena adds at most its own
instruction, which is no store. -/
theorem Create_last (L : LLVM) (op : BuilderOp) (operands : List Value) (ty : Ty)
    (n : String) (g : CodeGenerator) (bs : List BasicBlock) (b : BasicBlock)
    (hb : g.module.blocks = bs ++ [b]) (hi : g.insertBlock = some bs.length) :
    ∃ is : List Instruction, (∀ i ∈ is, i.isStore = false) ∧
      (g.Create L op operands ty n).2.module.blocks =
        bs ++ [{ b with instructions := b.instructions ++ is }] ∧
      (g.Create L op operands ty n).2.insertBlock = some bs.length ∧
      (g.Create L op operands ty n).2.named_values = g.named_values ∧
      (g.Create L op operands ty n).2.diagnostics = g.diagnostics := by
  unfold CodeGenerator.Create
  split
  · exact ⟨[], by simp, by simpa using hb, hi, rfl, rfl⟩
  · exact ⟨[.Op g.module.nextValue op operands ty n], by simp [Instruction.isStore],
      (Insert_last g.takeValue bs b _ hb hi).1, (Insert_last g.takeValue bs b _ hb hi).2,
      named_values_Insert _ _, diagnostics_Insert _ _⟩

/-- Lowering a literal into the last block of the arena: the other blocks are untouched,
the block gets no store, and the bindings and the diagnostics are unchanged. -/
theorem visitLiteralExpr_last (L : LLVM) (v : LiteralValue) (g : CodeGenerator)
    (bs : List BasicBlock) (b : BasicBlock) (hb : g.module.blocks = bs ++ [b])
    (hi : g.insertBlock = some bs.length) :
    ∃ is : List Instruction, (∀ i ∈ is, i.isStore = false) ∧
      (visitLiteralExpr L v g).module.blocks =
        bs ++ [{ b with instructions := b.instructions ++ is }] ∧
      (visitLiteralExpr L v g).insertBlock = some bs.length ∧
      (visitLiteralExpr L v g).named_values = g.named_values ∧
      (visitLiteralExpr L v g).diagnostics = g.diagnostics := by
  cases v with
  | string s =>
    simp only [visitLiteralExpr]
    exact Create_last L _ _ _ _
      { g with module := (g.module.createGlobalVariable
          (.array (s.utf8ByteSize + 1) (.integer 8)) true s ".str").2 } bs b hb hi
  | _ => exact ⟨[], by simp, by simpa [visitLiteralExpr, pushValue] using hb, hi, rfl, rfl⟩

/-! ## Foldable builder calls -/

/-- A foldable builder call leaves the diagnostics alone. -/
theorem diagnostics_Create (g : CodeGenerator) (L : LLVM) (op : BuilderOp)
    (operands : List Value) (ty : Ty) (n : String) :
    (g.Create L op operands ty n).2.diagnostics = g.diagnostics := by
  unfold CodeGenerator.Create
  split
  · rfl
  · simp [diagnostics_Insert, CodeGenerator.takeValue]

/-- With a typed folder the result of a foldable builder call has the requested type. -/
theorem getType_Create (g : CodeGenerator) (L : LLVM) (hL : L.foldsTyped) (op : BuilderOp)
    (operands : List Value) (ty : Ty) (n : String) :
    (g.Create L op operands ty n).1.getType = ty := by
  unfold CodeGenerator.Create
  split
  · rename_i c hc
    exact hL op operands ty c hc
  · rfl

/-- A foldable builder call that the folder does not fold inserts its instruction. -/
theorem Create_of_not_folded (g : CodeGenerator) (L : LLVM) (op : BuilderOp)
    (operands : List Value) (ty : Ty) (n : String) (h : L.fold op operands ty = none) :
    g.Create L op operands ty n =
      (.Instruction g.module.nextValue ty,
        g.takeValue.Insert (.Op g.module.nextValue op operands ty n)) := by
  unfold CodeGenerator.Create
  rw [h]

/-- Inserting an instruction does not take a value identity. -/
theorem nextValue_Insert (g : CodeGenerator) (i : Instruction) :
    (g.Insert i).module.nextValue = g.module.nextValue := by
  unfold CodeGenerator.Insert
  split <;> rfl

/-- Promotion changes the state by at most one conversion instruction. -/
theorem promoteOperands_state (L : LLVM) (f : Bool) (l r : Value) (s : CodeGenerator) :
    (promoteOperands L f l r s).2 = s ∨
      ∃ x n, (promoteOperands L f l r s).2 =
        s.takeValue.Insert (.Op n .SIToFP [x] getFloatType "int2float") := by
  unfold promoteOperands
  split
  · simp only [CodeGenerator.Create]
    split
    · exact Or.inl rfl
    · exact Or.inr ⟨_, _, rfl⟩
  · split
    · simp only [CodeGenerator.Create]
      split
      · exact Or.inl rfl
      · exact Or.inr ⟨_, _, rfl⟩
    · exact Or.inl rfl

/-! ## Relations kept by every step of expression lowering -/

theorem ExprSteps.pushValue_step {R : CodeGenerator → CodeGenerator → Prop} (hR : ExprSteps R)
    {g x : CodeGenerator} (v : Option Value) (h : R g x) : R g (pushValue v x) :=
  hR.trans _ _ _ h (hR.stack x _)

theorem ExprSteps.popValue_step {R : CodeGenerator → CodeGenerator → Prop} (hR : ExprSteps R)
    {g x : CodeGenerator} (h : R g x) : R g (popValue x).2 := by
  unfold mana.popValue
  split
  · exact h
  · exact hR.trans _ _ _ h (hR.stack x _)

theorem ExprSteps.reported {R : CodeGenerator → CodeGenerator → Prop} (hR : ExprSteps R)
    {g x : CodeGenerator} (s : DiagnosticSeverity) (m : String) (h : R g x) :
    R g (x.report s m) :=
  hR.trans _ _ _ h (hR.report x s m)

theorem ExprSteps.inserted {R : CodeGenerator → CodeGenerator → Prop} (hR : ExprSteps R)
    {g x : CodeGenerator} (i : Instruction) (hi : i.isAlloca = false) (h : R g x) :
    R g (x.takeValue.Insert i) :=
  hR.trans _ _ _ (hR.trans _ _ _ h (hR.takeValue x)) (hR.insert _ i hi)

theorem ExprSteps.Create_step {R : CodeGenerator → CodeGenerator → Prop} (hR : ExprSteps R)
    {g x : CodeGenerator} (L : LLVM) (op : BuilderOp) (operands : List Value) (ty : Ty)
    (n : String) (h : R g x) : R g (x.Create L op operands ty n).2 := by
  unfold CodeGenerator.Create
  split
  · exact h
  · exact hR.inserted _ rfl h

theorem ExprSteps.CreateLoad_step {R : CodeGenerator → CodeGenerator → Prop} (hR : ExprSteps R)
    {g x : CodeGenerator} (ty : Ty) (p : Value) (n : String) (h : R g x) :
    R g (x.CreateLoad ty p n).2 :=
  hR.inserted _ rfl h

theorem ExprSteps.CreateStore_step {R : CodeGenerator → CodeGenerator → Prop} (hR : ExprSteps R)
    {g x : CodeGenerator} (v : Option Value) (p : Value) (h : R g x) :
    R g (x.CreateStore v p) :=
  hR.trans _ _ _ h (hR.insert _ _ rfl)

theorem ExprSteps.CreateCall_step {R : CodeGenerator → CodeGenerator → Prop} (hR : ExprSteps R)
    {g x : CodeGenerator} (c : Option Nat) (args : List (Option Value)) (n : String)
    (h : R g x) : R g (x.CreateCall c args n).2 :=
  hR.inserted _ rfl h

theorem ExprSteps.CreateBr_step {R : CodeGenerator → CodeGenerator → Prop} (hR : ExprSteps R)
    {g x : CodeGenerator} (d : Nat) (h : R g x) : R g (x.CreateBr d) :=
  hR.trans _ _ _ h (hR.insert _ _ rfl)

theorem ExprSteps.CreateCondBr_step {R : CodeGenerator → CodeGenerator → Prop}
    (hR : ExprSteps R) {g x : CodeGenerator} (c : Value) (t f : Nat) (h : R g x) :
    R g (x.CreateCondBr c t f) :=
  hR.trans _ _ _ h (hR.insert _ _ rfl)

theorem ExprSteps.CreatePHI_step {R : CodeGenerator → CodeGenerator → Prop} (hR : ExprSteps R)
    {g x : CodeGenerator} (ty : Ty) (inc : List (Value × Option Nat)) (n : String)
    (h : R g x) : R g (x.CreatePHI ty inc n).2 :=
  hR.inserted _ rfl h

theorem ExprSteps.toBool_step {R : CodeGenerator → CodeGenerator → Prop} (hR : ExprSteps R)
    {g x : CodeGenerator} (L : LLVM) (n : String) (v : Value) (h : R g x) :
    R g (toBool L n v x).2 := by
  unfold mana.toBool
  split
  · exact h
  · exact hR.Create_step _ _ _ _ _ h

theorem ExprSteps.created {R : CodeGenerator → CodeGenerator → Prop} (hR : ExprSteps R)
    {g x : CodeGenerator} (n : String) (p : Option Nat) (h : R g x) :
    R g (x.createBlock n p).2 :=
  hR.trans _ _ _ h (hR.createBlock x n p)

theorem ExprSteps.moved {R : CodeGenerator → CodeGenerator → Prop} (hR : ExprSteps R)
    {g x : CodeGenerator} (bb : Nat) (h : R g x) : R g (x.SetInsertPoint bb) :=
  hR.trans _ _ _ h (hR.setInsertPoint x bb)

theorem ExprSteps.accept_step {R : CodeGenerator → CodeGenerator → Prop} (hR : ExprSteps R)
    {g x : CodeGenerator} {f : CodeGenerator → CodeGenerator} (hf : ∀ s, R s (f s))
    (h : R g x) : R g (f x) :=
  hR.trans _ _ _ h (hf x)

theorem visitLiteralExpr_steps {R : CodeGenerator → CodeGenerator → Prop}
    (hR : ExprSteps R) (L : LLVM) (value : LiteralValue) (g : CodeGenerator) :
    R g (visitLiteralExpr L value g) := by
  cases value with
  | string v =>
    simp only [visitLiteralExpr]
    exact hR.pushValue_step _ (hR.Create_step _ _ _ _ _ (hR.createGlobal g _ _ _ _))
  | _ => exact hR.pushValue_step _ (hR.refl g)

theorem visitUnaryExpr_steps {R : CodeGenerator → CodeGenerator → Prop}
    (hR : ExprSteps R) (L : LLVM) (op : Token)
    {acceptRight : CodeGenerator → CodeGenerator} (h : ∀ s, R s (acceptRight s))
    (g : CodeGenerator) : R g (visitUnaryExpr L op acceptRight g) := by
  have hr : R g (popValue (acceptRight g)).2 := hR.popValue_step (h g)
  unfold visitUnaryExpr
  simp only []
  split
  · exact hR.pushValue_step _ (hR.reported _ _ hr)
  · split
    · split
      · exact hR.pushValue_step _ (hR.Create_step _ _ _ _ _ hr)
      · split
        · exact hR.pushValue_step _ (hR.Create_step _ _ _ _ _ hr)
        · exact hR.pushValue_step _ (hR.reported _ _ hr)
    · split
      · split
        · exact hR.pushValue_step _ (hR.Create_step _ _ _ _ _ (hR.Create_step _ _ _ _ _ hr))
        · exact hR.pushValue_step _ (hR.reported _ _ hr)
      · exact hr

theorem logicalBranch_steps {R : CodeGenerator → CodeGenerator → Prop}
    (hR : ExprSteps R) {g x : CodeGenerator} (L : LLVM) (op : Token)
    (right_bb merge_bb : Nat) (left : Value) (h : R g x) :
    R g (logicalBranch L op right_bb merge_bb left x) := by
  unfold logicalBranch
  simp only []
  split
  · exact hR.moved _ (hR.CreateCondBr_step _ _ _ (hR.toBool_step L _ _ h))
  · exact hR.moved _ (hR.CreateCondBr_step _ _ _ (hR.toBool_step L _ _ h))

theorem logicalRight_steps {R : CodeGenerator → CodeGenerator → Prop}
    (hR : ExprSteps R) {g : CodeGenerator} (L : LLVM) (op : Token) (merge_bb : Nat)
    (r : Option Value × CodeGenerator) (h : R g r.2) :
    R g (logicalRight L op merge_bb r) := by
  unfold logicalRight
  split
  · exact hR.pushValue_step _ (hR.reported _ _ h)
  · split
    · exact hR.pushValue_step _ (hR.reported _ _ h)
    · unfold logicalMerge
      simp only []
      exact hR.pushValue_step _ (hR.CreatePHI_step _ _ _
        (hR.moved _ (hR.CreateBr_step _ (hR.toBool_step L _ _ h))))

theorem visitLogicalExpr_steps {R : CodeGenerator → CodeGenerator → Prop}
    (hR : ExprSteps R) (L : LLVM) (op : Token)
    {acceptLeft acceptRight : CodeGenerator → CodeGenerator}
    (hl : ∀ s, R s (acceptLeft s)) (hr : ∀ s, R s (acceptRight s))
    (g : CodeGenerator) : R g (visitLogicalExpr L op acceptLeft acceptRight g) := by
  have hs : R g (logicalLeft acceptLeft g).state := by
    rw [logicalLeft_state]
    exact hR.popValue_step (hR.accept_step hl (hR.created _ _ (hR.created _ _ (hR.refl g))))
  unfold visitLogicalExpr
  simp only []
  split
  · exact hR.pushValue_step _ (hR.reported _ _ hs)
  · split
    · exact hR.pushValue_step _ (hR.reported _ _ hs)
    · exact logicalRight_steps hR L op _ _
        (hR.popValue_step (hR.accept_step hr (logicalBranch_steps hR L op _ _ _ hs)))

theorem binaryCase_steps {R : CodeGenerator → CodeGenerator → Prop}
    (hR : ExprSteps R) {g x : CodeGenerator} (L : LLVM) (f i : Bool) (fop : BuilderOp)
    (fname : String) (iop : BuilderOp) (iname : String) (ty : Ty) (msg : String)
    (l r : Value) (h : R g x) :
    R g (binaryCase L f i fop fname iop iname ty msg l r x) := by
  unfold binaryCase
  split
  · exact hR.pushValue_step _ (hR.Create_step _ _ _ _ _ h)
  · split
    · exact hR.pushValue_step _ (hR.Create_step _ _ _ _ _ h)
    · exact hR.pushValue_step _ (hR.reported _ _ h)

theorem promoteOperands_steps {R : CodeGenerator → CodeGenerator → Prop}
    (hR : ExprSteps R) {g x : CodeGenerator} (L : LLVM) (f : Bool) (l r : Value)
    (h : R g x) : R g (promoteOperands L f l r x).2 := by
  unfold promoteOperands
  split
  · exact hR.Create_step _ _ _ _ _ h
  · split
    · exact hR.Create_step _ _ _ _ _ h
    · exact h

theorem binarySwitch_steps {R : CodeGenerator → CodeGenerator → Prop}
    (hR : ExprSteps R) {g x : CodeGenerator} (L : LLVM) (op : Token) (f i : Bool)
    (l r : Value) (h : R g x) : R g (binarySwitch L op f i l r x) := by
  unfold binarySwitch
  simp only []
  split <;>
    first
    | exact binaryCase_steps hR L _ _ _ _ _ _ _ _ _ _ h
    | exact hR.pushValue_step _ (hR.reported _ _ h)
    | (split
       · exact hR.pushValue_step _ (hR.Create_step _ _ _ _ _ h)
       · exact hR.pushValue_step _ (hR.reported _ _ h))

theorem visitBinaryExpr_steps {R : CodeGenerator → CodeGenerator → Prop}
    (hR : ExprSteps R) (L : LLVM) (op : Token)
    {acceptLeft acceptRight : CodeGenerator → CodeGenerator}
    (hl : ∀ s, R s (acceptLeft s)) (hr : ∀ s, R s (acceptRight s))
    (g : CodeGenerator) : R g (visitBinaryExpr L op acceptLeft acceptRight g) := by
  unfold visitBinaryExpr
  split
  · exact visitLogicalExpr_steps hR L op hl hr g
  · have h2 : R g (popValue (acceptRight (popValue (acceptLeft g)).2)).2 :=
      hR.popValue_step (hR.accept_step hr (hR.popValue_step (hl g)))
    unfold visitRegularBinaryExpr
    simp only []
    split
    · exact binarySwitch_steps hR L op _ _ _ _ (promoteOperands_steps hR L _ _ _ h2)
    · exact hR.pushValue_step _ (hR.reported _ _ h2)

theorem visitVariableExpr_steps {R : CodeGenerator → CodeGenerator → Prop}
    (hR : ExprSteps R) (name : Token) (g : CodeGenerator) :
    R g (visitVariableExpr name g) := by
  unfold visitVariableExpr
  split
  · exact hR.pushValue_step _ (hR.reported _ _ (hR.refl g))
  · exact hR.pushValue_step _ (hR.CreateLoad_step _ _ _ (hR.refl g))

theorem visitAssignExpr_steps {R : CodeGenerator → CodeGenerator → Prop}
    (hR : ExprSteps R) (name : Token) {acceptValue : CodeGenerator → CodeGenerator}
    (h : ∀ s, R s (acceptValue s)) (g : CodeGenerator) :
    R g (visitAssignExpr name acceptValue g) := by
  have hp : R g (popValue (acceptValue g)).2 := hR.popValue_step (h g)
  unfold visitAssignExpr
  simp only []
  split
  · exact hR.pushValue_step _ (hR.reported _ _ hp)
  · exact hR.pushValue_step _ (hR.CreateStore_step _ _ hp)

theorem visitCallExpr_steps {R : CodeGenerator → CodeGenerator → Prop}
    (hR : ExprSteps R) (var_expr : Option Token)
    {acceptCallee : CodeGenerator → CodeGenerator}
    {acceptArgs : CodeGenerator → List (Option Value) × CodeGenerator}
    (hc : ∀ s, R s (acceptCallee s)) (ha : ∀ s, R s (acceptArgs s).2)
    (g : CodeGenerator) : R g (visitCallExpr var_expr acceptCallee acceptArgs g) := by
  have hp : R g (popValue (acceptCallee g)).2 := hR.popValue_step (hc g)
  unfold visitCallExpr
  simp only []
  split
  · split
    · exact hR.pushValue_step _ (hR.reported _ _ (hR.refl g))
    · exact hR.pushValue_step _ (hR.CreateCall_step _ _ _ (ha g))
  · split
    · exact hR.pushValue_step _ (hR.reported _ _ hp)
    · split
      · exact hR.pushValue_step _ (hR.reported _ _ hp)
      · split
        · exact hR.pushValue_step _ (hR.CreateCall_step _ _ _ (hR.trans _ _ _ hp (ha _)))
        · exact hR.pushValue_step _ (hR.reported _ _ hp)

mutual
/-- A relation kept by every step of expression lowering is kept by lowering any
expression. -/
theorem Expr.accept_steps {R : CodeGenerator → CodeGenerator → Prop} (hR : ExprSteps R)
    (L : LLVM) : ∀ (e : Expr) (g : CodeGenerator), R g (e.accept L g)
  | .LiteralExpr value => by
    rw [Expr.accept]
    exact visitLiteralExpr_steps hR L value
  | .UnaryExpr op right => by
    rw [Expr.accept]
    exact visitUnaryExpr_steps hR L op (Expr.accept_steps hR L right)
  | .BinaryExpr left op right => by
    rw [Expr.accept]
    exact visitBinaryExpr_steps hR L op (Expr.accept_steps hR L left)
      (Expr.accept_steps hR L right)
  | .GroupingExpr expression => by
    rw [Expr.accept]
    exact Expr.accept_steps hR L expression
  | .VariableExpr name => by
    rw [Expr.accept]
    exact visitVariableExpr_steps hR name
  | .AssignExpr name value => by
    rw [Expr.accept]
    exact visitAssignExpr_steps hR name (Expr.accept_steps hR L value)
  | .CallExpr callee paren arguments => by
    rw [Expr.accept]
    exact visitCallExpr_steps hR _ (Expr.accept_steps hR L callee)
      (acceptArguments_steps hR L arguments [])
/-- The argument loop of a call keeps such a relation. -/
theorem acceptArguments_steps {R : CodeGenerator → CodeGenerator → Prop}
    (hR : ExprSteps R) (L : LLVM) :
    ∀ (arguments : List Expr) (args : List (Option Value)) (g : CodeGenerator),
      R g (acceptArguments L arguments args g).2
  | [], _ => by
    intro g
    rw [acceptArguments]
    exact hR.refl g
  | arg :: rest, args => by
    intro g
    rw [acceptArguments]
    exact hR.trans _ _ _ (hR.popValue_step (Expr.accept_steps hR L arg g))
      (acceptArguments_steps hR L rest _ _)
end

/-! ## What expression lowering keeps -/

theorem instructionsOf_appendInstruction_ne (m : IRModule) (bb b : Nat) (i : Instruction)
    (h : b ≠ bb) : (m.appendInstruction bb i).instructionsOf b = m.instructionsOf b := by
  unfold IRModule.instructionsOf IRModule.appendInstruction
  simp only [getElem?_updateAt_ne _ _ _ _ h]

theorem allocas_appendInstruction (m : IRModule) (bb : Nat) (i : Instruction)
    (hi : i.isAlloca = false) (b : Nat) :
    ((m.appendInstruction bb i).instructionsOf b).filter Instruction.isAlloca =
      (m.instructionsOf b).filter Instruction.isAlloca := by
  by_cases h : b = bb
  · subst h
    unfold IRModule.instructionsOf IRModule.appendInstruction
    simp only [getElem?_updateAt_self]
    cases m.blocks[b]? with
    | none => rfl
    | some blk => simp [hi]
  · rw [instructionsOf_appendInstruction_ne m bb b i h]

theorem instructionsOf_createBlock (m : IRModule) (n : String) (p : Option Nat) (b : Nat) :
    (m.createBlock n p).2.instructionsOf b = m.instructionsOf b := by
  unfold IRModule.instructionsOf IRModule.createBlock
  simp only []
  by_cases h : b < m.blocks.length
  · rw [List.getElem?_append_left h]
  · rw [List.getElem?_append_right (Nat.le_of_not_lt h),
      List.getElem?_eq_none (Nat.le_of_not_lt h)]
    cases hb : b - m.blocks.length with
    | zero => rfl
    | succ k => rfl

theorem getEntryBlock_createBlock (m : IRModule) (n : String) (p f : Option Nat) (e : Nat)
    (h : m.getEntryBlock f = some e) : (m.createBlock n p).2.getEntryBlock f = some e := by
  cases f with
  | none => exact absurd h (by simp [IRModule.getEntryBlock])
  | some f =>
    cases p with
    | none => exact h
    | some q =>
      unfold IRModule.getEntryBlock IRModule.createBlock at *
      simp only [] at *
      by_cases hq : f = q
      · subst hq
        rw [getElem?_updateAt_self]
        cases hf : m.functions[f]? with
        | none => rw [hf] at h; exact absurd h (by simp)
        | some fn =>
          rw [hf] at h
          simp only [Option.map_some'] at *
          cases hb : fn.blocks with
          | nil => rw [hb] at h; exact absurd h (by simp)
          | cons x xs => rw [hb] at h; simpa using h
      · rw [getElem?_updateAt_ne _ _ _ _ hq]
        exact h

theorem ExprKeeps.same {g x : CodeGenerator} (hn : x.named_values = g.named_values)
    (hf : x.functions = g.functions) (hc : x.current_function = g.current_function)
    (hs : x.symbol_table = g.symbol_table)
    (hl : x.module.functionList = g.module.functionList)
    (hfs : x.module.functions = g.module.functions)
    (hb : x.module.blocks = g.module.blocks) : ExprKeeps g x := by
  refine ⟨hn, hf, hc, hs, hl, ?_, ?_⟩
  · intro f e h
    unfold IRModule.getEntryBlock at *
    rw [hfs]
    exact h
  · intro b
    unfold IRModule.instructionsOf
    rw [hb]

/-- Expression lowering keeps the bindings, the function table, the current function,
the symbol table, the function list, the entry blocks and the allocations. -/
theorem exprSteps_exprKeeps : ExprSteps ExprKeeps where
  refl := fun g => ExprKeeps.same rfl rfl rfl rfl rfl rfl rfl
  trans := by
    intro a b c h1 h2
    obtain ⟨a1, a2, a3, a4, a5, a6, a7⟩ := h1
    obtain ⟨b1, b2, b3, b4, b5, b6, b7⟩ := h2
    refine ⟨b1.trans a1, b2.trans a2, b3.trans a3, b4.trans a4, b5.trans a5, ?_, ?_⟩
    · intro f e h
      exact b6 f e (a6 f e h)
    · intro b
      exact (b7 b).trans (a7 b)
  stack := fun g s => ExprKeeps.same rfl rfl rfl rfl rfl rfl rfl
  report := fun g sev msg => ExprKeeps.same rfl rfl rfl rfl rfl rfl rfl
  insert := by
    intro g i hi
    unfold CodeGenerator.Insert
    split
    · exact ExprKeeps.same rfl rfl rfl rfl rfl rfl rfl
    · exact ⟨rfl, rfl, rfl, rfl, rfl, fun f e h => h,
        fun b => allocas_appendInstruction _ _ _ hi b⟩
  takeValue := fun g => ExprKeeps.same rfl rfl rfl rfl rfl rfl rfl
  createBlock := by
    intro g n p
    refine ⟨rfl, rfl, rfl, rfl, rfl, ?_, ?_⟩
    · intro f e h
      exact getEntryBlock_createBlock _ _ _ _ _ h
    · intro b
      exact congrArg _ (instructionsOf_createBlock _ _ _ b)
  setInsertPoint := fun g bb => ExprKeeps.same rfl rfl rfl rfl rfl rfl rfl
  createGlobal := fun g ty c init n => ExprKeeps.same rfl rfl rfl rfl rfl rfl rfl

/-- Lowering an expression keeps what `ExprKeeps` lists. -/
theorem Expr.accept_keeps (L : LLVM) (e : Expr) (g : CodeGenerator) :
    ExprKeeps g (e.accept L g) :=
  Expr.accept_steps exprSteps_exprKeeps L e g

theorem mapFind_mapAssign {α : Type} (m : List (String × α)) (k : String) (v : α) :
    mapFind (mapAssign m k v) k = some v := by
  simp [mapFind, mapAssign, List.lookup]

/-! ## The allocation of a slot -/

theorem instructionsOf_prependInstruction (m : IRModule) (e : Nat) (i : Instruction)
    (h : e < m.blocks.length) :
    (m.prependInstruction e i).instructionsOf e = i :: m.instructionsOf e := by
  unfold IRModule.instructionsOf IRModule.prependInstruction
  simp only [getElem?_updateAt_self]
  rw [List.getElem?_eq_getElem h]
  rfl

theorem instructionsOf_prependInstruction_ne (m : IRModule) (e b : Nat) (i : Instruction)
    (h : b ≠ e) : (m.prependInstruction e i).instructionsOf b = m.instructionsOf b := by
  unfold IRModule.instructionsOf IRModule.prependInstruction
  simp only [getElem?_updateAt_ne _ _ _ _ h]

/-- The slot allocation: the instruction lands at the head of the entry block of the
function, every other block is unchanged. -/
theorem createEntryBlockAlloca_entry (f : Option Nat) (name : String) (ty : Ty)
    (s : CodeGenerator) (e : Nat) (he : s.module.getEntryBlock f = some e)
    (hlen : e < s.module.blocks.length) :
    (createEntryBlockAlloca f name ty s).1 =
      { id := s.module.nextValue, allocatedType := ty, name := name } ∧
    (createEntryBlockAlloca f name ty s).2.module.instructionsOf e =
      .Alloca s.module.nextValue ty name :: s.module.instructionsOf e ∧
    (∀ b, b ≠ e → (createEntryBlockAlloca f name ty s).2.module.instructionsOf b =
      s.module.instructionsOf b) ∧
    (createEntryBlockAlloca f name ty s).2.named_values = s.named_values ∧
    (createEntryBlockAlloca f name ty s).2.diagnostics = s.diagnostics ∧
    (createEntryBlockAlloca f name ty s).2.insertBlock = s.insertBlock := by
  unfold createEntryBlockAlloca
  simp only [he]
  refine ⟨trivial, ?_, ?_, rfl, rfl, rfl⟩
  · exact instructionsOf_prependInstruction _ _ _ hlen
  · intro b hb
    exact instructionsOf_prependInstruction_ne _ _ _ _ hb

theorem head?_instructionsOf_Insert (g : CodeGenerator) (i x : Instruction) (b : Nat)
    (h : (g.module.instructionsOf b).head? = some x) :
    ((g.Insert i).module.instructionsOf b).head? = some x := by
  unfold CodeGenerator.Insert
  split
  · exact h
  · rename_i bb _
    by_cases hb : b = bb
    · subst hb
      have hlen : b < g.module.blocks.length := by
        by_contra hc
        unfold IRModule.instructionsOf at h
        rw [List.getElem?_eq_none (Nat.le_of_not_lt hc)] at h
        exact absurd h (by simp)
      show ((g.module.appendInstruction b i).instructionsOf b).head? = some x
      rw [instructionsOf_appendInstruction _ _ _ hlen]
      cases hl : g.module.instructionsOf b with
      | nil => rw [hl] at h; exact absurd h (by simp)
      | cons y ys => rw [hl] at h; simpa using h
    · show ((g.module.appendInstruction bb i).instructionsOf b).head? = some x
      rw [instructionsOf_appendInstruction_ne _ _ _ _ hb]
      exact h

theorem allocas_Insert (g : CodeGenerator) (i : Instruction) (hi : i.isAlloca = false)
    (b : Nat) :
    ((g.Insert i).module.instructionsOf b).filter Instruction.isAlloca =
      (g.module.instructionsOf b).filter Instruction.isAlloca :=
  (exprSteps_exprKeeps.insert g i hi).2.2.2.2.2.2 b

/-- The state in which a declaration allocates its slot: the one its initializer
leaves. -/
theorem initializer_keeps (L : LLVM) (init : Option Expr) (g : CodeGenerator) :
    ExprKeeps g
      (match init.map (fun e : Expr => e.accept L) with
       | some acceptInit => popValue (acceptInit g)
       | none => ((none, g) : Option Value × CodeGenerator)).2 ∧
    g.module.blocks.length ≤
      (match init.map (fun e : Expr => e.accept L) with
       | some acceptInit => popValue (acceptInit g)
       | none => ((none, g) : Option Value × CodeGenerator)).2.module.blocks.length := by
  cases init with
  | none => exact ⟨exprSteps_exprKeeps.refl g, Nat.le_refl _⟩
  | some e =>
    exact ⟨exprSteps_exprKeeps.popValue_step (Expr.accept_keeps L e g),
      (Frame.popValue (Expr.accept_frame L e g)).1⟩

/-! ## Blocks under statement lowering -/

theorem SFrame.rfl_step (g : CodeGenerator) : SFrame g g :=
  ⟨Nat.le_refl _, fun _ _ _ => List.suffix_refl _, Or.inl rfl⟩

theorem SFrame.trans_step {a b c : CodeGenerator} (h1 : SFrame a b) (h2 : SFrame b c) :
    SFrame a c := by
  obtain ⟨l1, u1, i1⟩ := h1
  obtain ⟨l2, u2, i2⟩ := h2
  refine ⟨Nat.le_trans l1 l2, ?_, ?_⟩
  · intro i hi hne
    refine (u1 i hi hne).trans (u2 i (Nat.lt_of_lt_of_le hi l1) ?_)
    rcases i1 with e | ⟨j, ej, hj, _⟩
    · rw [e]
      exact hne
    · rw [ej]
      intro e2
      have : i = j := Option.some.inj e2
      omega
  · rcases i2 with e | ⟨j, ej, hj, hlt⟩
    · rcases i1 with e1 | ⟨k, ek, hk, hlt1⟩
      · exact Or.inl (e.trans e1)
      · exact Or.inr ⟨k, e.trans ek, hk, Nat.lt_of_lt_of_le hlt1 l2⟩
    · exact Or.inr ⟨j, ej, Nat.le_trans l1 hj, hlt⟩

theorem SFrame.of_frame {g x : CodeGenerator} (h : Frame g x) : SFrame g x := by
  obtain ⟨l, u, ib⟩ := h
  refine ⟨l, ?_, ib⟩
  intro i hi hne
  unfold IRModule.instructionsOf
  rw [u i hi hne]

/-- A step that leaves the instructions of every block, the number of blocks and the
insertion point as they were. -/
theorem SFrame.same_step {g x y : CodeGenerator} (h : SFrame g x)
    (hl : y.module.blocks.length = x.module.blocks.length)
    (hb : ∀ i, y.module.instructionsOf i = x.module.instructionsOf i)
    (hi : y.insertBlock = x.insertBlock) : SFrame g y := by
  unfold SFrame at *
  rw [hl, hi]
  refine ⟨h.1, ?_, h.2.2⟩
  intro i h1 h2
  rw [hb i]
  exact h.2.1 i h1 h2

theorem SFrame.framed {g x y : CodeGenerator} (h : SFrame g x) (hf : Frame x y) :
    SFrame g y :=
  h.trans_step (SFrame.of_frame hf)

theorem SFrame.Insert_step {g x : CodeGenerator} (i : Instruction) (h : SFrame g x) :
    SFrame g (x.Insert i) :=
  h.framed ((Frame.refl x).Insert i)

theorem SFrame.createBlock_step {g x : CodeGenerator} (n : String) (p : Option Nat)
    (h : SFrame g x) : SFrame g (x.createBlock n p).2 :=
  h.framed ((Frame.refl x).createBlock n p)

/-- Moving the insertion point to a block created since `g`. -/
theorem SFrame.SetInsertPoint_step {g x : CodeGenerator} (bb : Nat) (h : SFrame g x)
    (h1 : g.module.blocks.length ≤ bb) (h2 : bb < x.module.blocks.length) :
    SFrame g (x.SetInsertPoint bb) :=
  ⟨h.1, h.2.1, Or.inr ⟨bb, rfl, h1, h2⟩⟩

theorem instructionsOf_pushBackBlock (m : IRModule) (f : Option Nat) (bb i : Nat) :
    (m.pushBackBlock f bb).instructionsOf i = m.instructionsOf i := by
  cases f with
  | none => rfl
  | some f =>
    unfold IRModule.instructionsOf IRModule.pushBackBlock
    simp only []
    by_cases h : i = bb
    · subst h
      rw [getElem?_updateAt_self]
      cases m.blocks[i]? <;> rfl
    · rw [getElem?_updateAt_ne _ _ _ _ h]

theorem length_pushBackBlock (m : IRModule) (f : Option Nat) (bb : Nat) :
    (m.pushBackBlock f bb).blocks.length = m.blocks.length := by
  cases f with
  | none => rfl
  | some f => simp [IRModule.pushBackBlock, length_updateAt]

theorem SFrame.pushBackBlock_step {g x : CodeGenerator} (f : Option Nat) (bb : Nat)
    (h : SFrame g x) : SFrame g (x.pushBackBlock f bb) :=
  h.same_step (length_pushBackBlock _ _ _) (instructionsOf_pushBackBlock _ _ _) rfl

theorem SFrame.alloca_step {g x : CodeGenerator} (f : Option Nat) (n : String) (ty : Ty)
    (h : SFrame g x) : SFrame g (createEntryBlockAlloca f n ty x).2 := by
  apply h.trans_step
  unfold createEntryBlockAlloca
  simp only []
  split
  · exact SFrame.of_frame ((Frame.refl x).takeValue)
  · rename_i entry _
    refine ⟨?_, ?_, Or.inl rfl⟩
    · simp [IRModule.prependInstruction, length_updateAt, CodeGenerator.takeValue]
    · intro i hi _
      by_cases hie : i = entry
      · subst hie
        have e := instructionsOf_prependInstruction x.takeValue.module i
          (.Alloca x.module.nextValue ty n) hi
        show _ <:+ (x.takeValue.module.prependInstruction i _).instructionsOf i
        rw [e]
        exact List.suffix_cons _ _
      · have e := instructionsOf_prependInstruction_ne x.takeValue.module entry i
          (.Alloca x.module.nextValue ty n) hie
        show _ <:+ (x.takeValue.module.prependInstruction entry _).instructionsOf i
        rw [e]
        exact List.suffix_refl _

theorem length_Insert (x : CodeGenerator) (i : Instruction) :
    (x.Insert i).module.blocks.length = x.module.blocks.length := by
  unfold CodeGenerator.Insert
  split
  · rfl
  · simp [IRModule.appendInstruction, length_updateAt]

theorem length_createBlock (x : CodeGenerator) (n : String) (p : Option Nat) :
    (x.createBlock n p).2.module.blocks.length = x.module.blocks.length + 1 := by
  simp [CodeGenerator.createBlock, IRModule.createBlock]

theorem fst_createBlock (x : CodeGenerator) (n : String) (p : Option Nat) :
    (x.createBlock n p).1 = x.module.blocks.length := rfl

theorem length_CreateBr (x : CodeGenerator) (d : Nat) :
    (x.CreateBr d).module.blocks.length = x.module.blocks.length :=
  length_Insert x _

theorem length_CreateCondBr (x : CodeGenerator) (c : Value) (t f : Nat) :
    (x.CreateCondBr c t f).module.blocks.length = x.module.blocks.length :=
  length_Insert x _

theorem length_pushBackBlock_state (x : CodeGenerator) (f : Option Nat) (bb : Nat) :
    (x.pushBackBlock f bb).module.blocks.length = x.module.blocks.length :=
  length_pushBackBlock _ _ _

theorem length_SetInsertPoint (x : CodeGenerator) (bb : Nat) :
    (x.SetInsertPoint bb).module.blocks.length = x.module.blocks.length := rfl

theorem length_toBool (L : LLVM) (n : String) (v : Value) (x : CodeGenerator) :
    (toBool L n v x).2.module.blocks.length = x.module.blocks.length := by
  unfold toBool CodeGenerator.Create
  split
  · rfl
  · split
    · rfl
    · exact length_Insert _ _

theorem visitExpressionStmt_sframe {acceptExpression : CodeGenerator → CodeGenerator}
    (h : ∀ s, Frame s (acceptExpression s)) (g : CodeGenerator) :
    SFrame g (visitExpressionStmt acceptExpression g) :=
  SFrame.of_frame (h g).popValue

theorem visitVarDeclStmt_sframe (name : Token)
    (acceptInitializer : Option (CodeGenerator → CodeGenerator))
    (h : ∀ f, acceptInitializer = some f → ∀ s, Frame s (f s)) (g : CodeGenerator) :
    SFrame g (visitVarDeclStmt name acceptInitializer g) := by
  unfold visitVarDeclStmt
  cases acceptInitializer with
  | none =>
    exact ((SFrame.rfl_step g).alloca_step _ _ _).same_step rfl (fun _ => rfl) rfl
  | some f =>
    simp only []
    have h0 : SFrame g (popValue (f g)).2 := SFrame.of_frame (h f rfl g).popValue
    split
    · exact ((h0.alloca_step _ _ _).Insert_step _).same_step rfl (fun _ => rfl) rfl
    · exact (h0.alloca_step _ _ _).same_step rfl (fun _ => rfl) rfl

theorem visitBlockStmt_sframe {acceptStatements : CodeGenerator → CodeGenerator}
    (h : ∀ s, SFrame s (acceptStatements s)) (g : CodeGenerator) :
    SFrame g (visitBlockStmt acceptStatements g) := by
  unfold visitBlockStmt
  have h1 : SFrame g { g with symbol_table := g.symbol_table.enterScope } :=
    (SFrame.rfl_step g).same_step rfl (fun _ => rfl) rfl
  exact (h1.trans_step (h { g with symbol_table := g.symbol_table.enterScope })).same_step
    rfl (fun _ => rfl) rfl

theorem visitReturnStmt_sframe (acceptValue : Option (CodeGenerator → CodeGenerator))
    (h : ∀ f, acceptValue = some f → ∀ s, Frame s (f s)) (g : CodeGenerator) :
    SFrame g (visitReturnStmt acceptValue g) := by
  unfold visitReturnStmt
  split
  · exact SFrame.of_frame ((Frame.refl g).report _ _)
  · cases acceptValue with
    | none => exact (SFrame.rfl_step g).Insert_step _
    | some f =>
      simp only []
      have h0 : SFrame g (popValue (f g)).2 := SFrame.of_frame (h f rfl g).popValue
      split
      · exact h0.Insert_step _
      · exact h0.Insert_step _

/-! ## The stages of if and while lowering -/

theorem visitIfStmt_of_condition (L : LLVM)
    (acceptCondition acceptThen acceptElse : CodeGenerator → CodeGenerator)
    (g : CodeGenerator) (c0 : Value) (h : (popValue (acceptCondition g)).1 = some c0) :
    visitIfStmt L acceptCondition acceptThen acceptElse g =
      ifEnd (ifStart L c0 (popValue (acceptCondition g)).2)
        (acceptElse (ifElseStart (ifStart L c0 (popValue (acceptCondition g)).2)
          (acceptThen (ifStart L c0 (popValue (acceptCondition g)).2).state))) := by
  unfold visitIfStmt
  simp only [h]
  rfl

theorem visitIfStmt_of_null (L : LLVM)
    (acceptCondition acceptThen acceptElse : CodeGenerator → CodeGenerator)
    (g : CodeGenerator) (h : (popValue (acceptCondition g)).1 = none) :
    visitIfStmt L acceptCondition acceptThen acceptElse g = (popValue (acceptCondition g)).2 := by
  unfold visitIfStmt
  simp only [h]

theorem visitWhileStmt_of_condition (L : LLVM)
    (acceptCondition acceptBody : CodeGenerator → CodeGenerator)
    (g : CodeGenerator) (c0 : Value)
    (h : (popValue (acceptCondition (whileStart g).state)).1 = some c0) :
    visitWhileStmt L acceptCondition acceptBody g =
      whileEnd (whileStart g)
        (acceptBody (whileBodyStart L (whileStart g) c0
          (popValue (acceptCondition (whileStart g).state)).2).2) := by
  unfold visitWhileStmt
  simp only []
  have h1 : (popValue (acceptCondition (((((g.createBlock "while.cond"
      g.insertFunction).2.createBlock "while.body" none).2.createBlock "while.exit"
      none).2.CreateBr (g.createBlock "while.cond" g.insertFunction).1).SetInsertPoint
      (g.createBlock "while.cond" g.insertFunction).1))).1 = some c0 := h
  simp only [h1]
  rfl

theorem visitWhileStmt_of_null (L : LLVM)
    (acceptCondition acceptBody : CodeGenerator → CodeGenerator)
    (g : CodeGenerator)
    (h : (popValue (acceptCondition (whileStart g).state)).1 = none) :
    visitWhileStmt L acceptCondition acceptBody g =
      (popValue (acceptCondition (whileStart g).state)).2 := by
  unfold visitWhileStmt
  simp only []
  have h1 : (popValue (acceptCondition (((((g.createBlock "while.cond"
      g.insertFunction).2.createBlock "while.body" none).2.createBlock "while.exit"
      none).2.CreateBr (g.createBlock "while.cond" g.insertFunction).1).SetInsertPoint
      (g.createBlock "while.cond" g.insertFunction).1))).1 = none := h
  simp only [h1]
  rfl

/-- The numbering of the blocks of an if statement. -/
theorem ifStart_blocks (L : LLVM) (c0 : Value) (s : CodeGenerator) :
    (ifStart L c0 s).then_bb = s.module.blocks.length ∧
    (ifStart L c0 s).else_bb = s.module.blocks.length + 1 ∧
    (ifStart L c0 s).merge_bb = s.module.blocks.length + 2 ∧
    (ifStart L c0 s).state.module.blocks.length = s.module.blocks.length + 3 ∧
    (ifStart L c0 s).state.insertBlock = some s.module.blocks.length ∧
    (ifStart L c0 s).cond_val = (toBool L "ifcond" c0 s).1 := by
  unfold ifStart
  simp only [fst_createBlock, length_createBlock, length_toBool, length_SetInsertPoint,
    length_CreateCondBr, CodeGenerator.SetInsertPoint]
  exact ⟨trivial, trivial, trivial, trivial, trivial, trivial⟩

theorem ifStart_sframe {g s : CodeGenerator} (L : LLVM) (c0 : Value) (h : SFrame g s) :
    SFrame g (ifStart L c0 s).state := by
  have hb := ifStart_blocks L c0 s
  have h1 : SFrame g ((((toBool L "ifcond" c0 s).2.createBlock "then"
      (toBool L "ifcond" c0 s).2.insertFunction).2.createBlock "else" none).2.createBlock
      "ifcont" none).2 :=
    (((h.framed ((Frame.refl s).toBool L _ _)).createBlock_step _ _).createBlock_step
      _ _).createBlock_step _ _
  have h2 := (h1.Insert_step (.CondBr (toBool L "ifcond" c0 s).1
    ((toBool L "ifcond" c0 s).2.createBlock "then"
      (toBool L "ifcond" c0 s).2.insertFunction).1
    (((toBool L "ifcond" c0 s).2.createBlock "then"
      (toBool L "ifcond" c0 s).2.insertFunction).2.createBlock "else" none).1))
  refine SFrame.SetInsertPoint_step _ h2 ?_ ?_
  · rw [fst_createBlock, length_toBool]
    exact h.1
  · simp only [fst_createBlock, length_createBlock, length_toBool, length_Insert,
      length_CreateCondBr]
    omega

theorem ifElseStart_blocks (st : IfStart) (x : CodeGenerator) :
    (ifElseStart st x).module.blocks.length = x.module.blocks.length ∧
    (ifElseStart st x).insertBlock = some st.else_bb := by
  unfold ifElseStart
  simp only [length_SetInsertPoint, length_pushBackBlock_state, length_CreateBr]
  exact ⟨trivial, rfl⟩

theorem ifElseStart_sframe {g x : CodeGenerator} (st : IfStart) (h : SFrame g x)
    (h1 : g.module.blocks.length ≤ st.else_bb) (h2 : st.else_bb < x.module.blocks.length) :
    SFrame g (ifElseStart st x) := by
  unfold ifElseStart
  refine SFrame.SetInsertPoint_step _ ((h.Insert_step _).pushBackBlock_step _ _) h1 ?_
  simp only [length_pushBackBlock_state]
  rw [length_CreateBr]
  exact h2

theorem ifEnd_blocks (st : IfStart) (x : CodeGenerator) :
    (ifEnd st x).module.blocks.length = x.module.blocks.length ∧
    (ifEnd st x).insertBlock = some st.merge_bb := by
  unfold ifEnd
  simp only [length_SetInsertPoint, length_pushBackBlock_state, length_CreateBr]
  exact ⟨trivial, rfl⟩

theorem ifEnd_sframe {g x : CodeGenerator} (st : IfStart) (h : SFrame g x)
    (h1 : g.module.blocks.length ≤ st.merge_bb) (h2 : st.merge_bb < x.module.blocks.length) :
    SFrame g (ifEnd st x) := by
  unfold ifEnd
  refine SFrame.SetInsertPoint_step _ ((h.Insert_step _).pushBackBlock_step _ _) h1 ?_
  simp only [length_pushBackBlock_state]
  rw [length_CreateBr]
  exact h2

theorem visitIfStmt_sframe (L : LLVM)
    {acceptCondition acceptThen acceptElse : CodeGenerator → CodeGenerator}
    (hc : ∀ s, Frame s (acceptCondition s)) (ht : ∀ s, SFrame s (acceptThen s))
    (he : ∀ s, SFrame s (acceptElse s)) (g : CodeGenerator) :
    SFrame g (visitIfStmt L acceptCondition acceptThen acceptElse g) := by
  have h0 : SFrame g (popValue (acceptCondition g)).2 := SFrame.of_frame (hc g).popValue
  cases hv : (popValue (acceptCondition g)).1 with
  | none =>
    rw [visitIfStmt_of_null L _ _ _ g hv]
    exact h0
  | some c0 =>
    rw [visitIfStmt_of_condition L _ _ _ g c0 hv]
    obtain ⟨b1, b2, b3, b4, _, _⟩ := ifStart_blocks L c0 (popValue (acceptCondition g)).2
    have h1 := ifStart_sframe L c0 h0
    have h2 := h1.trans_step (ht _)
    have l2 := (ht (ifStart L c0 (popValue (acceptCondition g)).2).state).1
    have h3 := ifElseStart_sframe (ifStart L c0 (popValue (acceptCondition g)).2) h2
      (by rw [b2]; have := h0.1; omega) (by rw [b2]; omega)
    have l3 := (ifElseStart_blocks (ifStart L c0 (popValue (acceptCondition g)).2)
      (acceptThen (ifStart L c0 (popValue (acceptCondition g)).2).state)).1
    have h4 := h3.trans_step (he _)
    have l4 := (he (ifElseStart (ifStart L c0 (popValue (acceptCondition g)).2)
      (acceptThen (ifStart L c0 (popValue (acceptCondition g)).2).state))).1
    exact ifEnd_sframe _ h4 (by rw [b3]; have := h0.1; omega) (by rw [b3]; omega)

/-- The numbering of the blocks of a while statement. -/
theorem whileStart_blocks (g : CodeGenerator) :
    (whileStart g).cond_bb = g.module.blocks.length ∧
    (whileStart g).body_bb = g.module.blocks.length + 1 ∧
    (whileStart g).exit_bb = g.module.blocks.length + 2 ∧
    (whileStart g).state.module.blocks.length = g.module.blocks.length + 3 ∧
    (whileStart g).state.insertBlock = some g.module.blocks.length := by
  unfold whileStart
  simp only [fst_createBlock, length_createBlock, length_SetInsertPoint,
    length_CreateBr, CodeGenerator.SetInsertPoint]
  exact ⟨trivial, trivial, trivial, trivial, trivial⟩

theorem whileStart_sframe (g : CodeGenerator) : SFrame g (whileStart g).state := by
  have h1 : SFrame g (((g.createBlock "while.cond" g.insertFunction).2.createBlock
      "while.body" none).2.createBlock "while.exit" none).2 :=
    (((SFrame.rfl_step g).createBlock_step _ _).createBlock_step _ _).createBlock_step _ _
  have h2 := h1.Insert_step (.Br (g.createBlock "while.cond" g.insertFunction).1)
  refine SFrame.SetInsertPoint_step _ h2 ?_ ?_
  · rw [fst_createBlock]
  · simp only [fst_createBlock, length_createBlock, length_Insert, length_CreateBr]
    omega

theorem whileBodyStart_blocks (L : LLVM) (st : WhileStart) (c0 : Value)
    (s : CodeGenerator) :
    (whileBodyStart L st c0 s).2.module.blocks.length = s.module.blocks.length ∧
    (whileBodyStart L st c0 s).2.insertBlock = some st.body_bb ∧
    (whileBodyStart L st c0 s).1 = (toBool L "whilecond" c0 s).1 := by
  unfold whileBodyStart
  simp only [length_SetInsertPoint, length_pushBackBlock_state, length_CreateCondBr,
    length_toBool]
  exact ⟨trivial, rfl, trivial⟩

theorem whileBodyStart_sframe {g s : CodeGenerator} (L : LLVM) (st : WhileStart)
    (c0 : Value) (h : SFrame g s) (h1 : g.module.blocks.length ≤ st.body_bb)
    (h2 : st.body_bb < s.module.blocks.length) :
    SFrame g (whileBodyStart L st c0 s).2 := by
  unfold whileBodyStart
  refine SFrame.SetInsertPoint_step _
    (((h.framed ((Frame.refl s).toBool L _ _)).Insert_step _).pushBackBlock_step _ _) h1 ?_
  simp only [length_pushBackBlock_state]
  rw [length_CreateCondBr, length_toBool]
  exact h2

theorem whileEnd_blocks (st : WhileStart) (x : CodeGenerator) :
    (whileEnd st x).module.blocks.length = x.module.blocks.length ∧
    (whileEnd st x).insertBlock = some st.exit_bb := by
  unfold whileEnd
  simp only [length_SetInsertPoint, length_pushBackBlock_state, length_CreateBr]
  exact ⟨trivial, rfl⟩

theorem whileEnd_sframe {g x : CodeGenerator} (st : WhileStart) (h : SFrame g x)
    (h1 : g.module.blocks.length ≤ st.exit_bb) (h2 : st.exit_bb < x.module.blocks.length) :
    SFrame g (whileEnd st x) := by
  unfold whileEnd
  refine SFrame.SetInsertPoint_step _ ((h.Insert_step _).pushBackBlock_step _ _) h1 ?_
  simp only [length_pushBackBlock_state]
  rw [length_CreateBr]
  exact h2

theorem visitWhileStmt_sframe (L : LLVM)
    {acceptCondition acceptBody : CodeGenerator → CodeGenerator}
    (hc : ∀ s, Frame s (acceptCondition s)) (hb : ∀ s, SFrame s (acceptBody s))
    (g : CodeGenerator) : SFrame g (visitWhileStmt L acceptCondition acceptBody g) := by
  obtain ⟨b1, b2, b3, b4, _⟩ := whileStart_blocks g
  have h0 := whileStart_sframe g
  have h1 : SFrame g (popValue (acceptCondition (whileStart g).state)).2 :=
    h0.framed (hc _).popValue
  have l1 := ((hc (whileStart g).state).popValue).1
  cases hv : (popValue (acceptCondition (whileStart g).state)).1 with
  | none =>
    rw [visitWhileStmt_of_null L _ _ g hv]
    exact h1
  | some c0 =>
    rw [visitWhileStmt_of_condition L _ _ g c0 hv]
    have h2 := whileBodyStart_sframe L (whileStart g) c0 h1 (by rw [b2]; omega)
      (by rw [b2]; omega)
    have l2 := (whileBodyStart_blocks L (whileStart g) c0
      (popValue (acceptCondition (whileStart g).state)).2).1
    have h3 := h2.trans_step (hb _)
    have l3 := (hb (whileBodyStart L (whileStart g) c0
      (popValue (acceptCondition (whileStart g).state)).2).2).1
    exact whileEnd_sframe _ h3 (by rw [b3]; omega) (by rw [b3]; omega)

/-! ## The stages of function lowering -/

theorem visitFunctionStmt_eq (L : LLVM) (name : Token) (params : List Token)
    (acceptBody : CodeGenerator → CodeGenerator) (g : CodeGenerator) :
    visitFunctionStmt L name params acceptBody g =
      if L.verifyFunction
          (functionEnd g.current_function
            (acceptBody (functionStart name params g))).module
          g.module.functions.length then
        { functionEnd g.current_function (acceptBody (functionStart name params g)) with
          module := (functionEnd g.current_function
            (acceptBody (functionStart name params g))).module.eraseFromParent
              g.module.functions.length
          functions := mapErase (functionEnd g.current_function
            (acceptBody (functionStart name params g))).functions name.lexeme }.report
          .ERROR ("Function verification failed: " ++ name.lexeme)
      else functionEnd g.current_function (acceptBody (functionStart name params g)) :=
  rfl

theorem bindParameters_sframe {g : CodeGenerator} (function : Nat) :
    ∀ (ps : List (String × Ty)) (index : Nat) (x : CodeGenerator), SFrame g x →
      SFrame g (bindParameters function ps index x)
  | [], _, _, h => h
  | (argName, argType) :: rest, index, x, h => by
    rw [bindParameters]
    exact bindParameters_sframe function rest (index + 1) _
      (((h.alloca_step _ _ _).Insert_step _).same_step rfl (fun _ => rfl) rfl)

/-- A state whose blocks are those of `g` followed by new ones, with the insertion point
in a new one. -/
theorem SFrame.of_append {g y : CodeGenerator} (bs : List BasicBlock)
    (hb : y.module.blocks = g.module.blocks ++ bs) (j : Nat)
    (hi : y.insertBlock = some j) (h1 : g.module.blocks.length ≤ j)
    (h2 : j < y.module.blocks.length) : SFrame g y := by
  refine ⟨?_, ?_, Or.inr ⟨j, hi, h1, h2⟩⟩
  · rw [hb, List.length_append]
    exact Nat.le_add_right _ _
  · intro i hlt _
    unfold IRModule.instructionsOf
    rw [hb, List.getElem?_append_left hlt]

theorem functionStart_sframe (name : Token) (params : List Token) (g : CodeGenerator) :
    SFrame g (functionStart name params g) := by
  unfold functionStart
  simp only []
  apply bindParameters_sframe
  refine SFrame.of_append
    ([{ name := "entry", parent := some (g.module.functions.length), instructions := [] }] :
      List BasicBlock) rfl g.module.blocks.length rfl (Nat.le_refl _) ?_
  show g.module.blocks.length < (g.module.blocks ++ [_]).length
  simp

theorem functionEnd_sframe {g x : CodeGenerator} (prev : Option Nat) (h : SFrame g x) :
    SFrame g (functionEnd prev x) := by
  unfold functionEnd
  simp only []
  split
  · exact (h.Insert_step _).same_step rfl (fun _ => rfl) rfl
  · exact h.same_step rfl (fun _ => rfl) rfl

theorem visitFunctionStmt_sframe (L : LLVM) (name : Token) (params : List Token)
    {acceptBody : CodeGenerator → CodeGenerator} (hb : ∀ s, SFrame s (acceptBody s))
    (g : CodeGenerator) : SFrame g (visitFunctionStmt L name params acceptBody g) := by
  rw [visitFunctionStmt_eq]
  have h := functionEnd_sframe g.current_function
    ((functionStart_sframe name params g).trans_step (hb _))
  split
  · exact h.same_step rfl (fun _ => rfl) rfl
  · exact h

mutual
/-- Lowering a statement leaves every earlier block other than the insertion block with
the instructions it had at its end, and ends in the insertion block it started in or in
a block it created. -/
theorem Stmt.accept_sframe (L : LLVM) : ∀ (s : Stmt) (g : CodeGenerator),
    SFrame g (s.accept L g)
  | .ExpressionStmt expression => by
    rw [Stmt.accept]
    exact visitExpressionStmt_sframe (Expr.accept_frame L expression)
  | .VarDeclStmt name initializer _ => by
    rw [Stmt.accept]
    apply visitVarDeclStmt_sframe
    intro f hf
    cases initializer with
    | none => exact absurd hf (by simp)
    | some e =>
      simp only [Option.map_some', Option.some.injEq] at hf
      rw [← hf]
      exact Expr.accept_frame L e
  | .BlockStmt statements => by
    rw [Stmt.accept]
    exact visitBlockStmt_sframe (acceptStatements_sframe L statements)
  | .IfStmt condition then_branch else_branch => by
    rw [Stmt.accept]
    exact visitIfStmt_sframe L (Expr.accept_frame L condition)
      (Stmt.accept_sframe L then_branch) (acceptIfPresent_sframe L else_branch)
  | .WhileStmt condition body => by
    rw [Stmt.accept]
    exact visitWhileStmt_sframe L (Expr.accept_frame L condition)
      (Stmt.accept_sframe L body)
  | .FunctionStmt name params body => by
    rw [Stmt.accept]
    exact visitFunctionStmt_sframe L name params (acceptStatements_sframe L body)
  | .ReturnStmt _ value => by
    rw [Stmt.accept]
    apply visitReturnStmt_sframe
    intro f hf
    cases value with
    | none => exact absurd hf (by simp)
    | some e =>
      simp only [Option.map_some', Option.some.injEq] at hf
      rw [← hf]
      exact Expr.accept_frame L e
/-- The same for a statement that may be null. -/
theorem acceptIfPresent_sframe (L : LLVM) : ∀ (s : Option Stmt) (g : CodeGenerator),
    SFrame g (acceptIfPresent L s g)
  | none => by
    intro g
    rw [acceptIfPresent]
    exact SFrame.rfl_step g
  | some s => by
    rw [acceptIfPresent]
    exact Stmt.accept_sframe L s
/-- The same for a list of statements. -/
theorem acceptStatements_sframe (L : LLVM) :
    ∀ (ss : List (Option Stmt)) (g : CodeGenerator), SFrame g (acceptStatements L ss g)
  | [] => by
    intro g
    rw [acceptStatements]
    exact SFrame.rfl_step g
  | s :: rest => by
    intro g
    rw [acceptStatements]
    exact (acceptIfPresent_sframe L s g).trans_step (acceptStatements_sframe L rest _)
end

theorem lowerMain_eq (L : LLVM) (statements : List (Option Stmt)) (g : CodeGenerator) :
    lowerMain L statements g =
      (acceptStatements L statements (mainStart g)).CreateRet (.ConstantInt getIntType 0) :=
  rfl

/-! ## The last instruction of a block -/

theorem getLast?_of_suffix {α : Type} {l l1 : List α} {a : α} (h : l <:+ l1)
    (hl : l.getLast? = some a) : l1.getLast? = some a := by
  obtain ⟨pre, rfl⟩ := h
  cases l with
  | nil => exact absurd hl (by simp)
  | cons x xs =>
    rw [List.getLast?_append_of_ne_nil _ (List.cons_ne_nil x xs)]
    exact hl

theorem SFrame.validInsert {g y : CodeGenerator} (h : SFrame g y) (hv : ValidInsert g) :
    ValidInsert y := by
  obtain ⟨b, hb, hlt⟩ := hv
  rcases h.2.2 with e | ⟨j, ej, _, hj⟩
  · exact ⟨b, e.trans hb, Nat.lt_of_lt_of_le hlt h.1⟩
  · exact ⟨j, ej, hj⟩

/-- Where lowering ends: in the block it started in, or in a block created since. -/
theorem SFrame.insertBlock_cases {g y : CodeGenerator} (h : SFrame g y) (b t : Nat)
    (hb : g.insertBlock = some b) (ht : y.insertBlock = some t) :
    t = b ∨ g.module.blocks.length ≤ t := by
  rcases h.2.2 with e | ⟨j, ej, hj, _⟩
  · left
    rw [e, hb] at ht
    exact (Option.some.inj ht).symm
  · right
    rw [ej] at ht
    rw [← Option.some.inj ht]
    exact hj

theorem SFrame.getLast?_step {g y : CodeGenerator} (h : SFrame g y) (b : Nat)
    (i : Instruction) (hb : b < g.module.blocks.length) (hne : some b ≠ g.insertBlock)
    (hl : (g.module.instructionsOf b).getLast? = some i) :
    (y.module.instructionsOf b).getLast? = some i :=
  getLast?_of_suffix (h.2.1 b hb hne) hl

theorem getLast?_Insert (x : CodeGenerator) (i : Instruction) (b : Nat)
    (hb : x.insertBlock = some b) (hlt : b < x.module.blocks.length) :
    ((x.Insert i).module.instructionsOf b).getLast? = some i := by
  unfold CodeGenerator.Insert
  rw [hb]
  show ((x.module.appendInstruction b i).instructionsOf b).getLast? = some i
  rw [instructionsOf_appendInstruction _ _ _ hlt]
  simp

theorem instructionsOf_Insert_ne (x : CodeGenerator) (i : Instruction) (b c : Nat)
    (hb : x.insertBlock = some b) (hne : c ≠ b) :
    (x.Insert i).module.instructionsOf c = x.module.instructionsOf c := by
  unfold CodeGenerator.Insert
  rw [hb]
  exact instructionsOf_appendInstruction_ne _ _ _ _ hne

/-- A block is closed with a branch, another block is appended to the function and
becomes the insertion point: the closed block ends with the branch, the other blocks
keep their instructions. -/
theorem closeBlock (x : CodeGenerator) (d : Nat) (f : Option Nat) (bb nb t : Nat)
    (ht : x.insertBlock = some t) (hlt : t < x.module.blocks.length) :
    ((((x.CreateBr d).pushBackBlock f bb).SetInsertPoint nb).module.instructionsOf
      t).getLast? = some (.Br d) ∧
    ∀ c, c ≠ t →
      (((x.CreateBr d).pushBackBlock f bb).SetInsertPoint nb).module.instructionsOf c =
        x.module.instructionsOf c := by
  constructor
  · show (((x.CreateBr d).module.pushBackBlock f bb).instructionsOf t).getLast? = _
    rw [instructionsOf_pushBackBlock]
    exact getLast?_Insert x _ t ht hlt
  · intro c hc
    show ((x.CreateBr d).module.pushBackBlock f bb).instructionsOf c = _
    rw [instructionsOf_pushBackBlock]
    exact instructionsOf_Insert_ne x _ t c ht hc

/-- The conditional branch of an if statement closes the block that was current after
the condition. -/
theorem ifStart_last (L : LLVM) (c0 : Value) (s : CodeGenerator) (cur : Nat)
    (hc : s.insertBlock = some cur) (hlt : cur < s.module.blocks.length) :
    ((ifStart L c0 s).state.module.instructionsOf cur).getLast? =
      some (.CondBr (ifStart L c0 s).cond_val (ifStart L c0 s).then_bb
        (ifStart L c0 s).else_bb) := by
  unfold ifStart
  simp only []
  show ((CodeGenerator.Insert _ _).module.instructionsOf cur).getLast? = _
  apply getLast?_Insert
  · show (toBool L "ifcond" c0 s).2.insertBlock = some cur
    rw [insertBlock_toBool]
    exact hc
  · simp only [length_createBlock, length_toBool]
    omega

/-- The branch to the condition block closes the block that was current before a while
statement. -/
theorem whileStart_last (g : CodeGenerator) (cur : Nat)
    (hc : g.insertBlock = some cur) (hlt : cur < g.module.blocks.length) :
    ((whileStart g).state.module.instructionsOf cur).getLast? =
      some (.Br (whileStart g).cond_bb) := by
  unfold whileStart
  simp only []
  show ((CodeGenerator.Insert _ _).module.instructionsOf cur).getLast? = _
  apply getLast?_Insert
  · exact hc
  · simp only [length_createBlock]
    omega

/-- The conditional branch of a while statement closes the block that was current after
the condition; the other blocks keep their instructions. -/
theorem whileBodyStart_last (L : LLVM) (st : WhileStart) (c0 : Value) (s : CodeGenerator)
    (cur : Nat) (hc : s.insertBlock = some cur) (hlt : cur < s.module.blocks.length) :
    ((whileBodyStart L st c0 s).2.module.instructionsOf cur).getLast? =
      some (.CondBr (whileBodyStart L st c0 s).1 st.body_bb st.exit_bb) ∧
    ∀ c, c ≠ cur → (whileBodyStart L st c0 s).2.module.instructionsOf c =
      (toBool L "whilecond" c0 s).2.module.instructionsOf c := by
  unfold whileBodyStart
  simp only []
  have hi : (toBool L "whilecond" c0 s).2.insertBlock = some cur := by
    rw [insertBlock_toBool]
    exact hc
  constructor
  · show ((CodeGenerator.pushBackBlock _ _ _).module.instructionsOf cur).getLast? = _
    show ((IRModule.pushBackBlock _ _ _).instructionsOf cur).getLast? = _
    rw [instructionsOf_pushBackBlock]
    apply getLast?_Insert _ _ _ hi
    rw [length_toBool]
    exact hlt
  · intro c hne
    show (IRModule.pushBackBlock _ _ _).instructionsOf c = _
    rw [instructionsOf_pushBackBlock]
    exact instructionsOf_Insert_ne _ _ cur c hi hne

/-! ## The arms of an if statement and the body of a while statement -/

/-- The arms of an if statement, lowered from a start stage whose blocks are numbered
`n`, `n + 1`, `n + 2`: a block `cur` closed before the arms keeps its last instruction,
and the blocks current at the end of the arms end with the branch to the merge block. -/
theorem ifArms (st : IfStart) (n cur : Nat) (i : Instruction)
    (acceptThen acceptElse : CodeGenerator → CodeGenerator)
    (hT : ∀ x, SFrame x (acceptThen x)) (hE : ∀ x, SFrame x (acceptElse x))
    (b2 : st.else_bb = n + 1) (b3 : st.merge_bb = n + 2)
    (b4 : st.state.module.blocks.length = n + 3) (b5 : st.state.insertBlock = some n)
    (hcur : cur < n) (hl0 : (st.state.module.instructionsOf cur).getLast? = some i) :
    ∃ t e : Nat,
      (acceptThen st.state).insertBlock = some t ∧
      (acceptElse (ifElseStart st (acceptThen st.state))).insertBlock = some e ∧
      ((ifEnd st (acceptElse (ifElseStart st (acceptThen st.state)))).module.instructionsOf
        cur).getLast? = some i ∧
      ((ifEnd st (acceptElse (ifElseStart st (acceptThen st.state)))).module.instructionsOf
        t).getLast? = some (.Br (n + 2)) ∧
      ((ifEnd st (acceptElse (ifElseStart st (acceptThen st.state)))).module.instructionsOf
        e).getLast? = some (.Br (n + 2)) := by
  -- the then arm
  have ht := hT st.state
  obtain ⟨t, htb, htlt⟩ := ht.validInsert ⟨_, b5, by rw [b4]; omega⟩
  have htc := ht.insertBlock_cases _ t b5 htb
  have hl1 := ht.getLast?_step cur _ (by rw [b4]; omega)
    (by rw [b5]; intro h; have := Option.some.inj h; omega) hl0
  have hlen1 := ht.1
  -- the stage between the arms
  obtain ⟨c1, c2⟩ := ifElseStart_blocks st (acceptThen st.state)
  obtain ⟨k1, k2⟩ := closeBlock (acceptThen st.state) st.merge_bb st.function st.else_bb
    st.else_bb t htb htlt
  have hcur_ne_t : cur ≠ t := by
    rcases htc with h | h <;> omega
  have hl2 : ((ifElseStart st (acceptThen st.state)).module.instructionsOf cur).getLast? =
      some i := by
    unfold ifElseStart
    rw [k2 cur hcur_ne_t]
    exact hl1
  have hm2 : ((ifElseStart st (acceptThen st.state)).module.instructionsOf t).getLast? =
      some (.Br st.merge_bb) := k1
  -- the else arm
  have he := hE (ifElseStart st (acceptThen st.state))
  obtain ⟨e, heb, helt⟩ := he.validInsert ⟨_, c2, by rw [c1, b2]; omega⟩
  have hec := he.insertBlock_cases _ e c2 heb
  have hlen2 := he.1
  have hl3 := he.getLast?_step cur _ (by rw [c1]; omega)
    (by rw [c2]; intro h; have := Option.some.inj h; omega) hl2
  have hm3 := he.getLast?_step t _ (by rw [c1]; exact htlt)
    (by
      rw [c2]
      intro h
      have := Option.some.inj h
      rcases htc with h1 | h1 <;> omega) hm2
  -- the stage after the arms
  obtain ⟨q1, q2⟩ := closeBlock (acceptElse (ifElseStart st (acceptThen st.state)))
    st.merge_bb st.function st.merge_bb st.merge_bb e heb helt
  have hcur_ne_e : cur ≠ e := by
    rcases hec with h | h <;> omega
  have ht_ne_e : t ≠ e := by
    rcases hec with h | h <;> rcases htc with h1 | h1 <;> omega
  refine ⟨t, e, htb, heb, ?_, ?_, ?_⟩
  · unfold ifEnd
    rw [q2 cur hcur_ne_e]
    exact hl3
  · unfold ifEnd
    rw [q2 t ht_ne_e, ← b3]
    exact hm3
  · unfold ifEnd
    rw [← b3]
    exact q1

theorem instructionsOf_toBool_ne (L : LLVM) (n : String) (v : Value) (s : CodeGenerator)
    (cc c : Nat) (hcc : s.insertBlock = some cc) (hne : c ≠ cc) :
    (toBool L n v s).2.module.instructionsOf c = s.module.instructionsOf c := by
  unfold toBool CodeGenerator.Create
  split
  · rfl
  · split
    · rfl
    · exact instructionsOf_Insert_ne s.takeValue _ cc c hcc hne

/-- The condition and the body of a while statement: the block current before the loop
ends with the branch to the condition block, the block current after the condition with
the conditional branch to body and exit, the block current at the end of the body with
the branch back. -/
theorem whileBody (L : LLVM) (g : CodeGenerator) (cur : Nat)
    (acceptCondition acceptBody : CodeGenerator → CodeGenerator)
    (hC : ∀ x, Frame x (acceptCondition x)) (hB : ∀ x, SFrame x (acceptBody x))
    (c0 : Value) (hcur : g.insertBlock = some cur) (hlt : cur < g.module.blocks.length) :
    ∃ cc b : Nat,
      (popValue (acceptCondition (whileStart g).state)).2.insertBlock = some cc ∧
      (cc = g.module.blocks.length ∨ g.module.blocks.length + 3 ≤ cc) ∧
      (acceptBody (whileBodyStart L (whileStart g) c0
        (popValue (acceptCondition (whileStart g).state)).2).2).insertBlock = some b ∧
      ((whileEnd (whileStart g) (acceptBody (whileBodyStart L (whileStart g) c0
        (popValue (acceptCondition (whileStart g).state)).2).2)).module.instructionsOf
          cur).getLast? = some (.Br g.module.blocks.length) ∧
      ((whileEnd (whileStart g) (acceptBody (whileBodyStart L (whileStart g) c0
        (popValue (acceptCondition (whileStart g).state)).2).2)).module.instructionsOf
          cc).getLast? =
        some (.CondBr (toBool L "whilecond" c0
          (popValue (acceptCondition (whileStart g).state)).2).1
          (g.module.blocks.length + 1) (g.module.blocks.length + 2)) ∧
      ((whileEnd (whileStart g) (acceptBody (whileBodyStart L (whileStart g) c0
        (popValue (acceptCondition (whileStart g).state)).2).2)).module.instructionsOf
          b).getLast? = some (.Br g.module.blocks.length) := by
  obtain ⟨b1, b2, b3, b4, b5⟩ := whileStart_blocks g
  have hl0 := whileStart_last g cur hcur hlt
  rw [b1] at hl0
  -- the condition
  have hc : SFrame (whileStart g).state (popValue (acceptCondition (whileStart g).state)).2 :=
    SFrame.of_frame (hC _).popValue
  obtain ⟨cc, hccb, hcclt⟩ := hc.validInsert ⟨_, b5, by rw [b4]; omega⟩
  have hccc := hc.insertBlock_cases _ cc b5 hccb
  rw [b4] at hccc
  have hlenc := hc.1
  have hl1 := hc.getLast?_step cur _ (by rw [b4]; omega)
    (by rw [b5]; intro h; have := Option.some.inj h; omega) hl0
  have hcur_ne_cc : cur ≠ cc := by
    rcases hccc with h | h <;> omega
  -- the conditional branch
  obtain ⟨k1, k2⟩ := whileBodyStart_last L (whileStart g) c0
    (popValue (acceptCondition (whileStart g).state)).2 cc hccb hcclt
  obtain ⟨w1, w2, w3⟩ := whileBodyStart_blocks L (whileStart g) c0
    (popValue (acceptCondition (whileStart g).state)).2
  have hl2 : ((whileBodyStart L (whileStart g) c0
      (popValue (acceptCondition (whileStart g).state)).2).2.module.instructionsOf
        cur).getLast? = some (.Br g.module.blocks.length) := by
    rw [k2 cur hcur_ne_cc, instructionsOf_toBool_ne L _ _ _ cc cur hccb hcur_ne_cc]
    exact hl1
  -- the body
  have hb := hB (whileBodyStart L (whileStart g) c0
    (popValue (acceptCondition (whileStart g).state)).2).2
  obtain ⟨b, hbb, hblt⟩ := hb.validInsert ⟨_, w2, by rw [w1, b2]; omega⟩
  have hbc := hb.insertBlock_cases _ b w2 hbb
  rw [b2, w1] at hbc
  have hl3 := hb.getLast?_step cur _ (by rw [w1]; omega)
    (by rw [w2, b2]; intro h; have := Option.some.inj h; omega) hl2
  have hm3 := hb.getLast?_step cc _ (by rw [w1]; exact hcclt)
    (by
      rw [w2, b2]
      intro h
      have := Option.some.inj h
      rcases hccc with h1 | h1 <;> omega) k1
  -- the branch back
  obtain ⟨q1, q2⟩ := closeBlock (acceptBody (whileBodyStart L (whileStart g) c0
    (popValue (acceptCondition (whileStart g).state)).2).2)
    (whileStart g).cond_bb (whileStart g).function (whileStart g).exit_bb
    (whileStart g).exit_bb b hbb hblt
  have hcur_ne_b : cur ≠ b := by
    rcases hbc with h | h <;> omega
  have hcc_ne_b : cc ≠ b := by
    rcases hbc with h | h <;> rcases hccc with h1 | h1 <;> omega
  refine ⟨cc, b, hccb, hccc, hbb, ?_, ?_, ?_⟩
  · unfold whileEnd
    rw [q2 cur hcur_ne_b]
    exact hl3
  · unfold whileEnd
    rw [q2 cc hcc_ne_b, ← b2, ← b3, ← w3]
    exact hm3
  · unfold whileEnd
    rw [← b1]
    exact q1

/-! ## Relations kept by every step of statement lowering -/

theorem functionStart_eq (name : Token) (params : List Token) (g : CodeGenerator) :
    functionStart name params g =
      enterFunction g.module.functions.length
        ((setArgNames (params.map (fun p => p.lexeme)) [] 0).zip
          (params.map (fun _ => getIntType)))
        (declareFunction name params g) :=
  rfl

theorem StmtSteps.then_step {p : String → Bool} {R : CodeGenerator → CodeGenerator → Prop}
    (hR : StmtSteps p R) {g x y : CodeGenerator} (h : R g x) (h1 : R x y) : R g y :=
  hR.expr.trans _ _ _ h h1

theorem StmtSteps.bound {p : String → Bool} {R : CodeGenerator → CodeGenerator → Prop}
    (hR : StmtSteps p R) {g x : CodeGenerator} (nv : List (String × AllocaInst))
    (t : SymbolTable) (h : R g x) :
    R g { x with named_values := nv, symbol_table := t } :=
  hR.then_step (hR.then_step h (hR.bind x nv)) (hR.scope { x with named_values := nv } t)

theorem StmtSteps.scoped {p : String → Bool} {R : CodeGenerator → CodeGenerator → Prop}
    (hR : StmtSteps p R) {g x : CodeGenerator} (t : SymbolTable) (h : R g x) :
    R g { x with symbol_table := t } :=
  hR.then_step h (hR.scope x t)

theorem StmtSteps.entered {p : String → Bool} {R : CodeGenerator → CodeGenerator → Prop}
    (hR : StmtSteps p R) {g x : CodeGenerator} (c : Option Nat) (t : SymbolTable)
    (h : R g x) : R g { x with current_function := c, symbol_table := t } :=
  hR.then_step (hR.then_step h (hR.current x c)) (hR.scope { x with current_function := c } t)

theorem StmtSteps.left {p : String → Bool} {R : CodeGenerator → CodeGenerator → Prop}
    (hR : StmtSteps p R) {g x : CodeGenerator} (t : SymbolTable) (c : Option Nat)
    (h : R g x) : R g { x with symbol_table := t, current_function := c } :=
  hR.then_step (hR.then_step h (hR.current x c)) (hR.scope { x with current_function := c } t)

theorem StmtSteps.allocated {p : String → Bool} {R : CodeGenerator → CodeGenerator → Prop}
    (hR : StmtSteps p R) {g x : CodeGenerator} (f : Option Nat) (n : String) (ty : Ty)
    (h : R g x) : R g (createEntryBlockAlloca f n ty x).2 :=
  hR.then_step h (hR.alloca x f n ty)

theorem StmtSteps.pushedBack {p : String → Bool} {R : CodeGenerator → CodeGenerator → Prop}
    (hR : StmtSteps p R) {g x : CodeGenerator} (f : Option Nat) (bb : Nat)
    (h : R g x) : R g (x.pushBackBlock f bb) :=
  hR.then_step h (hR.pushBackBlock x f bb)

theorem visitVarDeclStmt_steps {p : String → Bool}
    {R : CodeGenerator → CodeGenerator → Prop} (hR : StmtSteps p R) (name : Token)
    (acceptInitializer : Option (CodeGenerator → CodeGenerator))
    (h : ∀ f, acceptInitializer = some f → ∀ s, R s (f s)) (g : CodeGenerator) :
    R g (visitVarDeclStmt name acceptInitializer g) := by
  unfold visitVarDeclStmt
  cases acceptInitializer with
  | none => exact hR.bound _ _ (hR.allocated _ _ _ (hR.expr.refl g))
  | some f =>
    simp only []
    have h0 : R g (popValue (f g)).2 := hR.expr.popValue_step (h f rfl g)
    split
    · exact hR.bound _ _ (hR.expr.CreateStore_step _ _ (hR.allocated _ _ _ h0))
    · exact hR.bound _ _ (hR.allocated _ _ _ h0)

theorem visitBlockStmt_steps {p : String → Bool}
    {R : CodeGenerator → CodeGenerator → Prop} (hR : StmtSteps p R)
    {acceptStatements : CodeGenerator → CodeGenerator}
    (h : ∀ s, R s (acceptStatements s)) (g : CodeGenerator) :
    R g (visitBlockStmt acceptStatements g) := by
  unfold visitBlockStmt
  have h1 : R g { g with symbol_table := g.symbol_table.enterScope } := hR.scope g _
  exact hR.scoped _ (hR.then_step h1 (h _))

theorem visitReturnStmt_steps {p : String → Bool}
    {R : CodeGenerator → CodeGenerator → Prop} (hR : StmtSteps p R)
    (acceptValue : Option (CodeGenerator → CodeGenerator))
    (h : ∀ f, acceptValue = some f → ∀ s, R s (f s)) (g : CodeGenerator) :
    R g (visitReturnStmt acceptValue g) := by
  unfold visitReturnStmt
  split
  · exact hR.expr.report g _ _
  · cases acceptValue with
    | none => exact hR.expr.insert g _ rfl
    | some f =>
      simp only []
      have h0 : R g (popValue (f g)).2 := hR.expr.popValue_step (h f rfl g)
      split
      · exact hR.then_step h0 (hR.expr.insert _ _ rfl)
      · exact hR.then_step h0 (hR.expr.insert _ _ rfl)

theorem ifStart_steps {p : String → Bool} {R : CodeGenerator → CodeGenerator → Prop}
    (hR : StmtSteps p R) {g s : CodeGenerator} (L : LLVM) (c0 : Value) (h : R g s) :
    R g (ifStart L c0 s).state := by
  unfold ifStart
  exact hR.expr.moved _ (hR.expr.CreateCondBr_step _ _ _ (hR.expr.created _ _
    (hR.expr.created _ _ (hR.expr.created _ _ (hR.expr.toBool_step L _ _ h)))))

theorem ifElseStart_steps {p : String → Bool} {R : CodeGenerator → CodeGenerator → Prop}
    (hR : StmtSteps p R) {g x : CodeGenerator} (st : IfStart) (h : R g x) :
    R g (ifElseStart st x) := by
  unfold ifElseStart
  exact hR.expr.moved _ (hR.pushedBack _ _ (hR.expr.CreateBr_step _ h))

theorem ifEnd_steps {p : String → Bool} {R : CodeGenerator → CodeGenerator → Prop}
    (hR : StmtSteps p R) {g x : CodeGenerator} (st : IfStart) (h : R g x) :
    R g (ifEnd st x) := by
  unfold ifEnd
  exact hR.expr.moved _ (hR.pushedBack _ _ (hR.expr.CreateBr_step _ h))

theorem visitIfStmt_steps {p : String → Bool} {R : CodeGenerator → CodeGenerator → Prop}
    (hR : StmtSteps p R) (L : LLVM)
    {acceptCondition acceptThen acceptElse : CodeGenerator → CodeGenerator}
    (hc : ∀ s, R s (acceptCondition s)) (ht : ∀ s, R s (acceptThen s))
    (he : ∀ s, R s (acceptElse s)) (g : CodeGenerator) :
    R g (visitIfStmt L acceptCondition acceptThen acceptElse g) := by
  have h0 : R g (popValue (acceptCondition g)).2 := hR.expr.popValue_step (hc g)
  cases hv : (popValue (acceptCondition g)).1 with
  | none =>
    rw [visitIfStmt_of_null L _ _ _ g hv]
    exact h0
  | some c0 =>
    rw [visitIfStmt_of_condition L _ _ _ g c0 hv]
    exact ifEnd_steps hR _ (hR.then_step (ifElseStart_steps hR _
      (hR.then_step (ifStart_steps hR L c0 h0) (ht _))) (he _))

theorem whileStart_steps {p : String → Bool} {R : CodeGenerator → CodeGenerator → Prop}
    (hR : StmtSteps p R) (g : CodeGenerator) : R g (whileStart g).state := by
  unfold whileStart
  exact hR.expr.moved _ (hR.expr.CreateBr_step _ (hR.expr.created _ _
    (hR.expr.created _ _ (hR.expr.created _ _ (hR.expr.refl g)))))

theorem whileBodyStart_steps {p : String → Bool}
    {R : CodeGenerator → CodeGenerator → Prop} (hR : StmtSteps p R) {g s : CodeGenerator}
    (L : LLVM) (st : WhileStart) (c0 : Value) (h : R g s) :
    R g (whileBodyStart L st c0 s).2 := by
  unfold whileBodyStart
  exact hR.expr.moved _ (hR.pushedBack _ _ (hR.expr.CreateCondBr_step _ _ _
    (hR.expr.toBool_step L _ _ h)))

theorem whileEnd_steps {p : String → Bool} {R : CodeGenerator → CodeGenerator → Prop}
    (hR : StmtSteps p R) {g x : CodeGenerator} (st : WhileStart) (h : R g x) :
    R g (whileEnd st x) := by
  unfold whileEnd
  exact hR.expr.moved _ (hR.pushedBack _ _ (hR.expr.CreateBr_step _ h))

theorem visitWhileStmt_steps {p : String → Bool}
    {R : CodeGenerator → CodeGenerator → Prop} (hR : StmtSteps p R) (L : LLVM)
    {acceptCondition acceptBody : CodeGenerator → CodeGenerator}
    (hc : ∀ s, R s (acceptCondition s)) (hb : ∀ s, R s (acceptBody s))
    (g : CodeGenerator) : R g (visitWhileStmt L acceptCondition acceptBody g) := by
  have h1 : R g (popValue (acceptCondition (whileStart g).state)).2 :=
    hR.expr.popValue_step (hR.then_step (whileStart_steps hR g) (hc _))
  cases hv : (popValue (acceptCondition (whileStart g).state)).1 with
  | none =>
    rw [visitWhileStmt_of_null L _ _ g hv]
    exact h1
  | some c0 =>
    rw [visitWhileStmt_of_condition L _ _ g c0 hv]
    exact whileEnd_steps hR _ (hR.then_step (whileBodyStart_steps hR L _ c0 h1) (hb _))

theorem bindParameters_steps {p : String → Bool}
    {R : CodeGenerator → CodeGenerator → Prop} (hR : StmtSteps p R) {g : CodeGenerator}
    (function : Nat) :
    ∀ (ps : List (String × Ty)) (index : Nat) (x : CodeGenerator), R g x →
      R g (bindParameters function ps index x)
  | [], _, _, h => h
  | (argName, argType) :: rest, index, x, h => by
    rw [bindParameters]
    exact bindParameters_steps hR function rest (index + 1) _
      (hR.bound _ _ (hR.expr.CreateStore_step _ _ (hR.allocated _ _ _ h)))

theorem enterFunction_steps {p : String → Bool}
    {R : CodeGenerator → CodeGenerator → Prop} (hR : StmtSteps p R) {g x : CodeGenerator}
    (function : Nat) (args : List (String × Ty)) (h : R g x) :
    R g (enterFunction function args x) := by
  unfold enterFunction
  exact bindParameters_steps hR function args 0 _
    (hR.entered _ _ (hR.expr.moved _ (hR.expr.created _ _ h)))

theorem functionEnd_steps {p : String → Bool}
    {R : CodeGenerator → CodeGenerator → Prop} (hR : StmtSteps p R) {g x : CodeGenerator}
    (prev : Option Nat) (h : R g x) : R g (functionEnd prev x) := by
  unfold functionEnd
  simp only []
  split
  · exact hR.left _ _ (hR.then_step h (hR.expr.insert _ _ rfl))
  · exact hR.left _ _ h

theorem visitFunctionStmt_steps {p : String → Bool}
    {R : CodeGenerator → CodeGenerator → Prop} (hR : StmtSteps p R) (L : LLVM)
    (name : Token) (params : List Token) (hp : p name.lexeme = true)
    {acceptBody : CodeGenerator → CodeGenerator} (hb : ∀ s, R s (acceptBody s))
    (g : CodeGenerator) : R g (visitFunctionStmt L name params acceptBody g) := by
  rw [visitFunctionStmt_eq]
  have h : R g (functionEnd g.current_function (acceptBody (functionStart name params g))) := by
    rw [functionStart_eq]
    exact functionEnd_steps hR _ (hR.then_step
      (enterFunction_steps hR _ _ (hR.declare g name params hp)) (hb _))
  split
  · exact hR.expr.reported _ _ (hR.erase g _ name hp h)
  · exact h

mutual
/-- A relation kept by every step of statement lowering is kept by lowering any
statement that declares functions only under permitted names. -/
theorem Stmt.accept_stmtSteps {p : String → Bool} {R : CodeGenerator → CodeGenerator → Prop}
    (hR : StmtSteps p R) (L : LLVM) :
    ∀ s : Stmt, s.declaresOnly p = true → ∀ g : CodeGenerator, R g (s.accept L g)
  | .ExpressionStmt expression, _ => by
    intro g
    rw [Stmt.accept]
    exact hR.expr.popValue_step (Expr.accept_steps hR.expr L expression g)
  | .VarDeclStmt name initializer _, _ => by
    rw [Stmt.accept]
    apply visitVarDeclStmt_steps hR
    intro f hf
    cases initializer with
    | none => exact absurd hf (by simp)
    | some e =>
      simp only [Option.map_some', Option.some.injEq] at hf
      rw [← hf]
      exact Expr.accept_steps hR.expr L e
  | .BlockStmt statements, h => by
    rw [Stmt.accept]
    simp only [Stmt.declaresOnly] at h
    exact visitBlockStmt_steps hR (acceptStatements_steps hR L statements h)
  | .IfStmt condition then_branch else_branch, h => by
    rw [Stmt.accept]
    simp only [Stmt.declaresOnly, Bool.and_eq_true] at h
    exact visitIfStmt_steps hR L (Expr.accept_steps hR.expr L condition)
      (Stmt.accept_stmtSteps hR L then_branch h.1) (acceptIfPresent_steps hR L else_branch h.2)
  | .WhileStmt condition body, h => by
    rw [Stmt.accept]
    simp only [Stmt.declaresOnly] at h
    exact visitWhileStmt_steps hR L (Expr.accept_steps hR.expr L condition)
      (Stmt.accept_stmtSteps hR L body h)
  | .FunctionStmt name params body, h => by
    rw [Stmt.accept]
    simp only [Stmt.declaresOnly, Bool.and_eq_true] at h
    exact visitFunctionStmt_steps hR L name params h.1
      (acceptStatements_steps hR L body h.2)
  | .ReturnStmt _ value, _ => by
    rw [Stmt.accept]
    apply visitReturnStmt_steps hR
    intro f hf
    cases value with
    | none => exact absurd hf (by simp)
    | some e =>
      simp only [Option.map_some', Option.some.injEq] at hf
      rw [← hf]
      exact Expr.accept_steps hR.expr L e
/-- The same for a statement that may be null. -/
theorem acceptIfPresent_steps {p : String → Bool}
    {R : CodeGenerator → CodeGenerator → Prop} (hR : StmtSteps p R) (L : LLVM) :
    ∀ s : Option Stmt, declaresOnlyIfPresent p s = true →
      ∀ g : CodeGenerator, R g (acceptIfPresent L s g)
  | none, _ => by
    intro g
    rw [acceptIfPresent]
    exact hR.expr.refl g
  | some s, h => by
    rw [acceptIfPresent]
    simp only [declaresOnlyIfPresent] at h
    exact Stmt.accept_stmtSteps hR L s h
/-- The same for a list of statements. -/
theorem acceptStatements_steps {p : String → Bool}
    {R : CodeGenerator → CodeGenerator → Prop} (hR : StmtSteps p R) (L : LLVM) :
    ∀ ss : List (Option Stmt), declaresOnlyStatements p ss = true →
      ∀ g : CodeGenerator, R g (acceptStatements L ss g)
  | [], _ => by
    intro g
    rw [acceptStatements]
    exact hR.expr.refl g
  | s :: rest, h => by
    intro g
    rw [acceptStatements]
    simp only [declaresOnlyStatements, Bool.and_eq_true] at h
    exact hR.then_step (acceptIfPresent_steps hR L s h.1 g)
      (acceptStatements_steps hR L rest h.2 _)
end

/-! ## The function table and the function list under statement lowering -/

theorem mapFind_mapAssign_ne {α : Type} (m : List (String × α)) (k n : String) (v : α)
    (h : (k != n) = true) : mapFind (mapAssign m k v) n = mapFind m n := by
  have hne : k ≠ n := by simpa using h
  have hne2 : ¬ (n == k) = true := by
    simp only [beq_iff_eq]
    exact fun e => hne e.symm
  unfold mapFind mapAssign
  rw [List.lookup_cons]
  simp only [hne2]
  induction m with
  | nil => rfl
  | cons a rest ih =>
    obtain ⟨a1, a2⟩ := a
    by_cases ha : a1 = k
    · subst ha
      simp only [List.filter, bne_self_eq_false, List.lookup_cons, hne2]
      exact ih
    · have : (a1 != k) = true := by simpa using ha
      simp only [List.filter, this, List.lookup_cons]
      rw [ih]

theorem mapFind_mapErase_ne {α : Type} (m : List (String × α)) (k n : String)
    (h : (k != n) = true) : mapFind (mapErase m k) n = mapFind m n := by
  have hne : k ≠ n := by simpa using h
  have hne2 : ¬ (n == k) = true := by
    simp only [beq_iff_eq]
    exact fun e => hne e.symm
  unfold mapFind mapErase
  induction m with
  | nil => rfl
  | cons a rest ih =>
    obtain ⟨a1, a2⟩ := a
    by_cases ha : a1 = k
    · subst ha
      simp only [List.filter, bne_self_eq_false, List.lookup_cons, hne2]
      exact ih
    · have : (a1 != k) = true := by simpa using ha
      simp only [List.filter, this, List.lookup_cons]
      rw [ih]

theorem mapFind_mapErase {α : Type} (m : List (String × α)) (k : String) :
    mapFind (mapErase m k) k = none := by
  unfold mapFind mapErase
  induction m with
  | nil => rfl
  | cons a rest ih =>
    obtain ⟨a1, a2⟩ := a
    by_cases ha : a1 = k
    · subst ha
      simp only [List.filter, bne_self_eq_false]
      exact ih
    · have h1 : (a1 != k) = true := by simpa using ha
      have h2 : ¬ (k == a1) = true := by
        simp only [beq_iff_eq]
        exact fun e => ha e.symm
      simp only [List.filter, h1, List.lookup_cons, h2]
      exact ih

theorem KeepsFunctions.unchanged {g x : CodeGenerator}
    (hl : x.module.functions.length = g.module.functions.length)
    (hf : x.module.functionList = g.module.functionList) : KeepsFunctions g x := by
  unfold KeepsFunctions
  rw [hl, hf]
  exact ⟨Nat.le_refl _, fun _ _ h => h⟩

theorem functions_length_createBlock (m : IRModule) (n : String) (p : Option Nat) :
    (m.createBlock n p).2.functions.length = m.functions.length := by
  cases p with
  | none => rfl
  | some f => simp [IRModule.createBlock, length_updateAt]

theorem functions_length_pushBackBlock (m : IRModule) (f : Option Nat) (bb : Nat) :
    (m.pushBackBlock f bb).functions.length = m.functions.length := by
  cases f with
  | none => rfl
  | some f => simp [IRModule.pushBackBlock, length_updateAt]

theorem functionList_pushBackBlock (m : IRModule) (f : Option Nat) (bb : Nat) :
    (m.pushBackBlock f bb).functionList = m.functionList := by
  cases f with
  | none => rfl
  | some f => rfl

/-- The declaration of a function: it is the last function of the arena and of the
function list, and the function table maps its name to it. -/
theorem declareFunction_spec (name : Token) (params : List Token) (g : CodeGenerator) :
    (declareFunction name params g).module.functions.length =
      g.module.functions.length + 1 ∧
    (declareFunction name params g).module.functionList =
      g.module.functionList ++ [g.module.functions.length] ∧
    (declareFunction name params g).functions =
      mapAssign g.functions name.lexeme g.module.functions.length ∧
    (declareFunction name params g).current_function = g.current_function ∧
    (declareFunction name params g).diagnostics = g.diagnostics := by
  unfold declareFunction
  simp [IRModule.createFunction, length_updateAt]

theorem exprSteps_keepsFunctions : ExprSteps KeepsFunctions where
  refl := fun g => KeepsFunctions.unchanged rfl rfl
  trans := by
    intro a b c h1 h2
    exact ⟨Nat.le_trans h1.1 h2.1,
      fun f hf hm => h2.2 f (Nat.lt_of_lt_of_le hf h1.1) (h1.2 f hf hm)⟩
  stack := fun g s => KeepsFunctions.unchanged rfl rfl
  report := fun g sev msg => KeepsFunctions.unchanged rfl rfl
  insert := by
    intro g i _
    unfold CodeGenerator.Insert
    split
    · exact KeepsFunctions.unchanged rfl rfl
    · exact KeepsFunctions.unchanged rfl rfl
  takeValue := fun g => KeepsFunctions.unchanged rfl rfl
  createBlock := fun g n p =>
    KeepsFunctions.unchanged (functions_length_createBlock _ _ _) rfl
  setInsertPoint := fun g bb => KeepsFunctions.unchanged rfl rfl
  createGlobal := fun g ty c init n => KeepsFunctions.unchanged rfl rfl

/-- Statement lowering removes no function that existed before from the arena or from
the function list. -/
theorem stmtSteps_keepsFunctions : StmtSteps (fun _ => true) KeepsFunctions where
  expr := exprSteps_keepsFunctions
  pushBackBlock := fun g f bb =>
    KeepsFunctions.unchanged (functions_length_pushBackBlock _ _ _)
      (functionList_pushBackBlock _ _ _)
  alloca := by
    intro g f n ty
    unfold createEntryBlockAlloca
    simp only []
    split
    · exact KeepsFunctions.unchanged rfl rfl
    · exact KeepsFunctions.unchanged rfl rfl
  bind := fun g nv => KeepsFunctions.unchanged rfl rfl
  scope := fun g t => KeepsFunctions.unchanged rfl rfl
  current := fun g c => KeepsFunctions.unchanged rfl rfl
  declare := by
    intro g name params _
    obtain ⟨h1, h2, _⟩ := declareFunction_spec name params g
    refine ⟨by rw [h1]; exact Nat.le_succ _, ?_⟩
    intro f _ hm
    rw [h2]
    exact List.mem_append_left _ hm
  erase := by
    intro g x name _ h
    refine ⟨h.1, ?_⟩
    intro f hf hm
    show f ∈ x.module.functionList.filter (fun f => f != g.module.functions.length)
    rw [List.mem_filter]
    refine ⟨h.2 f hf hm, ?_⟩
    simp only [bne_iff_ne, ne_eq]
    omega

theorem exprSteps_keepsName (n : String) : ExprSteps (KeepsName n) where
  refl := fun g => rfl
  trans := by
    intro a b c h1 h2
    exact Eq.trans h2 h1
  stack := fun g s => rfl
  report := fun g sev msg => rfl
  insert := by
    intro g i _
    unfold CodeGenerator.Insert
    split
    · rfl
    · rfl
  takeValue := fun g => rfl
  createBlock := fun g m p => rfl
  setInsertPoint := fun g bb => rfl
  createGlobal := fun g ty c init m => rfl

/-- Statement lowering that declares no function named `n` leaves the entry of `n` in
the function table as it was. -/
theorem stmtSteps_keepsName (n : String) :
    StmtSteps (fun m => m != n) (KeepsName n) where
  expr := exprSteps_keepsName n
  pushBackBlock := fun g f bb => rfl
  alloca := by
    intro g f m ty
    unfold createEntryBlockAlloca
    simp only []
    split
    · rfl
    · rfl
  bind := fun g nv => rfl
  scope := fun g t => rfl
  current := fun g c => rfl
  declare := by
    intro g name params hp
    obtain ⟨_, _, h3, _⟩ := declareFunction_spec name params g
    unfold KeepsName
    rw [h3]
    exact mapFind_mapAssign_ne _ _ _ _ hp
  erase := by
    intro g x name hp h
    unfold KeepsName at *
    rw [← h]
    exact mapFind_mapErase_ne _ _ _ hp

/-! ## The state in which a function is verified -/

mutual
theorem Stmt.declaresOnly_true : ∀ s : Stmt, s.declaresOnly (fun _ => true) = true
  | .ExpressionStmt _ => rfl
  | .VarDeclStmt _ _ _ => rfl
  | .BlockStmt statements => by
    rw [Stmt.declaresOnly]
    exact declaresOnlyStatements_true statements
  | .IfStmt _ then_branch else_branch => by
    rw [Stmt.declaresOnly, Stmt.declaresOnly_true then_branch,
      declaresOnlyIfPresent_true else_branch]
    rfl
  | .WhileStmt _ body => by
    rw [Stmt.declaresOnly]
    exact Stmt.declaresOnly_true body
  | .FunctionStmt _ _ body => by
    rw [Stmt.declaresOnly, declaresOnlyStatements_true body]
    rfl
  | .ReturnStmt _ _ => rfl
theorem declaresOnlyIfPresent_true :
    ∀ s : Option Stmt, declaresOnlyIfPresent (fun _ => true) s = true
  | none => rfl
  | some s => by
    rw [declaresOnlyIfPresent]
    exact Stmt.declaresOnly_true s
theorem declaresOnlyStatements_true :
    ∀ ss : List (Option Stmt), declaresOnlyStatements (fun _ => true) ss = true
  | [] => rfl
  | s :: rest => by
    rw [declaresOnlyStatements, declaresOnlyIfPresent_true s,
      declaresOnlyStatements_true rest]
    rfl
end

/-- A relation kept by the steps of statement lowering holds between the declaration of
a function and the state in which the function is verified. -/
theorem functionBody_steps {p : String → Bool} {R : CodeGenerator → CodeGenerator → Prop}
    (hR : StmtSteps p R) (L : LLVM) (name : Token) (params : List Token)
    (body : List (Option Stmt)) (hb : declaresOnlyStatements p body = true)
    (g : CodeGenerator) :
    R (declareFunction name params g)
      (functionEnd g.current_function
        (acceptStatements L body (functionStart name params g))) := by
  rw [functionStart_eq]
  exact functionEnd_steps hR _ (hR.then_step
    (enterFunction_steps hR _ _ (hR.expr.refl _)) (acceptStatements_steps hR L body hb _))

theorem functionEnd_current (prev : Option Nat) (x : CodeGenerator) :
    (functionEnd prev x).current_function = prev := by
  unfold functionEnd
  rfl

/-- In the state in which a function is verified, the function is in the function list
of the module. -/
theorem functionEnd_listed (L : LLVM) (name : Token) (params : List Token)
    (body : List (Option Stmt)) (g : CodeGenerator) :
    g.module.functions.length ∈
      (functionEnd g.current_function
        (acceptStatements L body (functionStart name params g))).module.functionList := by
  obtain ⟨h1, h2, _⟩ := declareFunction_spec name params g
  have h := functionBody_steps stmtSteps_keepsFunctions L name params body
    (declaresOnlyStatements_true body) g
  apply h.2 _ (by rw [h1]; exact Nat.lt_succ_self _)
  rw [h2]
  exact List.mem_append_right _ (List.mem_singleton_self _)

/-- In the state in which a function is verified, the function table maps the name of
the function to it, when the body declares no function of that name. -/
theorem functionEnd_registered (L : LLVM) (name : Token) (params : List Token)
    (body : List (Option Stmt)) (g : CodeGenerator)
    (hb : declaresOnlyStatements (fun m => m != name.lexeme) body = true) :
    mapFind (functionEnd g.current_function
      (acceptStatements L body (functionStart name params g))).functions name.lexeme =
        some g.module.functions.length := by
  obtain ⟨_, _, h3, _⟩ := declareFunction_spec name params g
  have h := functionBody_steps (stmtSteps_keepsName name.lexeme) L name params body hb g
  unfold KeepsName at h
  rw [h, h3]
  exact mapFind_mapAssign _ _ _

/-! ## The parser at a known token -/

theorem Parser.peek_of (p : Parser) (t : Token) (h : p.tokens[p.current]? = some t) :
    p.peek = t := by
  unfold Parser.peek
  rw [List.getD_eq_getElem?_getD, h]
  rfl

theorem Parser.check_of_eq (p : Parser) (t : Token) (type : TokenType)
    (h : p.tokens[p.current]? = some t) (ht : t.type = type)
    (hne : type ≠ .END_OF_FILE) : p.check type = true := by
  unfold Parser.check Parser.isAtEnd
  rw [p.peek_of t h, ht]
  simp [hne]

theorem Parser.check_of_ne (p : Parser) (t : Token) (type : TokenType)
    (h : p.tokens[p.current]? = some t) (ht : t.type ≠ type) : p.check type = false := by
  unfold Parser.check Parser.isAtEnd
  rw [p.peek_of t h]
  simp [ht]

theorem Parser.advance_of (p : Parser) (t : Token)
    (h : p.tokens[p.current]? = some t) (hne : t.type ≠ .END_OF_FILE) :
    p.advance = (t, { p with current := p.current + 1 }) := by
  unfold Parser.advance Parser.isAtEnd
  rw [p.peek_of t h]
  simp only [hne, decide_False, Bool.not_false, if_true]
  unfold Parser.previous
  simp only [Nat.add_sub_cancel]
  rw [List.getD_eq_getElem?_getD, h]
  rfl

theorem Parser.matchOne_of_eq (p : Parser) (t : Token) (type : TokenType)
    (h : p.tokens[p.current]? = some t) (ht : t.type = type)
    (hne : type ≠ .END_OF_FILE) :
    p.matchOne type = (true, { p with current := p.current + 1 }) := by
  unfold Parser.matchOne
  rw [p.check_of_eq t type h ht hne, p.advance_of t h (by rw [ht]; exact hne)]
  rfl

theorem Parser.matchOne_of_ne (p : Parser) (t : Token) (type : TokenType)
    (h : p.tokens[p.current]? = some t) (ht : t.type ≠ type) :
    p.matchOne type = (false, p) := by
  unfold Parser.matchOne
  rw [p.check_of_ne t type h ht]
  rfl

theorem Parser.consume_of_eq (p : Parser) (t : Token) (type : TokenType) (message : String)
    (h : p.tokens[p.current]? = some t) (ht : t.type = type)
    (hne : type ≠ .END_OF_FILE) :
    p.consume type message = .ok t { p with current := p.current + 1 } := by
  unfold Parser.consume
  rw [p.check_of_eq t type h ht hne, p.advance_of t h (by rw [ht]; exact hne)]
  rfl

/-- After a semicolon has been passed, `synchronize` stops at once. -/
theorem Parser.synchronize_at_semicolon (p : Parser) (s : Token)
    (h : p.tokens[p.current]? = some s) (hs : s.type = .SEMICOLON) :
    p.synchronize = { p with current := p.current + 1 } := by
  unfold Parser.synchronize
  rw [p.advance_of s h (by rw [hs]; decide)]
  have hlen : p.current < p.tokens.length := by
    by_contra hc
    rw [List.getElem?_eq_none (Nat.le_of_not_lt hc)] at h
    exact absurd h (by simp)
  obtain ⟨n, hn⟩ : ∃ n, p.tokens.length = n + 1 := ⟨p.tokens.length - 1, by omega⟩
  rw [hn]
  unfold Parser.synchronizeLoop
  have hp : ({ p with current := p.current + 1 } : Parser).previous = s := by
    unfold Parser.previous
    simp only [Nat.add_sub_cancel]
    rw [List.getD_eq_getElem?_getD, h]
    rfl
  rw [hp]
  simp only [hs, if_true]
  split <;> rfl

/-! ## The order in which instructions are emitted -/

theorem Appends.of_blocks {g x : CodeGenerator} (hb : x.module.blocks = g.module.blocks) :
    Appends g x := by
  intro i
  unfold IRModule.instructionsOf
  rw [hb]

theorem prefix_appendInstruction (m : IRModule) (bb : Nat) (ins : Instruction) (i : Nat) :
    m.instructionsOf i <+: (m.appendInstruction bb ins).instructionsOf i := by
  by_cases h : i = bb
  · subst h
    unfold IRModule.instructionsOf IRModule.appendInstruction
    simp only [getElem?_updateAt_self]
    cases m.blocks[i]? with
    | none => exact List.prefix_refl _
    | some b => exact List.prefix_append _ _
  · rw [instructionsOf_appendInstruction_ne _ _ _ _ h]

/-- Expression lowering only adds instructions after those a block has. -/
theorem exprSteps_appends : ExprSteps Appends where
  refl := fun g i => List.prefix_refl _
  trans := fun a b c h1 h2 i => (h1 i).trans (h2 i)
  stack := fun g s => Appends.of_blocks rfl
  report := fun g sev msg => Appends.of_blocks rfl
  insert := by
    intro g ins _
    unfold CodeGenerator.Insert
    split
    · exact Appends.of_blocks rfl
    · intro i
      exact prefix_appendInstruction _ _ _ i
  takeValue := fun g => Appends.of_blocks rfl
  createBlock := by
    intro g n p i
    show _ <+: (g.module.createBlock n p).2.instructionsOf i
    rw [instructionsOf_createBlock]
  setInsertPoint := fun g bb => Appends.of_blocks rfl
  createGlobal := fun g ty c init n => Appends.of_blocks rfl

/-- Lowering an expression only adds instructions after those a block has. -/
theorem Expr.accept_appends (L : LLVM) (e : Expr) (g : CodeGenerator) :
    Appends g (e.accept L g) :=
  Expr.accept_steps exprSteps_appends L e g

theorem argumentStep_appends (L : LLVM) (s : CodeGenerator) (a : Expr) :
    Appends s (argumentStep L s a) :=
  exprSteps_appends.popValue_step (Expr.accept_appends L a s)

theorem acceptArguments_nil (L : LLVM) (args : List (Option Value)) (g : CodeGenerator) :
    acceptArguments L [] args g = (args, g) := by
  rw [acceptArguments]

theorem acceptArguments_cons (L : LLVM) (a : Expr) (rest : List Expr)
    (args : List (Option Value)) (g : CodeGenerator) :
    acceptArguments L (a :: rest) args g =
      acceptArguments L rest (args ++ [(popValue (a.accept L g)).1])
        (popValue (a.accept L g)).2 := by
  rw [acceptArguments]

/-- The accumulator of the argument loop. -/
theorem acceptArguments_acc (L : LLVM) :
    ∀ (arguments : List Expr) (args : List (Option Value)) (g : CodeGenerator),
      acceptArguments L arguments args g =
        (args ++ (acceptArguments L arguments [] g).1, (acceptArguments L arguments [] g).2)
  | [], args, g => by
    rw [acceptArguments_nil, acceptArguments_nil]
    simp
  | a :: rest, args, g => by
    rw [acceptArguments_cons, acceptArguments_acc L rest, acceptArguments_cons,
      acceptArguments_acc L rest ([] ++ _)]
    simp

/-- The argument loop: the state it leaves is that of lowering the arguments one after
the other in source order; the values it collects are, in source order, the value each
argument leaves when lowered in the state left by the arguments before it. -/
theorem acceptArguments_spec (L : LLVM) :
    ∀ (arguments : List Expr) (g : CodeGenerator),
      (acceptArguments L arguments [] g).2 = arguments.foldl (argumentStep L) g ∧
      (acceptArguments L arguments [] g).1.length = arguments.length ∧
      ∀ k (hk : k < arguments.length),
        (acceptArguments L arguments [] g).1[k]? =
          some (popValue ((arguments.get ⟨k, hk⟩).accept L
            ((arguments.take k).foldl (argumentStep L) g))).1
  | [], g => by
    rw [acceptArguments_nil]
    exact ⟨rfl, rfl, fun k hk => absurd hk (Nat.not_lt_zero k)⟩
  | a :: rest, g => by
    obtain ⟨h1, h2, h3⟩ := acceptArguments_spec L rest (popValue (a.accept L g)).2
    rw [acceptArguments_cons, acceptArguments_acc]
    refine ⟨h1, ?_, ?_⟩
    · simp only [List.nil_append, List.length_append, List.length_singleton,
        List.length_cons, h2]
      exact Nat.add_comm _ _
    · intro k hk
      cases k with
      | zero => simp
      | succ k =>
        have hk1 : k < rest.length := Nat.lt_of_succ_lt_succ hk
        simp only [List.nil_append, List.singleton_append, List.getElem?_cons_succ]
        rw [h3 k hk1]
        rfl

/-- `Module::getFunction`: the function found is in the function list and has the
name. -/
theorem getFunction_spec (m : IRModule) (name : String) (f : Nat)
    (h : m.getFunction name = some f) :
    f ∈ m.functionList ∧ ∃ fn, m.functions[f]? = some fn ∧ fn.name = name := by
  unfold IRModule.getFunction at h
  refine ⟨List.mem_of_find?_eq_some h, ?_⟩
  have hp := List.find?_some h
  cases hf : m.functions[f]? with
  | none => simp [hf] at hp
  | some fn =>
    refine ⟨fn, rfl, ?_⟩
    simpa [hf] using hp

/-! ## The operator of a binary expression after its operands -/

/-- A relation kept by the steps of expression lowering holds between the state the
right operand of a regular binary expression leaves and the state of the expression. -/
theorem regularBinary_own_steps {R : CodeGenerator → CodeGenerator → Prop}
    (hR : ExprSteps R) (L : LLVM) (op : Token)
    (acceptLeft acceptRight : CodeGenerator → CodeGenerator) (g : CodeGenerator) :
    R (popValue (acceptRight (popValue (acceptLeft g)).2)).2
      (visitRegularBinaryExpr L op acceptLeft acceptRight g) := by
  unfold visitRegularBinaryExpr
  simp only []
  split
  · exact binarySwitch_steps hR L op _ _ _ _ (promoteOperands_steps hR L _ _ _ (hR.refl _))
  · exact hR.pushValue_step _ (hR.reported _ _ (hR.refl _))

/-- The operator of a regular binary expression changes no block other than the one
that is current after the right operand. -/
theorem regularBinary_own_frame (L : LLVM) (op : Token)
    (acceptLeft acceptRight : CodeGenerator → CodeGenerator) (g : CodeGenerator) :
    Frame (popValue (acceptRight (popValue (acceptLeft g)).2)).2
      (visitRegularBinaryExpr L op acceptLeft acceptRight g) := by
  unfold visitRegularBinaryExpr
  simp only []
  split
  · exact binarySwitch_frame L op _ _ _ _ (promoteOperands_frame L _ _ _ (Frame.refl _))
  · exact ((Frame.refl _).report _ _).pushValue _

theorem visitBinaryExpr_of_regular (L : LLVM) (op : Token)
    (acceptLeft acceptRight : CodeGenerator → CodeGenerator) (g : CodeGenerator)
    (hop : ¬ (op.type = .AND ∨ op.type = .OR)) :
    visitBinaryExpr L op acceptLeft acceptRight g =
      visitRegularBinaryExpr L op acceptLeft acceptRight g := by
  unfold visitBinaryExpr
  simp only [hop, if_false]

/-- The states of the argument loop: each extends the one before it. -/
theorem argumentStates_appends (L : LLVM) (arguments : List Expr) (g : CodeGenerator)
    (k : Nat) :
    Appends ((arguments.take k).foldl (argumentStep L) g)
      ((arguments.take (k + 1)).foldl (argumentStep L) g) := by
  by_cases hk : k < arguments.length
  · rw [List.take_succ, List.foldl_append]
    rw [List.getElem?_eq_getElem hk]
    exact argumentStep_appends L _ _
  · rw [List.take_of_length_le (Nat.le_of_not_lt hk),
      List.take_of_length_le (Nat.le_succ_of_le (Nat.le_of_not_lt hk))]
    exact exprSteps_appends.refl _

/-- The call of a name for which the module has a function. -/
theorem callExpr_of_function (L : LLVM) (name paren : Token) (arguments : List Expr)
    (g : CodeGenerator) (f : Nat) (hf : g.module.getFunction name.lexeme = some f) :
    (Expr.CallExpr (.VariableExpr name) paren arguments).accept L g =
      pushValue
        (some (.Instruction (acceptArguments L arguments [] g).2.module.nextValue
          ((acceptArguments L arguments [] g).2.module.returnTypeOf (some f))))
        ((acceptArguments L arguments [] g).2.takeValue.Insert
          (.Call (acceptArguments L arguments [] g).2.module.nextValue (some f)
            (acceptArguments L arguments [] g).1
            ((acceptArguments L arguments [] g).2.module.returnTypeOf (some f))
            "call")) := by
  rw [Expr.accept]
  unfold visitCallExpr
  simp only [Expr.asVariableExpr, hf]
  rfl

/-! ## String constants and redeclarations -/

theorem globals_Insert (g : CodeGenerator) (i : Instruction) :
    (g.Insert i).module.globals = g.module.globals := by
  unfold CodeGenerator.Insert
  split <;> rfl

theorem globals_Create (g : CodeGenerator) (L : LLVM) (op : BuilderOp)
    (operands : List Value) (ty : Ty) (n : String) :
    (g.Create L op operands ty n).2.module.globals = g.module.globals := by
  unfold CodeGenerator.Create
  split
  · rfl
  · exact globals_Insert _ _

theorem value_stack_Create_state (g : CodeGenerator) (L : LLVM) (op : BuilderOp)
    (operands : List Value) (ty : Ty) (n : String) :
    (g.Create L op operands ty n).2.value_stack = g.value_stack := by
  unfold CodeGenerator.Create
  split
  · rfl
  · unfold CodeGenerator.Insert
    split <;> rfl

/-- A string literal: one new global constant holding the text, and the pointer to its
start, built on that global, pushed. -/
theorem visitLiteralExpr_string (L : LLVM) (v : String) (g : CodeGenerator) :
    (visitLiteralExpr L (.string v) g).module.globals = g.module.globals ++
      [{ name := (uniqueName g.module.symbolNames ".str" "." g.module.lastUnique).1,
         valueType := .array (v.utf8ByteSize + 1) (.integer 8), isConstant := true,
         initializer := v }] ∧
    ∃ x : CodeGenerator,
      (visitLiteralExpr L (.string v) g).value_stack =
        some (x.Create L .InBoundsGEP
          [.GlobalVariable g.module.globals.length
            (.pointer (.array (v.utf8ByteSize + 1) (.integer 8))),
           .ConstantInt getIntType 0, .ConstantInt getIntType 0]
          (.pointer (.integer 8)) "str_ptr").1 :: g.value_stack := by
  unfold visitLiteralExpr
  simp only []
  constructor
  · show (CodeGenerator.Create _ L _ _ _ _).2.module.globals = _
    rw [globals_Create]
    rfl
  · refine ⟨{ g with module := (g.module.createGlobalVariable
      (.array (v.utf8ByteSize + 1) (.integer 8)) true v ".str").2 }, ?_⟩
    show _ :: (CodeGenerator.Create _ L _ _ _ _).2.value_stack = _
    rw [value_stack_Create_state]
    rfl

theorem symbol_table_Insert (g : CodeGenerator) (i : Instruction) :
    (g.Insert i).symbol_table = g.symbol_table := by
  unfold CodeGenerator.Insert
  split <;> rfl

theorem exprSteps_nextValueLe : ExprSteps NextValueLe where
  refl := fun g => Nat.le_refl _
  trans := fun a b c h1 h2 => Nat.le_trans h1 h2
  stack := fun g s => Nat.le_refl _
  report := fun g sev msg => Nat.le_refl _
  insert := by
    intro g i _
    unfold NextValueLe
    rw [nextValue_Insert]
  takeValue := fun g => Nat.le_succ _
  createBlock := fun g n p => Nat.le_refl _
  setInsertPoint := fun g bb => Nat.le_refl _
  createGlobal := fun g ty c init n => Nat.le_refl _

theorem acceptInitializer_keeps (L : LLVM) (init : Option Expr) (g : CodeGenerator) :
    ExprKeeps g (acceptInitializer L init g).2 ∧
    NextValueLe g (acceptInitializer L init g).2 := by
  cases init with
  | none => exact ⟨exprSteps_exprKeeps.refl g, Nat.le_refl _⟩
  | some e =>
    exact ⟨exprSteps_exprKeeps.popValue_step (Expr.accept_keeps L e g),
      exprSteps_nextValueLe.popValue_step (Expr.accept_steps exprSteps_nextValueLe L e g)⟩

theorem nextValue_createEntryBlockAlloca (f : Option Nat) (n : String) (ty : Ty)
    (s : CodeGenerator) :
    (createEntryBlockAlloca f n ty s).2.module.nextValue = s.module.nextValue + 1 ∧
    (createEntryBlockAlloca f n ty s).1.id = s.module.nextValue ∧
    (createEntryBlockAlloca f n ty s).2.diagnostics = s.diagnostics ∧
    (createEntryBlockAlloca f n ty s).2.symbol_table = s.symbol_table := by
  unfold createEntryBlockAlloca
  split <;> exact ⟨rfl, rfl, rfl, rfl⟩

/-- A declaration: the slot bound to the name has the identity the counter had after the
initializer; the counter has moved on; the diagnostics are those of the initializer; the
symbol table is the one before with the name defined in the current scope. -/
theorem visitVarDeclStmt_binding (L : LLVM) (name : Token) (init : Option Expr)
    (g : CodeGenerator) :
    ∃ slot : AllocaInst,
      mapFind (visitVarDeclStmt name (init.map (fun e => e.accept L)) g).named_values
        name.lexeme = some slot ∧
      slot.id = (acceptInitializer L init g).2.module.nextValue ∧
      (visitVarDeclStmt name (init.map (fun e => e.accept L)) g).module.nextValue =
        slot.id + 1 ∧
      (visitVarDeclStmt name (init.map (fun e => e.accept L)) g).diagnostics =
        (acceptInitializer L init g).2.diagnostics ∧
      (visitVarDeclStmt name (init.map (fun e => e.accept L)) g).symbol_table =
        (g.symbol_table.define name.lexeme .VARIABLE none).2 := by
  have hk := (acceptInitializer_keeps L init g).1
  cases init with
  | none =>
    unfold visitVarDeclStmt
    simp only [Option.map_none']
    obtain ⟨h1, h2, h3, h4⟩ := nextValue_createEntryBlockAlloca g.current_function
      name.lexeme getIntType g
    exact ⟨_, mapFind_mapAssign _ _ _, h2, by rw [h1, h2], h3, by rw [h4]⟩
  | some e =>
    have hs : (popValue (e.accept L g)).2.symbol_table = g.symbol_table := hk.2.2.2.1
    unfold visitVarDeclStmt
    simp only [Option.map_some', acceptInitializer]
    cases hv : (popValue (e.accept L g)).1 with
    | none =>
      obtain ⟨h1, h2, h3, h4⟩ := nextValue_createEntryBlockAlloca
        (popValue (e.accept L g)).2.current_function name.lexeme getIntType
        (popValue (e.accept L g)).2
      exact ⟨_, mapFind_mapAssign _ _ _, h2, by rw [h1, h2], h3, by rw [h4, hs]⟩
    | some v =>
      obtain ⟨h1, h2, h3, h4⟩ := nextValue_createEntryBlockAlloca
        (popValue (e.accept L g)).2.current_function name.lexeme v.getType
        (popValue (e.accept L g)).2
      refine ⟨_, mapFind_mapAssign _ _ _, h2, ?_, ?_, ?_⟩
      · simp only [CodeGenerator.CreateStore]
        rw [nextValue_Insert, h1, h2]
      · simp only [CodeGenerator.CreateStore]
        rw [diagnostics_Insert, h3]
      · simp only [CodeGenerator.CreateStore]
        rw [symbol_table_Insert, h4, hs]

theorem lookup_append_self {β : Type} (l : List (String × β)) (n : String) (b : β)
    (h : l.lookup n = none) : (l ++ [(n, b)]).lookup n = some b := by
  induction l with
  | nil => simp [List.lookup]
  | cons a rest ih =>
    obtain ⟨a1, a2⟩ := a
    simp only [List.cons_append, List.lookup] at h ⊢
    cases hb : (n == a1)
    · simp only [hb] at h ⊢
      exact ih h
    · simp only [hb] at h
      exact absurd h (by simp)

theorem Scope.define_defined (sc : Scope) (n : String) (k : SymbolKind) (ty : Option Nat)
    (s : Symbol) (h : sc.symbols.lookup n = some s) : (sc.define n k ty).1 = false := by
  unfold Scope.define
  simp only [h]

theorem Scope.define_defines (sc : Scope) (n : String) (k : SymbolKind) (ty : Option Nat) :
    ∃ s, (sc.define n k ty).2.symbols.lookup n = some s := by
  unfold Scope.define
  cases h : sc.symbols.lookup n with
  | some s => exact ⟨s, by simp only [h]⟩
  | none => exact ⟨_, lookup_append_self _ _ _ h⟩

/-- A name defined in the current scope is detected by the next `define`. -/
theorem SymbolTable.define_twice (t : SymbolTable) (n : String) (k1 k2 : SymbolKind)
    (ty1 ty2 : Option Nat) : ((t.define n k1 ty1).2.define n k2 ty2).1 = false := by
  obtain ⟨s, hs⟩ := Scope.define_defines t.current_scope n k1 ty1
  exact Scope.define_defined _ n k2 ty2 s hs

/-! ## Sequences of statements and assignments to unknown names -/

/-- A literal reports nothing and binds nothing. -/
theorem visitLiteralExpr_diagnostics (L : LLVM) (v : LiteralValue) (g : CodeGenerator) :
    (visitLiteralExpr L v g).diagnostics = g.diagnostics ∧
    (visitLiteralExpr L v g).named_values = g.named_values := by
  cases v with
  | string v =>
    unfold visitLiteralExpr
    constructor
    · show (CodeGenerator.Create _ L _ _ _ _).2.diagnostics = _
      rw [diagnostics_Create]
    · show (CodeGenerator.Create _ L _ _ _ _).2.named_values = _
      unfold CodeGenerator.Create
      split
      · rfl
      · unfold CodeGenerator.Insert
        split <;> rfl
  | _ => exact ⟨rfl, rfl⟩

/-- Popping a value leaves the diagnostics and the bindings. -/
theorem popValue_diagnostics (x : CodeGenerator) :
    (popValue x).2.diagnostics = x.diagnostics ∧
    (popValue x).2.named_values = x.named_values := by
  unfold popValue
  split <;> exact ⟨rfl, rfl⟩

/-- The statement loop is a left fold of `acceptIfPresent` over the list: every
statement is lowered, each in the state the one before it left. -/
theorem acceptStatements_foldl (L : LLVM) :
    ∀ (statements : List (Option Stmt)) (g : CodeGenerator),
      acceptStatements L statements g =
        statements.foldl (fun s statement => acceptIfPresent L statement s) g
  | [], g => by rw [acceptStatements]; rfl
  | s :: rest, g => by
    rw [acceptStatements, List.foldl_cons]
    exact acceptStatements_foldl L rest _

/-- The statement `y = <literal>;` for a name that is not bound adds the one ERROR of
the assignment and leaves the bindings. -/
theorem assignUnknown_step (L : LLVM) (y : Token) (v : LiteralValue) (x : CodeGenerator)
    (hy : mapFind x.named_values y.lexeme = none) :
    (acceptIfPresent L (some (.ExpressionStmt (.AssignExpr y (.LiteralExpr v))))
      x).diagnostics.diagnostics =
      x.diagnostics.diagnostics ++
        [{ severity := .ERROR, message := "Unknown variable name: " ++ y.lexeme,
           location := {} }] ∧
    (acceptIfPresent L (some (.ExpressionStmt (.AssignExpr y (.LiteralExpr v))))
      x).named_values = x.named_values := by
  have hf : mapFind (popValue (visitLiteralExpr L v x)).2.named_values y.lexeme = none := by
    rw [(popValue_diagnostics _).2, (visitLiteralExpr_diagnostics L v x).2]
    exact hy
  have e : acceptIfPresent L (some (.ExpressionStmt (.AssignExpr y (.LiteralExpr v)))) x =
      (popValue (pushValue none ((popValue (visitLiteralExpr L v x)).2.report .ERROR
        ("Unknown variable name: " ++ y.lexeme)))).2 := by
    simp only [acceptIfPresent, Stmt.accept, Expr.accept, visitExpressionStmt,
      visitAssignExpr]
    simp only [hf]
  rw [e]
  constructor
  · rw [(popValue_diagnostics _).1]
    show ((popValue (visitLiteralExpr L v x)).2.diagnostics.report .ERROR
      ("Unknown variable name: " ++ y.lexeme) {} "").diagnostics = _
    rw [(popValue_diagnostics _).1, (visitLiteralExpr_diagnostics L v x).1]
    simp [DiagnosticManager.report, DiagnosticManager.reportDiagnostic]
  · rw [(popValue_diagnostics _).2]
    show (popValue (visitLiteralExpr L v x)).2.named_values = _
    rw [(popValue_diagnostics _).2, (visitLiteralExpr_diagnostics L v x).2]

/-- The statements `y = <literal>;` of a list of pairs of a name and a literal. -/
theorem assignUnknown_list (L : LLVM) :
    ∀ (assigns : List (Token × LiteralValue)) (x : CodeGenerator),
      (∀ a ∈ assigns, mapFind x.named_values a.1.lexeme = none) →
      (acceptStatements L
        (assigns.map (fun a => some (.ExpressionStmt (.AssignExpr a.1 (.LiteralExpr a.2)))))
        x).diagnostics.diagnostics =
        x.diagnostics.diagnostics ++
          assigns.map (fun a =>
            ({ severity := .ERROR, message := "Unknown variable name: " ++ a.1.lexeme,
               location := {} } : Diagnostic))
  | [], x, _ => by
    rw [List.map_nil, acceptStatements, List.map_nil, List.append_nil]
  | a :: rest, x, h => by
    rw [List.map_cons, acceptStatements]
    obtain ⟨h1, h2⟩ := assignUnknown_step L a.1 a.2 x (h a (List.mem_cons_self _ _))
    rw [assignUnknown_list L rest _ (by
      intro b hb
      rw [h2]
      exact h b (List.mem_cons_of_mem _ hb)), h1, List.map_cons, List.append_assoc]
    rfl

/-! ## The parameter loop -/

/-- The parameter loop takes its turns one after the other. -/
theorem bindParameters_cons (function : Nat) (a : String × Ty) (rest : List (String × Ty))
    (index : Nat) (x : CodeGenerator) :
    bindParameters function (a :: rest) index x =
      bindParameters function rest (index + 1) (bindParameters function [a] index x) := by
  cases a
  rfl

/-- One turn of the parameter loop, for a function whose entry block is the insertion
point: the slot is allocated at the head of the entry block, the store of the argument
goes to its end, and the name is bound to the slot. -/
theorem bindParameters_turn (function : Nat) (n : String) (ty : Ty) (index : Nat)
    (x : CodeGenerator) (e : Nat)
    (he : x.module.getEntryBlock (some function) = some e)
    (hi : x.insertBlock = some e) (hlen : e < x.module.blocks.length) :
    (bindParameters function [(n, ty)] index x).module.instructionsOf e =
      .Alloca x.module.nextValue ty n :: x.module.instructionsOf e ++
        [.Store (some (.Argument function index ty))
          (.Instruction x.module.nextValue (.pointer ty))] ∧
    (bindParameters function [(n, ty)] index x).module.getEntryBlock (some function) =
      some e ∧
    (bindParameters function [(n, ty)] index x).insertBlock = some e ∧
    e < (bindParameters function [(n, ty)] index x).module.blocks.length := by
  obtain ⟨a1, a2, _, _, _, a6⟩ := createEntryBlockAlloca_entry (some function) n ty x e he hlen
  have hi2 : (createEntryBlockAlloca (some function) n ty x).2.insertBlock = some e := by
    rw [a6, hi]
  have hl2 : e < (createEntryBlockAlloca (some function) n ty x).2.module.blocks.length := by
    unfold createEntryBlockAlloca
    simp only [he]
    simp [IRModule.prependInstruction, length_updateAt, CodeGenerator.takeValue]
    exact hlen
  have hf2 : (createEntryBlockAlloca (some function) n ty x).2.module.functions =
      x.module.functions := by
    unfold createEntryBlockAlloca
    simp only [he]
    rfl
  have hins : ∀ (y : CodeGenerator) (i : Instruction), y.insertBlock = some e →
      e < y.module.blocks.length →
      (y.Insert i).module.instructionsOf e = y.module.instructionsOf e ++ [i] ∧
      (y.Insert i).module.functions = y.module.functions ∧
      (y.Insert i).insertBlock = some e ∧
      e < (y.Insert i).module.blocks.length := by
    intro y i hy hl
    have hlen2 := length_Insert y i
    unfold CodeGenerator.Insert at hlen2 ⊢
    rw [hy] at hlen2 ⊢
    refine ⟨instructionsOf_appendInstruction _ _ _ hl, rfl, rfl, ?_⟩
    rw [hlen2]
    exact hl
  obtain ⟨b1, b2, b3, b4⟩ := hins (createEntryBlockAlloca (some function) n ty x).2
    (.Store (some (.Argument function index ty))
      (createEntryBlockAlloca (some function) n ty x).1.value) hi2 hl2
  refine ⟨?_, ?_, ?_, ?_⟩
  · show ((createEntryBlockAlloca (some function) n ty x).2.Insert _).module.instructionsOf e
      = _
    rw [b1, a2, a1]
    rfl
  · show IRModule.getEntryBlock
      ((createEntryBlockAlloca (some function) n ty x).2.Insert _).module (some function) = _
    unfold IRModule.getEntryBlock at he ⊢
    rw [b2, hf2]
    exact he
  · exact b3
  · exact b4

/-- One turn of the parameter loop: the counter of identities and the binding. -/
theorem bindParameters_turn_binding (function : Nat) (n : String) (ty : Ty) (index : Nat)
    (x : CodeGenerator) :
    (bindParameters function [(n, ty)] index x).module.nextValue = x.module.nextValue + 1 ∧
    (bindParameters function [(n, ty)] index x).named_values =
      mapAssign x.named_values n
        { id := x.module.nextValue, allocatedType := ty, name := n } ∧
    (bindParameters function [(n, ty)] index x).module.functions = x.module.functions := by
  have hn : (createEntryBlockAlloca (some function) n ty x).2.named_values =
      x.named_values := by
    unfold createEntryBlockAlloca
    split <;> rfl
  have hf : (createEntryBlockAlloca (some function) n ty x).2.module.functions =
      x.module.functions := by
    unfold createEntryBlockAlloca
    split <;> rfl
  have h1 : (createEntryBlockAlloca (some function) n ty x).1 =
      { id := x.module.nextValue, allocatedType := ty, name := n } := rfl
  have hif : ∀ (y : CodeGenerator) (i : Instruction),
      (y.Insert i).module.functions = y.module.functions := by
    intro y i
    unfold CodeGenerator.Insert
    split <;> rfl
  refine ⟨?_, ?_, ?_⟩
  · show ((createEntryBlockAlloca (some function) n ty x).2.Insert _).module.nextValue = _
    rw [nextValue_Insert, (nextValue_createEntryBlockAlloca _ _ _ _).1]
  · show mapAssign ((createEntryBlockAlloca (some function) n ty x).2.Insert _).named_values
      n (createEntryBlockAlloca (some function) n ty x).1 = _
    rw [named_values_Insert, hn, h1]
  · show ((createEntryBlockAlloca (some function) n ty x).2.Insert _).module.functions = _
    rw [hif, hf]

/-- The parameter loop in the entry block: the slots come first, the last allocated
at the head; the stores follow what the block held, in the order of the parameters. -/
theorem bindParameters_entry (function : Nat) (e : Nat) :
    ∀ (args : List (String × Ty)) (index : Nat) (x : CodeGenerator),
      x.module.getEntryBlock (some function) = some e →
      x.insertBlock = some e → e < x.module.blocks.length →
      (bindParameters function args index x).module.instructionsOf e =
        (parameterAllocas x.module.nextValue args).reverse ++ x.module.instructionsOf e ++
          parameterStores function index x.module.nextValue args
  | [], _, x, _, _, _ => by
    simp [bindParameters, parameterAllocas, parameterStores]
  | (n, ty) :: rest, index, x, he, hi, hlen => by
    obtain ⟨a1, a2, a3, a4⟩ := bindParameters_turn function n ty index x e he hi hlen
    obtain ⟨b1, _, _⟩ := bindParameters_turn_binding function n ty index x
    rw [bindParameters_cons, bindParameters_entry function e rest (index + 1) _ a2 a3 a4,
      a1, b1]
    simp [parameterAllocas, parameterStores]

/-- The parameter loop: the counter of identities, the functions of the module and the
bindings of the names that are not parameters. -/
theorem bindParameters_others (function : Nat) :
    ∀ (args : List (String × Ty)) (index : Nat) (x : CodeGenerator),
      (bindParameters function args index x).module.nextValue =
        x.module.nextValue + args.length ∧
      (bindParameters function args index x).module.functions = x.module.functions ∧
      ∀ k, k ∉ args.map Prod.fst →
        mapFind (bindParameters function args index x).named_values k =
          mapFind x.named_values k
  | [], _, x => ⟨rfl, rfl, fun _ _ => rfl⟩
  | (n, ty) :: rest, index, x => by
    obtain ⟨b1, b2, b3⟩ := bindParameters_turn_binding function n ty index x
    obtain ⟨c1, c2, c3⟩ := bindParameters_others function rest (index + 1)
      (bindParameters function [(n, ty)] index x)
    rw [bindParameters_cons]
    refine ⟨?_, ?_, ?_⟩
    · rw [c1, b1, List.length_cons]
      omega
    · rw [c2, b3]
    · intro k hk
      simp only [List.map_cons, List.mem_cons, not_or] at hk
      rw [c3 k hk.2, b2]
      apply mapFind_mapAssign_ne
      simp only [bne_iff_ne, ne_eq]
      exact fun h => hk.1 h.symm

/-- The parameter loop, for pairwise distinct names: the name of the parameter `i` is
bound to the slot allocated in turn `i`. -/
theorem bindParameters_bound (function : Nat) :
    ∀ (args : List (String × Ty)) (index : Nat) (x : CodeGenerator),
      (args.map Prod.fst).Nodup →
      ∀ (i : Nat) (a : String × Ty), args[i]? = some a →
        mapFind (bindParameters function args index x).named_values a.1 =
          some { id := x.module.nextValue + i, allocatedType := a.2, name := a.1 }
  | [], _, _, _, i, a, h => by simp at h
  | (n, ty) :: rest, index, x, hnd, i, a, h => by
    obtain ⟨b1, b2, _⟩ := bindParameters_turn_binding function n ty index x
    rw [bindParameters_cons]
    rw [List.map_cons, List.nodup_cons] at hnd
    cases i with
    | zero =>
      simp only [List.getElem?_cons_zero, Option.some.injEq] at h
      subst h
      rw [(bindParameters_others function rest (index + 1) _).2.2 _ hnd.1, b2]
      exact mapFind_mapAssign _ _ _
    | succ j =>
      simp only [List.getElem?_cons_succ] at h
      rw [bindParameters_bound function rest (index + 1) _ hnd.2 j a h, b1]
      simp only [Option.some.injEq, AllocaInst.mk.injEq, and_true, true_and]
      omega

/-- The names of arguments that are pairwise distinct are the names given. -/
theorem setArgNames_nodup :
    ∀ (names acc : List String) (last : Nat), (acc ++ names).Nodup →
      setArgNames names acc last = acc ++ names
  | [], acc, _, _ => by simp [setArgNames]
  | n :: rest, acc, last, h => by
    have hn : acc.contains n = false := by
      rw [List.nodup_append] at h
      simp only [List.contains_eq_any_beq, List.any_eq_false, beq_iff_eq]
      intro y hy e
      subst e
      exact h.2.2 hy (List.mem_cons_self _ _)
    have hu : uniqueName acc n "" last = (n, last) := by
      unfold uniqueName
      rw [hn]
      rfl
    rw [setArgNames, hu]
    rw [setArgNames_nodup rest (acc ++ [n]) last (by simpa using h)]
    simp
/-- The entry block of a function of the arena. -/
theorem getEntryBlock_of (m : IRModule) (f : Nat) (fn : IRFunction)
    (h : m.functions[f]? = some fn) : m.getEntryBlock (some f) = fn.blocks.head? := by
  unfold IRModule.getEntryBlock
  simp only [h]

/-- The instructions of a block of the arena. -/
theorem instructionsOf_of (m : IRModule) (b : Nat) (blk : BasicBlock)
    (h : m.blocks[b]? = some blk) : m.instructionsOf b = blk.instructions := by
  unfold IRModule.instructionsOf
  simp only [h]

/-- The state in which the parameter loop of a function starts. -/
theorem declareFunction_entered (name : Token) (params : List Token) (g : CodeGenerator) :
    functionStart name params g =
      bindParameters g.module.functions.length
        ((setArgNames (params.map (fun p => p.lexeme)) [] 0).zip
          (params.map (fun _ => getIntType))) 0
        { ((declareFunction name params g).createBlock "entry"
            (some g.module.functions.length)).2.SetInsertPoint g.module.blocks.length with
          current_function := some g.module.functions.length
          symbol_table := g.symbol_table.enterScope } :=
  rfl

theorem loopStart_spec (name : Token) (params : List Token) (g : CodeGenerator)
    (t : SymbolTable) :
    let x : CodeGenerator :=
      { ((declareFunction name params g).createBlock "entry"
          (some g.module.functions.length)).2.SetInsertPoint g.module.blocks.length with
        current_function := some g.module.functions.length
        symbol_table := t }
    x.module.getEntryBlock (some g.module.functions.length) = some g.module.blocks.length ∧
    x.insertBlock = some g.module.blocks.length ∧
    g.module.blocks.length < x.module.blocks.length ∧
    x.module.instructionsOf g.module.blocks.length = [] ∧
    x.module.nextValue = g.module.nextValue ∧
    x.named_values = g.named_values ∧
    x.module.functions[g.module.functions.length]? =
      some { name := (uniqueName g.module.symbolNames name.lexeme "." g.module.lastUnique).1,
             returnType := getIntType,
             paramTypes := params.map (fun _ => getIntType),
             isVarArg := false,
             argNames := setArgNames (params.map (fun p => p.lexeme)) [] 0,
             blocks := [g.module.blocks.length] } := by
  intro x
  have hf : (declareFunction name params g).module.functions =
      g.module.functions ++
        [{ name := (uniqueName g.module.symbolNames name.lexeme "." g.module.lastUnique).1,
           returnType := getIntType,
           paramTypes := params.map (fun _ => getIntType),
           isVarArg := false,
           argNames := setArgNames (params.map (fun p => p.lexeme)) [] 0,
           blocks := [] }] := by
    unfold declareFunction
    simp only [IRModule.createFunction]
    exact updateAt_append_length _ _ _
  have hb : (declareFunction name params g).module.blocks = g.module.blocks := rfl
  have hxf : x.module.functions =
      g.module.functions ++
        [{ name := (uniqueName g.module.symbolNames name.lexeme "." g.module.lastUnique).1,
           returnType := getIntType,
           paramTypes := params.map (fun _ => getIntType),
           isVarArg := false,
           argNames := setArgNames (params.map (fun p => p.lexeme)) [] 0,
           blocks := [g.module.blocks.length] }] := by
    show updateAt (declareFunction name params g).module.functions _ _ = _
    rw [hf, hb]
    exact updateAt_append_length _ _ _
  have hxb : x.module.blocks = g.module.blocks ++
      [{ name := "entry", parent := some g.module.functions.length, instructions := [] }] :=
    rfl
  have h7 : x.module.functions[g.module.functions.length]? =
      some { name := (uniqueName g.module.symbolNames name.lexeme "." g.module.lastUnique).1,
             returnType := getIntType,
             paramTypes := params.map (fun _ => getIntType),
             isVarArg := false,
             argNames := setArgNames (params.map (fun p => p.lexeme)) [] 0,
             blocks := [g.module.blocks.length] } := by
    rw [hxf]
    simp
  have h8 : x.module.blocks[g.module.blocks.length]? =
      some { name := "entry", parent := some g.module.functions.length,
             instructions := [] } := by
    rw [hxb]
    simp
  refine ⟨?_, rfl, ?_, ?_, rfl, rfl, h7⟩
  · exact getEntryBlock_of x.module _ _ h7
  · rw [hxb]
    simp
  · exact instructionsOf_of x.module _ _ h8

/-! ## The instructions of the parameter loop -/

theorem parameterAllocas_mem :
    ∀ (args : List (String × Ty)) (first i : Nat) (a : String × Ty), args[i]? = some a →
      Instruction.Alloca (first + i) a.2 a.1 ∈ parameterAllocas first args
  | [], _, _, _, h => by simp at h
  | (n, ty) :: rest, first, 0, a, h => by
    simp only [List.getElem?_cons_zero, Option.some.injEq] at h
    subst h
    exact List.mem_cons_self _ _
  | (n, ty) :: rest, first, i + 1, a, h => by
    simp only [List.getElem?_cons_succ] at h
    have := parameterAllocas_mem rest (first + 1) i a h
    rw [show first + 1 + i = first + (i + 1) by omega] at this
    exact List.mem_cons_of_mem _ this

theorem parameterStores_mem (function : Nat) :
    ∀ (args : List (String × Ty)) (index first i : Nat) (a : String × Ty),
      args[i]? = some a →
      Instruction.Store (some (.Argument function (index + i) a.2))
        (.Instruction (first + i) (.pointer a.2)) ∈
        parameterStores function index first args
  | [], _, _, _, _, h => by simp at h
  | (n, ty) :: rest, index, first, 0, a, h => by
    simp only [List.getElem?_cons_zero, Option.some.injEq] at h
    subst h
    exact List.mem_cons_self _ _
  | (n, ty) :: rest, index, first, i + 1, a, h => by
    simp only [List.getElem?_cons_succ] at h
    have := parameterStores_mem function rest (index + 1) (first + 1) i a h
    rw [show first + 1 + i = first + (i + 1) by omega,
      show index + 1 + i = index + (i + 1) by omega] at this
    exact List.mem_cons_of_mem _ this

theorem parameterAllocas_length :
    ∀ (args : List (String × Ty)) (first : Nat),
      (parameterAllocas first args).length = args.length
  | [], _ => rfl
  | (_, _) :: rest, first => by
    simp [parameterAllocas, parameterAllocas_length rest (first + 1)]

theorem parameterStores_length (function : Nat) :
    ∀ (args : List (String × Ty)) (index first : Nat),
      (parameterStores function index first args).length = args.length
  | [], _, _ => rfl
  | (_, _) :: rest, index, first => by
    simp [parameterStores, parameterStores_length function rest (index + 1) (first + 1)]

/-- The parameter loop leaves the insertion point where it is. -/
theorem bindParameters_insertBlock (function : Nat) :
    ∀ (args : List (String × Ty)) (index : Nat) (x : CodeGenerator),
      (bindParameters function args index x).insertBlock = x.insertBlock
  | [], _, _ => rfl
  | (n, ty) :: rest, index, x => by
    rw [bindParameters_cons, bindParameters_insertBlock function rest]
    have h1 : (createEntryBlockAlloca (some function) n ty x).2.insertBlock =
        x.insertBlock := by
      unfold createEntryBlockAlloca
      split <;> rfl
    show ((createEntryBlockAlloca (some function) n ty x).2.Insert _).insertBlock = _
    rw [← h1]
    unfold CodeGenerator.Insert
    split <;> rfl

/-! ## The symbol table -/

theorem lookup_append_other {β : Type} (l : List (String × β)) (n o : String) (b : β)
    (h : o ≠ n) : (l ++ [(n, b)]).lookup o = l.lookup o := by
  induction l with
  | nil =>
    have : (o == n) = false := by simpa using h
    simp [List.lookup, this]
  | cons a rest ih =>
    obtain ⟨a1, a2⟩ := a
    simp only [List.cons_append, List.lookup]
    cases (o == a1)
    · exact ih
    · rfl

/-- `Scope::resolve` is the first success of `resolveLocal` along the chain. -/
theorem Scope.resolve_chain : ∀ (sc : Scope) (name : String),
    sc.resolve name = sc.chain.findSome? (fun s => s.resolveLocal name)
  | .mk symbols none, name => by
    simp only [Scope.resolve, Scope.chain, List.findSome?, Scope.resolveLocal, Scope.symbols]
    cases symbols.lookup name <;> rfl
  | .mk symbols (some parent), name => by
    simp only [Scope.resolve, Scope.chain, List.findSome?, Scope.resolveLocal, Scope.symbols]
    cases symbols.lookup name with
    | some s => rfl
    | none => exact Scope.resolve_chain parent name

/-- The scope entered and left again, whatever was defined in it, is forgotten. -/
theorem SymbolTable.enter_define_exit (t : SymbolTable) (x : String) (kind : SymbolKind)
    (type : Option Nat) : (t.enterScope.define x kind type).2.exitScope = t := by
  unfold SymbolTable.exitScope SymbolTable.define SymbolTable.enterScope Scope.define
  simp [Scope.symbols, Scope.getParent, List.lookup]

/-! ## The insertion point after a function declaration -/

/-- The body of a function is lowered from the entry block of the function, a block
created by the declaration. -/
theorem functionStart_insert (name : Token) (params : List Token) (g : CodeGenerator) :
    (functionStart name params g).insertBlock = some g.module.blocks.length ∧
    g.module.blocks.length < (functionStart name params g).module.blocks.length := by
  obtain ⟨_, s2, s3, _⟩ := loopStart_spec name params g g.symbol_table.enterScope
  constructor
  · rw [declareFunction_entered, bindParameters_insertBlock]
    exact s2
  · rw [declareFunction_entered]
    exact Nat.lt_of_lt_of_le s3 (bindParameters_sframe _ _ _ _ (SFrame.rfl_step _)).1

/-- The default return and the restoration of the previous function leave the insertion
point where the body left it. -/
theorem functionEnd_insertBlock (prev : Option Nat) (x : CodeGenerator) :
    (functionEnd prev x).insertBlock = x.insertBlock ∧
    (functionEnd prev x).module.blocks.length = x.module.blocks.length := by
  unfold functionEnd
  simp only []
  split
  · exact ⟨insertBlock_Insert _ _, length_Insert _ _⟩
  · exact ⟨rfl, rfl⟩

/-- After a function declaration the insertion point is a block created by the
declaration: it is not restored to the block that was current before. -/
theorem functionStmt_insertBlock (L : LLVM) (name : Token) (params : List Token)
    (body : List (Option Stmt)) (g : CodeGenerator) :
    ∃ t, ((Stmt.FunctionStmt name params body).accept L g).insertBlock = some t ∧
      g.module.blocks.length ≤ t ∧
      t < ((Stmt.FunctionStmt name params body).accept L g).module.blocks.length := by
  obtain ⟨a1, a2⟩ := functionStart_insert name params g
  have hb := acceptStatements_sframe L body (functionStart name params g)
  obtain ⟨t, ht, htlt⟩ := hb.validInsert ⟨_, a1, a2⟩
  have hc := hb.insertBlock_cases _ t a1 ht
  obtain ⟨e1, e2⟩ := functionEnd_insertBlock g.current_function
    (acceptStatements L body (functionStart name params g))
  have hge : g.module.blocks.length ≤ t := by
    rcases hc with h | h <;> omega
  rw [Stmt.accept, visitFunctionStmt_eq]
  split
  · refine ⟨t, ?_, hge, ?_⟩
    · show (functionEnd g.current_function
        (acceptStatements L body (functionStart name params g))).insertBlock = _
      rw [e1]
      exact ht
    · show t < (functionEnd g.current_function
        (acceptStatements L body (functionStart name params g))).module.blocks.length
      rw [e2]
      exact htlt
  · exact ⟨t, by rw [e1]; exact ht, hge, by rw [e2]; exact htlt⟩

/-! ## The closing branch of an arm -/

/-- A block is closed with a branch, another block is appended to the function and
becomes the insertion point: the branch is appended to the block that was current, the
other blocks keep their instructions. -/
theorem closeBlock_append (x : CodeGenerator) (d : Nat) (f : Option Nat) (bb nb t : Nat)
    (ht : x.insertBlock = some t) (hlt : t < x.module.blocks.length) :
    (((x.CreateBr d).pushBackBlock f bb).SetInsertPoint nb).module.instructionsOf t =
      x.module.instructionsOf t ++ [.Br d] ∧
    ∀ c, c ≠ t →
      (((x.CreateBr d).pushBackBlock f bb).SetInsertPoint nb).module.instructionsOf c =
        x.module.instructionsOf c := by
  refine ⟨?_, (closeBlock x d f bb nb t ht hlt).2⟩
  show ((x.CreateBr d).module.pushBackBlock f bb).instructionsOf t = _
  rw [instructionsOf_pushBackBlock]
  show (x.Insert (.Br d)).module.instructionsOf t = _
  unfold CodeGenerator.Insert
  rw [ht]
  exact instructionsOf_appendInstruction _ _ _ hlt

/-- An if statement whose condition lowers to a value ends in its merge block, a block
created by the statement. -/
theorem ifStmt_insertBlock (L : LLVM) (condition : Expr) (then_branch : Stmt)
    (else_branch : Option Stmt) (x : CodeGenerator) (c0 : Value)
    (hc : (popValue (condition.accept L x)).1 = some c0) :
    ((Stmt.IfStmt condition then_branch else_branch).accept L x).insertBlock =
      some ((popValue (condition.accept L x)).2.module.blocks.length + 2) ∧
    x.module.blocks.length ≤ (popValue (condition.accept L x)).2.module.blocks.length := by
  constructor
  · rw [Stmt.accept, visitIfStmt_of_condition L _ _ _ x c0 hc, (ifEnd_blocks _ _).2,
      (ifStart_blocks L c0 _).2.2.1]
  · exact ((Expr.accept_frame L condition x).popValue).1

/-- A while statement whose condition lowers to a value ends in its exit block, a block
created by the statement. -/
theorem whileStmt_insertBlock (L : LLVM) (condition : Expr) (body : Stmt)
    (x : CodeGenerator) (c0 : Value)
    (hc : (popValue (condition.accept L (whileStart x).state)).1 = some c0) :
    ((Stmt.WhileStmt condition body).accept L x).insertBlock =
      some (x.module.blocks.length + 2) := by
  rw [Stmt.accept, visitWhileStmt_of_condition L _ _ x c0 hc, (whileEnd_blocks _ _).2,
    (whileStart_blocks x).2.2.1]

/-- A logical expression whose operands lower to integer values ends in its merge
block, a block created by the expression. -/
theorem logicalExpr_insertBlock (L : LLVM) (left right : Expr) (op : Token)
    (x : CodeGenerator) (l r : Value)
    (hop : op.type = .AND ∨ op.type = .OR)
    (hl : (logicalLeft (left.accept L) x).left = some l)
    (hli : l.getType.isIntegerTy = true)
    (hr : (popValue (right.accept L (logicalBranch L op (x.module.blocks.length)
      (x.module.blocks.length + 1) l (logicalLeft (left.accept L) x).state))).1 = some r)
    (hri : r.getType.isIntegerTy = true) :
    ((Expr.BinaryExpr left op right).accept L x).insertBlock =
      some (x.module.blocks.length + 1) := by
  obtain ⟨b1, b2⟩ := logicalLeft_blocks (left.accept L) x
  rw [Expr.accept]
  unfold visitBinaryExpr
  rw [if_pos hop, visitLogicalExpr_of_left L op _ _ x l hl hli, b1, b2]
  unfold logicalRight
  simp only [hr, hri, Bool.not_true, Bool.false_eq_true, if_false]
  unfold logicalMerge
  simp only []
  show (CodeGenerator.CreatePHI _ _ _ _).2.insertBlock = _
  unfold CodeGenerator.CreatePHI
  simp only [insertBlock_Insert]
  rfl

/-! ## The cursor of the parser -/

theorem Parser.lt_of_not_atEnd (p : Parser) (h : p.isAtEnd = false) :
    p.current < p.tokens.length := by
  by_contra hc
  have hge : p.tokens.length ≤ p.current := Nat.le_of_not_lt hc
  have : p.peek = Token.eof := by
    unfold Parser.peek
    rw [List.getD_eq_getElem?_getD, List.getElem?_eq_none hge]
    rfl
  unfold Parser.isAtEnd at h
  rw [this] at h
  exact absurd h (by decide)

theorem Parser.reaches_refl (p : Parser) : p.Reaches 0 p :=
  ⟨rfl, Nat.le_refl _, id⟩

theorem Parser.Reaches.andThen {k j : Nat} {p q r : Parser} (h1 : p.Reaches k q)
    (h2 : q.Reaches j r) : p.Reaches (k + j) r :=
  ⟨h2.1.trans h1.1, by have := h1.2.1; have := h2.2.1; omega, fun h => h2.2.2 (h1.2.2 h)⟩

theorem Parser.Reaches.weaker {k j : Nat} {p q : Parser} (h : p.Reaches k q) (hj : j ≤ k) :
    p.Reaches j q :=
  ⟨h.1, by have := h.2.1; omega, h.2.2⟩

/-- A state that differs in the diagnostics only. -/
theorem Parser.reaches_of_same {p q : Parser} (ht : q.tokens = p.tokens)
    (hc : q.current = p.current) : p.Reaches 0 q := by
  refine ⟨ht, ?_, ?_⟩
  · unfold Parser.rest
    rw [ht, hc]
    exact Nat.le_refl _
  · intro h
    unfold Parser.InBounds at h ⊢
    rw [ht, hc]
    exact h

theorem Parser.advance_of_not_atEnd (p : Parser) (h : p.isAtEnd = false) :
    p.Reaches 1 p.advance.2 := by
  have hlt := p.lt_of_not_atEnd h
  have e : p.advance.2 = { p with current := p.current + 1 } := by
    unfold Parser.advance
    simp only [h, Bool.not_false, if_true]
  rw [e]
  refine ⟨rfl, ?_, ?_⟩
  · unfold Parser.rest
    show p.tokens.length - (p.current + 1) + 1 ≤ p.tokens.length - p.current
    omega
  · intro hb
    refine ⟨?_, hb.2⟩
    show p.current + 1 < p.tokens.length
    by_contra hc
    have hlast : p.current = p.tokens.length - 1 := by omega
    have hpeek : p.peek.type = .END_OF_FILE := by
      unfold Parser.peek
      rw [List.getD_eq_getElem?_getD, hlast, ← List.getLast?_eq_getElem?]
      have h2 := hb.2
      cases hl : p.tokens.getLast? with
      | none => rw [hl] at h2; simp at h2
      | some t =>
        rw [hl] at h2
        simp only [Option.map_some', Option.some.injEq] at h2
        exact h2
    unfold Parser.isAtEnd at h
    rw [hpeek] at h
    simp at h

theorem Parser.advance_of_atEnd (p : Parser) (h : p.isAtEnd = true) : p.advance.2 = p := by
  unfold Parser.advance
  simp [h]

theorem Parser.advance_reaches (p : Parser) : p.Reaches 0 p.advance.2 := by
  cases h : p.isAtEnd
  · exact (p.advance_of_not_atEnd h).weaker (Nat.zero_le _)
  · rw [p.advance_of_atEnd h]
    exact Parser.reaches_refl p

theorem Parser.not_atEnd_of_check (p : Parser) (type : TokenType) (h : p.check type = true) :
    p.isAtEnd = false := by
  unfold Parser.check at h
  cases he : p.isAtEnd
  · rfl
  · rw [he] at h
    simp at h

theorem Parser.matchOne_true (p : Parser) (type : TokenType)
    (h : (p.matchOne type).1 = true) : p.Reaches 1 (p.matchOne type).2 := by
  unfold Parser.matchOne at h ⊢
  cases hc : p.check type
  · rw [hc] at h
    simp at h
  · simp only [if_true]
    exact p.advance_of_not_atEnd (p.not_atEnd_of_check type hc)

theorem Parser.matchOne_false (p : Parser) (type : TokenType)
    (h : (p.matchOne type).1 = false) : (p.matchOne type).2 = p := by
  unfold Parser.matchOne at h ⊢
  cases hc : p.check type
  · simp
  · rw [hc] at h
    simp at h

theorem Parser.matchAny_true (p : Parser) : ∀ (types : List TokenType),
    (p.matchAny types).1 = true → p.Reaches 1 (p.matchAny types).2
  | [], h => by simp [Parser.matchAny] at h
  | type :: types, h => by
    unfold Parser.matchAny at h ⊢
    cases hc : p.check type
    · rw [hc] at h
      simp only [Bool.false_eq_true, if_false] at h ⊢
      exact Parser.matchAny_true p types h
    · simp only [if_true]
      exact p.advance_of_not_atEnd (p.not_atEnd_of_check type hc)

theorem Parser.matchAny_false (p : Parser) : ∀ (types : List TokenType),
    (p.matchAny types).1 = false → (p.matchAny types).2 = p
  | [], _ => rfl
  | type :: types, h => by
    unfold Parser.matchAny at h ⊢
    cases hc : p.check type
    · rw [hc] at h
      simp only [Bool.false_eq_true, if_false] at h ⊢
      exact Parser.matchAny_false p types h
    · rw [hc] at h
      simp at h

theorem Parser.error_reaches (p : Parser) (token : Token) (message : String) :
    p.Reaches 0 (p.error token message).2 ∧ (p.error token message).2.rest = p.rest := by
  have h : (p.error token message).2.tokens = p.tokens ∧
      (p.error token message).2.current = p.current := by
    unfold Parser.error
    simp only []
    split <;> exact ⟨rfl, rfl⟩
  refine ⟨Parser.reaches_of_same h.1 h.2, ?_⟩
  unfold Parser.rest
  rw [h.1, h.2]

theorem Parser.consume_advances (p : Parser) (type : TokenType) (message : String) :
    (p.consume type message).Advances 1 p := by
  unfold Parser.consume
  cases hc : p.check type
  · simp only [Bool.false_eq_true, if_false]
    exact (p.error_reaches _ _).1
  · simp only [if_true]
    exact p.advance_of_not_atEnd (p.not_atEnd_of_check type hc)

theorem Parser.synchronizeLoop_reaches : ∀ (n : Nat) (p : Parser),
    p.Reaches 0 (Parser.synchronizeLoop n p)
  | 0, p => Parser.reaches_refl p
  | n + 1, p => by
    unfold Parser.synchronizeLoop
    split
    · exact Parser.reaches_refl p
    · split
      · exact Parser.reaches_refl p
      · have h := (p.advance_reaches).andThen (Parser.synchronizeLoop_reaches n p.advance.2)
        split <;> first
          | exact Parser.reaches_refl p
          | exact h

theorem Parser.synchronize_reaches (p : Parser) : p.Reaches 0 p.synchronize := by
  unfold Parser.synchronize
  exact (p.advance_reaches).andThen (Parser.synchronizeLoop_reaches _ _)

theorem Parser.synchronize_lt (p : Parser) (h : p.isAtEnd = false) :
    p.Reaches 1 p.synchronize := by
  unfold Parser.synchronize
  exact (p.advance_of_not_atEnd h).andThen (Parser.synchronizeLoop_reaches _ _)

/-! ## Outcomes that advance -/

theorem Outcome.Advances.weaken {α : Type} {k j : Nat} {p : Parser} {o : Outcome α}
    (h : o.Advances k p) (hj : j ≤ k) : o.Advances j p := by
  cases o with
  | ok v q => exact Parser.Reaches.weaker h hj
  | thrown e q => exact h
  | outOfFuel => exact h

theorem Outcome.Advances.shift {α : Type} {k j : Nat} {p p0 : Parser} {o : Outcome α}
    (h : o.Advances k p) (hr : p0.Reaches j p) : o.Advances (j + k) p0 := by
  cases o with
  | ok v q => exact hr.andThen h
  | thrown e q => exact (hr.andThen h).weaker (Nat.zero_le _)
  | outOfFuel => exact h

theorem Outcome.Advances.bind {α β : Type} {k j : Nat} {p : Parser} {o : Outcome α}
    {f : α → Parser → Outcome β} (h : o.Advances k p)
    (hf : ∀ v q, p.Reaches k q → (f v q).Advances j q) :
    (o.bind f).Advances (k + j) p := by
  cases o with
  | ok v q => exact (hf v q h).shift h
  | thrown e q => exact h
  | outOfFuel => exact h

theorem Outcome.Advances.map {α β : Type} {k : Nat} {p : Parser} {o : Outcome α}
    (f : α → β) (h : o.Advances k p) : (o.map f).Advances k p := by
  cases o with
  | ok v q => exact h
  | thrown e q => exact h
  | outOfFuel => exact h

theorem Outcome.Advances.ok_self {α : Type} (v : α) (p : Parser) :
    (Outcome.ok v p).Advances 0 p := Parser.reaches_refl p

/-! ## The expression methods of the parser terminate -/

theorem binaryLoop_advances (types : List TokenType) (operand : Parser → Outcome Expr)
    (n : Nat) (hop : ∀ q, q.rest ≤ n → (operand q).Advances 0 q) :
    ∀ (fuel : Nat) (expr : Expr) (p : Parser), p.rest ≤ n → p.rest + 1 ≤ fuel →
      (binaryLoop types operand fuel expr p).Advances 0 p
  | 0, _, p, _, h => absurd h (by omega)
  | fuel + 1, expr, p, hn, hf => by
    unfold binaryLoop
    cases hm : (p.matchAny types).1
    · simp only [Bool.false_eq_true, if_false]
      exact Parser.reaches_refl p
    · simp only [if_true]
      have m := p.matchAny_true types hm
      have m2 := m.2.1
      have h1 := hop (p.matchAny types).2 (by omega)
      have h2 := h1.bind (f := fun right p1 => binaryLoop types operand fuel
        (.BinaryExpr expr (p.matchAny types).2.previous right) p1) (j := 0)
        (fun v q hq => binaryLoop_advances types operand n hop fuel _ q
          (by have := hq.2.1; omega) (by have := hq.2.1; omega))
      exact (h2.shift m).weaken (Nat.zero_le _)

/-- A binary operator level: the operand, then the loop over the operators of the
level. -/
theorem binaryLevel_advances (types : List TokenType) (operand : Parser → Outcome Expr)
    (n fuel : Nat) (hop : ∀ q, q.rest ≤ n → (operand q).Advances 1 q)
    (hf : n + 1 ≤ fuel) (p : Parser) (hn : p.rest ≤ n) :
    ((operand p).bind (fun expr p1 => binaryLoop types operand fuel expr p1)).Advances 1 p :=
  (hop p hn).bind (f := fun expr p1 => binaryLoop types operand fuel expr p1) (j := 0)
    (fun v q hq => binaryLoop_advances types operand n
      (fun q hq => (hop q hq).weaken (Nat.zero_le _)) fuel v q
      (by have := hq.2.1; omega) (by have := hq.2.1; omega))

theorem primary_advances (stod : String → Option Double) (n : Nat)
    (hE : ∀ m, m < n → ∀ p fuel, p.rest ≤ m → 20 * m + 11 ≤ fuel →
      (expression stod fuel p).Advances 1 p) :
    ∀ p fuel, p.rest ≤ n → 20 * n + 1 ≤ fuel → (primary stod fuel p).Advances 1 p := by
  intro p fuel hn hf
  obtain ⟨f, rfl⟩ : ∃ f, fuel = f + 1 := ⟨fuel - 1, by omega⟩
  rw [primary]
  split
  · rename_i h
    exact p.matchOne_true _ h
  split
  · rename_i h
    exact p.matchOne_true _ h
  split
  · rename_i h
    exact p.matchOne_true _ h
  split
  · rename_i h
    have m := p.matchOne_true _ h
    simp only []
    split
    · exact m
    · exact m.andThen (Parser.error_reaches _ _ _).1
  split
  · rename_i h
    have m := p.matchOne_true _ h
    simp only []
    split
    · exact m
    · exact m.andThen (Parser.error_reaches _ _ _).1
  split
  · rename_i h
    exact p.matchOne_true _ h
  split
  · rename_i h
    exact p.matchOne_true _ h
  split
  · rename_i h
    have m := p.matchOne_true _ h
    have m2 := m.2.1
    have h1 := hE (n - 1) (by omega) (p.matchOne .LEFT_PAREN).2 f (by omega) (by omega)
    have h2 := h1.bind (f := fun expr p1 =>
      (p1.consume .RIGHT_PAREN "Expect ')' after expression").map (fun _ =>
        Expr.GroupingExpr expr)) (j := 1)
      (fun v q _ => (q.consume_advances _ _).map _)
    exact (h2.shift m).weaken (by omega)
  · exact (p.error_reaches _ _).1

theorem callLoop_advances (stod : String → Option Double) (n : Nat)
    (hF : ∀ m, m < n → ∀ p fuel callee, p.rest ≤ m → 20 * m + 13 ≤ fuel →
      (finishCall stod fuel callee p).Advances 1 p)
    (hC : ∀ m, m < n → ∀ p fuel expr, p.rest ≤ m → 20 * m + 1 ≤ fuel →
      (callLoop stod fuel expr p).Advances 0 p) :
    ∀ p fuel expr, p.rest ≤ n → 20 * n + 1 ≤ fuel →
      (callLoop stod fuel expr p).Advances 0 p := by
  intro p fuel expr hn hf
  obtain ⟨f, rfl⟩ : ∃ f, fuel = f + 1 := ⟨fuel - 1, by omega⟩
  rw [callLoop]
  split
  · rename_i h
    have m := p.matchOne_true _ h
    have m2 := m.2.1
    have h1 := hF (n - 1) (by omega) (p.matchOne .LEFT_PAREN).2 f expr (by omega) (by omega)
    have h2 := h1.bind (f := fun expr1 p1 => callLoop stod f expr1 p1) (j := 0)
      (fun v q hq => hC (n - 1) (by omega) q f v (by have := hq.2.1; omega) (by omega))
    exact (h2.shift m).weaken (by omega)
  · exact Parser.reaches_refl p

theorem call_advances (stod : String → Option Double) (n : Nat)
    (hP : ∀ p fuel, p.rest ≤ n → 20 * n + 1 ≤ fuel → (primary stod fuel p).Advances 1 p)
    (hC : ∀ p fuel expr, p.rest ≤ n → 20 * n + 1 ≤ fuel →
      (callLoop stod fuel expr p).Advances 0 p) :
    ∀ p fuel, p.rest ≤ n → 20 * n + 2 ≤ fuel → (call stod fuel p).Advances 1 p := by
  intro p fuel hn hf
  obtain ⟨f, rfl⟩ : ∃ f, fuel = f + 1 := ⟨fuel - 1, by omega⟩
  rw [call]
  exact (hP p f hn (by omega)).bind (f := fun expr p1 => callLoop stod f expr p1) (j := 0)
    (fun v q hq => hC q f v (by have := hq.2.1; omega) (by omega))

theorem unary_advances (stod : String → Option Double) (n : Nat)
    (hU : ∀ m, m < n → ∀ p fuel, p.rest ≤ m → 20 * m + 3 ≤ fuel →
      (unary stod fuel p).Advances 1 p)
    (hC : ∀ p fuel, p.rest ≤ n → 20 * n + 2 ≤ fuel → (call stod fuel p).Advances 1 p) :
    ∀ p fuel, p.rest ≤ n → 20 * n + 3 ≤ fuel → (unary stod fuel p).Advances 1 p := by
  intro p fuel hn hf
  obtain ⟨f, rfl⟩ : ∃ f, fuel = f + 1 := ⟨fuel - 1, by omega⟩
  rw [unary]
  split
  · rename_i h
    have m := p.matchAny_true _ h
    have m2 := m.2.1
    have h1 := hU (n - 1) (by omega) (p.matchAny [.BANG, .MINUS]).2 f (by omega) (by omega)
    exact ((h1.map _).shift m).weaken (by omega)
  · exact hC p f hn (by omega)

theorem assignment_advances (stod : String → Option Double) (n : Nat)
    (hA : ∀ m, m < n → ∀ p fuel, p.rest ≤ m → 20 * m + 10 ≤ fuel →
      (assignment stod fuel p).Advances 1 p)
    (hO : ∀ p fuel, p.rest ≤ n → 20 * n + 9 ≤ fuel → (logicalOr stod fuel p).Advances 1 p) :
    ∀ p fuel, p.rest ≤ n → 20 * n + 10 ≤ fuel → (assignment stod fuel p).Advances 1 p := by
  intro p fuel hn hf
  obtain ⟨f, rfl⟩ : ∃ f, fuel = f + 1 := ⟨fuel - 1, by omega⟩
  rw [assignment]
  refine ((hO p f hn (by omega)).bind (j := 0) ?_).weaken (by omega)
  intro expr p1 hq
  have hq2 := hq.2.1
  split
  · rename_i h
    have m := p1.matchOne_true _ h
    have m2 := m.2.1
    have h1 := hA (n - 1) (by omega) (p1.matchOne .EQUAL).2 f (by omega) (by omega)
    refine ((h1.bind (j := 0) ?_).shift m).weaken (by omega)
    intro value p2 _
    split
    · exact Parser.reaches_refl p2
    · exact (Parser.error_reaches _ _ _).1
  · exact Parser.reaches_refl p1

theorem argumentLoop_advances (stod : String → Option Double) (n : Nat)
    (hL : ∀ m, m < n → ∀ p fuel arguments, p.rest ≤ m → 20 * m + 12 ≤ fuel →
      (argumentLoop stod fuel arguments p).Advances 1 p)
    (hE : ∀ p fuel, p.rest ≤ n → 20 * n + 11 ≤ fuel →
      (expression stod fuel p).Advances 1 p) :
    ∀ p fuel arguments, p.rest ≤ n → 20 * n + 12 ≤ fuel →
      (argumentLoop stod fuel arguments p).Advances 1 p := by
  intro p fuel arguments hn hf
  obtain ⟨f, rfl⟩ : ∃ f, fuel = f + 1 := ⟨fuel - 1, by omega⟩
  rw [argumentLoop]
  have hp0 : ∀ p0 : Parser, p.Reaches 0 p0 →
      ((expression stod f p0).bind (fun argument p1 =>
        if (p1.matchOne .COMMA).1 = true then
          argumentLoop stod f (arguments ++ [argument]) (p1.matchOne .COMMA).2
        else .ok (arguments ++ [argument]) p1)).Advances 1 p := by
    intro p0 hr
    have hr2 := hr.2.1
    have h1 := hE p0 f (by omega) (by omega)
    refine ((h1.bind (j := 0) ?_).shift hr).weaken (by omega)
    intro argument p1 hq
    have hq2 := hq.2.1
    split
    · rename_i h
      have m := p1.matchOne_true _ h
      have m2 := m.2.1
      have h2 := hL (n - 1) (by omega) (p1.matchOne .COMMA).2 f (arguments ++ [argument])
        (by omega) (by omega)
      exact (h2.shift m).weaken (by omega)
    · exact Parser.reaches_refl p1
  split
  · exact hp0 _ (p.error_reaches _ _).1
  · exact hp0 p (Parser.reaches_refl p)

theorem finishCall_advances (stod : String → Option Double) (n : Nat)
    (hL : ∀ p fuel arguments, p.rest ≤ n → 20 * n + 12 ≤ fuel →
      (argumentLoop stod fuel arguments p).Advances 1 p) :
    ∀ p fuel callee, p.rest ≤ n → 20 * n + 13 ≤ fuel →
      (finishCall stod fuel callee p).Advances 1 p := by
  intro p fuel callee hn hf
  obtain ⟨f, rfl⟩ : ∃ f, fuel = f + 1 := ⟨fuel - 1, by omega⟩
  rw [finishCall]
  have h1 : (if (!p.check .RIGHT_PAREN) = true then argumentLoop stod f [] p
      else .ok [] p).Advances 0 p := by
    split
    · exact (hL p f [] hn (by omega)).weaken (by omega)
    · exact Parser.reaches_refl p
  refine (h1.bind (j := 1) ?_).weaken (by omega)
  intro arguments p1 _
  exact (p1.consume_advances _ _).map _

/-- The expression methods terminate. -/
theorem expressionsTerminate (stod : String → Option Double) :
    ∀ n, ExpressionsTerminate stod n := by
  intro n
  induction n using Nat.strong_induction_on with
  | _ n ih =>
    have hprimary := primary_advances stod n (fun m hm => (ih m hm).expression)
    have hcallLoop := callLoop_advances stod n (fun m hm => (ih m hm).finishCall)
      (fun m hm => (ih m hm).callLoop)
    have hcall := call_advances stod n hprimary hcallLoop
    have hunary := unary_advances stod n (fun m hm => (ih m hm).unary) hcall
    have hfactor : ∀ p fuel, p.rest ≤ n → 20 * n + 4 ≤ fuel →
        (factor stod fuel p).Advances 1 p := by
      intro p fuel hn hf
      obtain ⟨f, rfl⟩ : ∃ f, fuel = f + 1 := ⟨fuel - 1, by omega⟩
      rw [factor]
      exact binaryLevel_advances _ (fun q => unary stod f q) n f
        (fun q hq => hunary q f hq (by omega)) (by omega) p hn
    have hterm : ∀ p fuel, p.rest ≤ n → 20 * n + 5 ≤ fuel →
        (term stod fuel p).Advances 1 p := by
      intro p fuel hn hf
      obtain ⟨f, rfl⟩ : ∃ f, fuel = f + 1 := ⟨fuel - 1, by omega⟩
      rw [term]
      exact binaryLevel_advances _ (fun q => factor stod f q) n f
        (fun q hq => hfactor q f hq (by omega)) (by omega) p hn
    have hcomparison : ∀ p fuel, p.rest ≤ n → 20 * n + 6 ≤ fuel →
        (comparison stod fuel p).Advances 1 p := by
      intro p fuel hn hf
      obtain ⟨f, rfl⟩ : ∃ f, fuel = f + 1 := ⟨fuel - 1, by omega⟩
      rw [comparison]
      exact binaryLevel_advances _ (fun q => term stod f q) n f
        (fun q hq => hterm q f hq (by omega)) (by omega) p hn
    have hequality : ∀ p fuel, p.rest ≤ n → 20 * n + 7 ≤ fuel →
        (equality stod fuel p).Advances 1 p := by
      intro p fuel hn hf
      obtain ⟨f, rfl⟩ : ∃ f, fuel = f + 1 := ⟨fuel - 1, by omega⟩
      rw [equality]
      exact binaryLevel_advances _ (fun q => comparison stod f q) n f
        (fun q hq => hcomparison q f hq (by omega)) (by omega) p hn
    have hlogicalAnd : ∀ p fuel, p.rest ≤ n → 20 * n + 8 ≤ fuel →
        (logicalAnd stod fuel p).Advances 1 p := by
      intro p fuel hn hf
      obtain ⟨f, rfl⟩ : ∃ f, fuel = f + 1 := ⟨fuel - 1, by omega⟩
      rw [logicalAnd]
      exact binaryLevel_advances _ (fun q => equality stod f q) n f
        (fun q hq => hequality q f hq (by omega)) (by omega) p hn
    have hlogicalOr : ∀ p fuel, p.rest ≤ n → 20 * n + 9 ≤ fuel →
        (logicalOr stod fuel p).Advances 1 p := by
      intro p fuel hn hf
      obtain ⟨f, rfl⟩ : ∃ f, fuel = f + 1 := ⟨fuel - 1, by omega⟩
      rw [logicalOr]
      exact binaryLevel_advances _ (fun q => logicalAnd stod f q) n f
        (fun q hq => hlogicalAnd q f hq (by omega)) (by omega) p hn
    have hassignment := assignment_advances stod n (fun m hm => (ih m hm).assignment)
      hlogicalOr
    have hexpression : ∀ p fuel, p.rest ≤ n → 20 * n + 11 ≤ fuel →
        (expression stod fuel p).Advances 1 p := by
      intro p fuel hn hf
      obtain ⟨f, rfl⟩ : ∃ f, fuel = f + 1 := ⟨fuel - 1, by omega⟩
      rw [expression]
      exact hassignment p f hn (by omega)
    have hargumentLoop := argumentLoop_advances stod n (fun m hm => (ih m hm).argumentLoop)
      hexpression
    have hfinishCall := finishCall_advances stod n hargumentLoop
    exact ⟨hprimary, hcallLoop, hcall, hunary, hfactor, hterm, hcomparison, hequality,
      hlogicalAnd, hlogicalOr, hassignment, hexpression, hargumentLoop, hfinishCall⟩

/-- With a bound of twenty calls for each token left and eleven more, an expression is
parsed or a `ParseError` is thrown, and the cursor has moved when it is parsed. -/
theorem expression_advances (stod : String → Option Double) (p : Parser) (fuel : Nat)
    (hf : 20 * p.rest + 11 ≤ fuel) : (expression stod fuel p).Advances 1 p :=
  (expressionsTerminate stod p.rest).expression p fuel (Nat.le_refl _) hf

/-! ## The statement methods of the parser terminate -/

theorem Parser.rest_lt_of_atEnd (p q : Parser) (hr : p.Reaches 0 q)
    (hp : p.isAtEnd = false) (hq : q.isAtEnd = true) : q.rest + 1 ≤ p.rest := by
  by_contra hc
  have h1 := hr.2.1
  have h2 := p.lt_of_not_atEnd hp
  have ht := hr.1
  unfold Parser.rest at hc h1
  rw [ht] at hc h1
  have hcur : q.current = p.current := by omega
  have : q.isAtEnd = p.isAtEnd := by
    unfold Parser.isAtEnd Parser.peek
    rw [ht, hcur]
  rw [hq, hp] at this
  exact absurd this (by decide)

theorem varDeclaration_advances (stod : String → Option Double) (fuel : Nat)
    (is_const : Bool) (p : Parser) (hf : 20 * p.rest + 11 ≤ fuel) :
    (varDeclaration stod fuel is_const p).Advances 1 p := by
  unfold varDeclaration
  refine ((p.consume_advances _ _).bind (j := 0) ?_).weaken (by omega)
  intro name p1 h1
  have h12 := h1.2.1
  simp only []
  have hinit : (if (p1.matchOne .EQUAL).1 = true then
      (expression stod fuel (p1.matchOne .EQUAL).2).map some
    else if is_const = true then
      .thrown (p1.error name "Const declarations must have an initializer").1
        (p1.error name "Const declarations must have an initializer").2
    else (.ok none p1 : Outcome (Option Expr))).Advances 0 p1 := by
    split
    · rename_i h
      have m := p1.matchOne_true _ h
      have m2 := m.2.1
      have he := expression_advances stod (p1.matchOne .EQUAL).2 fuel (by omega)
      exact ((he.map some).shift m).weaken (by omega)
    · split
      · exact (p1.error_reaches _ _).1
      · exact Parser.reaches_refl p1
  refine (hinit.bind (j := 0) ?_).weaken (by omega)
  intro init p2 _
  exact ((p2.consume_advances _ _).map _).weaken (by omega)

theorem returnStatement_advances (stod : String → Option Double) (fuel : Nat)
    (p : Parser) (hf : 20 * p.rest + 11 ≤ fuel) :
    (returnStatement stod fuel p).Advances 1 p := by
  unfold returnStatement
  simp only []
  have h1 : (if (!p.check .SEMICOLON) = true then (expression stod fuel p).map some
      else (.ok none p : Outcome (Option Expr))).Advances 0 p := by
    split
    · exact ((expression_advances stod p fuel hf).map some).weaken (by omega)
    · exact Parser.reaches_refl p
  refine (h1.bind (j := 1) ?_).weaken (by omega)
  intro value p1 _
  exact (p1.consume_advances _ _).map _

theorem expressionStatement_advances (stod : String → Option Double) (fuel : Nat)
    (p : Parser) (hf : 20 * p.rest + 11 ≤ fuel) :
    (expressionStatement stod fuel p).Advances 1 p := by
  unfold expressionStatement
  refine ((expression_advances stod p fuel hf).bind (j := 0) ?_).weaken (by omega)
  intro expr p1 _
  exact ((p1.consume_advances _ _).map _).weaken (by omega)

theorem parameterLoop_advances : ∀ (fuel : Nat) (parameters : List Token) (p : Parser),
    p.rest + 1 ≤ fuel → (parameterLoop fuel parameters p).Advances 1 p
  | 0, _, p, h => absurd h (by omega)
  | fuel + 1, parameters, p, hf => by
    rw [parameterLoop]
    have hp0 : ∀ p0 : Parser, p.Reaches 0 p0 →
        ((p0.consume .IDENTIFIER "Expect parameter name").bind (fun parameter p1 =>
          if (p1.matchOne .COMMA).1 = true then
            parameterLoop fuel (parameters ++ [parameter]) (p1.matchOne .COMMA).2
          else .ok (parameters ++ [parameter]) p1)).Advances 1 p := by
      intro p0 hr
      have hr2 := hr.2.1
      refine (((p0.consume_advances _ _).bind (j := 0) ?_).shift hr).weaken (by omega)
      intro parameter p1 hq
      have hq2 := hq.2.1
      split
      · rename_i h
        have m := p1.matchOne_true _ h
        have m2 := m.2.1
        exact ((parameterLoop_advances fuel _ (p1.matchOne .COMMA).2 (by omega)).shift
          m).weaken (by omega)
      · exact Parser.reaches_refl p1
    split
    · exact hp0 _ (p.error_reaches _ _).1
    · exact hp0 p (Parser.reaches_refl p)

theorem declarationLoop_advances (declaration : Parser → Outcome (Option Stmt)) (n : Nat)
    (hd : ∀ q, q.rest ≤ n → (declaration q).Returns q) :
    ∀ (fuel : Nat) (statements : List (Option Stmt)) (p : Parser), p.rest ≤ n →
      p.rest + 1 ≤ fuel → (declarationLoop declaration fuel statements p).Advances 0 p
  | 0, _, p, _, h => absurd h (by omega)
  | fuel + 1, statements, p, hn, hf => by
    rw [declarationLoop]
    split
    · rename_i h
      have hend : p.isAtEnd = false := by
        simp only [Bool.and_eq_true, Bool.not_eq_true'] at h
        exact h.2
      have h1 := hd p hn
      cases ho : declaration p with
      | ok s q =>
        rw [ho] at h1
        have hlt := h1.2 hend
        have h2 := declarationLoop_advances declaration n hd fuel (statements ++ [s]) q
          (by omega) (by omega)
        exact (h2.shift h1.1).weaken (by omega)
      | thrown e q =>
        rw [ho] at h1
        exact absurd h1 (by simp [Outcome.Returns])
      | outOfFuel =>
        rw [ho] at h1
        exact absurd h1 (by simp [Outcome.Returns])
    · exact Parser.reaches_refl p

theorem declaration_eq (stod : String → Option Double) (fuel : Nat) (p : Parser) :
    declaration stod (fuel + 1) p =
      match declarationTry stod fuel p with
      | .ok s p1 => .ok s p1
      | .thrown _ p1 => .ok none p1.synchronize
      | .outOfFuel => .outOfFuel := by
  rw [declaration]
  rfl

theorem declaration_returns (stod : String → Option Double) (fuel : Nat) (p : Parser)
    (h : (declarationTry stod fuel p).Advances 1 p) :
    (declaration stod (fuel + 1) p).Returns p := by
  rw [declaration_eq]
  cases ho : declarationTry stod fuel p with
  | ok s q =>
    rw [ho] at h
    exact ⟨Parser.Reaches.weaker h (Nat.zero_le _), fun _ => h.2.1⟩
  | thrown e q =>
    rw [ho] at h
    refine ⟨h.andThen q.synchronize_reaches, ?_⟩
    intro hend
    cases hq : q.isAtEnd
    · have := (q.synchronize_lt hq).2.1
      have := h.2.1
      omega
    · have := Parser.rest_lt_of_atEnd p q h hend hq
      have := q.synchronize_reaches.2.1
      omega
  | outOfFuel =>
    rw [ho] at h
    exact absurd h (by simp [Outcome.Advances])

theorem declarationTry_advances (stod : String → Option Double) (n : Nat)
    (hF : ∀ m, m < n → ∀ p fuel, p.rest ≤ m → 20 * m + 14 ≤ fuel →
      (functionDeclaration stod fuel p).Advances 1 p)
    (hS : ∀ p fuel, p.rest ≤ n → 20 * n + 12 ≤ fuel → (statement stod fuel p).Advances 1 p) :
    ∀ p fuel, p.rest ≤ n → 20 * n + 12 ≤ fuel → (declarationTry stod fuel p).Advances 1 p := by
  intro p fuel hn hf
  unfold declarationTry
  split
  · rename_i h
    have m := p.matchOne_true _ h
    have m2 := m.2.1
    exact (((hF (n - 1) (by omega) _ fuel (by omega) (by omega)).map some).shift m).weaken
      (by omega)
  split
  · rename_i h
    have m := p.matchOne_true _ h
    have m2 := m.2.1
    exact (((varDeclaration_advances stod fuel false _ (by omega)).map some).shift m).weaken
      (by omega)
  split
  · rename_i h
    have m := p.matchOne_true _ h
    have m2 := m.2.1
    exact (((varDeclaration_advances stod fuel true _ (by omega)).map some).shift m).weaken
      (by omega)
  · exact (hS p fuel hn hf).map some

theorem statement_advances (stod : String → Option Double) (n : Nat)
    (hI : ∀ m, m < n → ∀ p fuel, p.rest ≤ m → 20 * m + 12 ≤ fuel →
      (ifStatement stod fuel p).Advances 1 p)
    (hW : ∀ m, m < n → ∀ p fuel, p.rest ≤ m → 20 * m + 12 ≤ fuel →
      (whileStatement stod fuel p).Advances 1 p)
    (hB : ∀ m, m < n → ∀ p fuel, p.rest ≤ m → 20 * m + 14 ≤ fuel →
      (blockStatement stod fuel p).Advances 1 p) :
    ∀ p fuel, p.rest ≤ n → 20 * n + 12 ≤ fuel → (statement stod fuel p).Advances 1 p := by
  intro p fuel hn hf
  obtain ⟨f, rfl⟩ : ∃ f, fuel = f + 1 := ⟨fuel - 1, by omega⟩
  rw [statement]
  split
  · rename_i h
    have m := p.matchOne_true _ h
    have m2 := m.2.1
    exact ((hI (n - 1) (by omega) _ f (by omega) (by omega)).shift m).weaken (by omega)
  split
  · rename_i h
    have m := p.matchOne_true _ h
    have m2 := m.2.1
    exact ((hW (n - 1) (by omega) _ f (by omega) (by omega)).shift m).weaken (by omega)
  split
  · rename_i h
    have m := p.matchOne_true _ h
    have m2 := m.2.1
    exact ((returnStatement_advances stod f _ (by omega)).shift m).weaken (by omega)
  split
  · rename_i h
    have m := p.matchOne_true _ h
    have m2 := m.2.1
    exact ((hB (n - 1) (by omega) _ f (by omega) (by omega)).shift m).weaken (by omega)
  · exact expressionStatement_advances stod f p (by omega)

theorem ifStatement_advances (stod : String → Option Double) (n : Nat)
    (hS : ∀ m, m < n → ∀ p fuel, p.rest ≤ m → 20 * m + 12 ≤ fuel →
      (statement stod fuel p).Advances 1 p) :
    ∀ p fuel, p.rest ≤ n → 20 * n + 12 ≤ fuel → (ifStatement stod fuel p).Advances 1 p := by
  intro p fuel hn hf
  obtain ⟨f, rfl⟩ : ∃ f, fuel = f + 1 := ⟨fuel - 1, by omega⟩
  rw [ifStatement]
  refine ((p.consume_advances _ _).bind (j := 0) ?_).weaken (by omega)
  intro _ p1 h1
  have h12 := h1.2.1
  refine ((expression_advances stod p1 f (by omega)).bind (j := 0) ?_).weaken (by omega)
  intro condition p2 h2
  have h22 := h2.2.1
  refine ((p2.consume_advances _ _).bind (j := 0) ?_).weaken (by omega)
  intro _ p3 h3
  have h32 := h3.2.1
  refine ((hS (n - 1) (by omega) p3 f (by omega) (by omega)).bind (j := 0) ?_).weaken
    (by omega)
  intro thenBranch p4 h4
  have h42 := h4.2.1
  split
  · rename_i h
    have m := p4.matchOne_true _ h
    have m2 := m.2.1
    exact (((hS (n - 1) (by omega) _ f (by omega) (by omega)).map _).shift m).weaken
      (by omega)
  · exact Parser.reaches_refl p4

theorem whileStatement_advances (stod : String → Option Double) (n : Nat)
    (hS : ∀ m, m < n → ∀ p fuel, p.rest ≤ m → 20 * m + 12 ≤ fuel →
      (statement stod fuel p).Advances 1 p) :
    ∀ p fuel, p.rest ≤ n → 20 * n + 12 ≤ fuel →
      (whileStatement stod fuel p).Advances 1 p := by
  intro p fuel hn hf
  obtain ⟨f, rfl⟩ : ∃ f, fuel = f + 1 := ⟨fuel - 1, by omega⟩
  rw [whileStatement]
  refine ((p.consume_advances _ _).bind (j := 0) ?_).weaken (by omega)
  intro _ p1 h1
  have h12 := h1.2.1
  refine ((expression_advances stod p1 f (by omega)).bind (j := 0) ?_).weaken (by omega)
  intro condition p2 h2
  have h22 := h2.2.1
  refine ((p2.consume_advances _ _).bind (j := 0) ?_).weaken (by omega)
  intro _ p3 h3
  have h32 := h3.2.1
  exact ((hS (n - 1) (by omega) p3 f (by omega) (by omega)).map _).weaken (by omega)

theorem blockStatement_advances (stod : String → Option Double) (n : Nat)
    (hD : ∀ p fuel, p.rest ≤ n → 20 * n + 13 ≤ fuel → (declaration stod fuel p).Returns p) :
    ∀ p fuel, p.rest ≤ n → 20 * n + 14 ≤ fuel →
      (blockStatement stod fuel p).Advances 1 p := by
  intro p fuel hn hf
  obtain ⟨f, rfl⟩ : ∃ f, fuel = f + 1 := ⟨fuel - 1, by omega⟩
  rw [blockStatement]
  have h1 := declarationLoop_advances (fun q => declaration stod f q) n
    (fun q hq => hD q f hq (by omega)) f [] p hn (by omega)
  refine (h1.bind (j := 1) ?_).weaken (by omega)
  intro statements p1 _
  exact (p1.consume_advances _ _).map _

theorem functionDeclaration_advances (stod : String → Option Double) (n : Nat)
    (hD : ∀ p fuel, p.rest ≤ n → 20 * n + 13 ≤ fuel → (declaration stod fuel p).Returns p) :
    ∀ p fuel, p.rest ≤ n → 20 * n + 14 ≤ fuel →
      (functionDeclaration stod fuel p).Advances 1 p := by
  intro p fuel hn hf
  obtain ⟨f, rfl⟩ : ∃ f, fuel = f + 1 := ⟨fuel - 1, by omega⟩
  rw [functionDeclaration]
  refine ((p.consume_advances _ _).bind (j := 0) ?_).weaken (by omega)
  intro name p1 h1
  have h12 := h1.2.1
  refine ((p1.consume_advances _ _).bind (j := 0) ?_).weaken (by omega)
  intro _ p2 h2
  have h22 := h2.2.1
  have hpl : (if (!p2.check .RIGHT_PAREN) = true then parameterLoop f [] p2
      else .ok [] p2).Advances 0 p2 := by
    split
    · exact (parameterLoop_advances f [] p2 (by omega)).weaken (by omega)
    · exact Parser.reaches_refl p2
  refine (hpl.bind (j := 0) ?_).weaken (by omega)
  intro parameters p3 h3
  have h32 := h3.2.1
  refine ((p3.consume_advances _ _).bind (j := 0) ?_).weaken (by omega)
  intro _ p4 h4
  have h42 := h4.2.1
  refine ((p4.consume_advances _ _).bind (j := 0) ?_).weaken (by omega)
  intro _ p5 h5
  have h52 := h5.2.1
  have hl := declarationLoop_advances (fun q => declaration stod f q) n
    (fun q hq => hD q f hq (by omega)) f [] p5 (by omega) (by omega)
  refine (hl.bind (j := 0) ?_).weaken (by omega)
  intro body p6 _
  exact ((p6.consume_advances _ _).map _).weaken (by omega)

/-- The statement methods terminate. -/
theorem statementsTerminate (stod : String → Option Double) :
    ∀ n, StatementsTerminate stod n := by
  intro n
  induction n using Nat.strong_induction_on with
  | _ n ih =>
    have hstatement := statement_advances stod n (fun m hm => (ih m hm).ifStatement)
      (fun m hm => (ih m hm).whileStatement) (fun m hm => (ih m hm).blockStatement)
    have htry := declarationTry_advances stod n (fun m hm => (ih m hm).functionDeclaration)
      hstatement
    have hdeclaration : ∀ p fuel, p.rest ≤ n → 20 * n + 13 ≤ fuel →
        (declaration stod fuel p).Returns p := by
      intro p fuel hn hf
      obtain ⟨f, rfl⟩ : ∃ f, fuel = f + 1 := ⟨fuel - 1, by omega⟩
      exact declaration_returns stod f p (htry p f hn (by omega))
    exact ⟨hstatement, hdeclaration,
      ifStatement_advances stod n (fun m hm => (ih m hm).statement),
      whileStatement_advances stod n (fun m hm => (ih m hm).statement),
      blockStatement_advances stod n hdeclaration,
      functionDeclaration_advances stod n hdeclaration⟩

/-- The loop of `Parser::parse` ends, at the end of the tokens. -/
theorem parseLoop_terminates (stod : String → Option Double) :
    ∀ (n : Nat) (fuel : Nat) (statements : List (Option Stmt)) (p : Parser),
      p.rest ≤ n → 20 * n + 14 ≤ fuel →
      ∃ ss q, parseLoop stod fuel statements p = some (ss, q) ∧ q.isAtEnd = true ∧
        p.Reaches 0 q := by
  intro n
  induction n using Nat.strong_induction_on with
  | _ n ih =>
    intro fuel statements p hn hf
    obtain ⟨f, rfl⟩ : ∃ f, fuel = f + 1 := ⟨fuel - 1, by omega⟩
    rw [parseLoop]
    cases hend : p.isAtEnd
    · simp only [Bool.not_false, if_true]
      have h1 := (statementsTerminate stod n).declaration p f hn (by omega)
      cases ho : declaration stod f p with
      | ok s q =>
        rw [ho] at h1
        have hlt := h1.2 hend
        obtain ⟨ss, r, e1, e2, e3⟩ := ih (n - 1) (by omega) f (statements ++ [s]) q
          (by omega) (by omega)
        exact ⟨ss, r, e1, e2, h1.1.andThen e3⟩
      | thrown e q =>
        rw [ho] at h1
        exact absurd h1 (by simp [Outcome.Returns])
      | outOfFuel =>
        rw [ho] at h1
        exact absurd h1 (by simp [Outcome.Returns])
    · simp only [Bool.not_true, Bool.false_eq_true, if_false]
      exact ⟨statements, p, rfl, hend, Parser.reaches_refl p⟩

/-! ## The loop of a binary operator level -/

/-- The loop of a binary operator level folds the operands to the left. -/
theorem binaryLoop_run (types : List TokenType) (operand : Parser → Outcome Expr) :
    ∀ (steps : List (Token × Expr)) (fuel : Nat) (expr : Expr) (p q : Parser),
      LoopRun types operand p steps q → steps.length + 1 ≤ fuel →
      binaryLoop types operand fuel expr p =
        .ok (steps.foldl (fun acc step => .BinaryExpr acc step.1 step.2) expr) q
  | [], fuel, expr, p, q, h, hf => by
    obtain ⟨f, rfl⟩ : ∃ f, fuel = f + 1 := ⟨fuel - 1, by simp at hf; omega⟩
    obtain ⟨h1, h2⟩ := h
    rw [binaryLoop]
    simp only [h1, Bool.false_eq_true, if_false, List.foldl_nil, h2]
  | (op, right) :: rest, fuel, expr, p, q, h, hf => by
    obtain ⟨f, rfl⟩ : ∃ f, fuel = f + 1 := ⟨fuel - 1, by simp at hf; omega⟩
    obtain ⟨h1, h2, p1, h3, h4⟩ := h
    rw [binaryLoop]
    simp only [h1, if_true, h3, Outcome.bind, List.foldl_cons]
    rw [← h2]
    exact binaryLoop_run types operand rest f _ p1 q h4
      (by simp only [List.length_cons] at hf; omega)

/-! ## Blocks with and without their terminator -/

theorem noTerm_nil : NoTerm [] := fun _ h => absurd h (List.not_mem_nil _)

theorem noTerm_append {l : List Instruction} {i : Instruction} (h : NoTerm l)
    (hi : i.isTerminator = false) : NoTerm (l ++ [i]) := by
  intro j hj
  rcases List.mem_append.1 hj with h1 | h1
  · exact h j h1
  · rw [List.mem_singleton.1 h1]
    exact hi

theorem noTerm_cons {l : List Instruction} {i : Instruction} (h : NoTerm l)
    (hi : i.isTerminator = false) : NoTerm (i :: l) := by
  intro j hj
  rcases List.mem_cons.1 hj with h1 | h1
  · rw [h1]
    exact hi
  · exact h j h1

theorem noTerm_countP {l : List Instruction} (h : NoTerm l) :
    l.countP Instruction.isTerminator = 0 := by
  rw [List.countP_eq_zero]
  intro i hi
  simp [h i hi]

theorem closed_cons {T : Nat → Prop} {l : List Instruction} {i : Instruction}
    (h : Closed T l) (hi : i.isTerminator = false) : Closed T (i :: l) := by
  obtain ⟨body, t, e, hb, ht, hs⟩ := h
  exact ⟨i :: body, t, by rw [e]; rfl, noTerm_cons hb hi, ht, hs⟩

theorem closed_mono {T U : Nat → Prop} {l : List Instruction} (h : Closed T l)
    (hTU : ∀ d, T d → U d) : Closed U l := by
  obtain ⟨body, t, e, hb, ht, hs⟩ := h
  exact ⟨body, t, e, hb, ht, fun d hd => hTU d (hs d hd)⟩

theorem closed_of_noTerm {T : Nat → Prop} {l : List Instruction} {t : Instruction}
    (h : NoTerm l) (ht : t.isTerminator = true) (hs : ∀ d ∈ t.successors, T d) :
    Closed T (l ++ [t]) :=
  ⟨l, t, rfl, h, ht, hs⟩

/-- A block that ends with its only terminator passes the structural check. -/
theorem closed_oneTerminatorLast {T : Nat → Prop} {b : BasicBlock}
    (h : Closed T b.instructions) : b.oneTerminatorLast = true := by
  obtain ⟨body, t, e, hb, ht, _⟩ := h
  unfold BasicBlock.oneTerminatorLast BasicBlock.getTerminator
  rw [e, List.countP_append, noTerm_countP hb]
  simp [ht, List.countP_cons]

theorem successors_of_not_terminator {i : Instruction} (h : i.isTerminator = false) :
    i.successors = [] := by
  cases i <;> first | rfl | exact absurd h (by simp [Instruction.isTerminator])

/-- Every target of every instruction of a closed block satisfies the predicate. -/
theorem closed_targets {T : Nat → Prop} {l : List Instruction} (h : Closed T l) :
    ∀ i ∈ l, ∀ d ∈ i.successors, T d := by
  obtain ⟨body, t, e, hb, ht, hs⟩ := h
  intro i hi d hd
  rw [e] at hi
  rcases List.mem_append.1 hi with h1 | h1
  · rw [successors_of_not_terminator (hb i h1)] at hd
    exact absurd hd (List.not_mem_nil _)
  · rw [List.mem_singleton.1 h1] at hd
    exact hs d hd

/-! ## The block list and the parents under the builder calls -/

theorem lt_of_mem_blocksOf {m : IRModule} {f c : Nat} (h : c ∈ m.blocksOf f) :
    f < m.functions.length := by
  unfold IRModule.blocksOf at h
  by_cases hf : f < m.functions.length
  · exact hf
  · rw [List.getElem?_eq_none (Nat.le_of_not_lt hf)] at h
    exact absurd h (List.not_mem_nil _)

theorem instructionsOf_of_le {m : IRModule} {c : Nat} (h : m.blocks.length ≤ c) :
    m.instructionsOf c = [] := by
  unfold IRModule.instructionsOf
  rw [List.getElem?_eq_none h]

theorem parentOf_appendInstruction (m : IRModule) (bb c : Nat) (i : Instruction) :
    (m.appendInstruction bb i).parentOf c = m.parentOf c := by
  unfold IRModule.parentOf IRModule.appendInstruction
  simp only []
  by_cases h : c = bb
  · subst h
    rw [getElem?_updateAt_self]
    cases m.blocks[c]? <;> rfl
  · rw [getElem?_updateAt_ne _ _ _ _ h]

theorem parentOf_prependInstruction (m : IRModule) (bb c : Nat) (i : Instruction) :
    (m.prependInstruction bb i).parentOf c = m.parentOf c := by
  unfold IRModule.parentOf IRModule.prependInstruction
  simp only []
  by_cases h : c = bb
  · subst h
    rw [getElem?_updateAt_self]
    cases m.blocks[c]? <;> rfl
  · rw [getElem?_updateAt_ne _ _ _ _ h]

theorem instructionsOf_prependInstruction_cases (m : IRModule) (e c : Nat)
    (i : Instruction) :
    (m.prependInstruction e i).instructionsOf c = m.instructionsOf c ∨
    (m.prependInstruction e i).instructionsOf c = i :: m.instructionsOf c := by
  by_cases h : c = e
  · subst h
    by_cases hl : c < m.blocks.length
    · exact Or.inr (instructionsOf_prependInstruction m c i hl)
    · left
      unfold IRModule.instructionsOf IRModule.prependInstruction
      simp only [getElem?_updateAt_self]
      rw [List.getElem?_eq_none (Nat.le_of_not_lt hl)]
      rfl
  · exact Or.inl (instructionsOf_prependInstruction_ne m e c i h)

theorem blocksOf_createBlock_self (m : IRModule) (n : String) (f : Nat)
    (hf : f < m.functions.length) :
    (m.createBlock n (some f)).2.blocksOf f = m.blocksOf f ++ [m.blocks.length] := by
  unfold IRModule.blocksOf IRModule.createBlock
  simp only [getElem?_updateAt_self]
  rw [List.getElem?_eq_getElem hf]
  rfl

theorem parentOf_createBlock_old (m : IRModule) (n : String) (p : Option Nat) (c : Nat)
    (hc : c < m.blocks.length) : (m.createBlock n p).2.parentOf c = m.parentOf c := by
  unfold IRModule.parentOf IRModule.createBlock
  simp only []
  rw [List.getElem?_append_left hc]

theorem parentOf_createBlock_new (m : IRModule) (n : String) (p : Option Nat) :
    (m.createBlock n p).2.parentOf m.blocks.length = p := by
  unfold IRModule.parentOf IRModule.createBlock
  simp

theorem blocksOf_pushBackBlock (m : IRModule) (f bb : Nat) (hf : f < m.functions.length) :
    (m.pushBackBlock (some f) bb).blocksOf f = m.blocksOf f ++ [bb] := by
  unfold IRModule.blocksOf IRModule.pushBackBlock
  simp only [getElem?_updateAt_self]
  rw [List.getElem?_eq_getElem hf]
  rfl

theorem parentOf_pushBackBlock_self (m : IRModule) (f bb : Nat)
    (hb : bb < m.blocks.length) : (m.pushBackBlock (some f) bb).parentOf bb = some f := by
  unfold IRModule.parentOf IRModule.pushBackBlock
  simp only [getElem?_updateAt_self]
  rw [List.getElem?_eq_getElem hb]
  rfl

theorem parentOf_pushBackBlock_ne (m : IRModule) (f bb c : Nat) (h : c ≠ bb) :
    (m.pushBackBlock (some f) bb).parentOf c = m.parentOf c := by
  unfold IRModule.parentOf IRModule.pushBackBlock
  simp only [getElem?_updateAt_ne _ _ _ _ h]
/-! ## The blocks of a function under construction, step by step -/

theorem Building.sameBlocks {f : Nat} {O : List Nat} {m m1 : IRModule} (h : Building f O m)
    (hb : m1.blocks = m.blocks) (hf : m1.functions = m.functions) : Building f O m1 := by
  have e1 : m1.blocksOf f = m.blocksOf f := by
    unfold IRModule.blocksOf
    rw [hf]
  have e2 : ∀ c, m1.instructionsOf c = m.instructionsOf c := by
    intro c
    unfold IRModule.instructionsOf
    rw [hb]
  have e3 : ∀ c, m1.parentOf c = m.parentOf c := by
    intro c
    unfold IRModule.parentOf
    rw [hb]
  refine ⟨?_, ?_, ?_⟩
  · intro c hc
    rw [e1] at hc
    rw [hb, e3]
    exact h.inList c hc
  · intro c hc
    rw [hb, e2]
    exact h.awaiting c hc
  · intro c hc hn
    rw [e1] at hc
    rw [e2, e1]
    exact h.closed c hc hn

theorem Building.ofOpened {f : Nat} {O O1 : List Nat} {m : IRModule} (h : Building f O m)
    (hO : ∀ c, c ∈ O1 ↔ c ∈ O) : Building f O1 m := by
  refine ⟨h.inList, fun c hc => h.awaiting c ((hO c).1 hc), ?_⟩
  intro c hc hn
  exact closed_mono (h.closed c hc (fun hx => hn ((hO c).2 hx)))
    (fun d hd => hd.imp id (hO d).2)

theorem Building.opened {f : Nat} {O : List Nat} {m : IRModule} (h : Building f O m)
    {c : Nat} (hc : c < m.blocks.length) (hn : NoTerm (m.instructionsOf c)) :
    Building f (c :: O) m := by
  refine ⟨h.inList, ?_, ?_⟩
  · intro d hd
    rcases List.mem_cons.1 hd with e | e
    · rw [e]
      exact ⟨hc, hn⟩
    · exact h.awaiting d e
  · intro d hd hx
    exact closed_mono (h.closed d hd (fun hy => hx (List.mem_cons_of_mem _ hy)))
      (fun t ht => ht.imp id (List.mem_cons_of_mem _))

theorem length_appendInstruction (m : IRModule) (b : Nat) (i : Instruction) :
    (m.appendInstruction b i).blocks.length = m.blocks.length := by
  simp [IRModule.appendInstruction, length_updateAt]

theorem length_prependInstruction (m : IRModule) (b : Nat) (i : Instruction) :
    (m.prependInstruction b i).blocks.length = m.blocks.length := by
  simp [IRModule.prependInstruction, length_updateAt]

/-- An instruction that is no terminator, appended to an opened block. -/
theorem Building.append {f : Nat} {O : List Nat} {m : IRModule} {b : Nat}
    {i : Instruction} (h : Building f O m) (hb : b ∈ O) (hi : i.isTerminator = false) :
    Building f O (m.appendInstruction b i) := by
  refine ⟨?_, ?_, ?_⟩
  · intro c hc
    rw [length_appendInstruction, parentOf_appendInstruction]
    exact h.inList c hc
  · intro c hc
    rw [length_appendInstruction]
    refine ⟨(h.awaiting c hc).1, ?_⟩
    by_cases e : c = b
    · subst e
      rw [instructionsOf_appendInstruction _ _ _ (h.awaiting c hc).1]
      exact noTerm_append (h.awaiting c hc).2 hi
    · rw [instructionsOf_appendInstruction_ne _ _ _ _ e]
      exact (h.awaiting c hc).2
  · intro c hc hn
    have e : c ≠ b := fun e => hn (e ▸ hb)
    rw [instructionsOf_appendInstruction_ne _ _ _ _ e]
    exact h.closed c hc hn

/-- An instruction that is no terminator, put in front of any block. -/
theorem Building.prepend {f : Nat} {O : List Nat} {m : IRModule} (e : Nat)
    {i : Instruction} (h : Building f O m) (hi : i.isTerminator = false) :
    Building f O (m.prependInstruction e i) := by
  refine ⟨?_, ?_, ?_⟩
  · intro c hc
    rw [length_prependInstruction, parentOf_prependInstruction]
    exact h.inList c hc
  · intro c hc
    rw [length_prependInstruction]
    refine ⟨(h.awaiting c hc).1, ?_⟩
    rcases instructionsOf_prependInstruction_cases m e c i with h1 | h1
    · rw [h1]
      exact (h.awaiting c hc).2
    · rw [h1]
      exact noTerm_cons (h.awaiting c hc).2 hi
  · intro c hc hn
    rcases instructionsOf_prependInstruction_cases m e c i with h1 | h1
    · rw [h1]
      exact h.closed c hc hn
    · rw [h1]
      exact closed_cons (h.closed c hc hn) hi

/-- The terminator of an opened block of the list: the block leaves the opened blocks. -/
theorem Building.close {f : Nat} {P : List Nat} {m : IRModule} {b : Nat}
    {t : Instruction} (h : Building f (b :: P) m) (hb : b ∉ P) (hl : b ∈ m.blocksOf f)
    (ht : t.isTerminator = true)
    (hs : ∀ d ∈ t.successors, d ∈ m.blocksOf f ∨ d ∈ P) :
    Building f P (m.appendInstruction b t) := by
  refine ⟨?_, ?_, ?_⟩
  · intro c hc
    rw [length_appendInstruction, parentOf_appendInstruction]
    exact h.inList c hc
  · intro c hc
    rw [length_appendInstruction]
    have e : c ≠ b := fun e => hb (e ▸ hc)
    rw [instructionsOf_appendInstruction_ne _ _ _ _ e]
    exact h.awaiting c (List.mem_cons_of_mem _ hc)
  · intro c hc hn
    by_cases e : c = b
    · subst e
      rw [instructionsOf_appendInstruction _ _ _ (h.awaiting c (List.mem_cons_self _ _)).1]
      exact closed_of_noTerm (h.awaiting c (List.mem_cons_self _ _)).2 ht hs
    · rw [instructionsOf_appendInstruction_ne _ _ _ _ e]
      have hx : c ∉ b :: P := by
        intro hx
        rcases List.mem_cons.1 hx with e1 | e1
        · exact e e1
        · exact hn e1
      refine closed_mono (h.closed c hc hx) ?_
      intro d hd
      rcases hd with h1 | h1
      · exact Or.inl h1
      · rcases List.mem_cons.1 h1 with e1 | e1
        · rw [e1]
          exact Or.inl hl
        · exact Or.inr e1

/-- A block created in the function: it joins the list and the opened blocks. -/
theorem Building.listedBlock {f : Nat} {O : List Nat} {m : IRModule} (n : String)
    (h : Building f O m) (hf : f < m.functions.length) :
    Building f (m.blocks.length :: O) (m.createBlock n (some f)).2 := by
  have hlen : (m.createBlock n (some f)).2.blocks.length = m.blocks.length + 1 := by
    simp [IRModule.createBlock]
  refine ⟨?_, ?_, ?_⟩
  · intro c hc
    rw [blocksOf_createBlock_self m n f hf] at hc
    rw [hlen]
    rcases List.mem_append.1 hc with h1 | h1
    · rw [parentOf_createBlock_old m n _ c (h.inList c h1).1]
      exact ⟨Nat.lt_succ_of_lt (h.inList c h1).1, (h.inList c h1).2⟩
    · rw [List.mem_singleton.1 h1, parentOf_createBlock_new]
      exact ⟨Nat.lt_succ_self _, rfl⟩
  · intro c hc
    rw [hlen, instructionsOf_createBlock]
    rcases List.mem_cons.1 hc with h1 | h1
    · rw [h1, instructionsOf_of_le (Nat.le_refl _)]
      exact ⟨Nat.lt_succ_self _, noTerm_nil⟩
    · exact ⟨Nat.lt_succ_of_lt (h.awaiting c h1).1, (h.awaiting c h1).2⟩
  · intro c hc hn
    rw [blocksOf_createBlock_self m n f hf] at hc
    rw [instructionsOf_createBlock, blocksOf_createBlock_self m n f hf]
    rcases List.mem_append.1 hc with h1 | h1
    · refine closed_mono (h.closed c h1 (fun hx => hn (List.mem_cons_of_mem _ hx))) ?_
      intro d hd
      exact hd.imp (fun hx => List.mem_append_left _ hx) (List.mem_cons_of_mem _)
    · exact absurd (List.mem_cons.2 (Or.inl (List.mem_singleton.1 h1))) hn

/-- A block created without a parent: nothing of the function changes. -/
theorem Building.orphanBlock {f : Nat} {O : List Nat} {m : IRModule} (n : String)
    (h : Building f O m) : Building f O (m.createBlock n none).2 := by
  have hlen : (m.createBlock n none).2.blocks.length = m.blocks.length + 1 := by
    simp [IRModule.createBlock]
  refine ⟨?_, ?_, ?_⟩
  · intro c hc
    rw [hlen, parentOf_createBlock_old m n _ c (h.inList c hc).1]
    exact ⟨Nat.lt_succ_of_lt (h.inList c hc).1, (h.inList c hc).2⟩
  · intro c hc
    rw [hlen, instructionsOf_createBlock]
    exact ⟨Nat.lt_succ_of_lt (h.awaiting c hc).1, (h.awaiting c hc).2⟩
  · intro c hc hn
    rw [instructionsOf_createBlock]
    exact h.closed c hc hn

/-- A block created without a parent, taken among the opened blocks. -/
theorem Building.pendingBlock {f : Nat} {O : List Nat} {m : IRModule} (n : String)
    (h : Building f O m) :
    Building f (m.blocks.length :: O) (m.createBlock n none).2 := by
  refine (h.orphanBlock n).opened ?_ ?_
  · simp [IRModule.createBlock]
  · rw [instructionsOf_createBlock, instructionsOf_of_le (Nat.le_refl _)]
    exact noTerm_nil

/-- An opened block is appended to the block list of the function. -/
theorem Building.pushBack {f : Nat} {O : List Nat} {m : IRModule} {p : Nat}
    (h : Building f O m) (hp : p ∈ O) (hf : f < m.functions.length) :
    Building f O (m.pushBackBlock (some f) p) := by
  refine ⟨?_, ?_, ?_⟩
  · intro c hc
    rw [blocksOf_pushBackBlock m f p hf] at hc
    rw [length_pushBackBlock]
    by_cases e : c = p
    · subst e
      exact ⟨(h.awaiting c hp).1, parentOf_pushBackBlock_self m f c (h.awaiting c hp).1⟩
    · rw [parentOf_pushBackBlock_ne m f p c e]
      rcases List.mem_append.1 hc with h1 | h1
      · exact h.inList c h1
      · exact absurd (List.mem_singleton.1 h1) e
  · intro c hc
    rw [length_pushBackBlock, instructionsOf_pushBackBlock]
    exact h.awaiting c hc
  · intro c hc hn
    rw [blocksOf_pushBackBlock m f p hf] at hc
    rw [instructionsOf_pushBackBlock, blocksOf_pushBackBlock m f p hf]
    rcases List.mem_append.1 hc with h1 | h1
    · exact closed_mono (h.closed c h1 hn)
        (fun d hd => hd.imp (fun hx => List.mem_append_left _ hx) id)
    · exact absurd ((List.mem_singleton.1 h1) ▸ hp) hn

/-! ## The function under construction, seen from the generator -/

theorem BuildingAt.insertFunction {f : Nat} {P : List Nat} {x : CodeGenerator} {b : Nat}
    (h : BuildingAt f P x b) : x.insertFunction = some f := by
  unfold CodeGenerator.insertFunction
  rw [h.current]
  exact (h.blocks.inList b h.listed).2

theorem BuildingAt.sameState {f : Nat} {P : List Nat} {x y : CodeGenerator} {b : Nat}
    (h : BuildingAt f P x b) (hb : y.module.blocks = x.module.blocks)
    (hf : y.module.functions = x.module.functions) (hi : y.insertBlock = x.insertBlock) :
    BuildingAt f P y b := by
  refine ⟨hi.trans h.current, ?_, h.fresh, h.blocks.sameBlocks hb hf⟩
  unfold IRModule.blocksOf
  rw [hf]
  exact h.listed

theorem BuildingAt.ofPending {f : Nat} {P P1 : List Nat} {x : CodeGenerator} {b : Nat}
    (h : BuildingAt f P x b) (hP : ∀ c, c ∈ P1 ↔ c ∈ P) : BuildingAt f P1 x b := by
  refine ⟨h.current, h.listed, fun hx => h.fresh ((hP b).1 hx), h.blocks.ofOpened ?_⟩
  intro c
  simp only [List.mem_cons, hP c]

theorem BuildingAt.appended {f : Nat} {P : List Nat} {x : CodeGenerator} {b : Nat}
    {i : Instruction} (h : BuildingAt f P x b) (hi : i.isTerminator = false) :
    BuildingAt f P (x.Insert i) b := by
  unfold CodeGenerator.Insert
  simp only [h.current]
  exact ⟨rfl, h.listed, h.fresh, h.blocks.append (List.mem_cons_self _ _) hi⟩

theorem BuildingAt.alloca {f : Nat} {P : List Nat} {x : CodeGenerator} {b : Nat}
    (fn : Option Nat) (n : String) (ty : Ty) (h : BuildingAt f P x b) :
    BuildingAt f P (createEntryBlockAlloca fn n ty x).2 b := by
  unfold createEntryBlockAlloca
  simp only []
  split
  · exact h.sameState rfl rfl rfl
  · have h1 : Building f (b :: P) x.takeValue.module := h.blocks.sameBlocks rfl rfl
    exact ⟨h.current, h.listed, h.fresh, h1.prepend _ rfl⟩

theorem BuildingAt.lt {f : Nat} {P : List Nat} {x : CodeGenerator} {b : Nat}
    (h : BuildingAt f P x b) : b < x.module.blocks.length :=
  (h.blocks.inList b h.listed).1

theorem BuildingAt.pending_lt {f : Nat} {P : List Nat} {x : CodeGenerator} {b : Nat}
    (h : BuildingAt f P x b) {c : Nat} (hc : c ∈ P) : c < x.module.blocks.length :=
  (h.blocks.awaiting c (List.mem_cons_of_mem _ hc)).1

/-- A block created in the function joins the pending blocks. -/
theorem BuildingAt.createListed {f : Nat} {P : List Nat} {x : CodeGenerator} {b : Nat}
    (n : String) (h : BuildingAt f P x b) :
    BuildingAt f (x.module.blocks.length :: P) (x.createBlock n (some f)).2 b := by
  refine ⟨h.current, ?_, ?_, ?_⟩
  · show b ∈ (x.module.createBlock n (some f)).2.blocksOf f
    rw [blocksOf_createBlock_self _ _ _ (lt_of_mem_blocksOf h.listed)]
    exact List.mem_append_left _ h.listed
  · intro hx
    rcases List.mem_cons.1 hx with e | e
    · exact absurd h.lt (by rw [e]; exact Nat.lt_irrefl _)
    · exact h.fresh e
  · refine (h.blocks.listedBlock n (lt_of_mem_blocksOf h.listed)).ofOpened ?_
    intro c
    simp only [List.mem_cons]
    tauto

/-- A block created without a parent joins the pending blocks. -/
theorem BuildingAt.createPending {f : Nat} {P : List Nat} {x : CodeGenerator} {b : Nat}
    (n : String) (h : BuildingAt f P x b) :
    BuildingAt f (x.module.blocks.length :: P) (x.createBlock n none).2 b := by
  refine ⟨h.current, h.listed, ?_, ?_⟩
  · intro hx
    rcases List.mem_cons.1 hx with e | e
    · exact absurd h.lt (by rw [e]; exact Nat.lt_irrefl _)
    · exact h.fresh e
  · refine (h.blocks.pendingBlock n).ofOpened ?_
    intro c
    simp only [List.mem_cons]
    tauto

/-- A block created without a parent and left aside. -/
theorem BuildingAt.createOrphan {f : Nat} {P : List Nat} {x : CodeGenerator} {b : Nat}
    (n : String) (h : BuildingAt f P x b) :
    BuildingAt f P (x.createBlock n none).2 b :=
  ⟨h.current, h.listed, h.fresh, h.blocks.orphanBlock n⟩

/-- The terminator of the current block and the move to a pending block of the list. -/
theorem BuildingAt.jump {f : Nat} {P : List Nat} {x : CodeGenerator} {b p : Nat}
    {t : Instruction} (h : BuildingAt f (p :: P) x b) (hp : p ∉ P)
    (hl : p ∈ x.module.blocksOf f) (ht : t.isTerminator = true)
    (hs : ∀ d ∈ t.successors, d ∈ x.module.blocksOf f ∨ d ∈ p :: P) :
    BuildingAt f P ((x.Insert t).SetInsertPoint p) p := by
  unfold CodeGenerator.Insert
  simp only [h.current]
  exact ⟨rfl, hl, hp, h.blocks.close h.fresh h.listed ht hs⟩

/-- The terminator of the current block, then a pending block is appended to the list
and becomes the current block. -/
theorem BuildingAt.jumpPush {f : Nat} {P : List Nat} {x : CodeGenerator} {b p : Nat}
    {t : Instruction} (h : BuildingAt f (p :: P) x b) (hp : p ∉ P)
    (ht : t.isTerminator = true)
    (hs : ∀ d ∈ t.successors, d ∈ x.module.blocksOf f ∨ d ∈ p :: P) :
    BuildingAt f P (((x.Insert t).pushBackBlock (some f) p).SetInsertPoint p) p := by
  unfold CodeGenerator.Insert
  simp only [h.current]
  have h1 : Building f (p :: P) (x.module.appendInstruction b t) :=
    h.blocks.close h.fresh h.listed ht hs
  have hf : f < (x.module.appendInstruction b t).functions.length :=
    lt_of_mem_blocksOf h.listed
  refine ⟨rfl, ?_, hp, h1.pushBack (List.mem_cons_self _ _) hf⟩
  show p ∈ ((x.module.appendInstruction b t).pushBackBlock (some f) p).blocksOf f
  rw [blocksOf_pushBackBlock _ _ _ hf]
  exact List.mem_append_right _ (List.mem_singleton_self _)
/-! ## Diagnostics and the block list only grow -/

theorem grows_refl (f : Nat) (x : CodeGenerator) : Grows f x x :=
  ⟨Nat.le_refl _, fun _ h => h⟩

theorem grows_trans {f : Nat} {a b c : CodeGenerator} (h1 : Grows f a b)
    (h2 : Grows f b c) : Grows f a c :=
  ⟨Nat.le_trans h1.1 h2.1, fun d hd => h2.2 d (h1.2 d hd)⟩

theorem grows_of_functions {f : Nat} {x y : CodeGenerator}
    (hf : y.module.functions = x.module.functions) (hd : y.diagnostics = x.diagnostics) :
    Grows f x y := by
  refine ⟨by rw [hd], ?_⟩
  intro c hc
  unfold IRModule.blocksOf
  rw [hf]
  exact hc

theorem functions_Insert (x : CodeGenerator) (i : Instruction) :
    (x.Insert i).module.functions = x.module.functions := by
  unfold CodeGenerator.Insert
  split <;> rfl

theorem length_report (x : CodeGenerator) (sev : DiagnosticSeverity) (msg : String) :
    (x.report sev msg).diagnostics.diagnostics.length =
      x.diagnostics.diagnostics.length + 1 := by
  unfold CodeGenerator.report DiagnosticManager.report DiagnosticManager.reportDiagnostic
  simp only []
  split <;> simp

theorem blocksOf_createBlock_mem (m : IRModule) (n : String) (p : Option Nat) (f c : Nat)
    (h : c ∈ m.blocksOf f) : c ∈ (m.createBlock n p).2.blocksOf f := by
  cases p with
  | none => exact h
  | some g =>
    by_cases e : g = f
    · subst e
      rw [blocksOf_createBlock_self _ _ _ (lt_of_mem_blocksOf h)]
      exact List.mem_append_left _ h
    · unfold IRModule.blocksOf IRModule.createBlock
      simp only [getElem?_updateAt_ne _ _ _ _ (fun e1 => e e1.symm)]
      exact h

theorem blocksOf_pushBackBlock_mem (m : IRModule) (p : Option Nat) (bb f c : Nat)
    (h : c ∈ m.blocksOf f) : c ∈ (m.pushBackBlock p bb).blocksOf f := by
  cases p with
  | none => exact h
  | some g =>
    by_cases e : g = f
    · subst e
      rw [blocksOf_pushBackBlock _ _ _ (lt_of_mem_blocksOf h)]
      exact List.mem_append_left _ h
    · unfold IRModule.blocksOf IRModule.pushBackBlock
      simp only [getElem?_updateAt_ne _ _ _ _ (fun e1 => e e1.symm)]
      exact h

theorem exprSteps_grows (f : Nat) : ExprSteps (Grows f) where
  refl := grows_refl f
  trans := fun _ _ _ h1 h2 => grows_trans h1 h2
  stack := fun _ _ => grows_of_functions rfl rfl
  report := fun x sev msg => ⟨by rw [length_report]; exact Nat.le_succ _, fun _ h => h⟩
  insert := fun x i _ => grows_of_functions (functions_Insert x i) (diagnostics_Insert x i)
  takeValue := fun _ => grows_of_functions rfl rfl
  createBlock := fun x n p => ⟨Nat.le_refl _, blocksOf_createBlock_mem x.module n p f⟩
  setInsertPoint := fun _ _ => grows_of_functions rfl rfl
  createGlobal := fun _ _ _ _ _ => grows_of_functions rfl rfl

theorem stmtSteps_grows (f : Nat) : StmtSteps (fun _ => false) (Grows f) where
  expr := exprSteps_grows f
  pushBackBlock := fun x p bb => ⟨Nat.le_refl _, blocksOf_pushBackBlock_mem x.module p bb f⟩
  alloca := by
    intro x fn n ty
    unfold createEntryBlockAlloca
    simp only []
    split
    · exact grows_of_functions rfl rfl
    · exact grows_of_functions rfl rfl
  bind := fun _ _ => grows_of_functions rfl rfl
  scope := fun _ _ => grows_of_functions rfl rfl
  current := fun _ _ => grows_of_functions rfl rfl
  declare := fun _ _ _ h => absurd h (by simp)
  erase := fun _ _ _ h => absurd h (by simp)

/-! ## Steps that keep the function under construction well formed -/

theorem lowers_refl (f : Nat) (x : CodeGenerator) : Lowers f x x :=
  ⟨grows_refl f x, fun _ _ b h => ⟨b, h⟩⟩

theorem lowers_trans {f : Nat} {x y z : CodeGenerator} (h1 : Lowers f x y)
    (h2 : Lowers f y z) : Lowers f x z := by
  refine ⟨grows_trans h1.1 h2.1, ?_⟩
  intro hd P b hb
  have e1 := h1.1.1
  have e2 := h2.1.1
  obtain ⟨b1, hb1⟩ := h1.2 (by omega) P b hb
  exact h2.2 (by omega) P b1 hb1

theorem lowers_of_same {f : Nat} {x y : CodeGenerator}
    (hb : y.module.blocks = x.module.blocks)
    (hf : y.module.functions = x.module.functions) (hi : y.insertBlock = x.insertBlock)
    (hd : y.diagnostics = x.diagnostics) : Lowers f x y :=
  ⟨grows_of_functions hf hd, fun _ _ b h => ⟨b, h.sameState hb hf hi⟩⟩

theorem lowers_report (f : Nat) (x : CodeGenerator) (sev : DiagnosticSeverity)
    (msg : String) : Lowers f x (x.report sev msg) :=
  ⟨(exprSteps_grows f).report x sev msg,
    fun hd => absurd hd (by rw [length_report]; exact Nat.succ_ne_self _)⟩

theorem lowers_Insert (f : Nat) (x : CodeGenerator) {i : Instruction}
    (hi : i.isTerminator = false) : Lowers f x (x.Insert i) :=
  ⟨grows_of_functions (functions_Insert x i) (diagnostics_Insert x i),
    fun _ _ b h => ⟨b, h.appended hi⟩⟩

theorem lowers_alloca (f : Nat) (x : CodeGenerator) (fn : Option Nat) (n : String)
    (ty : Ty) : Lowers f x (createEntryBlockAlloca fn n ty x).2 :=
  ⟨(stmtSteps_grows f).alloca x fn n ty, fun _ _ b h => ⟨b, h.alloca fn n ty⟩⟩

theorem lowers_pushValue {f : Nat} {g x : CodeGenerator} (v : Option Value)
    (h : Lowers f g x) : Lowers f g (pushValue v x) :=
  lowers_trans h (lowers_of_same rfl rfl rfl rfl)

theorem lowers_popValue {f : Nat} {g x : CodeGenerator} (h : Lowers f g x) :
    Lowers f g (popValue x).2 := by
  unfold mana.popValue
  split
  · exact h
  · exact lowers_trans h (lowers_of_same rfl rfl rfl rfl)

theorem lowers_reported {f : Nat} {g x : CodeGenerator} (s : DiagnosticSeverity)
    (m : String) (h : Lowers f g x) : Lowers f g (x.report s m) :=
  lowers_trans h (lowers_report f x s m)

theorem lowers_inserted {f : Nat} {g x : CodeGenerator} (i : Instruction)
    (hi : i.isTerminator = false) (h : Lowers f g x) : Lowers f g (x.takeValue.Insert i) :=
  lowers_trans (lowers_trans h (lowers_of_same rfl rfl rfl rfl : Lowers f x x.takeValue))
    (lowers_Insert f _ hi)

theorem lowers_Create {f : Nat} {g x : CodeGenerator} (L : LLVM) (op : BuilderOp)
    (operands : List Value) (ty : Ty) (n : String) (h : Lowers f g x) :
    Lowers f g (x.Create L op operands ty n).2 := by
  unfold CodeGenerator.Create
  split
  · exact h
  · exact lowers_inserted _ rfl h

theorem lowers_CreateLoad {f : Nat} {g x : CodeGenerator} (ty : Ty) (p : Value)
    (n : String) (h : Lowers f g x) : Lowers f g (x.CreateLoad ty p n).2 :=
  lowers_inserted _ rfl h

theorem lowers_CreateStore {f : Nat} {g x : CodeGenerator} (v : Option Value) (p : Value)
    (h : Lowers f g x) : Lowers f g (x.CreateStore v p) :=
  lowers_trans h (lowers_Insert f _ rfl)

theorem lowers_CreateCall {f : Nat} {g x : CodeGenerator} (c : Option Nat)
    (args : List (Option Value)) (n : String) (h : Lowers f g x) :
    Lowers f g (x.CreateCall c args n).2 :=
  lowers_inserted _ rfl h

theorem lowers_CreatePHI {f : Nat} {g x : CodeGenerator} (ty : Ty)
    (inc : List (Value × Option Nat)) (n : String) (h : Lowers f g x) :
    Lowers f g (x.CreatePHI ty inc n).2 :=
  lowers_inserted _ rfl h

theorem lowers_toBool {f : Nat} {g x : CodeGenerator} (L : LLVM) (n : String) (v : Value)
    (h : Lowers f g x) : Lowers f g (toBool L n v x).2 := by
  unfold mana.toBool
  split
  · exact h
  · exact lowers_Create _ _ _ _ _ h

theorem lowers_accept {f : Nat} {g x : CodeGenerator} {a : CodeGenerator → CodeGenerator}
    (ha : ∀ s, Lowers f s (a s)) (h : Lowers f g x) : Lowers f g (a x) :=
  lowers_trans h (ha x)

/-- A piece of lowering that reports a diagnostic keeps the relation, whatever else it
does, when diagnostics and block list only grow. -/
theorem lowers_of_reported {f : Nat} {g x : CodeGenerator} (v : Option Value)
    (s : DiagnosticSeverity) (m : String) (h : Grows f g x) :
    Lowers f g (pushValue v (x.report s m)) := by
  have h1 : Grows f g (pushValue v (x.report s m)) :=
    grows_trans h (grows_trans ((exprSteps_grows f).report x s m)
      ((exprSteps_grows f).stack _ _))
  refine ⟨h1, ?_⟩
  intro hd
  have h2 := h.1
  have h3 : (pushValue v (x.report s m)).diagnostics.diagnostics.length =
      x.diagnostics.diagnostics.length + 1 := length_report x s m
  omega

/-! ## Expression lowering keeps the function under construction well formed -/

theorem BuildingAt.converted {f : Nat} {P : List Nat} {x : CodeGenerator} {b : Nat}
    (L : LLVM) (n : String) (v : Value) (h : BuildingAt f P x b) :
    BuildingAt f P (toBool L n v x).2 b := by
  unfold mana.toBool CodeGenerator.Create
  split
  · exact h
  · split
    · exact h
    · have h1 : BuildingAt f P x.takeValue b := h.sameState rfl rfl rfl
      exact h1.appended rfl

theorem BuildingAt.phi {f : Nat} {P : List Nat} {x : CodeGenerator} {b : Nat}
    (ty : Ty) (inc : List (Value × Option Nat)) (n : String) (h : BuildingAt f P x b) :
    BuildingAt f P (x.CreatePHI ty inc n).2 b := by
  have h1 : BuildingAt f P x.takeValue b := h.sameState rfl rfl rfl
  show BuildingAt f P (x.takeValue.Insert (.PHI x.module.nextValue ty inc n)) b
  exact h1.appended rfl

theorem blocksOf_toBool (L : LLVM) (n : String) (v : Value) (x : CodeGenerator) (f : Nat) :
    (toBool L n v x).2.module.blocksOf f = x.module.blocksOf f := by
  have e : (toBool L n v x).2.module.functions = x.module.functions := by
    unfold mana.toBool CodeGenerator.Create
    split
    · rfl
    · split
      · rfl
      · exact functions_Insert _ _
  unfold IRModule.blocksOf
  rw [e]

theorem reported_ne {f : Nat} {g x : CodeGenerator} (v : Option Value)
    (s : DiagnosticSeverity) (m : String) (h : Grows f g x) :
    (pushValue v (x.report s m)).diagnostics.diagnostics.length ≠
      g.diagnostics.diagnostics.length := by
  have h2 := h.1
  have h3 : (pushValue v (x.report s m)).diagnostics.diagnostics.length =
      x.diagnostics.diagnostics.length + 1 := length_report x s m
  omega

theorem visitLiteralExpr_lowers (f : Nat) (L : LLVM) (value : LiteralValue)
    (g : CodeGenerator) : Lowers f g (visitLiteralExpr L value g) := by
  cases value with
  | string v =>
    simp only [visitLiteralExpr]
    exact lowers_pushValue _ (lowers_Create _ _ _ _ _ (lowers_of_same rfl rfl rfl rfl))
  | _ => exact lowers_pushValue _ (lowers_refl f g)

theorem visitUnaryExpr_lowers {f : Nat} (L : LLVM) (op : Token)
    {acceptRight : CodeGenerator → CodeGenerator} (h : ∀ s, Lowers f s (acceptRight s))
    (g : CodeGenerator) : Lowers f g (visitUnaryExpr L op acceptRight g) := by
  have hr : Lowers f g (popValue (acceptRight g)).2 := lowers_popValue (h g)
  unfold visitUnaryExpr
  simp only []
  split
  · exact lowers_pushValue _ (lowers_reported _ _ hr)
  · split
    · split
      · exact lowers_pushValue _ (lowers_Create _ _ _ _ _ hr)
      · split
        · exact lowers_pushValue _ (lowers_Create _ _ _ _ _ hr)
        · exact lowers_pushValue _ (lowers_reported _ _ hr)
    · split
      · split
        · exact lowers_pushValue _ (lowers_Create _ _ _ _ _ (lowers_Create _ _ _ _ _ hr))
        · exact lowers_pushValue _ (lowers_reported _ _ hr)
      · exact hr

/-- The blocks of a logical expression are created in the function and pending while
the left operand is lowered. -/
theorem logicalLeft_building {f : Nat} {P : List Nat} {g : CodeGenerator} {b : Nat}
    {acceptLeft : CodeGenerator → CodeGenerator} (hl : ∀ s, Lowers f s (acceptLeft s))
    (hb : BuildingAt f P g b)
    (hd : (logicalLeft acceptLeft g).state.diagnostics.diagnostics.length =
      g.diagnostics.diagnostics.length) :
    (∃ b1, BuildingAt f ((logicalLeft acceptLeft g).right_bb ::
        (logicalLeft acceptLeft g).merge_bb :: P) (logicalLeft acceptLeft g).state b1) ∧
    (logicalLeft acceptLeft g).right_bb ∈
      (logicalLeft acceptLeft g).state.module.blocksOf f ∧
    (logicalLeft acceptLeft g).merge_bb ∈
      (logicalLeft acceptLeft g).state.module.blocksOf f ∧
    (logicalLeft acceptLeft g).right_bb ∉ (logicalLeft acceptLeft g).merge_bb :: P ∧
    (logicalLeft acceptLeft g).merge_bb ∉ P := by
  obtain ⟨er, em⟩ := logicalLeft_blocks acceptLeft g
  rw [er, em]
  rw [logicalLeft_state] at hd ⊢
  rw [hb.insertFunction] at hd ⊢
  have h1 : BuildingAt f (g.module.blocks.length :: P)
      (g.createBlock "right" (some f)).2 b := hb.createListed "right"
  have h2 : BuildingAt f ((g.module.blocks.length + 1) :: g.module.blocks.length :: P)
      ((g.createBlock "right" (some f)).2.createBlock "merge" (some f)).2 b := by
    have h := h1.createListed "merge"
    rw [length_createBlock] at h
    exact h
  have h3 : BuildingAt f (g.module.blocks.length :: (g.module.blocks.length + 1) :: P)
      ((g.createBlock "right" (some f)).2.createBlock "merge" (some f)).2 b := by
    refine h2.ofPending ?_
    intro c
    simp only [List.mem_cons]
    tauto
  have hlow := lowers_popValue
    (hl ((g.createBlock "right" (some f)).2.createBlock "merge" (some f)).2)
  have hr : g.module.blocks.length ∈
      ((g.createBlock "right" (some f)).2.createBlock "merge" (some f)).2.module.blocksOf
        f := by
    apply blocksOf_createBlock_mem
    show g.module.blocks.length ∈ (g.module.createBlock "right" (some f)).2.blocksOf f
    rw [blocksOf_createBlock_self _ _ _ (lt_of_mem_blocksOf hb.listed)]
    exact List.mem_append_right _ (List.mem_singleton_self _)
  have hm : g.module.blocks.length + 1 ∈
      ((g.createBlock "right" (some f)).2.createBlock "merge" (some f)).2.module.blocksOf
        f := by
    show g.module.blocks.length + 1 ∈
      ((g.createBlock "right" (some f)).2.module.createBlock "merge" (some f)).2.blocksOf f
    rw [blocksOf_createBlock_self _ _ _ (lt_of_mem_blocksOf h1.listed), length_createBlock]
    exact List.mem_append_right _ (List.mem_singleton_self _)
  refine ⟨hlow.2 hd _ b h3, hlow.1.2 _ hr, hlow.1.2 _ hm, ?_, ?_⟩
  · intro hx
    rcases List.mem_cons.1 hx with e | e
    · omega
    · exact absurd (hb.pending_lt e) (Nat.lt_irrefl _)
  · intro hx
    have := hb.pending_lt hx
    omega

/-- The conditional branch of a logical expression closes the block the left operand
ended in; the right operand is lowered in `right_bb`. -/
theorem logicalBranch_building {f : Nat} {P : List Nat} {x : CodeGenerator} {b : Nat}
    (L : LLVM) (op : Token) (r m : Nat) (left : Value)
    (h : BuildingAt f (r :: m :: P) x b) (hr : r ∉ m :: P)
    (hl : r ∈ x.module.blocksOf f) :
    BuildingAt f (m :: P) (logicalBranch L op r m left x) r := by
  have h1 := h.converted L "tobool" left
  have hl1 : r ∈ (toBool L "tobool" left x).2.module.blocksOf f := by
    rw [blocksOf_toBool]
    exact hl
  unfold logicalBranch
  simp only []
  split
  · refine h1.jump hr hl1 rfl ?_
    intro d hd
    simp only [Instruction.successors, List.mem_cons, List.mem_singleton,
      List.not_mem_nil, or_false] at hd
    right
    simp only [List.mem_cons]
    tauto
  · refine h1.jump hr hl1 rfl ?_
    intro d hd
    simp only [Instruction.successors, List.mem_cons, List.mem_singleton,
      List.not_mem_nil, or_false] at hd
    right
    simp only [List.mem_cons]
    tauto

/-- The branch to the merge block closes the block the right operand ended in; the phi
node is built in the merge block, which is current afterwards. -/
theorem logicalMerge_building {f : Nat} {P : List Nat} {x : CodeGenerator} {b : Nat}
    (L : LLVM) (op : Token) (m : Nat) (right : Value)
    (h : BuildingAt f (m :: P) x b) (hm : m ∉ P) (hl : m ∈ x.module.blocksOf f) :
    BuildingAt f P (logicalMerge L op m right x) m := by
  have h1 := h.converted L "tobool" right
  have hl1 : m ∈ (toBool L "tobool" right x).2.module.blocksOf f := by
    rw [blocksOf_toBool]
    exact hl
  have h2 : BuildingAt f P
      (((toBool L "tobool" right x).2.Insert (.Br m)).SetInsertPoint m) m := by
    refine h1.jump hm hl1 rfl ?_
    intro d hd
    simp only [Instruction.successors, List.mem_singleton] at hd
    right
    rw [hd]
    exact List.mem_cons_self _ _
  unfold logicalMerge
  simp only []
  exact (h2.phi _ _ _).sameState rfl rfl rfl

theorem logicalRight_building {f : Nat} {P : List Nat} (L : LLVM) (op : Token) (m : Nat)
    (r : Option Value × CodeGenerator) {b : Nat} (h : BuildingAt f (m :: P) r.2 b)
    (hm : m ∉ P) (hl : m ∈ r.2.module.blocksOf f)
    (hd : (logicalRight L op m r).diagnostics.diagnostics.length =
      r.2.diagnostics.diagnostics.length) :
    BuildingAt f P (logicalRight L op m r) m := by
  unfold logicalRight at hd ⊢
  split at hd
  · exact absurd hd (reported_ne _ _ _ (grows_refl f r.2))
  · split at hd
    · exact absurd hd (reported_ne _ _ _ (grows_refl f r.2))
    · rename_i right hr hint
      simp only [hr, hint]
      exact logicalMerge_building L op m right h hm hl

theorem visitLogicalExpr_lowers {f : Nat} (L : LLVM) (op : Token)
    {acceptLeft acceptRight : CodeGenerator → CodeGenerator}
    (hl : ∀ s, Lowers f s (acceptLeft s)) (hr : ∀ s, Lowers f s (acceptRight s))
    (g : CodeGenerator) : Lowers f g (visitLogicalExpr L op acceptLeft acceptRight g) := by
  have hG : Grows f g (visitLogicalExpr L op acceptLeft acceptRight g) :=
    visitLogicalExpr_steps (exprSteps_grows f) L op (fun s => (hl s).1)
      (fun s => (hr s).1) g
  refine ⟨hG, ?_⟩
  intro hd P b hb
  have hs : Grows f g (logicalLeft acceptLeft g).state := by
    rw [logicalLeft_state]
    exact (exprSteps_grows f).popValue_step ((exprSteps_grows f).accept_step
      (fun s => (hl s).1) ((exprSteps_grows f).created _ _
        ((exprSteps_grows f).created _ _ (grows_refl f g))))
  cases hleft : (logicalLeft acceptLeft g).left with
  | none =>
    exfalso
    have e : visitLogicalExpr L op acceptLeft acceptRight g = pushValue none
        ((logicalLeft acceptLeft g).state.report .ERROR
          "Left operand of logical operator must be a boolean") := by
      unfold visitLogicalExpr
      simp only [hleft]
    rw [e] at hd
    exact reported_ne _ _ _ hs hd
  | some left =>
    by_cases hint : left.getType.isIntegerTy = true
    · rw [visitLogicalExpr_of_left L op acceptLeft acceptRight g left hleft hint] at hd ⊢
      have g3 : Grows f (logicalLeft acceptLeft g).state
          (logicalBranch L op (logicalLeft acceptLeft g).right_bb
            (logicalLeft acceptLeft g).merge_bb left (logicalLeft acceptLeft g).state) :=
        logicalBranch_steps (exprSteps_grows f) L op _ _ _ (grows_refl f _)
      have g4 := lowers_popValue (hr (logicalBranch L op (logicalLeft acceptLeft g).right_bb
        (logicalLeft acceptLeft g).merge_bb left (logicalLeft acceptLeft g).state))
      have g6 : Grows f _ (logicalRight L op (logicalLeft acceptLeft g).merge_bb
          (popValue (acceptRight (logicalBranch L op (logicalLeft acceptLeft g).right_bb
            (logicalLeft acceptLeft g).merge_bb left (logicalLeft acceptLeft g).state)))) :=
        logicalRight_steps (exprSteps_grows f) L op _ _ (grows_refl f _)
      have d1 := hs.1
      have d3 := g3.1
      have d4 := g4.1.1
      have d6 := g6.1
      obtain ⟨⟨b1, h1⟩, hlr, hlm, hfr, hfm⟩ := logicalLeft_building hl hb (by omega)
      have h3 := logicalBranch_building L op _ _ left h1 hfr hlr
      obtain ⟨b4, h4⟩ := g4.2 (by omega) _ _ h3
      exact ⟨_, logicalRight_building L op _ _ h4 hfm (g4.1.2 _ (g3.2 _ hlm)) (by omega)⟩
    · exfalso
      have e : visitLogicalExpr L op acceptLeft acceptRight g = pushValue none
          ((logicalLeft acceptLeft g).state.report .ERROR
            "Left operand of logical operator must be a boolean") := by
        unfold visitLogicalExpr
        simp only [hleft, hint]
        rfl
      rw [e] at hd
      exact reported_ne _ _ _ hs hd
theorem binaryCase_lowers {f : Nat} {g x : CodeGenerator} (L : LLVM) (fl i : Bool)
    (fop : BuilderOp) (fname : String) (iop : BuilderOp) (iname : String) (ty : Ty)
    (msg : String) (l r : Value) (h : Lowers f g x) :
    Lowers f g (binaryCase L fl i fop fname iop iname ty msg l r x) := by
  unfold binaryCase
  split
  · exact lowers_pushValue _ (lowers_Create _ _ _ _ _ h)
  · split
    · exact lowers_pushValue _ (lowers_Create _ _ _ _ _ h)
    · exact lowers_pushValue _ (lowers_reported _ _ h)

theorem promoteOperands_lowers {f : Nat} {g x : CodeGenerator} (L : LLVM) (fl : Bool)
    (l r : Value) (h : Lowers f g x) : Lowers f g (promoteOperands L fl l r x).2 := by
  unfold promoteOperands
  split
  · exact lowers_Create _ _ _ _ _ h
  · split
    · exact lowers_Create _ _ _ _ _ h
    · exact h

theorem binarySwitch_lowers {f : Nat} {g x : CodeGenerator} (L : LLVM) (op : Token)
    (fl i : Bool) (l r : Value) (h : Lowers f g x) :
    Lowers f g (binarySwitch L op fl i l r x) := by
  unfold binarySwitch
  simp only []
  split <;>
    first
    | exact binaryCase_lowers L _ _ _ _ _ _ _ _ _ _ h
    | exact lowers_pushValue _ (lowers_reported _ _ h)
    | (split
       · exact lowers_pushValue _ (lowers_Create _ _ _ _ _ h)
       · exact lowers_pushValue _ (lowers_reported _ _ h))

theorem visitBinaryExpr_lowers {f : Nat} (L : LLVM) (op : Token)
    {acceptLeft acceptRight : CodeGenerator → CodeGenerator}
    (hl : ∀ s, Lowers f s (acceptLeft s)) (hr : ∀ s, Lowers f s (acceptRight s))
    (g : CodeGenerator) : Lowers f g (visitBinaryExpr L op acceptLeft acceptRight g) := by
  unfold visitBinaryExpr
  split
  · exact visitLogicalExpr_lowers L op hl hr g
  · have h2 : Lowers f g (popValue (acceptRight (popValue (acceptLeft g)).2)).2 :=
      lowers_popValue (lowers_accept hr (lowers_popValue (hl g)))
    unfold visitRegularBinaryExpr
    simp only []
    split
    · exact binarySwitch_lowers L op _ _ _ _ (promoteOperands_lowers L _ _ _ h2)
    · exact lowers_pushValue _ (lowers_reported _ _ h2)

theorem visitVariableExpr_lowers (f : Nat) (name : Token) (g : CodeGenerator) :
    Lowers f g (visitVariableExpr name g) := by
  unfold visitVariableExpr
  split
  · exact lowers_pushValue _ (lowers_reported _ _ (lowers_refl f g))
  · exact lowers_pushValue _ (lowers_CreateLoad _ _ _ (lowers_refl f g))

theorem visitAssignExpr_lowers {f : Nat} (name : Token)
    {acceptValue : CodeGenerator → CodeGenerator} (h : ∀ s, Lowers f s (acceptValue s))
    (g : CodeGenerator) : Lowers f g (visitAssignExpr name acceptValue g) := by
  have hp : Lowers f g (popValue (acceptValue g)).2 := lowers_popValue (h g)
  unfold visitAssignExpr
  simp only []
  split
  · exact lowers_pushValue _ (lowers_reported _ _ hp)
  · exact lowers_pushValue _ (lowers_CreateStore _ _ hp)

theorem visitCallExpr_lowers {f : Nat} (var_expr : Option Token)
    {acceptCallee : CodeGenerator → CodeGenerator}
    {acceptArgs : CodeGenerator → List (Option Value) × CodeGenerator}
    (hc : ∀ s, Lowers f s (acceptCallee s)) (ha : ∀ s, Lowers f s (acceptArgs s).2)
    (g : CodeGenerator) : Lowers f g (visitCallExpr var_expr acceptCallee acceptArgs g) := by
  have hp : Lowers f g (popValue (acceptCallee g)).2 := lowers_popValue (hc g)
  unfold visitCallExpr
  simp only []
  split
  · split
    · exact lowers_pushValue _ (lowers_reported _ _ (lowers_refl f g))
    · exact lowers_pushValue _ (lowers_CreateCall _ _ _ (ha g))
  · split
    · exact lowers_pushValue _ (lowers_reported _ _ hp)
    · split
      · exact lowers_pushValue _ (lowers_reported _ _ hp)
      · split
        · exact lowers_pushValue _ (lowers_CreateCall _ _ _ (lowers_trans hp (ha _)))
        · exact lowers_pushValue _ (lowers_reported _ _ hp)

mutual
/-- Lowering any expression keeps the function under construction well formed, unless
it reports a diagnostic. -/
theorem Expr.accept_lowers (f : Nat) (L : LLVM) :
    ∀ (e : Expr) (g : CodeGenerator), Lowers f g (e.accept L g)
  | .LiteralExpr value => by
    rw [Expr.accept]
    exact visitLiteralExpr_lowers f L value
  | .UnaryExpr op right => by
    rw [Expr.accept]
    exact visitUnaryExpr_lowers L op (Expr.accept_lowers f L right)
  | .BinaryExpr left op right => by
    rw [Expr.accept]
    exact visitBinaryExpr_lowers L op (Expr.accept_lowers f L left)
      (Expr.accept_lowers f L right)
  | .GroupingExpr expression => by
    rw [Expr.accept]
    exact Expr.accept_lowers f L expression
  | .VariableExpr name => by
    rw [Expr.accept]
    exact visitVariableExpr_lowers f name
  | .AssignExpr name value => by
    rw [Expr.accept]
    exact visitAssignExpr_lowers name (Expr.accept_lowers f L value)
  | .CallExpr callee paren arguments => by
    rw [Expr.accept]
    exact visitCallExpr_lowers _ (Expr.accept_lowers f L callee)
      (acceptArguments_lowers f L arguments [])
/-- The argument loop of a call does so too. -/
theorem acceptArguments_lowers (f : Nat) (L : LLVM) :
    ∀ (arguments : List Expr) (args : List (Option Value)) (g : CodeGenerator),
      Lowers f g (acceptArguments L arguments args g).2
  | [], _ => by
    intro g
    rw [acceptArguments]
    exact lowers_refl f g
  | arg :: rest, args => by
    intro g
    rw [acceptArguments]
    exact lowers_trans (lowers_popValue (Expr.accept_lowers f L arg g))
      (acceptArguments_lowers f L rest _ _)
end

/-! ## Statement lowering keeps the function under construction well formed -/

theorem createListed_mem {f : Nat} {P : List Nat} {x : CodeGenerator} {b : Nat}
    (n : String) (h : BuildingAt f P x b) :
    x.module.blocks.length ∈ (x.createBlock n (some f)).2.module.blocksOf f := by
  show x.module.blocks.length ∈ (x.module.createBlock n (some f)).2.blocksOf f
  rw [blocksOf_createBlock_self _ _ _ (lt_of_mem_blocksOf h.listed)]
  exact List.mem_append_right _ (List.mem_singleton_self _)

theorem lowers_bound {f : Nat} {g x : CodeGenerator} (nv : List (String × AllocaInst))
    (t : SymbolTable) (h : Lowers f g x) :
    Lowers f g { x with named_values := nv, symbol_table := t } :=
  lowers_trans h (lowers_of_same rfl rfl rfl rfl)

theorem visitVarDeclStmt_lowers {f : Nat} (name : Token)
    (acceptInitializer : Option (CodeGenerator → CodeGenerator))
    (h : ∀ a, acceptInitializer = some a → ∀ s, Lowers f s (a s)) (g : CodeGenerator) :
    Lowers f g (visitVarDeclStmt name acceptInitializer g) := by
  unfold visitVarDeclStmt
  cases acceptInitializer with
  | none => exact lowers_bound _ _ (lowers_trans (lowers_refl f g) (lowers_alloca f _ _ _ _))
  | some a =>
    simp only []
    have h0 : Lowers f g (popValue (a g)).2 := lowers_popValue (h a rfl g)
    split
    · exact lowers_bound _ _ (lowers_CreateStore _ _
        (lowers_trans h0 (lowers_alloca f _ _ _ _)))
    · exact lowers_bound _ _ (lowers_trans h0 (lowers_alloca f _ _ _ _))

theorem visitBlockStmt_lowers {f : Nat} {acceptStatements : CodeGenerator → CodeGenerator}
    (h : ∀ s, Lowers f s (acceptStatements s)) (g : CodeGenerator) :
    Lowers f g (visitBlockStmt acceptStatements g) := by
  unfold visitBlockStmt
  have h1 : Lowers f g { g with symbol_table := g.symbol_table.enterScope } :=
    lowers_of_same rfl rfl rfl rfl
  exact lowers_trans (lowers_trans h1 (h _)) (lowers_of_same rfl rfl rfl rfl)

/-- The start of an if statement: the current block is closed by the conditional branch,
the then block is current, the else block and the merge block are pending. -/
theorem ifStart_building {f : Nat} {P : List Nat} {s : CodeGenerator} {b : Nat}
    (L : LLVM) (c0 : Value) (h : BuildingAt f P s b) :
    BuildingAt f ((ifStart L c0 s).else_bb :: (ifStart L c0 s).merge_bb :: P)
      (ifStart L c0 s).state (ifStart L c0 s).then_bb ∧
    (ifStart L c0 s).function = some f ∧
    (ifStart L c0 s).else_bb ∉ (ifStart L c0 s).merge_bb :: P ∧
    (ifStart L c0 s).merge_bb ∉ P := by
  have h1 := h.converted L "ifcond" c0
  have hfn : (ifStart L c0 s).function = some f := h1.insertFunction
  obtain ⟨e1, e2, e3, _, _, _⟩ := ifStart_blocks L c0 s
  have h2 := h1.createListed "then"
  have m2 := createListed_mem "then" h1
  have h3 := h2.createPending "else"
  have m3 := blocksOf_createBlock_mem _ "else" none f _ m2
  have h4 := h3.createPending "ifcont"
  have m4 := blocksOf_createBlock_mem _ "ifcont" none f _ m3
  simp only [length_createBlock, length_toBool] at h2 h3 h4 m2 m3 m4
  have hP : ∀ c ∈ P, c < s.module.blocks.length := by
    intro c hc
    have := h1.pending_lt hc
    rw [length_toBool] at this
    exact this
  have h5 : BuildingAt f (s.module.blocks.length :: (s.module.blocks.length + 1) ::
      (s.module.blocks.length + 1 + 1) :: P)
      ((((toBool L "ifcond" c0 s).2.createBlock "then" (some f)).2.createBlock "else"
        none).2.createBlock "ifcont" none).2 b := by
    refine h4.ofPending ?_
    intro c
    simp only [List.mem_cons]
    tauto
  have hfresh : s.module.blocks.length ∉ (s.module.blocks.length + 1) ::
      (s.module.blocks.length + 1 + 1) :: P := by
    intro hx
    simp only [List.mem_cons] at hx
    rcases hx with e | e | e
    · omega
    · omega
    · exact absurd (hP _ e) (Nat.lt_irrefl _)
  have h6 := h5.jump (t := .CondBr (toBool L "ifcond" c0 s).1 s.module.blocks.length
    (s.module.blocks.length + 1)) hfresh m4 rfl (by
      intro d hd
      simp only [Instruction.successors, List.mem_cons, List.mem_singleton,
        List.not_mem_nil, or_false] at hd
      right
      simp only [List.mem_cons]
      tauto)
  refine ⟨?_, hfn, ?_, ?_⟩
  · rw [e1, e2, e3]
    have es : (ifStart L c0 s).state =
        ((((((toBool L "ifcond" c0 s).2.createBlock "then" (some f)).2.createBlock "else"
          none).2.createBlock "ifcont" none).2.Insert
          (.CondBr (toBool L "ifcond" c0 s).1 s.module.blocks.length
            (s.module.blocks.length + 1))).SetInsertPoint s.module.blocks.length) := by
      unfold ifStart
      simp only [h1.insertFunction, fst_createBlock, length_createBlock, length_toBool]
      rfl
    rw [es]
    exact h6
  · rw [e2, e3]
    intro hx
    simp only [List.mem_cons] at hx
    rcases hx with e | e
    · omega
    · exact absurd (hP _ e) (by omega)
  · rw [e3]
    intro hx
    exact absurd (hP _ hx) (by omega)

theorem ifElseStart_building {f : Nat} {P : List Nat} {x : CodeGenerator} {b : Nat}
    (st : IfStart) (hfn : st.function = some f)
    (h : BuildingAt f (st.else_bb :: st.merge_bb :: P) x b)
    (he : st.else_bb ∉ st.merge_bb :: P) :
    BuildingAt f (st.merge_bb :: P) (ifElseStart st x) st.else_bb := by
  unfold ifElseStart
  rw [hfn]
  refine h.jumpPush he rfl ?_
  intro d hd
  simp only [Instruction.successors, List.mem_singleton] at hd
  right
  rw [hd]
  simp

theorem ifEnd_building {f : Nat} {P : List Nat} {x : CodeGenerator} {b : Nat}
    (st : IfStart) (hfn : st.function = some f)
    (h : BuildingAt f (st.merge_bb :: P) x b) (hm : st.merge_bb ∉ P) :
    BuildingAt f P (ifEnd st x) st.merge_bb := by
  unfold ifEnd
  rw [hfn]
  refine h.jumpPush hm rfl ?_
  intro d hd
  simp only [Instruction.successors, List.mem_singleton] at hd
  right
  rw [hd]
  simp

theorem visitIfStmt_lowers {f : Nat} (L : LLVM)
    {acceptCondition acceptThen acceptElse : CodeGenerator → CodeGenerator}
    (hc : ∀ s, Lowers f s (acceptCondition s)) (ht : ∀ s, Lowers f s (acceptThen s))
    (he : ∀ s, Lowers f s (acceptElse s)) (g : CodeGenerator) :
    Lowers f g (visitIfStmt L acceptCondition acceptThen acceptElse g) := by
  have hG : Grows f g (visitIfStmt L acceptCondition acceptThen acceptElse g) :=
    visitIfStmt_steps (stmtSteps_grows f) L (fun s => (hc s).1) (fun s => (ht s).1)
      (fun s => (he s).1) g
  refine ⟨hG, ?_⟩
  intro hd P b hb
  have h0 := lowers_popValue (hc g)
  cases hcond : (popValue (acceptCondition g)).1 with
  | none =>
    rw [visitIfStmt_of_null L _ _ _ g hcond] at hd ⊢
    exact h0.2 hd P b hb
  | some c0 =>
    rw [visitIfStmt_of_condition L _ _ _ g c0 hcond] at hd ⊢
    have g1 : Grows f (popValue (acceptCondition g)).2
        (ifStart L c0 (popValue (acceptCondition g)).2).state :=
      ifStart_steps (stmtSteps_grows f) L c0 (grows_refl f _)
    have g2 := ht (ifStart L c0 (popValue (acceptCondition g)).2).state
    have g3 : Grows f (acceptThen (ifStart L c0 (popValue (acceptCondition g)).2).state)
        (ifElseStart (ifStart L c0 (popValue (acceptCondition g)).2)
          (acceptThen (ifStart L c0 (popValue (acceptCondition g)).2).state)) :=
      ifElseStart_steps (stmtSteps_grows f) _ (grows_refl f _)
    have g4 := he (ifElseStart (ifStart L c0 (popValue (acceptCondition g)).2)
      (acceptThen (ifStart L c0 (popValue (acceptCondition g)).2).state))
    have g5 : Grows f (acceptElse (ifElseStart (ifStart L c0 (popValue (acceptCondition g)).2)
          (acceptThen (ifStart L c0 (popValue (acceptCondition g)).2).state)))
        (ifEnd (ifStart L c0 (popValue (acceptCondition g)).2)
          (acceptElse (ifElseStart (ifStart L c0 (popValue (acceptCondition g)).2)
            (acceptThen (ifStart L c0 (popValue (acceptCondition g)).2).state)))) :=
      ifEnd_steps (stmtSteps_grows f) _ (grows_refl f _)
    have d0 := h0.1.1
    have d1 := g1.1
    have d2 := g2.1.1
    have d3 := g3.1
    have d4 := g4.1.1
    have d5 := g5.1
    obtain ⟨b1, h1⟩ := h0.2 (by omega) P b hb
    obtain ⟨h2, hfn, hfe, hfm⟩ := ifStart_building L c0 h1
    obtain ⟨b3, h3⟩ := g2.2 (by omega) _ _ h2
    have h4 := ifElseStart_building _ hfn h3 hfe
    obtain ⟨b5, h5⟩ := g4.2 (by omega) _ _ h4
    exact ⟨_, ifEnd_building _ hfn h5 hfm⟩
/-- The start of a while statement: the current block is closed by the branch to the
condition block, which is current; the body block and the exit block are pending, or
left aside. -/
theorem whileStart_building {f : Nat} {P : List Nat} {g : CodeGenerator} {b : Nat}
    (h : BuildingAt f P g b) :
    BuildingAt f ((whileStart g).body_bb :: (whileStart g).exit_bb :: P)
      (whileStart g).state (whileStart g).cond_bb ∧
    BuildingAt f P (whileStart g).state (whileStart g).cond_bb ∧
    (whileStart g).function = some f ∧
    (whileStart g).body_bb ∉ (whileStart g).exit_bb :: P ∧
    (whileStart g).exit_bb ∉ P ∧
    (whileStart g).cond_bb ∈ (whileStart g).state.module.blocksOf f := by
  have hfn : (whileStart g).function = some f := h.insertFunction
  obtain ⟨e1, e2, e3, _, _⟩ := whileStart_blocks g
  have h2 := h.createListed "while.cond"
  have m2 := createListed_mem "while.cond" h
  have h3 := h2.createPending "while.body"
  have k3 := h2.createOrphan "while.body"
  have m3 := blocksOf_createBlock_mem _ "while.body" none f _ m2
  have h4 := h3.createPending "while.exit"
  have k4 := k3.createOrphan "while.exit"
  have m4 := blocksOf_createBlock_mem _ "while.exit" none f _ m3
  simp only [length_createBlock] at h2 h3 h4 m2 m3 m4
  have hP : ∀ c ∈ P, c < g.module.blocks.length := fun c hc => h.pending_lt hc
  have h5 : BuildingAt f (g.module.blocks.length :: (g.module.blocks.length + 1) ::
      (g.module.blocks.length + 1 + 1) :: P)
      (((g.createBlock "while.cond" (some f)).2.createBlock "while.body"
        none).2.createBlock "while.exit" none).2 b := by
    refine h4.ofPending ?_
    intro c
    simp only [List.mem_cons]
    tauto
  have hfresh : g.module.blocks.length ∉ (g.module.blocks.length + 1) ::
      (g.module.blocks.length + 1 + 1) :: P := by
    intro hx
    simp only [List.mem_cons] at hx
    rcases hx with e | e | e
    · omega
    · omega
    · exact absurd (hP _ e) (Nat.lt_irrefl _)
  have hfresh1 : g.module.blocks.length ∉ P :=
    fun hx => absurd (hP _ hx) (Nat.lt_irrefl _)
  have h6 := h5.jump (t := .Br g.module.blocks.length) hfresh m4 rfl (by
    intro d hd
    simp only [Instruction.successors, List.mem_singleton] at hd
    right
    rw [hd]
    exact List.mem_cons_self _ _)
  have k6 := k4.jump (t := .Br g.module.blocks.length) hfresh1 m4 rfl (by
    intro d hd
    simp only [Instruction.successors, List.mem_singleton] at hd
    right
    rw [hd]
    exact List.mem_cons_self _ _)
  have es : (whileStart g).state =
      (((((g.createBlock "while.cond" (some f)).2.createBlock "while.body"
        none).2.createBlock "while.exit" none).2.Insert
        (.Br g.module.blocks.length)).SetInsertPoint g.module.blocks.length) := by
    unfold whileStart
    simp only [h.insertFunction, fst_createBlock, length_createBlock]
    rfl
  refine ⟨?_, ?_, hfn, ?_, ?_, ?_⟩
  · rw [e1, e2, e3, es]
    exact h6
  · rw [e1, es]
    exact k6
  · rw [e2, e3]
    intro hx
    simp only [List.mem_cons] at hx
    rcases hx with e | e
    · omega
    · exact absurd (hP _ e) (by omega)
  · rw [e3]
    intro hx
    exact absurd (hP _ hx) (by omega)
  · rw [e1, es]
    exact k6.listed

theorem whileBodyStart_building {f : Nat} {P : List Nat} {x : CodeGenerator} {b : Nat}
    (L : LLVM) (st : WhileStart) (c0 : Value) (hfn : st.function = some f)
    (h : BuildingAt f (st.body_bb :: st.exit_bb :: P) x b)
    (hb : st.body_bb ∉ st.exit_bb :: P) :
    BuildingAt f (st.exit_bb :: P) (whileBodyStart L st c0 x).2 st.body_bb := by
  have h1 := h.converted L "whilecond" c0
  unfold whileBodyStart
  simp only []
  rw [hfn]
  refine h1.jumpPush hb rfl ?_
  intro d hd
  simp only [Instruction.successors, List.mem_cons, List.mem_singleton,
    List.not_mem_nil, or_false] at hd
  right
  simp only [List.mem_cons]
  tauto

theorem whileEnd_building {f : Nat} {P : List Nat} {x : CodeGenerator} {b : Nat}
    (st : WhileStart) (hfn : st.function = some f)
    (h : BuildingAt f (st.exit_bb :: P) x b) (he : st.exit_bb ∉ P)
    (hc : st.cond_bb ∈ x.module.blocksOf f) :
    BuildingAt f P (whileEnd st x) st.exit_bb := by
  unfold whileEnd
  rw [hfn]
  refine h.jumpPush he rfl ?_
  intro d hd
  simp only [Instruction.successors, List.mem_singleton] at hd
  left
  rw [hd]
  exact hc

theorem visitWhileStmt_lowers {f : Nat} (L : LLVM)
    {acceptCondition acceptBody : CodeGenerator → CodeGenerator}
    (hc : ∀ s, Lowers f s (acceptCondition s)) (hb : ∀ s, Lowers f s (acceptBody s))
    (g : CodeGenerator) : Lowers f g (visitWhileStmt L acceptCondition acceptBody g) := by
  have hG : Grows f g (visitWhileStmt L acceptCondition acceptBody g) :=
    visitWhileStmt_steps (stmtSteps_grows f) L (fun s => (hc s).1) (fun s => (hb s).1) g
  refine ⟨hG, ?_⟩
  intro hd P b hB
  have g0 : Grows f g (whileStart g).state := whileStart_steps (stmtSteps_grows f) g
  have h0 := lowers_popValue (hc (whileStart g).state)
  obtain ⟨h1, k1, hfn, hfb, hfe, hlc⟩ := whileStart_building hB
  cases hcond : (popValue (acceptCondition (whileStart g).state)).1 with
  | none =>
    rw [visitWhileStmt_of_null L _ _ g hcond] at hd ⊢
    have d0 := g0.1
    have d1 := h0.1.1
    exact h0.2 (by omega) P _ k1
  | some c0 =>
    rw [visitWhileStmt_of_condition L _ _ g c0 hcond] at hd ⊢
    have g2 : Grows f (popValue (acceptCondition (whileStart g).state)).2
        (whileBodyStart L (whileStart g) c0
          (popValue (acceptCondition (whileStart g).state)).2).2 :=
      whileBodyStart_steps (stmtSteps_grows f) L _ c0 (grows_refl f _)
    have g3 := hb (whileBodyStart L (whileStart g) c0
      (popValue (acceptCondition (whileStart g).state)).2).2
    have g4 : Grows f (acceptBody (whileBodyStart L (whileStart g) c0
          (popValue (acceptCondition (whileStart g).state)).2).2)
        (whileEnd (whileStart g) (acceptBody (whileBodyStart L (whileStart g) c0
          (popValue (acceptCondition (whileStart g).state)).2).2)) :=
      whileEnd_steps (stmtSteps_grows f) _ (grows_refl f _)
    have d0 := g0.1
    have d1 := h0.1.1
    have d2 := g2.1
    have d3 := g3.1.1
    have d4 := g4.1
    obtain ⟨b2, h2⟩ := h0.2 (by omega) _ _ h1
    have h3 := whileBodyStart_building L _ c0 hfn h2 hfb
    obtain ⟨b4, h4⟩ := g3.2 (by omega) _ _ h3
    exact ⟨_, whileEnd_building _ hfn h4 hfe (g3.1.2 _ (g2.2 _ (h0.1.2 _ hlc)))⟩

mutual
/-- Lowering a statement without return statements and function declarations keeps the
function under construction well formed, unless it reports a diagnostic. -/
theorem Stmt.accept_plainLowers (f : Nat) (L : LLVM) :
    ∀ s : Stmt, s.plain = true → ∀ g : CodeGenerator, Lowers f g (s.accept L g)
  | .ExpressionStmt expression, _ => by
    intro g
    rw [Stmt.accept]
    exact lowers_popValue (Expr.accept_lowers f L expression g)
  | .VarDeclStmt name initializer _, _ => by
    rw [Stmt.accept]
    apply visitVarDeclStmt_lowers
    intro a ha
    cases initializer with
    | none => exact absurd ha (by simp)
    | some e =>
      simp only [Option.map_some', Option.some.injEq] at ha
      rw [← ha]
      exact Expr.accept_lowers f L e
  | .BlockStmt statements, h => by
    rw [Stmt.accept]
    simp only [Stmt.plain] at h
    exact visitBlockStmt_lowers (acceptStatements_lowers f L statements h)
  | .IfStmt condition then_branch else_branch, h => by
    rw [Stmt.accept]
    simp only [Stmt.plain, Bool.and_eq_true] at h
    exact visitIfStmt_lowers L (Expr.accept_lowers f L condition)
      (Stmt.accept_plainLowers f L then_branch h.1) (acceptIfPresent_lowers f L else_branch h.2)
  | .WhileStmt condition body, h => by
    rw [Stmt.accept]
    simp only [Stmt.plain] at h
    exact visitWhileStmt_lowers L (Expr.accept_lowers f L condition)
      (Stmt.accept_plainLowers f L body h)
  | .FunctionStmt _ _ _, h => by
    simp [Stmt.plain] at h
  | .ReturnStmt _ _, h => by
    simp [Stmt.plain] at h
/-- The same for a statement that may be null. -/
theorem acceptIfPresent_lowers (f : Nat) (L : LLVM) :
    ∀ s : Option Stmt, plainIfPresent s = true →
      ∀ g : CodeGenerator, Lowers f g (acceptIfPresent L s g)
  | none, _ => by
    intro g
    rw [acceptIfPresent]
    exact lowers_refl f g
  | some s, h => by
    rw [acceptIfPresent]
    simp only [plainIfPresent] at h
    exact Stmt.accept_plainLowers f L s h
/-- The same for a list of statements. -/
theorem acceptStatements_lowers (f : Nat) (L : LLVM) :
    ∀ ss : List (Option Stmt), plainStatements ss = true →
      ∀ g : CodeGenerator, Lowers f g (acceptStatements L ss g)
  | [], _ => by
    intro g
    rw [acceptStatements]
    exact lowers_refl f g
  | s :: rest, h => by
    intro g
    rw [acceptStatements]
    simp only [plainStatements, Bool.and_eq_true] at h
    exact lowers_trans (acceptIfPresent_lowers f L s h.1 g)
      (acceptStatements_lowers f L rest h.2 _)
end

/-- The state in which the statements of the program are lowered: `main` is built at its
entry block, its only block, and no block is pending. -/
theorem mainStart_building (g : CodeGenerator) :
    BuildingAt g.module.functions.length [] (mainStart g) g.module.blocks.length := by
  have h0 : Building g.module.functions.length []
      (g.module.createFunction getIntType [] false "main").2 := by
    have e : (g.module.createFunction getIntType [] false "main").2.blocksOf
        g.module.functions.length = [] := by
      simp [IRModule.blocksOf, IRModule.createFunction]
    refine ⟨?_, ?_, ?_⟩
    · intro c hc
      rw [e] at hc
      exact absurd hc (List.not_mem_nil _)
    · intro c hc
      exact absurd hc (List.not_mem_nil _)
    · intro c hc
      rw [e] at hc
      exact absurd hc (List.not_mem_nil _)
  have hf : g.module.functions.length <
      (g.module.createFunction getIntType [] false "main").2.functions.length := by
    simp [IRModule.createFunction]
  have h1 := h0.listedBlock "entry" hf
  refine ⟨rfl, ?_, List.not_mem_nil _, h1⟩
  show g.module.blocks.length ∈
    ((g.module.createFunction getIntType [] false "main").2.createBlock "entry"
      (some g.module.functions.length)).2.blocksOf g.module.functions.length
  rw [blocksOf_createBlock_self _ _ _ hf]
  exact List.mem_append_right _ (List.mem_singleton_self _)

theorem module_generate (L : LLVM) (statements : List (Option Stmt)) (g : CodeGenerator) :
    (generate L statements g).module = (lowerMain L statements g).module := by
  unfold generate
  simp only []
  split <;> rfl

/-- The blocks of `main` after the closing `return 0`, when the statements reported no
diagnostic: no block awaits its terminator. -/
theorem lowerMain_building (L : LLVM) (statements : List (Option Stmt)) (g : CodeGenerator)
    (hplain : plainStatements statements = true)
    (hd : (lowerMain L statements g).diagnostics.diagnostics = g.diagnostics.diagnostics) :
    ∃ e, (acceptStatements L statements (mainStart g)).insertBlock = some e ∧
      e ∈ (lowerMain L statements g).module.blocksOf g.module.functions.length ∧
      e < (acceptStatements L statements (mainStart g)).module.blocks.length ∧
      (lowerMain L statements g).module.instructionsOf e =
        (acceptStatements L statements (mainStart g)).module.instructionsOf e ++
          [.Ret (.ConstantInt getIntType 0)] ∧
      Building g.module.functions.length [] (lowerMain L statements g).module := by
  have hlow := acceptStatements_lowers g.module.functions.length L statements hplain
    (mainStart g)
  have hd1 : (acceptStatements L statements (mainStart g)).diagnostics.diagnostics.length =
      (mainStart g).diagnostics.diagnostics.length := by
    have e1 : (lowerMain L statements g).diagnostics =
        (acceptStatements L statements (mainStart g)).diagnostics := by
      rw [lowerMain_eq]
      exact diagnostics_Insert _ _
    rw [← e1, hd]
    rfl
  obtain ⟨e, he⟩ := hlow.2 hd1 [] _ (mainStart_building g)
  have hm : (lowerMain L statements g).module =
      (acceptStatements L statements (mainStart g)).module.appendInstruction e
        (.Ret (.ConstantInt getIntType 0)) := by
    rw [lowerMain_eq]
    unfold CodeGenerator.CreateRet CodeGenerator.Insert
    simp only [he.current]
  refine ⟨e, he.current, ?_, he.lt, ?_, ?_⟩
  · rw [hm]
    exact he.listed
  · rw [hm]
    exact instructionsOf_appendInstruction _ _ _ he.lt
  · rw [hm]
    refine he.blocks.close he.fresh he.listed rfl ?_
    intro d hx
    exact absurd hx (List.not_mem_nil _)

/-! ## The parser builds well-formed expressions -/

theorem holds_bind {α β : Type} {P : α → Prop} {Q : β → Prop} {o : Outcome α}
    {f : α → Parser → Outcome β} (h : o.Holds P) (hf : ∀ v p, P v → (f v p).Holds Q) :
    (o.bind f).Holds Q := by
  cases o with
  | ok v p => exact hf v p h
  | thrown e p => exact True.intro
  | outOfFuel => exact True.intro

theorem holds_map {α β : Type} {P : α → Prop} {Q : β → Prop} {o : Outcome α}
    {f : α → β} (h : o.Holds P) (hf : ∀ v, P v → Q (f v)) : (o.map f).Holds Q :=
  holds_bind h (fun v _ hv => hf v hv)

theorem holds_any {α : Type} (o : Outcome α) : o.Holds (fun _ => True) := by
  cases o <;> exact True.intro

theorem Parser.previous_of_check (p : Parser) (type : TokenType)
    (h : p.check type = true) : p.advance.2.previous.type = type := by
  unfold Parser.check at h
  split at h
  · exact absurd h (by simp)
  · rename_i hne
    have h1 : p.peek.type = type := of_decide_eq_true h
    unfold Parser.advance
    simp only [hne, Bool.not_false, if_true]
    simp only [Bool.not_eq_true] at hne
    simp only [hne, Bool.not_false, if_true, Parser.previous, Nat.add_sub_cancel]
    exact h1

theorem matchAny_previous (p : Parser)
    (h : (p.matchAny [.BANG, .MINUS]).1 = true) :
    (p.matchAny [.BANG, .MINUS]).2.previous.type = .BANG ∨
      (p.matchAny [.BANG, .MINUS]).2.previous.type = .MINUS := by
  unfold Parser.matchAny at h ⊢
  cases hb : p.check .BANG
  · rw [hb] at h
    simp only [Bool.false_eq_true, if_false] at h ⊢
    unfold Parser.matchAny at h ⊢
    cases hm : p.check .MINUS
    · rw [hm] at h
      simp [Parser.matchAny] at h
    · simp only [if_true]
      exact Or.inr (p.previous_of_check _ hm)
  · simp only [if_true]
    exact Or.inl (p.previous_of_check _ hb)

theorem wellFormedArguments_append (l : List Expr) (a : Expr) :
    wellFormedArguments (l ++ [a]) = (wellFormedArguments l && a.wellFormed) := by
  induction l with
  | nil => simp [wellFormedArguments]
  | cons b l ih =>
    show (b.wellFormed && wellFormedArguments (l ++ [a])) =
      ((b.wellFormed && wellFormedArguments l) && a.wellFormed)
    rw [ih, Bool.and_assoc]

theorem binaryLoop_wellFormed (types : List TokenType) (operand : Parser → Outcome Expr)
    (hop : ∀ q, (operand q).Holds (fun e => e.wellFormed = true)) :
    ∀ (fuel : Nat) (expr : Expr) (p : Parser), expr.wellFormed = true →
      (binaryLoop types operand fuel expr p).Holds (fun e => e.wellFormed = true)
  | 0, _, _, _ => by
    rw [binaryLoop]
    exact True.intro
  | fuel + 1, expr, p, h => by
    rw [binaryLoop]
    split
    · refine holds_bind (hop _) ?_
      intro right p1 hr
      refine binaryLoop_wellFormed types operand hop fuel _ p1 ?_
      simp only [Expr.wellFormed, h, hr, Bool.and_self]
    · exact h

theorem binaryLevel_wellFormed (types : List TokenType) (operand : Parser → Outcome Expr)
    (hop : ∀ q, (operand q).Holds (fun e => e.wellFormed = true)) (fuel : Nat)
    (p : Parser) :
    ((operand p).bind (fun expr p1 => binaryLoop types operand fuel expr p1)).Holds
      (fun e => e.wellFormed = true) :=
  holds_bind (hop p) (fun expr p1 h => binaryLoop_wellFormed types operand hop fuel expr p1 h)

theorem parsesWellFormed_zero (stod : String → Option Double) : ParsesWellFormed stod 0 where
  expression := fun p => by rw [expression]; exact True.intro
  assignment := fun p => by rw [assignment]; exact True.intro
  logicalOr := fun p => by rw [logicalOr]; exact True.intro
  logicalAnd := fun p => by rw [logicalAnd]; exact True.intro
  equality := fun p => by rw [equality]; exact True.intro
  comparison := fun p => by rw [comparison]; exact True.intro
  term := fun p => by rw [term]; exact True.intro
  factor := fun p => by rw [factor]; exact True.intro
  unary := fun p => by rw [unary]; exact True.intro
  call := fun p => by rw [call]; exact True.intro
  callLoop := fun e p _ => by rw [callLoop]; exact True.intro
  finishCall := fun e p _ => by rw [finishCall]; exact True.intro
  argumentLoop := fun e p _ => by rw [argumentLoop]; exact True.intro
  primary := fun p => by rw [primary]; exact True.intro

theorem primary_wellFormed {stod : String → Option Double} {fuel : Nat}
    (ih : ParsesWellFormed stod fuel) (p : Parser) :
    (primary stod (fuel + 1) p).Holds (fun e => e.wellFormed = true) := by
  rw [primary]
  split
  · exact rfl
  · split
    · exact rfl
    · split
      · exact rfl
      · split
        · simp only []
          split <;> exact rfl
        · split
          · simp only []
            split <;> exact rfl
          · split
            · exact rfl
            · split
              · exact rfl
              · split
                · refine holds_bind (ih.expression _) ?_
                  intro expr p1 he
                  exact holds_map (holds_any _) (fun _ _ => he)
                · exact True.intro

theorem parsesWellFormed_succ {stod : String → Option Double} {fuel : Nat}
    (ih : ParsesWellFormed stod fuel) : ParsesWellFormed stod (fuel + 1) where
  expression := fun p => by
    rw [expression]
    exact ih.assignment p
  assignment := fun p => by
    rw [assignment]
    refine holds_bind (ih.logicalOr p) ?_
    intro expr p1 he
    split
    · refine holds_bind (ih.assignment _) ?_
      intro value p2 hv
      split
      · exact hv
      · exact he
    · exact he
  logicalOr := fun p => by
    rw [logicalOr]
    exact binaryLevel_wellFormed _ _ ih.logicalAnd fuel p
  logicalAnd := fun p => by
    rw [logicalAnd]
    exact binaryLevel_wellFormed _ _ ih.equality fuel p
  equality := fun p => by
    rw [equality]
    exact binaryLevel_wellFormed _ _ ih.comparison fuel p
  comparison := fun p => by
    rw [comparison]
    exact binaryLevel_wellFormed _ _ ih.term fuel p
  term := fun p => by
    rw [term]
    exact binaryLevel_wellFormed _ _ ih.factor fuel p
  factor := fun p => by
    rw [factor]
    exact binaryLevel_wellFormed _ _ ih.unary fuel p
  unary := fun p => by
    rw [unary]
    split
    · rename_i hm
      refine holds_map (ih.unary _) ?_
      intro right hr
      have hop : ((p.matchAny [.BANG, .MINUS]).2.previous.type = .BANG ∨
          (p.matchAny [.BANG, .MINUS]).2.previous.type = .MINUS) :=
        matchAny_previous p hm
      simp only [Expr.wellFormed, hr, Bool.and_true, decide_eq_true_eq]
      exact hop
    · exact ih.call p
  call := fun p => by
    rw [call]
    exact holds_bind (ih.primary p) (fun expr p1 he => ih.callLoop expr p1 he)
  callLoop := fun expr p he => by
    rw [callLoop]
    split
    · exact holds_bind (ih.finishCall _ _ he) (fun e1 p1 h1 => ih.callLoop e1 p1 h1)
    · exact he
  finishCall := fun callee p hc => by
    rw [finishCall]
    have h1 : (if !p.check .RIGHT_PAREN then argumentLoop stod fuel [] p
        else Outcome.ok [] p).Holds (fun l => wellFormedArguments l = true) := by
      split
      · exact ih.argumentLoop [] p rfl
      · exact rfl
    refine holds_bind h1 ?_
    intro arguments p1 ha
    refine holds_map (holds_any _) ?_
    intro paren _
    simp only [Expr.wellFormed, hc, ha, Bool.and_self]
  argumentLoop := fun arguments p ha => by
    rw [argumentLoop]
    refine holds_bind (ih.expression _) ?_
    intro argument p1 he
    have h2 : wellFormedArguments (arguments ++ [argument]) = true := by
      rw [wellFormedArguments_append, ha, he]
      rfl
    split
    · exact ih.argumentLoop _ _ h2
    · exact h2
  primary := primary_wellFormed ih

/-- Every expression a method of the parser returns is well formed: its unary
operators are `!` and `-`. -/
theorem parsesWellFormed (stod : String → Option Double) :
    ∀ fuel, ParsesWellFormed stod fuel
  | 0 => parsesWellFormed_zero stod
  | fuel + 1 => parsesWellFormed_succ (parsesWellFormed stod fuel)

/-! ## The claims -/

/-- C1 (stack balance).  Lowering a statement the parser can build, from any generator
state, leaves the value stack exactly as it found it: the same elements, hence the same
depth.  Each statement visitor pops what the expressions it lowers pushed. -/
theorem stack_balance_of_statement (L : LLVM) (s : Stmt) (g : CodeGenerator)
    (h : s.wellFormed = true) :
    (s.accept L g).value_stack = g.value_stack ∧
      (s.accept L g).value_stack.length = g.value_stack.length := by
  have hk := Stmt.accept_keepsStack L s h g
  exact ⟨hk, by rw [hk]⟩

/-- Witness for C1: `if (x > 3) { x = 1; } else { return -x; }` on a stack of depth two. -/
theorem stack_balance_of_statement_witness :
    (Stmt.IfStmt
        (.BinaryExpr (.VariableExpr (Token.identifier "x")) (Token.ofType .GREATER ">")
          (.LiteralExpr (.int 3)))
        (.BlockStmt [some (.ExpressionStmt
          (.AssignExpr (Token.identifier "x") (.LiteralExpr (.int 1))))])
        (some (.ReturnStmt (Token.ofType .RETURN "return")
          (some (.UnaryExpr (Token.ofType .MINUS "-")
            (.VariableExpr (Token.identifier "x"))))))).wellFormed = true ∧
    ((Stmt.IfStmt
        (.BinaryExpr (.VariableExpr (Token.identifier "x")) (Token.ofType .GREATER ">")
          (.LiteralExpr (.int 3)))
        (.BlockStmt [some (.ExpressionStmt
          (.AssignExpr (Token.identifier "x") (.LiteralExpr (.int 1))))])
        (some (.ReturnStmt (Token.ofType .RETURN "return")
          (some (.UnaryExpr (Token.ofType .MINUS "-")
            (.VariableExpr (Token.identifier "x"))))))).accept LLVM.plain
      (pushValue none (pushValue none (CodeGenerator.init "m")))).value_stack =
      [none, none] :=
  ⟨by decide, (stack_balance_of_statement LLVM.plain _ _ (by decide)).1⟩

/-- C2 (one push per expression).  Lowering an expression node of any kind, in a tree
whose unary operators are `!` and `-` as they are in every tree the parser builds,
leaves the value stack exactly one element deeper than before, in every state and with
every library, whether or not a diagnostic is reported: the stack afterwards is a value
or the null sentinel on top of the stack before.  Every expression that
`Parser::expression` returns, from any parser state, is such a tree. -/
theorem one_push_per_expression (L : LLVM) (e : Expr) (g : CodeGenerator)
    (h : e.wellFormed = true) :
    (∃ v, (e.accept L g).value_stack = v :: g.value_stack) ∧
    (e.accept L g).value_stack.length = g.value_stack.length + 1 ∧
    (∀ (stod : String → Option Double) (fuel : Nat) (p q : Parser) (parsed : Expr),
      expression stod fuel p = .ok parsed q →
        parsed.wellFormed = true ∧
        ∃ v, (parsed.accept L g).value_stack = v :: g.value_stack) := by
  refine ⟨Expr.accept_pushesOne L e h g, ?_, ?_⟩
  · obtain ⟨v, hv⟩ := Expr.accept_pushesOne L e h g
    rw [hv]
    rfl
  · intro stod fuel p q parsed hp
    have hw : parsed.wellFormed = true := by
      have h1 := (parsesWellFormed stod fuel).expression p
      rw [hp] at h1
      exact h1
    exact ⟨hw, Expr.accept_pushesOne L parsed hw g⟩

/-- C2, an instance: `-y` with `y` unknown, lowered from a freshly initialized generator.
The variable and the operator each report a diagnostic, and the stack, empty before,
holds the null sentinel. -/
theorem one_push_per_expression_witness :
    (Expr.UnaryExpr (Token.ofType .MINUS "-")
      (.VariableExpr (Token.identifier "y"))).wellFormed = true ∧
    (∃ v, ((Expr.UnaryExpr (Token.ofType .MINUS "-")
        (.VariableExpr (Token.identifier "y"))).accept LLVM.plain
        (CodeGenerator.init "m")).value_stack = v :: (CodeGenerator.init "m").value_stack) ∧
    ((Expr.UnaryExpr (Token.ofType .MINUS "-")
      (.VariableExpr (Token.identifier "y"))).accept LLVM.plain
      (CodeGenerator.init "m")).value_stack = [none] ∧
    ((Expr.UnaryExpr (Token.ofType .MINUS "-")
      (.VariableExpr (Token.identifier "y"))).accept LLVM.plain
      (CodeGenerator.init "m")).diagnostics.diagnostics.map (fun d => d.message) =
      ["Unknown variable name: y", "Invalid operand for unary operator"] :=
  ⟨by decide,
    (one_push_per_expression LLVM.plain
      (.UnaryExpr (Token.ofType .MINUS "-") (.VariableExpr (Token.identifier "y")))
      (CodeGenerator.init "m") (by decide)).1,
    by decide, by decide⟩

/-- A tree outside those the parser builds.  A `UnaryExpr` whose operator token is neither
`-` nor `!` (here `+`), which `Parser::unary` never makes, is lowered by lowering and
popping its operand and pushing nothing: the value stack is left as it was and no
diagnostic is reported.  The property of one push per expression is therefore stated for
the expressions whose unary operators are `!` and `-`. -/
theorem unary_unknown_operator_pushes_nothing (L : LLVM) (g : CodeGenerator) :
    ((Expr.UnaryExpr (Token.ofType .PLUS "+") (.LiteralExpr (.int 1))).accept L g).value_stack
      = g.value_stack ∧
    ((Expr.UnaryExpr (Token.ofType .PLUS "+") (.LiteralExpr (.int 1))).accept L g).diagnostics
      = g.diagnostics := by
  simp [Expr.accept, visitUnaryExpr, visitLiteralExpr, popValue, pushValue, Token.ofType]

/-- C3 (short-circuit placement).  Let a logical expression `left op right` (`op` is
`&&` or `||`) be lowered from a state whose insertion block exists, and let the left
operand lower to an integer-typed value `l`.  Then lowering goes through the state `gb`
that the branch leaves and the state `gr` after the right operand, and:
the block `h` that is current after the left operand differs from the blocks `right` and
`merge` and ends, in `gb`, with the conditional branch on the converted left value, to
`right` (true) and `merge` (false) for `&&` and with the targets swapped for `||`;
in `gb` the insertion point is `right`, and `right` and `merge` are empty;
lowering the right operand leaves every block that exists in `gb`, other than `right`,
as it is (so its instructions are in `right` or in blocks it creates), in particular
the block holding the branch and `merge`, which is still empty. -/
theorem short_circuit_placement (L : LLVM) (left right : Expr) (op : Token)
    (g : CodeGenerator) (l : Value)
    (hop : op.type = .AND ∨ op.type = .OR)
    (hib : ∃ b, g.insertBlock = some b ∧ b < g.module.blocks.length)
    (hl : (logicalLeft (left.accept L) g).left = some l)
    (hint : l.getType.isIntegerTy = true) :
    let ll := logicalLeft (left.accept L) g
    let c := toBool L "tobool" l ll.state
    let gb := logicalBranch L op ll.right_bb ll.merge_bb l ll.state
    let gr := right.accept L gb
    (Expr.BinaryExpr left op right).accept L g =
        logicalRight L op ll.merge_bb (popValue gr) ∧
    (∃ h, ll.state.insertBlock = some h ∧ h ≠ ll.right_bb ∧ h ≠ ll.merge_bb ∧
      (gb.module.instructionsOf h).getLast? =
        some (if op.type = .AND then .CondBr c.1 ll.right_bb ll.merge_bb
          else .CondBr c.1 ll.merge_bb ll.right_bb) ∧
      gr.module.blocks[h]? = gb.module.blocks[h]?) ∧
    ll.right_bb ≠ ll.merge_bb ∧
    gb.insertBlock = some ll.right_bb ∧
    gb.module.instructionsOf ll.right_bb = [] ∧
    gb.module.instructionsOf ll.merge_bb = [] ∧
    gr.module.instructionsOf ll.merge_bb = [] ∧
    (∀ i, i < gb.module.blocks.length → i ≠ ll.right_bb →
      gr.module.blocks[i]? = gb.module.blocks[i]?) := by
  intro ll c gb gr
  have hrb : ll.right_bb = g.module.blocks.length := (logicalLeft_blocks (left.accept L) g).1
  have hmb : ll.merge_bb = g.module.blocks.length + 1 :=
    (logicalLeft_blocks (left.accept L) g).2
  obtain ⟨h, hh, hne1, hne2, hlt0, hlast, hrE, hmE⟩ :=
    logicalBranch_blocks L op (Expr.accept_frame L left) g l hib
  have hlt : h < ll.state.module.blocks.length := hlt0
  have hlen : g.module.blocks.length + 2 ≤ ll.state.module.blocks.length :=
    logicalLeft_length (Expr.accept_frame L left) g
  have hgbl : ll.state.module.blocks.length ≤ gb.module.blocks.length :=
    logicalBranch_length L op ll.right_bb ll.merge_bb l ll.state
  have F : Frame gb gr := Expr.accept_frame L right gb
  have hgbi : gb.insertBlock = some ll.right_bb := rfl
  have keep : ∀ i, i < gb.module.blocks.length → i ≠ ll.right_bb →
      gr.module.blocks[i]? = gb.module.blocks[i]? := by
    intro i hi hne
    apply F.2.1 i hi
    rw [hgbi]
    exact fun e => hne (Option.some.inj e)
  refine ⟨?_, ⟨h, hh, ?_, ?_, hlast, ?_⟩, ?_, hgbi, hrE, hmE, ?_, keep⟩
  · rw [Expr.accept]
    unfold visitBinaryExpr
    rw [if_pos hop]
    exact visitLogicalExpr_of_left L op _ _ g l hl hint
  · rw [hrb]
    exact hne1
  · rw [hmb]
    exact hne2
  · apply keep h (by omega)
    rw [hrb]
    exact hne1
  · rw [hrb, hmb]
    omega
  · have e := keep ll.merge_bb (by omega) (by omega)
    unfold IRModule.instructionsOf at hmE ⊢
    rw [e]
    exact hmE

/-- Witness for C3: `true && f()` lowered into the entry block of `main`. -/
theorem short_circuit_placement_witness :
    (∃ b, (lowerMain LLVM.plain [] (CodeGenerator.init "m")).insertBlock = some b ∧
      b < (lowerMain LLVM.plain [] (CodeGenerator.init "m")).module.blocks.length) ∧
    (Expr.BinaryExpr (.LiteralExpr (.bool true)) (Token.ofType .AND "&&")
        (.CallExpr (.VariableExpr (Token.identifier "print")) (Token.ofType .RIGHT_PAREN ")")
          [.LiteralExpr (.string "x")])).accept LLVM.plain
        (lowerMain LLVM.plain [] (CodeGenerator.init "m")) =
      logicalRight LLVM.plain (Token.ofType .AND "&&") 3
        (popValue ((Expr.CallExpr (.VariableExpr (Token.identifier "print"))
          (Token.ofType .RIGHT_PAREN ")") [.LiteralExpr (.string "x")]).accept LLVM.plain
          (logicalBranch LLVM.plain (Token.ofType .AND "&&") 2 3
            (.ConstantInt getBoolType 1)
            (logicalLeft ((Expr.LiteralExpr (.bool true)).accept LLVM.plain)
              (lowerMain LLVM.plain [] (CodeGenerator.init "m"))).state))) :=
  ⟨⟨1, by decide, by decide⟩,
    (short_circuit_placement LLVM.plain (.LiteralExpr (.bool true))
      (.CallExpr (.VariableExpr (Token.identifier "print")) (Token.ofType .RIGHT_PAREN ")")
        [.LiteralExpr (.string "x")])
      (Token.ofType .AND "&&") (lowerMain LLVM.plain [] (CodeGenerator.init "m"))
      (.ConstantInt getBoolType 1) (Or.inl rfl) ⟨1, by decide, by decide⟩ (by decide)
      (by decide)).1⟩

/-- C4 at its failing input: `if (true) {} true && true;` lowered by `generate` on a
fresh generator.  The conditional branch of the `&&` is the only instruction of block 4
(`ifcont`, the block current after the `if`), so the predecessors of the merge block 6
are the blocks 4 and 5; but the merge node labels its constant `false` with block 1, the
entry block of `main`, so its incoming blocks are 1 and 5. -/
theorem logical_merge_node_after_if :
    (generate LLVM.plain
      [some (.IfStmt (.LiteralExpr (.bool true)) (.BlockStmt []) none),
       some (.ExpressionStmt (.BinaryExpr (.LiteralExpr (.bool true))
         (Token.ofType .AND "&&") (.LiteralExpr (.bool true))))]
      (CodeGenerator.init "m")).module.instructionsOf 4 =
        [.CondBr (.ConstantInt getBoolType 1) 5 6] ∧
    (generate LLVM.plain
      [some (.IfStmt (.LiteralExpr (.bool true)) (.BlockStmt []) none),
       some (.ExpressionStmt (.BinaryExpr (.LiteralExpr (.bool true))
         (Token.ofType .AND "&&") (.LiteralExpr (.bool true))))]
      (CodeGenerator.init "m")).module.instructionsOf 6 =
        [.PHI 1 getBoolType
          [(.ConstantInt getBoolType 0, some 1), (.ConstantInt getBoolType 1, some 5)]
          "logical",
         .Ret (.ConstantInt getIntType 0)] ∧
    (generate LLVM.plain
      [some (.IfStmt (.LiteralExpr (.bool true)) (.BlockStmt []) none),
       some (.ExpressionStmt (.BinaryExpr (.LiteralExpr (.bool true))
         (Token.ofType .AND "&&") (.LiteralExpr (.bool true))))]
      (CodeGenerator.init "m")).module.predecessors 6 = [4, 5] ∧
    (generate LLVM.plain
      [some (.IfStmt (.LiteralExpr (.bool true)) (.BlockStmt []) none),
       some (.ExpressionStmt (.BinaryExpr (.LiteralExpr (.bool true))
         (Token.ofType .AND "&&") (.LiteralExpr (.bool true))))]
      (CodeGenerator.init "m")).diagnostics.diagnostics = [] := by
  decide

/-- C5 at its failing input: `if (true) return 1;` lowered by `generate` on a fresh
generator.  The `then` block (block 2 of `main`, a successor of the entry block 1)
holds the return followed by the branch to the merge block: two terminators, the first
of them not last.  The function stays in the module, also when the verifier reports the
module. -/
theorem return_inside_if_arm :
    (generate LLVM.structural
      [some (.IfStmt (.LiteralExpr (.bool true))
        (.ReturnStmt (Token.ofType .RETURN "return") (some (.LiteralExpr (.int 1)))) none)]
      (CodeGenerator.init "m")).module.instructionsOf 2 =
        [.Ret (.ConstantInt getIntType 1), .Br 4] ∧
    ¬ (generate LLVM.structural
      [some (.IfStmt (.LiteralExpr (.bool true))
        (.ReturnStmt (Token.ofType .RETURN "return") (some (.LiteralExpr (.int 1)))) none)]
      (CodeGenerator.init "m")).module.reachableBlocksTerminated ∧
    ¬ (generate LLVM.plain
      [some (.IfStmt (.LiteralExpr (.bool true))
        (.ReturnStmt (Token.ofType .RETURN "return") (some (.LiteralExpr (.int 1)))) none)]
      (CodeGenerator.init "m")).module.reachableBlocksTerminated := by
  refine ⟨by decide, ?_, ?_⟩
  · intro h
    obtain ⟨b, hb, ht⟩ := h 2 (by decide) 1 (by decide) 2
      (Relation.ReflTransGen.single (by decide))
    have key : ((generate LLVM.structural
      [some (.IfStmt (.LiteralExpr (.bool true))
        (.ReturnStmt (Token.ofType .RETURN "return") (some (.LiteralExpr (.int 1)))) none)]
      (CodeGenerator.init "m")).module.blocks[2]?).map BasicBlock.oneTerminatorLast =
        some false := by decide
    rw [hb] at key
    simp [ht] at key
  · intro h
    obtain ⟨b, hb, ht⟩ := h 2 (by decide) 1 (by decide) 2
      (Relation.ReflTransGen.single (by decide))
    have key : ((generate LLVM.plain
      [some (.IfStmt (.LiteralExpr (.bool true))
        (.ReturnStmt (Token.ofType .RETURN "return") (some (.LiteralExpr (.int 1)))) none)]
      (CodeGenerator.init "m")).module.blocks[2]?).map BasicBlock.oneTerminatorLast =
        some false := by decide
    rw [hb] at key
    simp [ht] at key

/-- C6 at its failing input: `var x = 1; { var x = 2; x = 4; } x; x = 3;` lowered by
`generate` on a fresh generator.  The outer declaration allocates slot 1, the inner one
slot 2.  The assignment inside the block stores to slot 2; but after the block the
reference to `x` loads from slot 2 and the assignment `x = 3` stores to slot 2, the
slot of the inner declaration: the name is still bound to it. -/
theorem shadowed_name_after_block :
    (generate LLVM.plain
      [some (.VarDeclStmt (Token.identifier "x") (some (.LiteralExpr (.int 1))) false),
       some (.BlockStmt
        [some (.VarDeclStmt (Token.identifier "x") (some (.LiteralExpr (.int 2))) false),
         some (.ExpressionStmt (.AssignExpr (Token.identifier "x") (.LiteralExpr (.int 4))))]),
       some (.ExpressionStmt (.VariableExpr (Token.identifier "x"))),
       some (.ExpressionStmt (.AssignExpr (Token.identifier "x") (.LiteralExpr (.int 3))))]
      (CodeGenerator.init "m")).module.instructionsOf 1 =
        [.Alloca 2 getIntType "x",
         .Alloca 1 getIntType "x",
         .Store (some (.ConstantInt getIntType 1)) (.Instruction 1 (.pointer getIntType)),
         .Store (some (.ConstantInt getIntType 2)) (.Instruction 2 (.pointer getIntType)),
         .Store (some (.ConstantInt getIntType 4)) (.Instruction 2 (.pointer getIntType)),
         .Load 3 getIntType (.Instruction 2 (.pointer getIntType)) "x",
         .Store (some (.ConstantInt getIntType 3)) (.Instruction 2 (.pointer getIntType)),
         .Ret (.ConstantInt getIntType 0)] := by
  decide

/-- C7 at its failing input: `{ var y = 1; } y; y = 2;` lowered by `generate` on a fresh
generator.  After the block has been left, the reference to `y` emits a load from the
slot of `y` and the assignment a store to it, and no diagnostic is reported. -/
theorem block_local_name_after_block :
    (generate LLVM.plain
      [some (.BlockStmt
        [some (.VarDeclStmt (Token.identifier "y") (some (.LiteralExpr (.int 1))) false)]),
       some (.ExpressionStmt (.VariableExpr (Token.identifier "y"))),
       some (.ExpressionStmt (.AssignExpr (Token.identifier "y") (.LiteralExpr (.int 2))))]
      (CodeGenerator.init "m")).module.instructionsOf 1 =
        [.Alloca 1 getIntType "y",
         .Store (some (.ConstantInt getIntType 1)) (.Instruction 1 (.pointer getIntType)),
         .Load 2 getIntType (.Instruction 1 (.pointer getIntType)) "y",
         .Store (some (.ConstantInt getIntType 2)) (.Instruction 1 (.pointer getIntType)),
         .Ret (.ConstantInt getIntType 0)] ∧
    (generate LLVM.plain
      [some (.BlockStmt
        [some (.VarDeclStmt (Token.identifier "y") (some (.LiteralExpr (.int 1))) false)]),
       some (.ExpressionStmt (.VariableExpr (Token.identifier "y"))),
       some (.ExpressionStmt (.AssignExpr (Token.identifier "y") (.LiteralExpr (.int 2))))]
      (CodeGenerator.init "m")).diagnostics = {} := by
  decide

/-- C8 at its failing input: `var x = 1; function f(p) { x; } p;` lowered by `generate`
on a fresh generator.  Slot 1 (`x`) is allocated in block 1, the entry block of `main`;
slot 2 (`p`) in block 2, the entry block of `f`.  The body of `f` loads from slot 1, a
slot of `main`; and after the declaration the reference to `p` in the enclosing code
resolves (a load from slot 2, no diagnostic), the name still being bound. -/
theorem names_across_functions :
    (generate LLVM.structural
      [some (.VarDeclStmt (Token.identifier "x") (some (.LiteralExpr (.int 1))) false),
       some (.FunctionStmt (Token.identifier "f") [Token.identifier "p"]
        [some (.ExpressionStmt (.VariableExpr (Token.identifier "x")))]),
       some (.ExpressionStmt (.VariableExpr (Token.identifier "p")))]
      (CodeGenerator.init "m")).module.instructionsOf 1 =
        [.Alloca 1 getIntType "x",
         .Store (some (.ConstantInt getIntType 1)) (.Instruction 1 (.pointer getIntType))] ∧
    (generate LLVM.structural
      [some (.VarDeclStmt (Token.identifier "x") (some (.LiteralExpr (.int 1))) false),
       some (.FunctionStmt (Token.identifier "f") [Token.identifier "p"]
        [some (.ExpressionStmt (.VariableExpr (Token.identifier "x")))]),
       some (.ExpressionStmt (.VariableExpr (Token.identifier "p")))]
      (CodeGenerator.init "m")).module.instructionsOf 2 =
        [.Alloca 2 getIntType "p",
         .Store (some (.Argument 3 0 getIntType)) (.Instruction 2 (.pointer getIntType)),
         .Load 3 getIntType (.Instruction 1 (.pointer getIntType)) "x",
         .Ret (.ConstantInt getIntType 0),
         .Load 4 getIntType (.Instruction 2 (.pointer getIntType)) "p",
         .Ret (.ConstantInt getIntType 0)] ∧
    (lowerMain LLVM.structural
      [some (.VarDeclStmt (Token.identifier "x") (some (.LiteralExpr (.int 1))) false),
       some (.FunctionStmt (Token.identifier "f") [Token.identifier "p"]
        [some (.ExpressionStmt (.VariableExpr (Token.identifier "x")))]),
       some (.ExpressionStmt (.VariableExpr (Token.identifier "p")))]
      (CodeGenerator.init "m")).diagnostics = {} ∧
    (generate LLVM.structural
      [some (.VarDeclStmt (Token.identifier "x") (some (.LiteralExpr (.int 1))) false),
       some (.FunctionStmt (Token.identifier "f") [Token.identifier "p"]
        [some (.ExpressionStmt (.VariableExpr (Token.identifier "x")))]),
       some (.ExpressionStmt (.VariableExpr (Token.identifier "p")))]
      (CodeGenerator.init "m")).module.blocksOf 2 = [1] ∧
    (generate LLVM.structural
      [some (.VarDeclStmt (Token.identifier "x") (some (.LiteralExpr (.int 1))) false),
       some (.FunctionStmt (Token.identifier "f") [Token.identifier "p"]
        [some (.ExpressionStmt (.VariableExpr (Token.identifier "x")))]),
       some (.ExpressionStmt (.VariableExpr (Token.identifier "p")))]
      (CodeGenerator.init "m")).module.blocksOf 3 = [2] := by
  decide

/-- C9 at its failing input: `function f() { function g() {} }` lowered by `generate`
on a fresh generator.  `f` is function 3 and its only block is block 2, which is left
empty: the default return of `f` is never built, because after the nested declaration
the insertion block is the block of `g` (block 3, which ends up with the default return
of `g` and the closing return of `generate`).  A verifier that checks block structure
then rejects `f`, which is erased from the module and reported. -/
theorem implicit_return_after_nested_function :
    (generate LLVM.plain
      [some (.FunctionStmt (Token.identifier "f") []
        [some (.FunctionStmt (Token.identifier "g") [] [])])]
      (CodeGenerator.init "m")).module.blocksOf 3 = [2] ∧
    (generate LLVM.plain
      [some (.FunctionStmt (Token.identifier "f") []
        [some (.FunctionStmt (Token.identifier "g") [] [])])]
      (CodeGenerator.init "m")).module.instructionsOf 2 = [] ∧
    (generate LLVM.plain
      [some (.FunctionStmt (Token.identifier "f") []
        [some (.FunctionStmt (Token.identifier "g") [] [])])]
      (CodeGenerator.init "m")).module.instructionsOf 3 =
        [.Ret (.ConstantInt getIntType 0), .Ret (.ConstantInt getIntType 0)] ∧
    (generate LLVM.structural
      [some (.FunctionStmt (Token.identifier "f") []
        [some (.FunctionStmt (Token.identifier "g") [] [])])]
      (CodeGenerator.init "m")).module.instructionsOf 2 = [] ∧
    (generate LLVM.structural
      [some (.FunctionStmt (Token.identifier "f") []
        [some (.FunctionStmt (Token.identifier "g") [] [])])]
      (CodeGenerator.init "m")).module.getFunction "f" = none ∧
    (generate LLVM.structural
      [some (.FunctionStmt (Token.identifier "f") []
        [some (.FunctionStmt (Token.identifier "g") [] [])])]
      (CodeGenerator.init "m")).diagnostics.diagnostics.map (fun d => d.message) =
        ["Function verification failed: f",
         "LLVM IR verification failed: Basic Block does not have terminator!"] := by
  decide

/-- C10 (undefined variable).  Let `y` be a name that `named_values` does not bind, and
let the library's verifier accept the module that lowering produces.  Then `generate` on
the single statement `y = <literal>;` returns a state in which exactly one diagnostic
was added, the ERROR "Unknown variable name: y"; the aggregate error flag is set; and
the block arena is the previous one followed by the entry block of `main`, which
contains no store. -/
theorem undefined_variable_assignment (L : LLVM) (y : Token) (v : LiteralValue)
    (g : CodeGenerator)
    (hy : mapFind g.named_values y.lexeme = none)
    (hv : L.verifyModule
      (lowerMain L [some (.ExpressionStmt (.AssignExpr y (.LiteralExpr v)))] g).module
        = none) :
    (generate L [some (.ExpressionStmt (.AssignExpr y (.LiteralExpr v)))] g).diagnostics.diagnostics
      = g.diagnostics.diagnostics ++
        [{ severity := .ERROR, message := "Unknown variable name: " ++ y.lexeme,
           location := {} }] ∧
    (generate L [some (.ExpressionStmt (.AssignExpr y (.LiteralExpr v)))] g).diagnostics.hasErrors
      = true ∧
    ∃ entry : BasicBlock,
      (generate L [some (.ExpressionStmt (.AssignExpr y (.LiteralExpr v)))] g).module.blocks
        = g.module.blocks ++ [entry] ∧
      ∀ i ∈ entry.instructions, i.isStore = false := by
  have hgen : generate L [some (.ExpressionStmt (.AssignExpr y (.LiteralExpr v)))] g =
      lowerMain L [some (.ExpressionStmt (.AssignExpr y (.LiteralExpr v)))] g := by
    unfold generate
    simp only [hv]
  rw [hgen]
  -- the state in which the statement is lowered
  obtain ⟨g2, hg2⟩ : ∃ g2 : CodeGenerator, g2 =
      { (({ g with module := (g.module.createFunction getIntType [] false "main").2 } :
          CodeGenerator).createBlock "entry"
            (some (g.module.createFunction getIntType [] false "main").1)).2.SetInsertPoint
          (({ g with module := (g.module.createFunction getIntType [] false "main").2 } :
            CodeGenerator).createBlock "entry"
              (some (g.module.createFunction getIntType [] false "main").1)).1 with
        current_function := some (g.module.createFunction getIntType [] false "main").1 } :=
    ⟨_, rfl⟩
  have hb : g2.module.blocks = g.module.blocks ++
      [{ name := "entry",
         parent := some (g.module.createFunction getIntType [] false "main").1,
         instructions := [] }] := by
    rw [hg2]
    rfl
  have hi : g2.insertBlock = some g.module.blocks.length := by
    rw [hg2]
    rfl
  have hn : g2.named_values = g.named_values := by
    rw [hg2]
    rfl
  have hd : g2.diagnostics = g.diagnostics := by
    rw [hg2]
    rfl
  obtain ⟨is, hs, hlb, hli, hln, hld⟩ := visitLiteralExpr_last L v g2 _ _ hb hi
  have hlow : lowerMain L [some (.ExpressionStmt (.AssignExpr y (.LiteralExpr v)))] g =
      ((popValue (pushValue none ((popValue (visitLiteralExpr L v g2)).2.report .ERROR
        ("Unknown variable name: " ++ y.lexeme)))).2).CreateRet (.ConstantInt getIntType 0) := by
    have hf : mapFind (popValue (visitLiteralExpr L v g2)).2.named_values y.lexeme = none := by
      have : (popValue (visitLiteralExpr L v g2)).2.named_values = g.named_values := by
        rw [← hn, ← hln]
        unfold popValue
        split <;> rfl
      rw [this]
      exact hy
    unfold lowerMain
    simp only [acceptStatements, acceptIfPresent, Stmt.accept, Expr.accept,
      visitExpressionStmt, visitAssignExpr]
    rw [← hg2]
    simp only [hf]
  rw [hlow]
  -- the state after the literal has been popped
  have hp : ∀ x : CodeGenerator, (popValue x).2.module = x.module ∧
      (popValue x).2.insertBlock = x.insertBlock ∧
      (popValue x).2.diagnostics = x.diagnostics := by
    intro x
    unfold popValue
    split <;> exact ⟨rfl, rfl, rfl⟩
  have hret := Insert_last
    (popValue (pushValue none ((popValue (visitLiteralExpr L v g2)).2.report .ERROR
      ("Unknown variable name: " ++ y.lexeme)))).2 g.module.blocks _
    (.Ret (.ConstantInt getIntType 0))
    (by
      rw [(hp _).1]
      show (popValue (visitLiteralExpr L v g2)).2.module.blocks = _
      rw [(hp _).1]
      exact hlb)
    (by
      rw [(hp _).2.1]
      show (popValue (visitLiteralExpr L v g2)).2.insertBlock = _
      rw [(hp _).2.1]
      exact hli)
  have hdiag : ((popValue (pushValue none ((popValue (visitLiteralExpr L v g2)).2.report .ERROR
      ("Unknown variable name: " ++ y.lexeme)))).2.CreateRet
        (.ConstantInt getIntType 0)).diagnostics =
      g.diagnostics.report .ERROR ("Unknown variable name: " ++ y.lexeme) {} "" := by
    have e1 : ∀ (x : CodeGenerator) (i : Instruction), (x.Insert i).diagnostics = x.diagnostics := by
      intro x i
      unfold CodeGenerator.Insert
      split <;> rfl
    unfold CodeGenerator.CreateRet
    rw [e1, (hp _).2.2]
    show ((popValue (visitLiteralExpr L v g2)).2.diagnostics).report .ERROR
      ("Unknown variable name: " ++ y.lexeme) {} "" = _
    rw [(hp _).2.2, hld, hd]
  refine ⟨?_, ?_, ?_⟩
  · rw [hdiag]
    simp [DiagnosticManager.report, DiagnosticManager.reportDiagnostic]
  · rw [hdiag]
    simp [DiagnosticManager.report, DiagnosticManager.reportDiagnostic,
      DiagnosticManager.hasErrors]
  · refine ⟨_, hret.1, ?_⟩
    intro i hi2
    simp only [List.nil_append, List.mem_append, List.mem_singleton] at hi2
    rcases hi2 with h1 | h1
    · exact hs i h1
    · rw [h1]
      rfl

/-- Witness for C10: `y = 3;` on a freshly initialized generator. -/
theorem undefined_variable_assignment_witness :
    mapFind (CodeGenerator.init "m").named_values (Token.identifier "y").lexeme = none ∧
    (generate LLVM.plain
      [some (.ExpressionStmt (.AssignExpr (Token.identifier "y") (.LiteralExpr (.int 3))))]
      (CodeGenerator.init "m")).diagnostics.diagnostics =
      (CodeGenerator.init "m").diagnostics.diagnostics ++
        [{ severity := .ERROR,
           message := "Unknown variable name: " ++ (Token.identifier "y").lexeme,
           location := {} }] :=
  ⟨by decide,
    (undefined_variable_assignment LLVM.plain (Token.identifier "y") (.int 3)
      (CodeGenerator.init "m") (by decide) (by decide)).1⟩

/-- C11 (end to end).  `generate` on `var x = 5; if (x > 3) { x = 1; } else { x = 2; }`,
from a freshly initialized generator, gives `main` (function 2) exactly the four blocks
1 to 4: the entry block with the allocation of the slot of `x`, the store of 5, a load
of `x`, the signed greater-than comparison with 3 and the conditional branch to
then/else; the then block storing 1 and the else block storing 2 to the slot, each
branching to the merge block; and the merge block with `return 0`.  No diagnostic is
reported.  The same holds under a builder that folds constant operands. -/
theorem end_to_end_if_else :
    (generate LLVM.structural
      [some (.VarDeclStmt (Token.identifier "x") (some (.LiteralExpr (.int 5))) false),
       some (.IfStmt
        (.BinaryExpr (.VariableExpr (Token.identifier "x")) (Token.ofType .GREATER ">")
          (.LiteralExpr (.int 3)))
        (.BlockStmt [some (.ExpressionStmt
          (.AssignExpr (Token.identifier "x") (.LiteralExpr (.int 1))))])
        (some (.BlockStmt [some (.ExpressionStmt
          (.AssignExpr (Token.identifier "x") (.LiteralExpr (.int 2))))])))]
      (CodeGenerator.init "m")).module.blocksOf 2 = [1, 2, 3, 4] ∧
    [1, 2, 3, 4].map (generate LLVM.structural
      [some (.VarDeclStmt (Token.identifier "x") (some (.LiteralExpr (.int 5))) false),
       some (.IfStmt
        (.BinaryExpr (.VariableExpr (Token.identifier "x")) (Token.ofType .GREATER ">")
          (.LiteralExpr (.int 3)))
        (.BlockStmt [some (.ExpressionStmt
          (.AssignExpr (Token.identifier "x") (.LiteralExpr (.int 1))))])
        (some (.BlockStmt [some (.ExpressionStmt
          (.AssignExpr (Token.identifier "x") (.LiteralExpr (.int 2))))])))]
      (CodeGenerator.init "m")).module.instructionsOf =
      [[.Alloca 1 getIntType "x",
        .Store (some (.ConstantInt getIntType 5)) (.Instruction 1 (.pointer getIntType)),
        .Load 2 getIntType (.Instruction 1 (.pointer getIntType)) "x",
        .Op 3 .ICmpSGT [.Instruction 2 getIntType, .ConstantInt getIntType 3] getBoolType "gt",
        .CondBr (.Instruction 3 getBoolType) 2 3],
       [.Store (some (.ConstantInt getIntType 1)) (.Instruction 1 (.pointer getIntType)),
        .Br 4],
       [.Store (some (.ConstantInt getIntType 2)) (.Instruction 1 (.pointer getIntType)),
        .Br 4],
       [.Ret (.ConstantInt getIntType 0)]] ∧
    (generate LLVM.structural
      [some (.VarDeclStmt (Token.identifier "x") (some (.LiteralExpr (.int 5))) false),
       some (.IfStmt
        (.BinaryExpr (.VariableExpr (Token.identifier "x")) (Token.ofType .GREATER ">")
          (.LiteralExpr (.int 3)))
        (.BlockStmt [some (.ExpressionStmt
          (.AssignExpr (Token.identifier "x") (.LiteralExpr (.int 1))))])
        (some (.BlockStmt [some (.ExpressionStmt
          (.AssignExpr (Token.identifier "x") (.LiteralExpr (.int 2))))])))]
      (CodeGenerator.init "m")).diagnostics = {} ∧
    (generate LLVM.constantFolding
      [some (.VarDeclStmt (Token.identifier "x") (some (.LiteralExpr (.int 5))) false),
       some (.IfStmt
        (.BinaryExpr (.VariableExpr (Token.identifier "x")) (Token.ofType .GREATER ">")
          (.LiteralExpr (.int 3)))
        (.BlockStmt [some (.ExpressionStmt
          (.AssignExpr (Token.identifier "x") (.LiteralExpr (.int 1))))])
        (some (.BlockStmt [some (.ExpressionStmt
          (.AssignExpr (Token.identifier "x") (.LiteralExpr (.int 2))))])))]
      (CodeGenerator.init "m")).module.blocks =
    (generate LLVM.structural
      [some (.VarDeclStmt (Token.identifier "x") (some (.LiteralExpr (.int 5))) false),
       some (.IfStmt
        (.BinaryExpr (.VariableExpr (Token.identifier "x")) (Token.ofType .GREATER ">")
          (.LiteralExpr (.int 3)))
        (.BlockStmt [some (.ExpressionStmt
          (.AssignExpr (Token.identifier "x") (.LiteralExpr (.int 1))))])
        (some (.BlockStmt [some (.ExpressionStmt
          (.AssignExpr (Token.identifier "x") (.LiteralExpr (.int 2))))])))]
      (CodeGenerator.init "m")).module.blocks := by
  refine ⟨by decide!, by decide!, by decide!, by decide!⟩

/-- C13 at its failing input: `nil + 1.5`, in any generator state and with any library.
One operand is floating-point, so `is_float_op` holds although the other operand is a
pointer: the switch takes the floating-point branch and builds the floating-point
addition on the null pointer and the float.  The result of that call is pushed, not
the null sentinel, and no diagnostic is reported. -/
theorem pointer_with_float_operand (L : LLVM) (d : Double) (g : CodeGenerator) :
    (Expr.BinaryExpr (.LiteralExpr .null) (Token.ofType .PLUS "+")
        (.LiteralExpr (.double d))).accept L g =
      pushValue
        (some (g.Create L .FAdd
          [.ConstantPointerNull (.pointer (.integer 8)), .ConstantFP getFloatType d]
          (.pointer (.integer 8)) "fadd").1)
        (g.Create L .FAdd
          [.ConstantPointerNull (.pointer (.integer 8)), .ConstantFP getFloatType d]
          (.pointer (.integer 8)) "fadd").2 ∧
    ((Expr.BinaryExpr (.LiteralExpr .null) (Token.ofType .PLUS "+")
        (.LiteralExpr (.double d))).accept L g).diagnostics = g.diagnostics ∧
    (lowerMain LLVM.plain
      [some (.ExpressionStmt (.BinaryExpr (.LiteralExpr .null) (Token.ofType .PLUS "+")
        (.LiteralExpr (.double ⟨0⟩))))]
      (CodeGenerator.init "m")).module.instructionsOf 1 =
      [.Op 1 .FAdd
        [.ConstantPointerNull (.pointer (.integer 8)), .ConstantFP getFloatType ⟨0⟩]
        (.pointer (.integer 8)) "fadd",
       .Ret (.ConstantInt getIntType 0)] := by
  have h : (Expr.BinaryExpr (.LiteralExpr .null) (Token.ofType .PLUS "+")
        (.LiteralExpr (.double d))).accept L g =
      pushValue
        (some (g.Create L .FAdd
          [.ConstantPointerNull (.pointer (.integer 8)), .ConstantFP getFloatType d]
          (.pointer (.integer 8)) "fadd").1)
        (g.Create L .FAdd
          [.ConstantPointerNull (.pointer (.integer 8)), .ConstantFP getFloatType d]
          (.pointer (.integer 8)) "fadd").2 := by
    simp [Expr.accept, visitBinaryExpr, visitRegularBinaryExpr, visitLiteralExpr, popValue,
      pushValue, Token.ofType, promoteOperands, binarySwitch, binaryCase, Value.getType,
      Ty.isIntegerTy, Ty.isFloatingPointTy, getFloatType]
  refine ⟨h, ?_, by decide⟩
  rw [h]
  unfold CodeGenerator.Create
  split
  · rfl
  · simp [pushValue, diagnostics_Insert, CodeGenerator.takeValue]

/-- C12 (promotion law), as amended.  For an arithmetic operator `+ - * /`, an integer
literal `i` and a float literal `f`, lowering `i op f` and lowering `f op i` each make
the builder's signed integer-to-float conversion call on the integer operand and then
its floating-point variant of the operator on the operands in source order, push the
result of that call and report no diagnostic.  With a typed folder the pushed value is
float64-typed; when the folder folds nothing the two calls insert exactly the
conversion and then the operator instruction. -/
theorem promotion_of_int_and_float (L : LLVM) (op : Token) (fop : BuilderOp)
    (fname : String) (i : Int) (f : Double) (g : CodeGenerator)
    (hop : floatVariant op.type = some (fop, fname)) :
    let conv := g.Create L .SIToFP [.ConstantInt getIntType i] getFloatType "int2float"
    let r1 := conv.2.Create L fop [conv.1, .ConstantFP getFloatType f] conv.1.getType fname
    let r2 := conv.2.Create L fop [.ConstantFP getFloatType f, conv.1] getFloatType fname
    (Expr.BinaryExpr (.LiteralExpr (.int i)) op (.LiteralExpr (.double f))).accept L g =
      pushValue (some r1.1) r1.2 ∧
    (Expr.BinaryExpr (.LiteralExpr (.double f)) op (.LiteralExpr (.int i))).accept L g =
      pushValue (some r2.1) r2.2 ∧
    (pushValue (some r1.1) r1.2).diagnostics = g.diagnostics ∧
    (pushValue (some r2.1) r2.2).diagnostics = g.diagnostics ∧
    (L.foldsTyped → r1.1.getType = getFloatType ∧ r2.1.getType = getFloatType) ∧
    ((∀ o a t, L.fold o a t = none) →
      pushValue (some r1.1) r1.2 =
        pushValue (some (.Instruction (g.module.nextValue + 1) getFloatType))
          ((g.takeValue.Insert (.Op g.module.nextValue .SIToFP [.ConstantInt getIntType i]
            getFloatType "int2float")).takeValue.Insert
            (.Op (g.module.nextValue + 1) fop
              [.Instruction g.module.nextValue getFloatType, .ConstantFP getFloatType f]
              getFloatType fname)) ∧
      pushValue (some r2.1) r2.2 =
        pushValue (some (.Instruction (g.module.nextValue + 1) getFloatType))
          ((g.takeValue.Insert (.Op g.module.nextValue .SIToFP [.ConstantInt getIntType i]
            getFloatType "int2float")).takeValue.Insert
            (.Op (g.module.nextValue + 1) fop
              [.ConstantFP getFloatType f, .Instruction g.module.nextValue getFloatType]
              getFloatType fname))) := by
  intro conv r1 r2
  have hcases : op.type = .PLUS ∨ op.type = .MINUS ∨ op.type = .STAR ∨ op.type = .SLASH := by
    cases h : op.type <;> simp [floatVariant, h] at hop <;> simp
  have hlog : ¬ (op.type = .AND ∨ op.type = .OR) := by
    rcases hcases with h | h | h | h <;> simp [h]
  refine ⟨?_, ?_, ?_, ?_, ?_, ?_⟩
  · rcases hcases with h | h | h | h <;>
      · simp only [floatVariant, h, Option.some.injEq, Prod.mk.injEq] at hop
        obtain ⟨h1, h2⟩ := hop
        subst h1 h2
        simp [Expr.accept, visitBinaryExpr, visitRegularBinaryExpr, visitLiteralExpr,
          popValue, pushValue, promoteOperands, binarySwitch, binaryCase, Value.getType,
          Ty.isIntegerTy, Ty.isFloatingPointTy, getFloatType, getIntType, h, r1, conv]
  · rcases hcases with h | h | h | h <;>
      · simp only [floatVariant, h, Option.some.injEq, Prod.mk.injEq] at hop
        obtain ⟨h1, h2⟩ := hop
        subst h1 h2
        simp [Expr.accept, visitBinaryExpr, visitRegularBinaryExpr, visitLiteralExpr,
          popValue, pushValue, promoteOperands, binarySwitch, binaryCase, Value.getType,
          Ty.isIntegerTy, Ty.isFloatingPointTy, getFloatType, getIntType, h, r2, conv]
  · show r1.2.diagnostics = g.diagnostics
    rw [diagnostics_Create, diagnostics_Create]
  · show r2.2.diagnostics = g.diagnostics
    rw [diagnostics_Create, diagnostics_Create]
  · intro hL
    refine ⟨?_, getType_Create _ L hL _ _ _ _⟩
    have h1 : r1.1.getType = conv.1.getType := getType_Create _ L hL _ _ _ _
    rw [h1]
    exact getType_Create _ L hL _ _ _ _
  · intro hnf
    have hc : conv = (.Instruction g.module.nextValue getFloatType,
        g.takeValue.Insert (.Op g.module.nextValue .SIToFP [.ConstantInt getIntType i]
          getFloatType "int2float")) := Create_of_not_folded g L _ _ _ _ (hnf _ _ _)
    have hn : conv.2.module.nextValue = g.module.nextValue + 1 := by
      rw [hc]
      exact nextValue_Insert _ _
    refine ⟨?_, ?_⟩
    · have hr : r1 = _ := Create_of_not_folded conv.2 L fop _ _ fname (hnf _ _ _)
      rw [hr, hn, hc]
      rfl
    · have hr : r2 = _ := Create_of_not_folded conv.2 L fop _ _ fname (hnf _ _ _)
      rw [hr, hn, hc]

/-- Witness for C12: `1 + f` under the library that folds nothing. -/
theorem promotion_of_int_and_float_witness :
    floatVariant (Token.ofType .PLUS "+").type = some (.FAdd, "fadd") ∧
    ((Expr.BinaryExpr (.LiteralExpr (.int 1)) (Token.ofType .PLUS "+")
        (.LiteralExpr (.double ⟨0⟩))).accept LLVM.plain
      (lowerMain LLVM.plain [] (CodeGenerator.init "m"))).diagnostics
      = (lowerMain LLVM.plain [] (CodeGenerator.init "m")).diagnostics :=
  ⟨rfl, by
    have h := promotion_of_int_and_float LLVM.plain (Token.ofType .PLUS "+") .FAdd "fadd" 1
      ⟨0⟩ (lowerMain LLVM.plain [] (CodeGenerator.init "m")) rfl
    rw [h.1]
    exact h.2.2.1⟩

/-- C12 fails as stated: under a builder that folds constant operands, as the default
folder of the library does, lowering `1 + f;` and `f + 1;` into `main` inserts no
instruction: the entry block holds only the closing return, and no conversion or
floating-point addition is emitted. -/
theorem promotion_of_literals_is_folded :
    (lowerMain LLVM.constantFolding
      [some (.ExpressionStmt (.BinaryExpr (.LiteralExpr (.int 1)) (Token.ofType .PLUS "+")
        (.LiteralExpr (.double ⟨0⟩)))),
       some (.ExpressionStmt (.BinaryExpr (.LiteralExpr (.double ⟨0⟩))
        (Token.ofType .PLUS "+") (.LiteralExpr (.int 1))))]
      (CodeGenerator.init "m")).module.instructionsOf 1 =
      [.Ret (.ConstantInt getIntType 0)] ∧
    ((Expr.BinaryExpr (.LiteralExpr (.int 1)) (Token.ofType .PLUS "+")
        (.LiteralExpr (.double ⟨0⟩))).accept LLVM.constantFolding
      (lowerMain LLVM.constantFolding [] (CodeGenerator.init "m"))).value_stack =
      [some (.ConstantExpr .FAdd
        [.ConstantExpr .SIToFP [.ConstantInt getIntType 1] getFloatType,
         .ConstantFP getFloatType ⟨0⟩] getFloatType)] := by
  refine ⟨by decide!, by decide!⟩

/-- C14 (modulo is integer-only), as amended.  Let the operands of `left % right` lower
to the values `l` and `r`, and `s` be the state after both are popped.
If both are integer-typed, the builder's signed-remainder call is made on `l` and `r`
and its result pushed; the call inserts the remainder instruction unless the folder
folds it.  If at least one is floating-point, the null sentinel is pushed, exactly one
diagnostic is added, the ERROR of the operator, and the state differs from `s` by at
most the integer-to-float conversion of one operand: no remainder instruction. -/
theorem modulo_is_integer_only (L : LLVM) (left right : Expr) (op : Token)
    (g : CodeGenerator) (l r : Value)
    (hop : op.type = .PERCENT)
    (hl : (popValue (left.accept L g)).1 = some l)
    (hr : (popValue (right.accept L (popValue (left.accept L g)).2)).1 = some r) :
    let s := (popValue (right.accept L (popValue (left.accept L g)).2)).2
    let p := (promoteOperands L true l r s).2
    (l.getType.isIntegerTy = true → r.getType.isIntegerTy = true →
      (Expr.BinaryExpr left op right).accept L g =
        pushValue (some (s.Create L .SRem [l, r] l.getType "rem").1)
          (s.Create L .SRem [l, r] l.getType "rem").2 ∧
      (L.fold .SRem [l, r] l.getType = none →
        (Expr.BinaryExpr left op right).accept L g =
          pushValue (some (.Instruction s.module.nextValue l.getType))
            (s.takeValue.Insert (.Op s.module.nextValue .SRem [l, r] l.getType "rem")))) ∧
    (l.getType.isFloatingPointTy = true ∨ r.getType.isFloatingPointTy = true →
      (Expr.BinaryExpr left op right).accept L g =
        pushValue none (p.report .ERROR "Modulo operator requires integer operands") ∧
      ((Expr.BinaryExpr left op right).accept L g).diagnostics.diagnostics =
        s.diagnostics.diagnostics ++
          [{ severity := .ERROR, message := "Modulo operator requires integer operands",
             location := {} }] ∧
      (p = s ∨ ∃ x n, p = s.takeValue.Insert (.Op n .SIToFP [x] getFloatType "int2float"))) := by
  intro s p
  have hlog : ¬ (op.type = .AND ∨ op.type = .OR) := by simp [hop]
  have hacc : (Expr.BinaryExpr left op right).accept L g =
      binarySwitch L op (l.getType.isFloatingPointTy || r.getType.isFloatingPointTy)
        (l.getType.isIntegerTy && r.getType.isIntegerTy)
        (promoteOperands L (l.getType.isFloatingPointTy || r.getType.isFloatingPointTy)
          l r s).1.1
        (promoteOperands L (l.getType.isFloatingPointTy || r.getType.isFloatingPointTy)
          l r s).1.2
        (promoteOperands L (l.getType.isFloatingPointTy || r.getType.isFloatingPointTy)
          l r s).2 := by
    rw [Expr.accept]
    unfold visitBinaryExpr
    rw [if_neg hlog]
    unfold visitRegularBinaryExpr
    simp only [hl, hr]
  have hnotfp : ∀ t : Ty, t.isIntegerTy = true → t.isFloatingPointTy = false := by
    intro t ht
    cases t <;> simp_all [Ty.isIntegerTy, Ty.isFloatingPointTy]
  refine ⟨?_, ?_⟩
  · intro hli hri
    have hpr : promoteOperands L (l.getType.isFloatingPointTy || r.getType.isFloatingPointTy)
        l r s = ((l, r), s) := by
      simp [promoteOperands, hnotfp _ hli, hnotfp _ hri]
    have h1 : (Expr.BinaryExpr left op right).accept L g =
        pushValue (some (s.Create L .SRem [l, r] l.getType "rem").1)
          (s.Create L .SRem [l, r] l.getType "rem").2 := by
      rw [hacc, hpr]
      simp [binarySwitch, hop, hli, hri]
    refine ⟨h1, ?_⟩
    intro hnf
    rw [h1, Create_of_not_folded s L _ _ _ _ hnf]
  · intro hfp
    have hf : (l.getType.isFloatingPointTy || r.getType.isFloatingPointTy) = true := by
      rcases hfp with h | h <;> simp [h]
    have hni : (l.getType.isIntegerTy && r.getType.isIntegerTy) = false := by
      rcases hfp with h | h
      · have : l.getType.isIntegerTy = false := by
          cases hh : l.getType <;> simp_all [Ty.isIntegerTy, Ty.isFloatingPointTy]
        simp [this]
      · have : r.getType.isIntegerTy = false := by
          cases hh : r.getType <;> simp_all [Ty.isIntegerTy, Ty.isFloatingPointTy]
        simp [this]
    have h1 : (Expr.BinaryExpr left op right).accept L g =
        pushValue none (p.report .ERROR "Modulo operator requires integer operands") := by
      rw [hacc, hf, hni]
      simp [binarySwitch, hop, p]
    have hp : p = s ∨ ∃ x n, p = s.takeValue.Insert
        (.Op n .SIToFP [x] getFloatType "int2float") :=
      promoteOperands_state L true l r s
    refine ⟨h1, ?_, hp⟩
    rw [h1]
    have hd : p.diagnostics = s.diagnostics := by
      rcases hp with e | ⟨x, n, e⟩
      · rw [e]
      · rw [e, diagnostics_Insert]
        rfl
    simp [pushValue, CodeGenerator.report, DiagnosticManager.report,
      DiagnosticManager.reportDiagnostic, hd]

/-- Witness for C14: `5 % 3`, under the library that folds nothing. -/
theorem modulo_is_integer_only_witness :
    (popValue ((Expr.LiteralExpr (.int 5)).accept LLVM.plain
      (lowerMain LLVM.plain [] (CodeGenerator.init "m")))).1 =
        some (.ConstantInt getIntType 5) ∧
    (Expr.BinaryExpr (.LiteralExpr (.int 5)) (Token.ofType .PERCENT "%")
        (.LiteralExpr (.int 3))).accept LLVM.plain
      (lowerMain LLVM.plain [] (CodeGenerator.init "m")) =
      pushValue (some (.Instruction 1 getIntType))
        ((lowerMain LLVM.plain [] (CodeGenerator.init "m")).takeValue.Insert
          (.Op 1 .SRem [.ConstantInt getIntType 5, .ConstantInt getIntType 3] getIntType
            "rem")) :=
  ⟨by decide,
    ((modulo_is_integer_only LLVM.plain (.LiteralExpr (.int 5)) (.LiteralExpr (.int 3))
      (Token.ofType .PERCENT "%") (lowerMain LLVM.plain [] (CodeGenerator.init "m"))
      (.ConstantInt getIntType 5) (.ConstantInt getIntType 3) rfl (by decide)
      (by decide)).1 rfl rfl).2 rfl⟩

/-- C14 fails as stated: under a builder that folds constant operands, as the default
folder of the library does, lowering `5 % 3;` into `main` emits no remainder
instruction; the folded constant is what is pushed. -/
theorem modulo_of_literals_is_folded :
    (lowerMain LLVM.constantFolding
      [some (.ExpressionStmt (.BinaryExpr (.LiteralExpr (.int 5))
        (Token.ofType .PERCENT "%") (.LiteralExpr (.int 3))))]
      (CodeGenerator.init "m")).module.instructionsOf 1 =
      [.Ret (.ConstantInt getIntType 0)] ∧
    ((Expr.BinaryExpr (.LiteralExpr (.int 5)) (Token.ofType .PERCENT "%")
        (.LiteralExpr (.int 3))).accept LLVM.constantFolding
      (lowerMain LLVM.constantFolding [] (CodeGenerator.init "m"))).value_stack =
      [some (.ConstantExpr .SRem [.ConstantInt getIntType 5, .ConstantInt getIntType 3]
        getIntType)] := by
  refine ⟨by decide!, by decide!⟩

/-- C17 (slot allocation), as amended.  Let the function currently being lowered have
the entry block `e`.  Lowering a variable declaration, whatever the insertion block is,
adds exactly one allocation to the module: the slot bound to the name, placed at the
head of `e`.  The allocations of every other block are those it had before, so the
insertion block gains the allocation exactly when it is the entry block itself. -/
theorem declaration_allocates_in_entry_block (L : LLVM) (name : Token)
    (init : Option Expr) (is_const : Bool) (g : CodeGenerator) (e : Nat)
    (he : g.module.getEntryBlock g.current_function = some e)
    (hlen : e < g.module.blocks.length) :
    ∃ slot : AllocaInst,
      slot.name = name.lexeme ∧
      mapFind ((Stmt.VarDeclStmt name init is_const).accept L g).named_values name.lexeme
        = some slot ∧
      (((Stmt.VarDeclStmt name init is_const).accept L g).module.instructionsOf e).head? =
        some (.Alloca slot.id slot.allocatedType slot.name) ∧
      ∀ b, (((Stmt.VarDeclStmt name init is_const).accept L g).module.instructionsOf
          b).filter Instruction.isAlloca =
        (if b = e then [.Alloca slot.id slot.allocatedType slot.name] else []) ++
          (g.module.instructionsOf b).filter Instruction.isAlloca := by
  have core : ∀ (v : Option Value) (s : CodeGenerator), ExprKeeps g s →
      g.module.blocks.length ≤ s.module.blocks.length →
      ∃ slot : AllocaInst,
        slot.name = name.lexeme ∧
        mapFind (visitVarDeclStmt name (some (fun _ => pushValue v s)) g).named_values
          name.lexeme = some slot ∧
        ((visitVarDeclStmt name (some (fun _ => pushValue v s)) g).module.instructionsOf
          e).head? = some (.Alloca slot.id slot.allocatedType slot.name) ∧
        ∀ b, ((visitVarDeclStmt name (some (fun _ => pushValue v s)) g).module.instructionsOf
            b).filter Instruction.isAlloca =
          (if b = e then [.Alloca slot.id slot.allocatedType slot.name] else []) ++
            (g.module.instructionsOf b).filter Instruction.isAlloca := by
    intro v s hk hl
    obtain ⟨_, _, hc, _, _, hent, hall⟩ := hk
    have he1 : s.module.getEntryBlock s.current_function = some e := by
      rw [hc]
      exact hent _ _ he
    have hlen1 : e < s.module.blocks.length := Nat.lt_of_lt_of_le hlen hl
    unfold visitVarDeclStmt
    simp only [popValue, pushValue]
    cases v with
    | none =>
      obtain ⟨h1, h2, h3, _, _, _⟩ :=
        createEntryBlockAlloca_entry s.current_function name.lexeme getIntType s e he1 hlen1
      refine ⟨_, ?_, mapFind_mapAssign _ _ _, ?_, ?_⟩
      · rw [h1]
      · simp only [h2, h1, List.head?_cons]
      · intro b
        by_cases hb : b = e
        · subst hb
          simp only [h2, h1, if_true, ← hall b]
          simp [Instruction.isAlloca]
        · simp only [h3 b hb, if_neg hb, List.nil_append, hall b]
    | some v =>
      obtain ⟨h1, h2, h3, _, _, _⟩ :=
        createEntryBlockAlloca_entry s.current_function name.lexeme v.getType s e he1 hlen1
      refine ⟨_, ?_, mapFind_mapAssign _ _ _, ?_, ?_⟩
      · rw [h1]
      · simp only [CodeGenerator.CreateStore]
        apply head?_instructionsOf_Insert
        simp only [h2, h1, List.head?_cons]
      · intro b
        simp only [CodeGenerator.CreateStore]
        rw [allocas_Insert _ (.Store _ _) rfl b]
        by_cases hb : b = e
        · subst hb
          simp only [h2, h1, if_true, ← hall b]
          simp [Instruction.isAlloca]
        · simp only [h3 b hb, if_neg hb, List.nil_append, hall b]
  rw [Stmt.accept]
  cases init with
  | none =>
    have h := core none g (exprSteps_exprKeeps.refl g) (Nat.le_refl _)
    exact h
  | some e0 =>
    have h := core (popValue (e0.accept L g)).1 (popValue (e0.accept L g)).2
      (exprSteps_exprKeeps.popValue_step (Expr.accept_keeps L e0 g))
      (Frame.popValue (Expr.accept_frame L e0 g)).1
    exact h

/-- C17, an instance: after `while (true) {}` has been lowered in `main`, the insertion
block is the exit block 4 and the entry block of `main` is block 1; a declaration
lowered there allocates at the head of block 1.  And `while (true) { var x = 1; }`
leaves the allocation in the entry block, none in the condition block 2 or the body
block 3. -/
theorem declaration_allocates_in_entry_block_witness :
    (lowerMain LLVM.plain
      [some (.WhileStmt (.LiteralExpr (.bool true)) (.BlockStmt []))]
      (CodeGenerator.init "m")).insertBlock = some 4 ∧
    (∃ slot : AllocaInst,
      slot.name = "x" ∧
      mapFind ((Stmt.VarDeclStmt (Token.identifier "x") (some (.LiteralExpr (.int 1)))
        false).accept LLVM.plain (lowerMain LLVM.plain
          [some (.WhileStmt (.LiteralExpr (.bool true)) (.BlockStmt []))]
          (CodeGenerator.init "m"))).named_values "x" = some slot ∧
      (((Stmt.VarDeclStmt (Token.identifier "x") (some (.LiteralExpr (.int 1)))
        false).accept LLVM.plain (lowerMain LLVM.plain
          [some (.WhileStmt (.LiteralExpr (.bool true)) (.BlockStmt []))]
          (CodeGenerator.init "m"))).module.instructionsOf 1).head? =
        some (.Alloca slot.id slot.allocatedType slot.name) ∧
      ∀ b, (((Stmt.VarDeclStmt (Token.identifier "x") (some (.LiteralExpr (.int 1)))
          false).accept LLVM.plain (lowerMain LLVM.plain
            [some (.WhileStmt (.LiteralExpr (.bool true)) (.BlockStmt []))]
            (CodeGenerator.init "m"))).module.instructionsOf b).filter Instruction.isAlloca =
        (if b = 1 then [.Alloca slot.id slot.allocatedType slot.name] else []) ++
          ((lowerMain LLVM.plain
            [some (.WhileStmt (.LiteralExpr (.bool true)) (.BlockStmt []))]
            (CodeGenerator.init "m")).module.instructionsOf b).filter Instruction.isAlloca) ∧
    [1, 2, 3, 4].map (lowerMain LLVM.plain
      [some (.WhileStmt (.LiteralExpr (.bool true)) (.BlockStmt
        [some (.VarDeclStmt (Token.identifier "x") (some (.LiteralExpr (.int 1)))
          false)]))]
      (CodeGenerator.init "m")).module.instructionsOf =
      [[.Alloca 1 getIntType "x", .Br 2],
       [.CondBr (.ConstantInt getBoolType 1) 3 4],
       [.Store (some (.ConstantInt getIntType 1)) (.Instruction 1 (.pointer getIntType)),
        .Br 2],
       [.Ret (.ConstantInt getIntType 0)]] :=
  ⟨by decide!,
    declaration_allocates_in_entry_block LLVM.plain (Token.identifier "x")
      (some (.LiteralExpr (.int 1))) false
      (lowerMain LLVM.plain [some (.WhileStmt (.LiteralExpr (.bool true)) (.BlockStmt []))]
        (CodeGenerator.init "m")) 1 (by decide!) (by decide!),
    by decide!⟩

/-- C17, the claim as written fails: at top level the entry block of `main` is the
insertion block.  Lowering `var x = 5;` leaves `main` with the single block 1, which is
the insertion block throughout and holds the allocation. -/
theorem top_level_declaration_allocates_in_insertion_block :
    (lowerMain LLVM.plain
      [some (.VarDeclStmt (Token.identifier "x") (some (.LiteralExpr (.int 5))) false)]
      (CodeGenerator.init "m")).module.blocksOf 2 = [1] ∧
    (lowerMain LLVM.plain
      [some (.VarDeclStmt (Token.identifier "x") (some (.LiteralExpr (.int 5))) false)]
      (CodeGenerator.init "m")).insertBlock = some 1 ∧
    (lowerMain LLVM.plain
      [some (.VarDeclStmt (Token.identifier "x") (some (.LiteralExpr (.int 5))) false)]
      (CodeGenerator.init "m")).module.instructionsOf 1 =
      [.Alloca 1 getIntType "x",
       .Store (some (.ConstantInt getIntType 5)) (.Instruction 1 (.pointer getIntType)),
       .Ret (.ConstantInt getIntType 0)] := by
  refine ⟨by decide!, by decide!, by decide!⟩

/-- C18 (const and var).  Lowering a declaration with `is_const = true` gives the same
generator state (module, bindings, diagnostics and all) as with `is_const = false`.  The
declaration binds the name to a slot; in every later state `g2` in which the name has
that binding, the assignment `name = rhs` is lowered to the lowering of `rhs` followed
by a store of its value to that slot, the value is pushed, and the assignment reports no
diagnostic beyond those of `rhs`. -/
theorem const_lowered_as_var (L : LLVM) (name : Token) (init : Option Expr)
    (g : CodeGenerator) (rhs : Expr) (g2 : CodeGenerator)
    (hb : mapFind g2.named_values name.lexeme =
      mapFind ((Stmt.VarDeclStmt name init true).accept L g).named_values name.lexeme) :
    (Stmt.VarDeclStmt name init true).accept L g =
      (Stmt.VarDeclStmt name init false).accept L g ∧
    ∃ slot : AllocaInst,
      slot.name = name.lexeme ∧
      mapFind ((Stmt.VarDeclStmt name init true).accept L g).named_values name.lexeme
        = some slot ∧
      (Expr.AssignExpr name rhs).accept L g2 =
        pushValue (popValue (rhs.accept L g2)).1
          ((popValue (rhs.accept L g2)).2.CreateStore (popValue (rhs.accept L g2)).1
            slot.value) ∧
      ((Expr.AssignExpr name rhs).accept L g2).module =
        ((popValue (rhs.accept L g2)).2.Insert
          (.Store (popValue (rhs.accept L g2)).1 slot.value)).module ∧
      ((Expr.AssignExpr name rhs).accept L g2).diagnostics =
        (rhs.accept L g2).diagnostics := by
  refine ⟨by rw [Stmt.accept, Stmt.accept], ?_⟩
  have hslot : ∃ slot : AllocaInst, slot.name = name.lexeme ∧
      mapFind ((Stmt.VarDeclStmt name init true).accept L g).named_values name.lexeme
        = some slot := by
    rw [Stmt.accept]
    unfold visitVarDeclStmt
    exact ⟨_, rfl, mapFind_mapAssign _ _ _⟩
  obtain ⟨slot, hn, hs⟩ := hslot
  have hk : (popValue (rhs.accept L g2)).2.named_values = g2.named_values :=
    (exprSteps_exprKeeps.popValue_step (Expr.accept_keeps L rhs g2)).1
  have hf : mapFind (popValue (rhs.accept L g2)).2.named_values name.lexeme = some slot := by
    rw [hk, hb, hs]
  have ha : (Expr.AssignExpr name rhs).accept L g2 =
      pushValue (popValue (rhs.accept L g2)).1
        ((popValue (rhs.accept L g2)).2.CreateStore (popValue (rhs.accept L g2)).1
          slot.value) := by
    rw [Expr.accept]
    unfold visitAssignExpr
    simp only [hf]
  refine ⟨slot, hn, hs, ha, ?_, ?_⟩
  · rw [ha]
    rfl
  · rw [ha]
    show ((popValue (rhs.accept L g2)).2.Insert _).diagnostics = _
    rw [diagnostics_Insert]
    unfold popValue
    split
    · rfl
    · rfl

/-- C18, an instance: `const x = 5;` followed by `x = 7;`.  Lowered in `main`, the
program `const x = 5; x = 7;` gives the entry block the allocation and the two stores,
and no diagnostic. -/
theorem const_lowered_as_var_witness :
    ((Stmt.VarDeclStmt (Token.identifier "x") (some (.LiteralExpr (.int 5))) true).accept
        LLVM.plain (CodeGenerator.init "m") =
      (Stmt.VarDeclStmt (Token.identifier "x") (some (.LiteralExpr (.int 5))) false).accept
        LLVM.plain (CodeGenerator.init "m") ∧
    ∃ slot : AllocaInst,
      slot.name = "x" ∧
      mapFind ((Stmt.VarDeclStmt (Token.identifier "x") (some (.LiteralExpr (.int 5)))
        true).accept LLVM.plain (CodeGenerator.init "m")).named_values "x" = some slot ∧
      (Expr.AssignExpr (Token.identifier "x") (.LiteralExpr (.int 7))).accept LLVM.plain
          ((Stmt.VarDeclStmt (Token.identifier "x") (some (.LiteralExpr (.int 5)))
            true).accept LLVM.plain (CodeGenerator.init "m")) =
        pushValue (popValue ((Expr.LiteralExpr (.int 7)).accept LLVM.plain
          ((Stmt.VarDeclStmt (Token.identifier "x") (some (.LiteralExpr (.int 5)))
            true).accept LLVM.plain (CodeGenerator.init "m")))).1
          ((popValue ((Expr.LiteralExpr (.int 7)).accept LLVM.plain
            ((Stmt.VarDeclStmt (Token.identifier "x") (some (.LiteralExpr (.int 5)))
              true).accept LLVM.plain (CodeGenerator.init "m")))).2.CreateStore
            (popValue ((Expr.LiteralExpr (.int 7)).accept LLVM.plain
              ((Stmt.VarDeclStmt (Token.identifier "x") (some (.LiteralExpr (.int 5)))
                true).accept LLVM.plain (CodeGenerator.init "m")))).1
            slot.value) ∧
      ((Expr.AssignExpr (Token.identifier "x") (.LiteralExpr (.int 7))).accept LLVM.plain
          ((Stmt.VarDeclStmt (Token.identifier "x") (some (.LiteralExpr (.int 5)))
            true).accept LLVM.plain (CodeGenerator.init "m"))).module =
        ((popValue ((Expr.LiteralExpr (.int 7)).accept LLVM.plain
          ((Stmt.VarDeclStmt (Token.identifier "x") (some (.LiteralExpr (.int 5)))
            true).accept LLVM.plain (CodeGenerator.init "m")))).2.Insert
          (.Store (popValue ((Expr.LiteralExpr (.int 7)).accept LLVM.plain
            ((Stmt.VarDeclStmt (Token.identifier "x") (some (.LiteralExpr (.int 5)))
              true).accept LLVM.plain (CodeGenerator.init "m")))).1 slot.value)).module ∧
      ((Expr.AssignExpr (Token.identifier "x") (.LiteralExpr (.int 7))).accept LLVM.plain
          ((Stmt.VarDeclStmt (Token.identifier "x") (some (.LiteralExpr (.int 5)))
            true).accept LLVM.plain (CodeGenerator.init "m"))).diagnostics =
        ((Expr.LiteralExpr (.int 7)).accept LLVM.plain
          ((Stmt.VarDeclStmt (Token.identifier "x") (some (.LiteralExpr (.int 5)))
            true).accept LLVM.plain (CodeGenerator.init "m"))).diagnostics) ∧
    (lowerMain LLVM.plain
      [some (.VarDeclStmt (Token.identifier "x") (some (.LiteralExpr (.int 5))) true),
       some (.ExpressionStmt (.AssignExpr (Token.identifier "x") (.LiteralExpr (.int 7))))]
      (CodeGenerator.init "m")).module.instructionsOf 1 =
      [.Alloca 1 getIntType "x",
       .Store (some (.ConstantInt getIntType 5)) (.Instruction 1 (.pointer getIntType)),
       .Store (some (.ConstantInt getIntType 7)) (.Instruction 1 (.pointer getIntType)),
       .Ret (.ConstantInt getIntType 0)] ∧
    (lowerMain LLVM.plain
      [some (.VarDeclStmt (Token.identifier "x") (some (.LiteralExpr (.int 5))) true),
       some (.ExpressionStmt (.AssignExpr (Token.identifier "x") (.LiteralExpr (.int 7))))]
      (CodeGenerator.init "m")).diagnostics = {} :=
  ⟨const_lowered_as_var LLVM.plain (Token.identifier "x") (some (.LiteralExpr (.int 5)))
    (CodeGenerator.init "m") (.LiteralExpr (.int 7))
    ((Stmt.VarDeclStmt (Token.identifier "x") (some (.LiteralExpr (.int 5))) true).accept
      LLVM.plain (CodeGenerator.init "m")) rfl,
    by decide!, by decide!⟩

/-- C15 (if lowering).  Let the insertion point of `g` be a block of the arena and let
the condition of an if statement lower to the non-null value `c0`, leaving the state `s`
with `n` blocks and the insertion block `cur`.  Then lowering the statement is: the
stage `ifStart`, the then arm lowered from `st.state` to `thenEnd`, the stage
`ifElseStart`, the else arm (the identity when absent) lowered to `elseEnd`, the stage
`ifEnd`.  The statement itself creates exactly the three blocks `n` (then), `n + 1`
(else) and `n + 2` (merge): the then arm starts with `n + 3` blocks, and the stages
between and after the arms create none.  The condition of the branch is `c0` when it is
`i1`-typed and otherwise the not-equal comparison of `c0` with the zero of its type.  In
the final state, `cur` ends with the conditional branch on it to `n` and `n + 1`, the
blocks `t` and `e` that are current at the end of the then arm and of the else arm end
with a branch to `n + 2`, and the insertion block is `n + 2`. -/
theorem if_lowering (L : LLVM) (condition : Expr) (then_branch : Stmt)
    (else_branch : Option Stmt) (g : CodeGenerator) (c0 : Value)
    (hv : ValidInsert g) (hc : (popValue (condition.accept L g)).1 = some c0) :
    ∃ (s : CodeGenerator) (n : Nat) (st : IfStart) (thenEnd elseEnd r : CodeGenerator)
      (cur t e : Nat),
      s = (popValue (condition.accept L g)).2 ∧
      n = s.module.blocks.length ∧
      st = ifStart L c0 s ∧
      thenEnd = then_branch.accept L st.state ∧
      elseEnd = acceptIfPresent L else_branch (ifElseStart st thenEnd) ∧
      r = (Stmt.IfStmt condition then_branch else_branch).accept L g ∧
      r = ifEnd st elseEnd ∧
      st.then_bb = n ∧ st.else_bb = n + 1 ∧ st.merge_bb = n + 2 ∧
      st.state.module.blocks.length = n + 3 ∧
      st.state.insertBlock = some n ∧
      (ifElseStart st thenEnd).module.blocks.length = thenEnd.module.blocks.length ∧
      (ifElseStart st thenEnd).insertBlock = some (n + 1) ∧
      r.module.blocks.length = elseEnd.module.blocks.length ∧
      st.cond_val =
        (if c0.getType.isIntegerTyOf 1 then c0
         else (s.Create L .ICmpNE [c0, .ConstantInt c0.getType 0] getBoolType "ifcond").1) ∧
      s.insertBlock = some cur ∧
      (r.module.instructionsOf cur).getLast? = some (.CondBr st.cond_val n (n + 1)) ∧
      thenEnd.insertBlock = some t ∧
      (r.module.instructionsOf t).getLast? = some (.Br (n + 2)) ∧
      elseEnd.insertBlock = some e ∧
      (r.module.instructionsOf e).getLast? = some (.Br (n + 2)) ∧
      r.insertBlock = some (n + 2) := by
  -- the state after the condition
  have hs : Frame g (popValue (condition.accept L g)).2 :=
    (Expr.accept_frame L condition g).popValue
  obtain ⟨cur, hcur, hcurlt⟩ := (SFrame.of_frame hs).validInsert hv
  -- the stage before the then arm
  obtain ⟨b1, b2, b3, b4, b5, b6⟩ := ifStart_blocks L c0 (popValue (condition.accept L g)).2
  have hl0 := ifStart_last L c0 _ cur hcur hcurlt
  -- the arms
  obtain ⟨t, e, htb, heb, l1, l2, l3⟩ := ifArms (ifStart L c0 (popValue (condition.accept L g)).2)
    _ cur _ (then_branch.accept L) (acceptIfPresent L else_branch)
    (Stmt.accept_sframe L then_branch) (acceptIfPresent_sframe L else_branch)
    b2 b3 b4 b5 hcurlt hl0
  obtain ⟨c1, c2⟩ := ifElseStart_blocks (ifStart L c0 (popValue (condition.accept L g)).2)
    (then_branch.accept L (ifStart L c0 (popValue (condition.accept L g)).2).state)
  obtain ⟨d1, d2⟩ := ifEnd_blocks (ifStart L c0 (popValue (condition.accept L g)).2)
    (acceptIfPresent L else_branch
      (ifElseStart (ifStart L c0 (popValue (condition.accept L g)).2)
        (then_branch.accept L (ifStart L c0 (popValue (condition.accept L g)).2).state)))
  have hr : (Stmt.IfStmt condition then_branch else_branch).accept L g =
      ifEnd (ifStart L c0 (popValue (condition.accept L g)).2)
        (acceptIfPresent L else_branch
          (ifElseStart (ifStart L c0 (popValue (condition.accept L g)).2)
            (then_branch.accept L
              (ifStart L c0 (popValue (condition.accept L g)).2).state))) := by
    rw [Stmt.accept]
    exact visitIfStmt_of_condition L _ _ _ g c0 hc
  refine ⟨_, _, _, _, _, _, cur, t, e, rfl, rfl, rfl, rfl, rfl, rfl, hr, b1, b2, b3, b4, b5,
    c1, by rw [c2, b2], by rw [hr]; exact d1, ?_, hcur, ?_, htb, ?_, heb, ?_, ?_⟩
  · rw [b6]
    unfold toBool
    split <;> rfl
  · rw [hr, l1, b1, b2]
  · rw [hr]
    exact l2
  · rw [hr]
    exact l3
  · rw [hr, d2, b3]

/-- C15, an instance: `if (1) { 2; } else { 3; }` lowered at the start of `main`, whose
entry block is block 1.  The condition is an `i32`, so it is compared with zero; the
blocks 2, 3, 4 are created and the insertion point ends in block 4. -/
theorem if_lowering_witness :
    ValidInsert (mainStart (CodeGenerator.init "m")) ∧
    (popValue ((Expr.LiteralExpr (.int 1)).accept LLVM.plain
      (mainStart (CodeGenerator.init "m")))).1 = some (.ConstantInt getIntType 1) ∧
    ((Stmt.IfStmt (.LiteralExpr (.int 1))
      (.BlockStmt [some (.ExpressionStmt (.LiteralExpr (.int 2)))])
      (some (.BlockStmt [some (.ExpressionStmt (.LiteralExpr (.int 3)))]))).accept
        LLVM.plain (mainStart (CodeGenerator.init "m"))).insertBlock = some 4 ∧
    [1, 2, 3, 4].map ((Stmt.IfStmt (.LiteralExpr (.int 1))
      (.BlockStmt [some (.ExpressionStmt (.LiteralExpr (.int 2)))])
      (some (.BlockStmt [some (.ExpressionStmt (.LiteralExpr (.int 3)))]))).accept
        LLVM.plain (mainStart (CodeGenerator.init "m"))).module.instructionsOf =
      [[.Op 1 .ICmpNE [.ConstantInt getIntType 1, .ConstantInt getIntType 0] getBoolType
          "ifcond",
        .CondBr (.Instruction 1 getBoolType) 2 3],
       [.Br 4], [.Br 4], []] := by
  refine ⟨⟨1, by decide!, by decide!⟩, by decide!, ?_, by decide!⟩
  obtain ⟨s, n, st, thenEnd, elseEnd, r, cur, t, e, hs, hn, hst, hT, hE, hr, _, _, _, _, _,
      _, _, _, _, _, _, _, _, _, _, _, hfin⟩ :=
    if_lowering LLVM.plain (.LiteralExpr (.int 1))
      (.BlockStmt [some (.ExpressionStmt (.LiteralExpr (.int 2)))])
      (some (.BlockStmt [some (.ExpressionStmt (.LiteralExpr (.int 3)))]))
      (mainStart (CodeGenerator.init "m")) (.ConstantInt getIntType 1)
      ⟨1, by decide!, by decide!⟩ (by decide!)
  rw [← hr, hfin, hn, hs]
  decide!

/-- C16 (while lowering), as amended.  Let the insertion point of `g` be the block `cur`
of the arena, which has `n` blocks, and let the condition of a while statement, lowered
in the state `st.state` that `whileStart` leaves, yield the non-null value `c0` and the
state `s`.  The statement creates the blocks `n` (condition), `n + 1` (body) and `n + 2`
(exit); the lowering of the condition starts in block `n` and ends in a block `cc`
that is `n` or a block the condition created.  The condition of the branch is `c0` when
it is `i1`-typed and otherwise the not-equal comparison of `c0` with the zero of its
type.  In the final state `cur` ends with the branch to `n`, the block `cc` that is
current after the condition ends with the conditional branch to `n + 1` (true) and
`n + 2` (false), the block `b` current at the end of the body ends with the branch back
to `n`, and the insertion block is `n + 2`. -/
theorem while_lowering (L : LLVM) (condition : Expr) (body : Stmt) (g : CodeGenerator)
    (c0 : Value) (hv : ValidInsert g)
    (hc : (popValue (condition.accept L (whileStart g).state)).1 = some c0) :
    ∃ (n : Nat) (st : WhileStart) (s bodyEnd r : CodeGenerator) (cv : Value)
      (cur cc b : Nat),
      n = g.module.blocks.length ∧
      st = whileStart g ∧
      s = (popValue (condition.accept L st.state)).2 ∧
      bodyEnd = body.accept L (whileBodyStart L st c0 s).2 ∧
      r = (Stmt.WhileStmt condition body).accept L g ∧
      r = whileEnd st bodyEnd ∧
      st.cond_bb = n ∧ st.body_bb = n + 1 ∧ st.exit_bb = n + 2 ∧
      st.state.module.blocks.length = n + 3 ∧
      st.state.insertBlock = some n ∧
      cv = (if c0.getType.isIntegerTyOf 1 then c0
        else (s.Create L .ICmpNE [c0, .ConstantInt c0.getType 0] getBoolType
          "whilecond").1) ∧
      g.insertBlock = some cur ∧
      (r.module.instructionsOf cur).getLast? = some (.Br n) ∧
      s.insertBlock = some cc ∧
      (cc = n ∨ n + 3 ≤ cc) ∧
      (r.module.instructionsOf cc).getLast? = some (.CondBr cv (n + 1) (n + 2)) ∧
      (whileBodyStart L st c0 s).2.insertBlock = some (n + 1) ∧
      bodyEnd.insertBlock = some b ∧
      (r.module.instructionsOf b).getLast? = some (.Br n) ∧
      r.insertBlock = some (n + 2) := by
  obtain ⟨cur, hcur, hcurlt⟩ := hv
  obtain ⟨b1, b2, b3, b4, b5⟩ := whileStart_blocks g
  obtain ⟨cc, b, hcc, hccc, hb, l1, l2, l3⟩ := whileBody L g cur (condition.accept L)
    (body.accept L) (Expr.accept_frame L condition) (Stmt.accept_sframe L body) c0 hcur
    hcurlt
  obtain ⟨w1, w2, w3⟩ := whileBodyStart_blocks L (whileStart g) c0
    (popValue (condition.accept L (whileStart g).state)).2
  obtain ⟨d1, d2⟩ := whileEnd_blocks (whileStart g)
    (body.accept L (whileBodyStart L (whileStart g) c0
      (popValue (condition.accept L (whileStart g).state)).2).2)
  have hr : (Stmt.WhileStmt condition body).accept L g =
      whileEnd (whileStart g)
        (body.accept L (whileBodyStart L (whileStart g) c0
          (popValue (condition.accept L (whileStart g).state)).2).2) := by
    rw [Stmt.accept]
    exact visitWhileStmt_of_condition L _ _ g c0 hc
  refine ⟨_, _, _, _, _, _, cur, cc, b, rfl, rfl, rfl, rfl, rfl, hr, b1, b2, b3, b4, b5, rfl,
    hcur, ?_, hcc, hccc, ?_, by rw [w2, b2], hb, ?_, ?_⟩
  · rw [hr]
    exact l1
  · rw [hr, l2]
    unfold toBool
    split <;> rfl
  · rw [hr]
    exact l3
  · rw [hr, d2, b3]

/-- C16, an instance: `while (1) { 2; }` lowered at the start of `main`, whose entry
block is block 1.  The blocks 2 (condition), 3 (body) and 4 (exit) are created; the
condition is an `i32`, compared with zero in block 2. -/
theorem while_lowering_witness :
    ValidInsert (mainStart (CodeGenerator.init "m")) ∧
    (popValue ((Expr.LiteralExpr (.int 1)).accept LLVM.plain
      (whileStart (mainStart (CodeGenerator.init "m"))).state)).1 =
        some (.ConstantInt getIntType 1) ∧
    ((Stmt.WhileStmt (.LiteralExpr (.int 1))
      (.BlockStmt [some (.ExpressionStmt (.LiteralExpr (.int 2)))])).accept
        LLVM.plain (mainStart (CodeGenerator.init "m"))).insertBlock = some 4 ∧
    [1, 2, 3, 4].map ((Stmt.WhileStmt (.LiteralExpr (.int 1))
      (.BlockStmt [some (.ExpressionStmt (.LiteralExpr (.int 2)))])).accept
        LLVM.plain (mainStart (CodeGenerator.init "m"))).module.instructionsOf =
      [[.Br 2],
       [.Op 1 .ICmpNE [.ConstantInt getIntType 1, .ConstantInt getIntType 0] getBoolType
          "whilecond",
        .CondBr (.Instruction 1 getBoolType) 3 4],
       [.Br 2], []] := by
  refine ⟨⟨1, by decide!, by decide!⟩, by decide!, ?_, by decide!⟩
  obtain ⟨n, st, s, bodyEnd, r, cv, cur, cc, b, hn, _, _, _, hr, _, _, _, _, _, _, _, _, _,
      _, _, _, _, _, _, hfin⟩ :=
    while_lowering LLVM.plain (.LiteralExpr (.int 1))
      (.BlockStmt [some (.ExpressionStmt (.LiteralExpr (.int 2)))])
      (mainStart (CodeGenerator.init "m")) (.ConstantInt getIntType 1)
      ⟨1, by decide!, by decide!⟩ (by decide!)
  rw [← hr, hfin, hn]
  decide!

/-- C16, the claim as written fails: the condition block need not end with the branch
to body and exit.  For `while (true && true) {}` lowered at the start of `main`, the
condition block 2 ends with the branch of the logical operator to its own blocks 5 and
6; the conditional branch to the body block 3 and the exit block 4 closes block 6, the
merge block of the logical operator, which is the block current after the condition. -/
theorem while_condition_block_ends_elsewhere :
    [1, 2, 3, 4, 5, 6].map ((Stmt.WhileStmt
      (.BinaryExpr (.LiteralExpr (.bool true)) (Token.ofType .AND "&&")
        (.LiteralExpr (.bool true)))
      (.BlockStmt [])).accept LLVM.plain
        (mainStart (CodeGenerator.init "m"))).module.instructionsOf =
      [[.Br 2],
       [.CondBr (.ConstantInt getBoolType 1) 5 6],
       [.Br 2],
       [],
       [.Br 6],
       [.PHI 1 getBoolType
          [(.ConstantInt getBoolType 0, some 1), (.ConstantInt getBoolType 1, some 5)]
          "logical",
        .CondBr (.Instruction 1 getBoolType) 3 4]] ∧
    ((Stmt.WhileStmt
      (.BinaryExpr (.LiteralExpr (.bool true)) (Token.ofType .AND "&&")
        (.LiteralExpr (.bool true)))
      (.BlockStmt [])).accept LLVM.plain
        (mainStart (CodeGenerator.init "m"))).module.blocks.map (fun b => b.name) =
      ["entry", "entry", "while.cond", "while.body", "while.exit", "right", "merge"] ∧
    (popValue ((Expr.BinaryExpr (.LiteralExpr (.bool true)) (Token.ofType .AND "&&")
      (.LiteralExpr (.bool true))).accept LLVM.plain
        (whileStart (mainStart (CodeGenerator.init "m"))).state)).2.insertBlock = some 6 := by
  refine ⟨by decide!, by decide!, by decide!⟩

/-- C20 (per-function verification), as amended.  Let `f` be the function a declaration
creates and `v` the state in which it is verified; `f` is then in the function list of
the module, and the function table maps the name to `f` when the body declares no
function of the same name.  If verification fails, then in the resulting state `r` the
function `f` is not in the function list, which is otherwise that of `v`; the function
table has no entry for the name; and exactly one diagnostic was added to those of `v`,
the ERROR "Function verification failed: " followed by the name.  If verification
succeeds, `r` is `v`: nothing is removed and no diagnostic is added.  In both cases the
current function of `r` is the one that was current before the declaration. -/
theorem function_verification (L : LLVM) (name : Token) (params : List Token)
    (body : List (Option Stmt)) (g : CodeGenerator) :
    ∃ (f : Nat) (v r : CodeGenerator),
      f = g.module.functions.length ∧
      v = functionEnd g.current_function
        (acceptStatements L body (functionStart name params g)) ∧
      r = (Stmt.FunctionStmt name params body).accept L g ∧
      f ∈ v.module.functionList ∧
      (declaresOnlyStatements (fun m => m != name.lexeme) body = true →
        mapFind v.functions name.lexeme = some f) ∧
      (L.verifyFunction v.module f = true →
        f ∉ r.module.functionList ∧
        r.module.functionList = v.module.functionList.filter (fun x => x != f) ∧
        mapFind r.functions name.lexeme = none ∧
        r.diagnostics.diagnostics = v.diagnostics.diagnostics ++
          [{ severity := .ERROR,
             message := "Function verification failed: " ++ name.lexeme,
             location := {} }] ∧
        r.diagnostics.hasErrors = true) ∧
      (L.verifyFunction v.module f = false → r = v) ∧
      r.current_function = g.current_function := by
  have hr : (Stmt.FunctionStmt name params body).accept L g =
      visitFunctionStmt L name params (acceptStatements L body) g := by
    rw [Stmt.accept]
  refine ⟨_, _, _, rfl, rfl, rfl, functionEnd_listed L name params body g,
    functionEnd_registered L name params body g, ?_, ?_, ?_⟩
  · intro hv
    rw [hr, visitFunctionStmt_eq]
    simp only [hv, if_true]
    refine ⟨?_, rfl, mapFind_mapErase _ _, rfl, rfl⟩
    show g.module.functions.length ∉
      List.filter (fun x => x != g.module.functions.length) _
    rw [List.mem_filter]
    simp
  · intro hv
    rw [hr, visitFunctionStmt_eq]
    simp only [hv]
    rfl
  · rw [hr, visitFunctionStmt_eq]
    split
    · exact functionEnd_current g.current_function
        (acceptStatements L body (functionStart name params g))
    · exact functionEnd_current g.current_function
        (acceptStatements L body (functionStart name params g))

/-- C20, an instance of each case under the structural verifier, at the start of `main`.
`function h() { return 1; return 2; }` puts two terminators in its entry block: the
function 3 is removed from the function list, the table has no entry `h`, and the one
diagnostic names `h`.  `function k() { return 1; }` is verified: function 3 stays listed
and registered as `k`, with no diagnostic.  The current function is `main` again. -/
theorem function_verification_witness :
    3 ∈ (functionEnd (mainStart (CodeGenerator.init "m")).current_function
      (acceptStatements LLVM.structural
        [some (.ReturnStmt (Token.ofType .RETURN "return") (some (.LiteralExpr (.int 1))))]
        (functionStart (Token.identifier "k") []
          (mainStart (CodeGenerator.init "m"))))).module.functionList ∧
    ((Stmt.FunctionStmt (Token.identifier "h") []
      [some (.ReturnStmt (Token.ofType .RETURN "return") (some (.LiteralExpr (.int 1)))),
       some (.ReturnStmt (Token.ofType .RETURN "return") (some (.LiteralExpr (.int 2))))]
      ).accept LLVM.structural (mainStart (CodeGenerator.init "m"))).module.functionList =
      [0, 1, 2] ∧
    ((Stmt.FunctionStmt (Token.identifier "h") []
      [some (.ReturnStmt (Token.ofType .RETURN "return") (some (.LiteralExpr (.int 1)))),
       some (.ReturnStmt (Token.ofType .RETURN "return") (some (.LiteralExpr (.int 2))))]
      ).accept LLVM.structural (mainStart (CodeGenerator.init "m"))).functions =
      [("print", 1)] ∧
    ((Stmt.FunctionStmt (Token.identifier "h") []
      [some (.ReturnStmt (Token.ofType .RETURN "return") (some (.LiteralExpr (.int 1)))),
       some (.ReturnStmt (Token.ofType .RETURN "return") (some (.LiteralExpr (.int 2))))]
      ).accept LLVM.structural (mainStart (CodeGenerator.init "m"))).diagnostics =
      { diagnostics := [{ severity := .ERROR,
                          message := "Function verification failed: h", location := {} }],
        has_errors := true } ∧
    ((Stmt.FunctionStmt (Token.identifier "h") []
      [some (.ReturnStmt (Token.ofType .RETURN "return") (some (.LiteralExpr (.int 1)))),
       some (.ReturnStmt (Token.ofType .RETURN "return") (some (.LiteralExpr (.int 2))))]
      ).accept LLVM.structural (mainStart (CodeGenerator.init "m"))).current_function =
      some 2 ∧
    ((Stmt.FunctionStmt (Token.identifier "k") []
      [some (.ReturnStmt (Token.ofType .RETURN "return") (some (.LiteralExpr (.int 1))))]
      ).accept LLVM.structural (mainStart (CodeGenerator.init "m"))).module.functionList =
      [0, 1, 2, 3] ∧
    ((Stmt.FunctionStmt (Token.identifier "k") []
      [some (.ReturnStmt (Token.ofType .RETURN "return") (some (.LiteralExpr (.int 1))))]
      ).accept LLVM.structural (mainStart (CodeGenerator.init "m"))).functions =
      [("k", 3), ("print", 1)] ∧
    ((Stmt.FunctionStmt (Token.identifier "k") []
      [some (.ReturnStmt (Token.ofType .RETURN "return") (some (.LiteralExpr (.int 1))))]
      ).accept LLVM.structural (mainStart (CodeGenerator.init "m"))).diagnostics = {} := by
  refine ⟨?_, by decide!, by decide!, by decide!, by decide!, by decide!, by decide!,
    by decide!⟩
  obtain ⟨f, v, r, hf, hv, _, hl, _⟩ := function_verification LLVM.structural
    (Token.identifier "k") []
    [some (.ReturnStmt (Token.ofType .RETURN "return") (some (.LiteralExpr (.int 1))))]
    (mainStart (CodeGenerator.init "m"))
  rw [hv, hf] at hl
  exact hl

/-- C20, the claim as written fails: a verified function need not remain registered
under its name.  `function f() { return 1; function f() {} }`, lowered at the start of
`main` under the structural verifier, creates the functions 3 (`f`) and 4 (`f.1`); both
pass verification, no diagnostic is reported and both are in the function list, but the
function table maps `f` to function 4, the nested one. -/
theorem verified_function_not_registered :
    ((Stmt.FunctionStmt (Token.identifier "f") []
      [some (.ReturnStmt (Token.ofType .RETURN "return") (some (.LiteralExpr (.int 1)))),
       some (.FunctionStmt (Token.identifier "f") [] [])]).accept LLVM.structural
        (mainStart (CodeGenerator.init "m"))).module.functionList = [0, 1, 2, 3, 4] ∧
    ((Stmt.FunctionStmt (Token.identifier "f") []
      [some (.ReturnStmt (Token.ofType .RETURN "return") (some (.LiteralExpr (.int 1)))),
       some (.FunctionStmt (Token.identifier "f") [] [])]).accept LLVM.structural
        (mainStart (CodeGenerator.init "m"))).module.functions.map
          (fun fn => (fn.name, fn.blocks)) =
      [("printf", []), ("print", [0]), ("main", [1]), ("f", [2]), ("f.1", [3])] ∧
    [2, 3].map ((Stmt.FunctionStmt (Token.identifier "f") []
      [some (.ReturnStmt (Token.ofType .RETURN "return") (some (.LiteralExpr (.int 1)))),
       some (.FunctionStmt (Token.identifier "f") [] [])]).accept LLVM.structural
        (mainStart (CodeGenerator.init "m"))).module.instructionsOf =
      [[.Ret (.ConstantInt getIntType 1)], [.Ret (.ConstantInt getIntType 0)]] ∧
    ((Stmt.FunctionStmt (Token.identifier "f") []
      [some (.ReturnStmt (Token.ofType .RETURN "return") (some (.LiteralExpr (.int 1)))),
       some (.FunctionStmt (Token.identifier "f") [] [])]).accept LLVM.structural
        (mainStart (CodeGenerator.init "m"))).diagnostics = {} ∧
    mapFind ((Stmt.FunctionStmt (Token.identifier "f") []
      [some (.ReturnStmt (Token.ofType .RETURN "return") (some (.LiteralExpr (.int 1)))),
       some (.FunctionStmt (Token.identifier "f") [] [])]).accept LLVM.structural
        (mainStart (CodeGenerator.init "m"))).functions "f" = some 4 := by
  refine ⟨by decide!, by decide!, by decide!, by decide!, by decide!⟩

/-- C19 (const without initializer).  Let the parser stand at a keyword token `k`
followed by an identifier `x` and a semicolon.  If `k` is `const`, `declaration` (with
any bound on the call depth of at least one) returns a null declaration, the parser
stands right after the semicolon, and exactly one diagnostic was reported, the ERROR
"Const declarations must have an initializer at 'x'" located at `x`.  If `k` is `var`,
`declaration` returns the declaration of `x` without initializer, the parser stands
right after the semicolon and no diagnostic was reported. -/
theorem const_requires_initializer (stod : String → Option Double) (fuel : Nat)
    (p : Parser) (k x s : Token)
    (hk : p.tokens[p.current]? = some k)
    (hx : p.tokens[p.current + 1]? = some x) (hxt : x.type = .IDENTIFIER)
    (hs : p.tokens[p.current + 2]? = some s) (hst : s.type = .SEMICOLON) :
    (k.type = .CONST →
      declaration stod (fuel + 1) p = .ok none
        { p with
          current := p.current + 3
          diagnostics := (p.diagnostics.report .ERROR
            ("Const declarations must have an initializer at '" ++ x.lexeme ++ "'")
            { filename := p.filename, line := x.line, column := x.column } "") } ∧
      (p.diagnostics.report .ERROR
        ("Const declarations must have an initializer at '" ++ x.lexeme ++ "'")
        { filename := p.filename, line := x.line, column := x.column } "").diagnostics =
        p.diagnostics.diagnostics ++
          [{ severity := .ERROR,
             message := "Const declarations must have an initializer at '" ++ x.lexeme
               ++ "'",
             location := { filename := p.filename, line := x.line, column := x.column } }]) ∧
    (k.type = .VAR →
      declaration stod (fuel + 1) p = .ok (some (.VarDeclStmt x none false))
        { p with current := p.current + 3 }) := by
  have hxne : x.type ≠ .EQUAL := by rw [hxt]; decide
  have hsne : s.type ≠ .EQUAL := by rw [hst]; decide
  constructor
  · intro hkt
    refine ⟨?_, rfl⟩
    unfold declaration
    rw [p.matchOne_of_ne k .FUNCTION hk (by rw [hkt]; decide),
      p.matchOne_of_ne k .VAR hk (by rw [hkt]; decide),
      p.matchOne_of_eq k .CONST hk hkt (by decide)]
    simp only [Bool.false_eq_true, if_false, if_true]
    unfold varDeclaration
    rw [Parser.consume_of_eq { p with current := p.current + 1 } x .IDENTIFIER _ hx hxt
      (by decide)]
    simp only [Outcome.bind, Outcome.map]
    rw [Parser.matchOne_of_ne { p with current := p.current + 1 + 1 } s .EQUAL hs hsne]
    simp only [Bool.false_eq_true, if_false, if_true, Outcome.bind]
    have hx1 : x.type ≠ .END_OF_FILE := by rw [hxt]; decide
    simp only [Parser.error, hx1, if_false]
    rw [Parser.synchronize_at_semicolon _ s hs hst]
    have hm : "Const declarations must have an initializer" ++ " at '" =
        "Const declarations must have an initializer at '" := by decide
    rw [hm]
  · intro hkt
    unfold declaration
    rw [p.matchOne_of_ne k .FUNCTION hk (by rw [hkt]; decide),
      p.matchOne_of_eq k .VAR hk hkt (by decide)]
    simp only [Bool.false_eq_true, if_false, if_true]
    unfold varDeclaration
    rw [Parser.consume_of_eq { p with current := p.current + 1 } x .IDENTIFIER _ hx hxt
      (by decide)]
    simp only [Outcome.bind, Outcome.map]
    rw [Parser.matchOne_of_ne { p with current := p.current + 1 + 1 } s .EQUAL hs hsne]
    simp only [Bool.false_eq_true, if_false, Outcome.bind]
    rw [Parser.consume_of_eq { p with current := p.current + 1 + 1 } s .SEMICOLON _ hs hst
      (by decide)]

/-- C19, an instance: the tokens of `const x; var y;`.  The declaration of `x` is
rejected with one diagnostic and a null entry, and `parse` goes on with the declaration
of `y` after the semicolon. -/
theorem const_requires_initializer_witness :
    declaration (fun _ => none) 1
      { tokens := [Token.ofType .CONST "const", Token.identifier "x",
          Token.ofType .SEMICOLON ";", Token.ofType .VAR "var", Token.identifier "y",
          Token.ofType .SEMICOLON ";", Token.ofType .END_OF_FILE ""] } =
      .ok none
        { tokens := [Token.ofType .CONST "const", Token.identifier "x",
            Token.ofType .SEMICOLON ";", Token.ofType .VAR "var", Token.identifier "y",
            Token.ofType .SEMICOLON ";", Token.ofType .END_OF_FILE ""],
          current := 3,
          diagnostics :=
            { diagnostics :=
                [{ severity := .ERROR,
                   message := "Const declarations must have an initializer at 'x'",
                   location := { filename := "", line := 1, column := 1 } }],
              has_errors := true } } ∧
    parse (fun _ => none) 3
      { tokens := [Token.ofType .CONST "const", Token.identifier "x",
          Token.ofType .SEMICOLON ";", Token.ofType .VAR "var", Token.identifier "y",
          Token.ofType .SEMICOLON ";", Token.ofType .END_OF_FILE ""] } =
      some ([none, some (.VarDeclStmt (Token.identifier "y") none false)],
        { tokens := [Token.ofType .CONST "const", Token.identifier "x",
            Token.ofType .SEMICOLON ";", Token.ofType .VAR "var", Token.identifier "y",
            Token.ofType .SEMICOLON ";", Token.ofType .END_OF_FILE ""],
          current := 6,
          diagnostics :=
            { diagnostics :=
                [{ severity := .ERROR,
                   message := "Const declarations must have an initializer at 'x'",
                   location := { filename := "", line := 1, column := 1 } }],
              has_errors := true } }) :=
  ⟨((const_requires_initializer (fun _ => none) 0
      { tokens := [Token.ofType .CONST "const", Token.identifier "x",
          Token.ofType .SEMICOLON ";", Token.ofType .VAR "var", Token.identifier "y",
          Token.ofType .SEMICOLON ";", Token.ofType .END_OF_FILE ""] }
      (Token.ofType .CONST "const") (Token.identifier "x") (Token.ofType .SEMICOLON ";")
      rfl rfl rfl rfl rfl).1 rfl).1,
    by rfl⟩

/-- C27 (literal lowering).  In every state, an integer literal pushes the `i32` constant
of its value, a float literal the `double` constant, `true` and `false` the `i1`
constants 1 and 0, and `nil` the null pointer constant of type `i8*`; the result is the
state with that one value pushed, so the module (no instruction, no global), the
insertion point and the diagnostics are unchanged. -/
theorem literal_lowering (L : LLVM) (g : CodeGenerator) :
    (∀ v : Int, (Expr.LiteralExpr (.int v)).accept L g =
      pushValue (some (.ConstantInt (.integer 32) v)) g) ∧
    (∀ v : Double, (Expr.LiteralExpr (.double v)).accept L g =
      pushValue (some (.ConstantFP .double v)) g) ∧
    (Expr.LiteralExpr (.bool true)).accept L g =
      pushValue (some (.ConstantInt (.integer 1) 1)) g ∧
    (Expr.LiteralExpr (.bool false)).accept L g =
      pushValue (some (.ConstantInt (.integer 1) 0)) g ∧
    (Expr.LiteralExpr .null).accept L g =
      pushValue (some (.ConstantPointerNull (.pointer (.integer 8)))) g ∧
    (∀ c : Option Value,
      (pushValue c g).module = g.module ∧
      (pushValue c g).insertBlock = g.insertBlock ∧
      (pushValue c g).diagnostics = g.diagnostics ∧
      (pushValue c g).value_stack = c :: g.value_stack) := by
  refine ⟨?_, ?_, ?_, ?_, ?_, fun c => ⟨rfl, rfl, rfl, rfl⟩⟩
  · intro v
    rw [Expr.accept]
    rfl
  · intro v
    rw [Expr.accept]
    rfl
  · rw [Expr.accept]
    rfl
  · rw [Expr.accept]
    rfl
  · rw [Expr.accept]
    rfl

/-- C24 (aggregate error flag).  Reporting a diagnostic appends exactly it to the list;
the flag is set when its severity is ERROR or FATAL and left as it was for INFO and
WARNING; the four-argument `report` is the report of the diagnostic it builds; `clear`
gives the empty list and the flag false.  Hence the flag agrees with the list (it is
true exactly when some stored diagnostic has severity ERROR or FATAL) in a new
manager, and after every sequence of report and clear operations on a manager in
which it agrees. -/
theorem diagnostics_flag (m : DiagnosticManager) :
    (∀ d : Diagnostic, (m.reportDiagnostic d).getDiagnostics = m.getDiagnostics ++ [d]) ∧
    (∀ d : Diagnostic, d.severity = .ERROR ∨ d.severity = .FATAL →
      (m.reportDiagnostic d).hasErrors = true) ∧
    (∀ d : Diagnostic, d.severity = .INFO ∨ d.severity = .WARNING →
      (m.reportDiagnostic d).hasErrors = m.hasErrors) ∧
    (∀ severity message location code_context,
      m.report severity message location code_context =
        m.reportDiagnostic
          { severity := severity, message := message, location := location,
            code_context := code_context }) ∧
    (m.clear.getDiagnostics = [] ∧ m.clear.hasErrors = false) ∧
    DiagnosticManager.Consistent {} ∧
    (m.Consistent → ∀ ops : List DiagnosticOp, (m.run ops).Consistent) := by
  have hrep : ∀ (x : DiagnosticManager) (d : Diagnostic), x.Consistent →
      (x.reportDiagnostic d).Consistent := by
    intro x d hx
    unfold DiagnosticManager.Consistent DiagnosticManager.hasErrors
      DiagnosticManager.getDiagnostics at *
    unfold DiagnosticManager.reportDiagnostic
    split
    · rename_i h
      simp [Diagnostic.isError, h]
    · rename_i h
      simp [Diagnostic.isError, h, hx]
  refine ⟨?_, ?_, ?_, fun _ _ _ _ => rfl, ⟨rfl, rfl⟩, rfl, ?_⟩
  · intro d
    unfold DiagnosticManager.reportDiagnostic DiagnosticManager.getDiagnostics
    split <;> rfl
  · intro d hd
    unfold DiagnosticManager.reportDiagnostic DiagnosticManager.hasErrors
    simp [hd]
  · intro d hd
    unfold DiagnosticManager.reportDiagnostic DiagnosticManager.hasErrors
    have : ¬ (d.severity = .ERROR ∨ d.severity = .FATAL) := by
      rcases hd with h | h <;> rw [h] <;> decide
    simp [this]
  · intro hm ops
    induction ops generalizing m with
    | nil => exact hm
    | cons op rest ih =>
      unfold DiagnosticManager.run
      rw [List.foldl_cons]
      apply ih
      cases op with
      | report d => exact hrep m d hm
      | clear => rfl

/-- C24, an instance: an ERROR, a clear and a WARNING, from a new manager. -/
theorem diagnostics_flag_witness :
    (DiagnosticManager.run {}
      [.report { severity := .ERROR, message := "e", location := {} }, .clear,
       .report { severity := .WARNING, message := "w", location := {} }]).Consistent ∧
    DiagnosticManager.run {}
      [.report { severity := .ERROR, message := "e", location := {} }, .clear,
       .report { severity := .WARNING, message := "w", location := {} }] =
      { diagnostics := [{ severity := .WARNING, message := "w", location := {} }],
        has_errors := false } ∧
    (DiagnosticManager.run {}
      [.report { severity := .ERROR, message := "e", location := {} }]).hasErrors = true :=
  ⟨(diagnostics_flag {}).2.2.2.2.2.2 rfl _, by decide, by decide⟩

/-- C21, amended (whole-module verification).  When the verifier rejects the module at
the end of `generate`, with the text `info`, exactly one diagnostic is added to those of
lowering: it has severity ERROR, not FATAL, and the message "LLVM IR verification failed: " followed
by `info`; the aggregate flag is set.  The module, its function list included, and the
function table are those lowering left: nothing is removed. -/
theorem module_verification_failure (L : LLVM) (statements : List (Option Stmt))
    (g : CodeGenerator) (info : String)
    (hv : L.verifyModule (lowerMain L statements g).module = some info) :
    (generate L statements g).diagnostics.getDiagnostics =
      (lowerMain L statements g).diagnostics.getDiagnostics ++
        [{ severity := .ERROR, message := "LLVM IR verification failed: " ++ info,
           location := {} }] ∧
    (generate L statements g).diagnostics.hasErrors = true ∧
    (generate L statements g).module = (lowerMain L statements g).module ∧
    (generate L statements g).functions = (lowerMain L statements g).functions := by
  unfold generate
  simp only [hv]
  exact ⟨rfl, rfl, rfl, rfl⟩

/-- C21, an instance: `generate` on `if (true) return 1;` from a freshly initialized
generator, under the structural verifier.  The failed verification of the module is the
only diagnostic, of severity ERROR; the functions `printf`, `print` and `main` remain in
the module. -/
theorem module_verification_failure_witness :
    LLVM.structural.verifyModule (lowerMain LLVM.structural
      [some (.IfStmt (.LiteralExpr (.bool true))
        (.ReturnStmt (Token.ofType .RETURN "return") (some (.LiteralExpr (.int 1)))) none)]
      (CodeGenerator.init "m")).module = some "Basic Block does not have terminator!" ∧
    (generate LLVM.structural
      [some (.IfStmt (.LiteralExpr (.bool true))
        (.ReturnStmt (Token.ofType .RETURN "return") (some (.LiteralExpr (.int 1)))) none)]
      (CodeGenerator.init "m")).module =
    (lowerMain LLVM.structural
      [some (.IfStmt (.LiteralExpr (.bool true))
        (.ReturnStmt (Token.ofType .RETURN "return") (some (.LiteralExpr (.int 1)))) none)]
      (CodeGenerator.init "m")).module ∧
    (generate LLVM.structural
      [some (.IfStmt (.LiteralExpr (.bool true))
        (.ReturnStmt (Token.ofType .RETURN "return") (some (.LiteralExpr (.int 1)))) none)]
      (CodeGenerator.init "m")).diagnostics.getDiagnostics =
      [{ severity := .ERROR,
         message := "LLVM IR verification failed: Basic Block does not have terminator!",
         location := {} }] ∧
    (generate LLVM.structural
      [some (.IfStmt (.LiteralExpr (.bool true))
        (.ReturnStmt (Token.ofType .RETURN "return") (some (.LiteralExpr (.int 1)))) none)]
      (CodeGenerator.init "m")).diagnostics.getDiagnostics.all
        (fun d => decide (d.severity ≠ .FATAL)) = true ∧
    (generate LLVM.structural
      [some (.IfStmt (.LiteralExpr (.bool true))
        (.ReturnStmt (Token.ofType .RETURN "return") (some (.LiteralExpr (.int 1)))) none)]
      (CodeGenerator.init "m")).module.functionList = [0, 1, 2] :=
  ⟨by decide!,
    (module_verification_failure LLVM.structural
      [some (.IfStmt (.LiteralExpr (.bool true))
        (.ReturnStmt (Token.ofType .RETURN "return") (some (.LiteralExpr (.int 1)))) none)]
      (CodeGenerator.init "m") "Basic Block does not have terminator!" (by decide!)).2.2.1,
    by decide!, by decide!, by decide!⟩

/-- C21 as stated, refuted on the severity.  `generate` on `if (true) return 1;` from a
freshly initialized generator, under the structural verifier: the module fails
verification, and the diagnostic that reports it has severity ERROR; no diagnostic of
severity FATAL is stored. -/
theorem verification_failure_is_not_fatal :
    LLVM.structural.verifyModule (lowerMain LLVM.structural
      [some (.IfStmt (.LiteralExpr (.bool true))
        (.ReturnStmt (Token.ofType .RETURN "return") (some (.LiteralExpr (.int 1)))) none)]
      (CodeGenerator.init "m")).module ≠ none ∧
    (generate LLVM.structural
      [some (.IfStmt (.LiteralExpr (.bool true))
        (.ReturnStmt (Token.ofType .RETURN "return") (some (.LiteralExpr (.int 1)))) none)]
      (CodeGenerator.init "m")).diagnostics.getDiagnostics.map (fun d => d.severity) =
      [.ERROR] ∧
    (generate LLVM.structural
      [some (.IfStmt (.LiteralExpr (.bool true))
        (.ReturnStmt (Token.ofType .RETURN "return") (some (.LiteralExpr (.int 1)))) none)]
      (CodeGenerator.init "m")).diagnostics.getDiagnostics.any
        (fun d => decide (d.severity = .FATAL)) = false := by
  decide!

/-- C22 (callee resolution).  A call whose callee is a name the module has no function
for reports the ERROR "Unknown function name: " with the name and pushes the null
sentinel in the state it started in: nothing is lowered and no instruction is emitted.
A call whose callee is not a name, and lowers to null or to a value whose type is not a
pointer to a function type, reports the ERROR "Expression is not callable" and pushes
the null sentinel in the state the callee left: the call adds no instruction.  A call
whose callee is a name for which the module has the function `f` (in its function list,
with that name) lowers the arguments and inserts one call instruction, to `f`, with the
argument values; the result of the call is pushed. -/
theorem callee_resolution (L : LLVM) (callee : Expr) (paren : Token)
    (arguments : List Expr) (g : CodeGenerator) :
    (∀ name : Token, callee = .VariableExpr name →
      g.module.getFunction name.lexeme = none →
      (Expr.CallExpr callee paren arguments).accept L g =
        pushValue none (g.report .ERROR ("Unknown function name: " ++ name.lexeme))) ∧
    (callee.asVariableExpr = none →
      ((popValue (callee.accept L g)).1 = none ∨
        ∃ v, (popValue (callee.accept L g)).1 = some v ∧
          (v.getType.isPointerTy = false ∨ v.getType.getElementType.isFunctionTy = false)) →
      (Expr.CallExpr callee paren arguments).accept L g =
        pushValue none
          ((popValue (callee.accept L g)).2.report .ERROR "Expression is not callable")) ∧
    (∀ (name : Token) (f : Nat), callee = .VariableExpr name →
      g.module.getFunction name.lexeme = some f →
      (f ∈ g.module.functionList ∧
        ∃ fn, g.module.functions[f]? = some fn ∧ fn.name = name.lexeme) ∧
      (Expr.CallExpr callee paren arguments).accept L g =
        pushValue
          (some (.Instruction (acceptArguments L arguments [] g).2.module.nextValue
            ((acceptArguments L arguments [] g).2.module.returnTypeOf (some f))))
          ((acceptArguments L arguments [] g).2.takeValue.Insert
            (.Call (acceptArguments L arguments [] g).2.module.nextValue (some f)
              (acceptArguments L arguments [] g).1
              ((acceptArguments L arguments [] g).2.module.returnTypeOf (some f))
              "call"))) ∧
    (∀ (x : CodeGenerator) (message : String),
      (pushValue none (x.report .ERROR message)).module = x.module ∧
      (pushValue none (x.report .ERROR message)).value_stack = none :: x.value_stack ∧
      (pushValue none (x.report .ERROR message)).diagnostics.getDiagnostics =
        x.diagnostics.getDiagnostics ++
          [{ severity := .ERROR, message := message, location := {} }]) := by
  refine ⟨?_, ?_, ?_, fun x message => ⟨rfl, rfl, rfl⟩⟩
  · intro name hc hf
    subst hc
    rw [Expr.accept]
    unfold visitCallExpr
    simp only [Expr.asVariableExpr, hf]
  · intro hc hv
    rw [Expr.accept]
    unfold visitCallExpr
    simp only [hc]
    rcases hv with h | ⟨v, h, ht⟩
    · simp only [h]
    · simp only [h]
      rcases ht with ht | ht
      · simp only [ht, Bool.not_false, if_true]
      · cases hp : v.getType.isPointerTy
        · simp only [Bool.not_false, if_true]
        · simp only [Bool.not_true, Bool.false_eq_true, if_false, ht]
  · intro name f hc hf
    subst hc
    refine ⟨getFunction_spec _ _ _ hf, ?_⟩
    rw [Expr.accept]
    unfold visitCallExpr
    simp only [Expr.asVariableExpr, hf]
    rfl

/-- C22, instances at the start of `main`: `f()` for the unknown name `f`, `1()`, and
`print("x")`, whose call is to function 1, `print`, with the pointer to the string. -/
theorem callee_resolution_witness :
    (Expr.CallExpr (.VariableExpr (Token.identifier "f")) (Token.ofType .RIGHT_PAREN ")")
      []).accept LLVM.plain (mainStart (CodeGenerator.init "m")) =
      pushValue none ((mainStart (CodeGenerator.init "m")).report .ERROR
        "Unknown function name: f") ∧
    (Expr.CallExpr (.LiteralExpr (.int 1)) (Token.ofType .RIGHT_PAREN ")")
      []).accept LLVM.plain (mainStart (CodeGenerator.init "m")) =
      pushValue none ((mainStart (CodeGenerator.init "m")).report .ERROR
        "Expression is not callable") ∧
    ((Expr.CallExpr (.VariableExpr (Token.identifier "print"))
      (Token.ofType .RIGHT_PAREN ")") [.LiteralExpr (.string "x")]).accept LLVM.plain
        (mainStart (CodeGenerator.init "m"))).module.instructionsOf 1 =
      [.Op 1 .InBoundsGEP
        [.GlobalVariable 0 (.pointer (.array 2 (.integer 8))), .ConstantInt getIntType 0,
          .ConstantInt getIntType 0] (.pointer (.integer 8)) "str_ptr",
       .Call 2 (some 1) [some (.Instruction 1 (.pointer (.integer 8)))] .void "call"] ∧
    ((Expr.CallExpr (.VariableExpr (Token.identifier "print"))
      (Token.ofType .RIGHT_PAREN ")") [.LiteralExpr (.string "x")]).accept LLVM.plain
        (mainStart (CodeGenerator.init "m"))).value_stack =
      [some (.Instruction 2 .void)] :=
  ⟨(callee_resolution LLVM.plain (.VariableExpr (Token.identifier "f"))
      (Token.ofType .RIGHT_PAREN ")") [] (mainStart (CodeGenerator.init "m"))).1
      (Token.identifier "f") rfl (by decide!),
    (callee_resolution LLVM.plain (.LiteralExpr (.int 1))
      (Token.ofType .RIGHT_PAREN ")") [] (mainStart (CodeGenerator.init "m"))).2.1
      rfl (Or.inr ⟨.ConstantInt getIntType 1, rfl, Or.inl rfl⟩),
    by decide!, by decide!⟩

/-- C26 (traversal order).  For a binary expression whose operator is not `&&` or `||`:
the left operand is lowered in the starting state `g`, the right operand in the state
`s1` the left one leaves, and the operator in the state `s2` the right one leaves.  Each
of the three steps only adds instructions after those every block already has, so in
every block the instructions of the left operand come first, then those of the right
operand, then those of the operator; the operator changes no block other than the one
current in `s2`.  For a call of a name for which the module has the function `f`: the
arguments are lowered one after the other in source order, each in the state left by
the one before, each step only adding instructions; the call instruction has `f` as
callee and as operands the values of the arguments in source order. -/
theorem depth_first_left_to_right (L : LLVM) (left right : Expr) (op name paren : Token)
    (arguments : List Expr) (g : CodeGenerator) (f : Nat)
    (hop : ¬ (op.type = .AND ∨ op.type = .OR))
    (hf : g.module.getFunction name.lexeme = some f) :
    (∃ s1 s2 r : CodeGenerator,
      s1 = (popValue (left.accept L g)).2 ∧
      s2 = (popValue (right.accept L s1)).2 ∧
      r = (Expr.BinaryExpr left op right).accept L g ∧
      Appends g s1 ∧ Appends s1 s2 ∧ Appends s2 r ∧
      (∀ i, i < s2.module.blocks.length → some i ≠ s2.insertBlock →
        r.module.instructionsOf i = s2.module.instructionsOf i)) ∧
    (∃ (states : Nat → CodeGenerator) (vals : List (Option Value)) (s r : CodeGenerator),
      (∀ k, states k = (arguments.take k).foldl (argumentStep L) g) ∧
      (∀ k, Appends (states k) (states (k + 1))) ∧
      s = states arguments.length ∧
      vals.length = arguments.length ∧
      (∀ k (hk : k < arguments.length),
        vals[k]? = some (popValue ((arguments.get ⟨k, hk⟩).accept L (states k))).1) ∧
      r = (Expr.CallExpr (.VariableExpr name) paren arguments).accept L g ∧
      r = pushValue (some (.Instruction s.module.nextValue (s.module.returnTypeOf (some f))))
        (s.takeValue.Insert
          (.Call s.module.nextValue (some f) vals (s.module.returnTypeOf (some f))
            "call"))) := by
  constructor
  · refine ⟨_, _, _, rfl, rfl, rfl,
      exprSteps_appends.popValue_step (Expr.accept_appends L left g),
      exprSteps_appends.popValue_step (Expr.accept_appends L right _), ?_, ?_⟩
    · rw [Expr.accept, visitBinaryExpr_of_regular L op _ _ g hop]
      exact regularBinary_own_steps exprSteps_appends L op _ _ g
    · intro i hi hne
      rw [Expr.accept, visitBinaryExpr_of_regular L op _ _ g hop]
      have h := (regularBinary_own_frame L op (left.accept L) (right.accept L) g).2.1 i hi hne
      unfold IRModule.instructionsOf
      rw [h]
  · obtain ⟨h1, h2, h3⟩ := acceptArguments_spec L arguments g
    refine ⟨fun k => (arguments.take k).foldl (argumentStep L) g,
      (acceptArguments L arguments [] g).1, (acceptArguments L arguments [] g).2, _,
      fun k => rfl, fun k => argumentStates_appends L arguments g k, ?_, h2, h3, rfl, ?_⟩
    · rw [h1]
      show _ = List.foldl (argumentStep L) g (List.take arguments.length arguments)
      rw [List.take_length]
    · exact callExpr_of_function L name paren arguments g f hf

/-- C26, instances at the start of `main`, under the library that folds nothing:
`(1 + 2) - (3 * 4)` emits the addition, the multiplication, the subtraction, and
`printf("a", 1 + 2, 3 * 4)` the string pointer, the addition, the multiplication and the
call of function 0 on the three values in that order. -/
theorem depth_first_left_to_right_witness :
    Appends (mainStart (CodeGenerator.init "m"))
      ((Expr.BinaryExpr
        (.BinaryExpr (.LiteralExpr (.int 1)) (Token.ofType .PLUS "+") (.LiteralExpr (.int 2)))
        (Token.ofType .MINUS "-")
        (.BinaryExpr (.LiteralExpr (.int 3)) (Token.ofType .STAR "*")
          (.LiteralExpr (.int 4)))).accept LLVM.plain
        (mainStart (CodeGenerator.init "m"))) ∧
    ((Expr.BinaryExpr
        (.BinaryExpr (.LiteralExpr (.int 1)) (Token.ofType .PLUS "+") (.LiteralExpr (.int 2)))
        (Token.ofType .MINUS "-")
        (.BinaryExpr (.LiteralExpr (.int 3)) (Token.ofType .STAR "*")
          (.LiteralExpr (.int 4)))).accept LLVM.plain
        (mainStart (CodeGenerator.init "m"))).module.instructionsOf 1 =
      [.Op 1 .Add [.ConstantInt getIntType 1, .ConstantInt getIntType 2] getIntType "add",
       .Op 2 .Mul [.ConstantInt getIntType 3, .ConstantInt getIntType 4] getIntType "mul",
       .Op 3 .Sub [.Instruction 1 getIntType, .Instruction 2 getIntType] getIntType
         "sub"] ∧
    ((Expr.CallExpr (.VariableExpr (Token.identifier "printf"))
        (Token.ofType .RIGHT_PAREN ")")
        [.LiteralExpr (.string "a"),
         .BinaryExpr (.LiteralExpr (.int 1)) (Token.ofType .PLUS "+")
           (.LiteralExpr (.int 2)),
         .BinaryExpr (.LiteralExpr (.int 3)) (Token.ofType .STAR "*")
           (.LiteralExpr (.int 4))]).accept LLVM.plain
        (mainStart (CodeGenerator.init "m"))).module.instructionsOf 1 =
      [.Op 1 .InBoundsGEP
        [.GlobalVariable 0 (.pointer (.array 2 (.integer 8))), .ConstantInt getIntType 0,
          .ConstantInt getIntType 0] (.pointer (.integer 8)) "str_ptr",
       .Op 2 .Add [.ConstantInt getIntType 1, .ConstantInt getIntType 2] getIntType "add",
       .Op 3 .Mul [.ConstantInt getIntType 3, .ConstantInt getIntType 4] getIntType "mul",
       .Call 4 (some 0)
         [some (.Instruction 1 (.pointer (.integer 8))), some (.Instruction 2 getIntType),
          some (.Instruction 3 getIntType)] getIntType "call"] := by
  refine ⟨?_, by decide!, by decide!⟩
  obtain ⟨⟨s1, s2, r, h1, h2, h3, a1, a2, a3, _⟩, _⟩ :=
    depth_first_left_to_right LLVM.plain
      (.BinaryExpr (.LiteralExpr (.int 1)) (Token.ofType .PLUS "+") (.LiteralExpr (.int 2)))
      (.BinaryExpr (.LiteralExpr (.int 3)) (Token.ofType .STAR "*") (.LiteralExpr (.int 4)))
      (Token.ofType .MINUS "-") (Token.identifier "printf") (Token.ofType .RIGHT_PAREN ")")
      [] (mainStart (CodeGenerator.init "m")) 0 (by decide) (by decide!)
  rw [← h3]
  exact fun i => ((a1 i).trans (a2 i)).trans (a3 i)

/-- C28, amended: string constants are not deduplicated.  Every lowering of a string
literal creates a new constant.  Lowering the string literal `v` twice, in any state and
with any folder, adds two global constants to the module, both holding `v`; the pointer
pushed by the first occurrence is built on the first of them and the pointer pushed by
the second occurrence on the second.  For the program `"a"; "a";` lowered in `main`
under the library that folds nothing, the constants are `.str` and `.str.1` and the two
pointers are the instructions 1 and 2, into global 0 and into global 1. -/
theorem string_literal_twice (L : LLVM) (v : String) (g : CodeGenerator) :
    (∃ (n1 n2 : String) (x1 x2 : CodeGenerator),
      ((Expr.LiteralExpr (.string v)).accept L
        ((Expr.LiteralExpr (.string v)).accept L g)).module.globals =
        g.module.globals ++
          [{ name := n1, valueType := .array (v.utf8ByteSize + 1) (.integer 8),
             isConstant := true, initializer := v },
           { name := n2, valueType := .array (v.utf8ByteSize + 1) (.integer 8),
             isConstant := true, initializer := v }] ∧
      ((Expr.LiteralExpr (.string v)).accept L g).value_stack =
        some (x1.Create L .InBoundsGEP
          [.GlobalVariable g.module.globals.length
            (.pointer (.array (v.utf8ByteSize + 1) (.integer 8))),
           .ConstantInt getIntType 0, .ConstantInt getIntType 0]
          (.pointer (.integer 8)) "str_ptr").1 :: g.value_stack ∧
      ((Expr.LiteralExpr (.string v)).accept L
        ((Expr.LiteralExpr (.string v)).accept L g)).value_stack =
        some (x2.Create L .InBoundsGEP
          [.GlobalVariable (g.module.globals.length + 1)
            (.pointer (.array (v.utf8ByteSize + 1) (.integer 8))),
           .ConstantInt getIntType 0, .ConstantInt getIntType 0]
          (.pointer (.integer 8)) "str_ptr").1 ::
          ((Expr.LiteralExpr (.string v)).accept L g).value_stack) ∧
    (lowerMain LLVM.plain
      [some (.ExpressionStmt (.LiteralExpr (.string "a"))),
       some (.ExpressionStmt (.LiteralExpr (.string "a")))]
      (CodeGenerator.init "m")).module.globals =
      [{ name := ".str", valueType := .array 2 (.integer 8), isConstant := true,
         initializer := "a" },
       { name := ".str.1", valueType := .array 2 (.integer 8), isConstant := true,
         initializer := "a" }] ∧
    (lowerMain LLVM.plain
      [some (.ExpressionStmt (.LiteralExpr (.string "a"))),
       some (.ExpressionStmt (.LiteralExpr (.string "a")))]
      (CodeGenerator.init "m")).module.instructionsOf 1 =
      [.Op 1 .InBoundsGEP
        [.GlobalVariable 0 (.pointer (.array 2 (.integer 8))), .ConstantInt getIntType 0,
          .ConstantInt getIntType 0] (.pointer (.integer 8)) "str_ptr",
       .Op 2 .InBoundsGEP
        [.GlobalVariable 1 (.pointer (.array 2 (.integer 8))), .ConstantInt getIntType 0,
          .ConstantInt getIntType 0] (.pointer (.integer 8)) "str_ptr",
       .Ret (.ConstantInt getIntType 0)] := by
  refine ⟨?_, by decide!, by decide!⟩
  have e : ∀ x : CodeGenerator, (Expr.LiteralExpr (.string v)).accept L x =
      visitLiteralExpr L (.string v) x := by
    intro x
    rw [Expr.accept]
  obtain ⟨a1, x1, a2⟩ := visitLiteralExpr_string L v g
  obtain ⟨b1, x2, b2⟩ := visitLiteralExpr_string L v (visitLiteralExpr L (.string v) g)
  refine ⟨(uniqueName g.module.symbolNames ".str" "." g.module.lastUnique).1,
    (uniqueName (visitLiteralExpr L (.string v) g).module.symbolNames ".str" "."
      (visitLiteralExpr L (.string v) g).module.lastUnique).1, x1, x2, ?_, ?_, ?_⟩
  · rw [e, e, b1, a1, List.append_assoc]
    rfl
  · rw [e, a2]
  · rw [e, e, b2, a1]
    simp only [List.length_append, List.length_singleton]

/-- C28 as stated, refuted.  The program `"a"; "a";` lowered by `generate` from a
freshly initialized generator, under the constant-folding library, without a diagnostic:
the module holds two constants with the text `a`, `.str` and `.str.1`, not one, and the
first occurrence pushes the pointer into global 0, the second the pointer into
global 1. -/
theorem same_string_two_constants :
    (generate LLVM.constantFolding
      [some (.ExpressionStmt (.LiteralExpr (.string "a"))),
       some (.ExpressionStmt (.LiteralExpr (.string "a")))]
      (CodeGenerator.init "m")).module.globals =
      [{ name := ".str", valueType := .array 2 (.integer 8), isConstant := true,
         initializer := "a" },
       { name := ".str.1", valueType := .array 2 (.integer 8), isConstant := true,
         initializer := "a" }] ∧
    (generate LLVM.constantFolding
      [some (.ExpressionStmt (.LiteralExpr (.string "a"))),
       some (.ExpressionStmt (.LiteralExpr (.string "a")))]
      (CodeGenerator.init "m")).diagnostics.diagnostics = [] ∧
    ((Expr.LiteralExpr (.string "a")).accept LLVM.constantFolding
      (mainStart (CodeGenerator.init "m"))).value_stack =
      [some (.ConstantExpr .InBoundsGEP
        [.GlobalVariable 0 (.pointer (.array 2 (.integer 8))), .ConstantInt getIntType 0,
          .ConstantInt getIntType 0] (.pointer (.integer 8)))] ∧
    ((Expr.LiteralExpr (.string "a")).accept LLVM.constantFolding
      ((Expr.LiteralExpr (.string "a")).accept LLVM.constantFolding
        (mainStart (CodeGenerator.init "m")))).value_stack =
      [some (.ConstantExpr .InBoundsGEP
        [.GlobalVariable 1 (.pointer (.array 2 (.integer 8))), .ConstantInt getIntType 0,
          .ConstantInt getIntType 0] (.pointer (.integer 8))),
       some (.ConstantExpr .InBoundsGEP
        [.GlobalVariable 0 (.pointer (.array 2 (.integer 8))), .ConstantInt getIntType 0,
          .ConstantInt getIntType 0] (.pointer (.integer 8)))] := by
  decide!

/-- C30 at its failing input.  When a variable is declared twice under the same name,
with any initializers, in any state: after the second declaration the name resolves to
the slot of the second declaration, which is another slot than that of the first (its
identity is larger); the declaration itself reports nothing (the diagnostics are those
left by lowering its initializer); and the `define` of the symbol table, whose result
the declaration ignores, has answered false.  For the program
`var x = 1; var x = 2;` lowered in `main`, `x` resolves to the second slot (value 2) and
no diagnostic at all has been reported. -/
theorem redeclaration_rebinds (L : LLVM) (name : Token) (init1 init2 : Option Expr)
    (g : CodeGenerator) :
    (∃ slot1 slot2 : AllocaInst,
      mapFind (visitVarDeclStmt name (init1.map (fun e => e.accept L)) g).named_values
        name.lexeme = some slot1 ∧
      mapFind (visitVarDeclStmt name (init2.map (fun e => e.accept L))
        (visitVarDeclStmt name (init1.map (fun e => e.accept L)) g)).named_values
        name.lexeme = some slot2 ∧
      slot1.id < slot2.id ∧
      (visitVarDeclStmt name (init2.map (fun e => e.accept L))
        (visitVarDeclStmt name (init1.map (fun e => e.accept L)) g)).diagnostics =
        (acceptInitializer L init2
          (visitVarDeclStmt name (init1.map (fun e => e.accept L)) g)).2.diagnostics ∧
      ((visitVarDeclStmt name (init1.map (fun e => e.accept L)) g).symbol_table.define
        name.lexeme .VARIABLE none).1 = false) ∧
    mapFind (lowerMain LLVM.plain
      [some (.VarDeclStmt ⟨.IDENTIFIER, "x", 1, 5⟩ (some (.LiteralExpr (.int 1))) false),
       some (.VarDeclStmt ⟨.IDENTIFIER, "x", 1, 5⟩ (some (.LiteralExpr (.int 2))) false)]
      (CodeGenerator.init "m")).named_values "x" =
      some { id := 2, allocatedType := getIntType, name := "x" } ∧
    (lowerMain LLVM.plain
      [some (.VarDeclStmt ⟨.IDENTIFIER, "x", 1, 5⟩ (some (.LiteralExpr (.int 1))) false),
       some (.VarDeclStmt ⟨.IDENTIFIER, "x", 1, 5⟩ (some (.LiteralExpr (.int 2))) false)]
      (CodeGenerator.init "m")).diagnostics.diagnostics = [] ∧
    (lowerMain LLVM.plain
      [some (.VarDeclStmt ⟨.IDENTIFIER, "x", 1, 5⟩ (some (.LiteralExpr (.int 1))) false),
       some (.VarDeclStmt ⟨.IDENTIFIER, "x", 1, 5⟩ (some (.LiteralExpr (.int 2))) false)]
      (CodeGenerator.init "m")).module.instructionsOf 1 =
      [.Alloca 2 getIntType "x", .Alloca 1 getIntType "x",
       .Store (some (.ConstantInt getIntType 1))
        (.Instruction 1 (.pointer getIntType)),
       .Store (some (.ConstantInt getIntType 2))
        (.Instruction 2 (.pointer getIntType)),
       .Ret (.ConstantInt getIntType 0)] := by
  refine ⟨?_, by decide!, by decide!, by decide!⟩
  obtain ⟨slot1, a1, a2, a3, _, a5⟩ := visitVarDeclStmt_binding L name init1 g
  obtain ⟨slot2, b1, b2, _, b4, _⟩ := visitVarDeclStmt_binding L name init2
    (visitVarDeclStmt name (init1.map (fun e => e.accept L)) g)
  refine ⟨slot1, slot2, a1, b1, ?_, b4, ?_⟩
  · have h := (acceptInitializer_keeps L init2
      (visitVarDeclStmt name (init1.map (fun e => e.accept L)) g)).2
    unfold NextValueLe at h
    omega
  · rw [a5]
    exact SymbolTable.define_twice _ _ _ _ _ _

/-- C29 (unary operators), as amended.  Let the operand of `op right` lower to the value
`operand`, and `s` be the state after it is popped.
Minus on an integer value makes the builder's negate call and pushes its result; minus
on a float value makes the float-negate call.  Logical not on an integer value makes
the not-equal-to-zero comparison call and then the not call on its result, and pushes
the result, which is bool-typed under every folder that answers in the type asked for.
Each call inserts its instruction unless the folder folds it.  Minus on a value that is
neither integer nor float (a pointer), and logical not on a value that is not an integer
(a float, a pointer), push the null sentinel, add exactly one diagnostic, an ERROR, and
leave the module as it is. -/
theorem unary_operators (L : LLVM) (op : Token) (right : Expr) (g : CodeGenerator)
    (operand : Value)
    (hr : (popValue (right.accept L g)).1 = some operand) :
    let s := (popValue (right.accept L g)).2
    let b := s.Create L .ICmpNE [operand, .ConstantInt operand.getType 0] getBoolType "tobool"
    (op.type = .MINUS → operand.getType.isIntegerTy = true →
      (Expr.UnaryExpr op right).accept L g =
        pushValue (some (s.Create L .Neg [operand] operand.getType "neg").1)
          (s.Create L .Neg [operand] operand.getType "neg").2 ∧
      (L.fold .Neg [operand] operand.getType = none →
        (Expr.UnaryExpr op right).accept L g =
          pushValue (some (.Instruction s.module.nextValue operand.getType))
            (s.takeValue.Insert
              (.Op s.module.nextValue .Neg [operand] operand.getType "neg")))) ∧
    (op.type = .MINUS → operand.getType.isFloatingPointTy = true →
      (Expr.UnaryExpr op right).accept L g =
        pushValue (some (s.Create L .FNeg [operand] operand.getType "fneg").1)
          (s.Create L .FNeg [operand] operand.getType "fneg").2 ∧
      (L.fold .FNeg [operand] operand.getType = none →
        (Expr.UnaryExpr op right).accept L g =
          pushValue (some (.Instruction s.module.nextValue operand.getType))
            (s.takeValue.Insert
              (.Op s.module.nextValue .FNeg [operand] operand.getType "fneg")))) ∧
    (op.type = .BANG → operand.getType.isIntegerTy = true →
      (Expr.UnaryExpr op right).accept L g =
        pushValue (some (b.2.Create L .Not [b.1] b.1.getType "not").1)
          (b.2.Create L .Not [b.1] b.1.getType "not").2 ∧
      (L.foldsTyped → (b.2.Create L .Not [b.1] b.1.getType "not").1.getType = getBoolType) ∧
      (L.fold .ICmpNE [operand, .ConstantInt operand.getType 0] getBoolType = none →
        L.fold .Not [.Instruction s.module.nextValue getBoolType] getBoolType = none →
        (Expr.UnaryExpr op right).accept L g =
          pushValue (some (.Instruction (s.module.nextValue + 1) getBoolType))
            ((s.takeValue.Insert
              (.Op s.module.nextValue .ICmpNE [operand, .ConstantInt operand.getType 0]
                getBoolType "tobool")).takeValue.Insert
              (.Op (s.module.nextValue + 1) .Not
                [.Instruction s.module.nextValue getBoolType] getBoolType "not")))) ∧
    (op.type = .MINUS → operand.getType.isIntegerTy = false →
      operand.getType.isFloatingPointTy = false →
      (Expr.UnaryExpr op right).accept L g =
        pushValue none (s.report .ERROR "Invalid operand type for unary minus") ∧
      ((Expr.UnaryExpr op right).accept L g).diagnostics.diagnostics =
        s.diagnostics.diagnostics ++
          [{ severity := .ERROR, message := "Invalid operand type for unary minus",
             location := {} }] ∧
      ((Expr.UnaryExpr op right).accept L g).module = s.module) ∧
    (op.type = .BANG → operand.getType.isIntegerTy = false →
      (Expr.UnaryExpr op right).accept L g =
        pushValue none (s.report .ERROR "Invalid operand type for logical not") ∧
      ((Expr.UnaryExpr op right).accept L g).diagnostics.diagnostics =
        s.diagnostics.diagnostics ++
          [{ severity := .ERROR, message := "Invalid operand type for logical not",
             location := {} }] ∧
      ((Expr.UnaryExpr op right).accept L g).module = s.module) := by
  intro s b
  have hacc : (Expr.UnaryExpr op right).accept L g =
      visitUnaryExpr L op (fun x => right.accept L x) g := by
    rw [Expr.accept]
  have hnotfp : ∀ t : Ty, t.isIntegerTy = true → t.isFloatingPointTy = false := by
    intro t ht
    cases t <;> simp_all [Ty.isIntegerTy, Ty.isFloatingPointTy]
  refine ⟨?_, ?_, ?_, ?_, ?_⟩
  · intro hop hi
    have h1 : (Expr.UnaryExpr op right).accept L g =
        pushValue (some (s.Create L .Neg [operand] operand.getType "neg").1)
          (s.Create L .Neg [operand] operand.getType "neg").2 := by
      rw [hacc]
      unfold visitUnaryExpr
      simp only [hr, hop, hi, if_true]
    refine ⟨h1, ?_⟩
    intro hnf
    rw [h1, Create_of_not_folded s L _ _ _ _ hnf]
  · intro hop hf
    have hi : operand.getType.isIntegerTy = false := by
      cases hh : operand.getType <;> simp_all [Ty.isIntegerTy, Ty.isFloatingPointTy]
    have h1 : (Expr.UnaryExpr op right).accept L g =
        pushValue (some (s.Create L .FNeg [operand] operand.getType "fneg").1)
          (s.Create L .FNeg [operand] operand.getType "fneg").2 := by
      rw [hacc]
      unfold visitUnaryExpr
      simp [hr, hop, hi, hf, s]
    refine ⟨h1, ?_⟩
    intro hnf
    rw [h1, Create_of_not_folded s L _ _ _ _ hnf]
  · intro hop hi
    have hm : ¬ op.type = .MINUS := by simp [hop]
    have h1 : (Expr.UnaryExpr op right).accept L g =
        pushValue (some (b.2.Create L .Not [b.1] b.1.getType "not").1)
          (b.2.Create L .Not [b.1] b.1.getType "not").2 := by
      rw [hacc]
      unfold visitUnaryExpr
      simp [hr, hop, hi, s, b]
    have hb : ∀ hL : L.foldsTyped, b.1.getType = getBoolType := fun hL =>
      getType_Create s L hL _ _ _ _
    refine ⟨h1, ?_, ?_⟩
    · intro hL
      rw [getType_Create b.2 L hL, hb hL]
    · intro hn1 hn2
      have e1 : b = (.Instruction s.module.nextValue getBoolType,
          s.takeValue.Insert (.Op s.module.nextValue .ICmpNE
            [operand, .ConstantInt operand.getType 0] getBoolType "tobool")) :=
        Create_of_not_folded s L _ _ _ _ hn1
      have hn : (s.takeValue.Insert (.Op s.module.nextValue .ICmpNE
          [operand, .ConstantInt operand.getType 0] getBoolType "tobool")).module.nextValue =
          s.module.nextValue + 1 := by
        rw [nextValue_Insert]
        rfl
      have hn2b : L.fold .Not [(Value.Instruction s.module.nextValue getBoolType)]
          (Value.Instruction s.module.nextValue getBoolType).getType = none := hn2
      rw [h1, e1, Create_of_not_folded _ L _ _ _ _ hn2b, hn]
      rfl
  · intro hop hi hf
    have h1 : (Expr.UnaryExpr op right).accept L g =
        pushValue none (s.report .ERROR "Invalid operand type for unary minus") := by
      rw [hacc]
      unfold visitUnaryExpr
      simp [hr, hop, hi, hf, s]
    refine ⟨h1, ?_, ?_⟩
    · rw [h1]
      simp [pushValue, CodeGenerator.report, DiagnosticManager.report,
        DiagnosticManager.reportDiagnostic]
    · rw [h1]
      rfl
  · intro hop hi
    have h1 : (Expr.UnaryExpr op right).accept L g =
        pushValue none (s.report .ERROR "Invalid operand type for logical not") := by
      rw [hacc]
      unfold visitUnaryExpr
      simp [hr, hop, hi, s]
    refine ⟨h1, ?_, ?_⟩
    · rw [h1]
      simp [pushValue, CodeGenerator.report, DiagnosticManager.report,
        DiagnosticManager.reportDiagnostic]
    · rw [h1]
      rfl

/-- Witness for C29: `-5`, `!5` and `-"a"` under the library that folds nothing. -/
theorem unary_operators_witness :
    (popValue ((Expr.LiteralExpr (.int 5)).accept LLVM.plain
      (lowerMain LLVM.plain [] (CodeGenerator.init "m")))).1 =
        some (.ConstantInt getIntType 5) ∧
    (Expr.UnaryExpr (Token.ofType .MINUS "-") (.LiteralExpr (.int 5))).accept LLVM.plain
      (lowerMain LLVM.plain [] (CodeGenerator.init "m")) =
      pushValue (some (.Instruction 1 getIntType))
        ((lowerMain LLVM.plain [] (CodeGenerator.init "m")).takeValue.Insert
          (.Op 1 .Neg [.ConstantInt getIntType 5] getIntType "neg")) ∧
    (Expr.UnaryExpr (Token.ofType .BANG "!") (.LiteralExpr (.int 5))).accept LLVM.plain
      (lowerMain LLVM.plain [] (CodeGenerator.init "m")) =
      pushValue (some (.Instruction 2 getBoolType))
        (((lowerMain LLVM.plain [] (CodeGenerator.init "m")).takeValue.Insert
          (.Op 1 .ICmpNE [.ConstantInt getIntType 5, .ConstantInt getIntType 0] getBoolType
            "tobool")).takeValue.Insert
          (.Op 2 .Not [.Instruction 1 getBoolType] getBoolType "not")) ∧
    (popValue ((Expr.LiteralExpr (.string "a")).accept LLVM.plain
      (lowerMain LLVM.plain [] (CodeGenerator.init "m")))).1 =
        some (.Instruction 1 (.pointer (.integer 8))) ∧
    ((Expr.UnaryExpr (Token.ofType .MINUS "-") (.LiteralExpr (.string "a"))).accept
      LLVM.plain (lowerMain LLVM.plain [] (CodeGenerator.init "m"))).diagnostics.diagnostics =
      [{ severity := .ERROR, message := "Invalid operand type for unary minus",
         location := {} }] :=
  ⟨by decide,
    ((unary_operators LLVM.plain (Token.ofType .MINUS "-") (.LiteralExpr (.int 5))
      (lowerMain LLVM.plain [] (CodeGenerator.init "m"))
      (.ConstantInt getIntType 5) (by decide)).1 rfl rfl).2 rfl,
    ((unary_operators LLVM.plain (Token.ofType .BANG "!") (.LiteralExpr (.int 5))
      (lowerMain LLVM.plain [] (CodeGenerator.init "m"))
      (.ConstantInt getIntType 5) (by decide)).2.2.1 rfl rfl).2.2 rfl rfl,
    by decide,
    ((unary_operators LLVM.plain (Token.ofType .MINUS "-") (.LiteralExpr (.string "a"))
      (lowerMain LLVM.plain [] (CodeGenerator.init "m"))
      (.Instruction 1 (.pointer (.integer 8))) (by decide)).2.2.2.1 rfl rfl rfl).2.1⟩

/-- C29 fails as stated: under a builder that folds constant operands, as the default
folder of the library does, lowering `-5;` into `main` emits no negate instruction; the
folded constant is what is pushed.  Likewise `!5;` emits neither the comparison nor its
negation. -/
theorem unary_of_literal_is_folded :
    (lowerMain LLVM.constantFolding
      [some (.ExpressionStmt (.UnaryExpr (Token.ofType .MINUS "-")
        (.LiteralExpr (.int 5))))]
      (CodeGenerator.init "m")).module.instructionsOf 1 =
      [.Ret (.ConstantInt getIntType 0)] ∧
    ((Expr.UnaryExpr (Token.ofType .MINUS "-") (.LiteralExpr (.int 5))).accept
      LLVM.constantFolding
      (lowerMain LLVM.constantFolding [] (CodeGenerator.init "m"))).value_stack =
      [some (.ConstantExpr .Neg [.ConstantInt getIntType 5] getIntType)] ∧
    (lowerMain LLVM.constantFolding
      [some (.ExpressionStmt (.UnaryExpr (Token.ofType .BANG "!")
        (.LiteralExpr (.int 5))))]
      (CodeGenerator.init "m")).module.instructionsOf 1 =
      [.Ret (.ConstantInt getIntType 0)] := by
  refine ⟨by decide!, by decide!, by decide!⟩

/-- C25 (batch diagnostics).  `generate` lowers its statements by a left fold over the
whole list, whatever diagnostics the earlier ones reported.  For every list of
statements `y = <literal>;` whose names are not bound, when the library's verifier
accepts the module that lowering produces, `generate` returns a state whose diagnostics
are the previous ones followed by one ERROR "Unknown variable name: y" for each
statement, in the order of the statements. -/
theorem batch_diagnostics (L : LLVM) (assigns : List (Token × LiteralValue))
    (g : CodeGenerator)
    (hy : ∀ a ∈ assigns, mapFind g.named_values a.1.lexeme = none)
    (hv : L.verifyModule
      (lowerMain L
        (assigns.map (fun a => some (.ExpressionStmt (.AssignExpr a.1 (.LiteralExpr a.2)))))
        g).module = none) :
    (∀ (statements : List (Option Stmt)) (g0 : CodeGenerator),
      lowerMain L statements g0 =
        (statements.foldl (fun s statement => acceptIfPresent L statement s)
          (mainStart g0)).CreateRet (.ConstantInt getIntType 0)) ∧
    (generate L
      (assigns.map (fun a => some (.ExpressionStmt (.AssignExpr a.1 (.LiteralExpr a.2)))))
      g).diagnostics.diagnostics =
      g.diagnostics.diagnostics ++
        assigns.map (fun a =>
          ({ severity := .ERROR, message := "Unknown variable name: " ++ a.1.lexeme,
             location := {} } : Diagnostic)) ∧
    (generate L
      (assigns.map (fun a => some (.ExpressionStmt (.AssignExpr a.1 (.LiteralExpr a.2)))))
      g).diagnostics.diagnostics.length =
      g.diagnostics.diagnostics.length + assigns.length := by
  have h2 : (generate L
      (assigns.map (fun a => some (.ExpressionStmt (.AssignExpr a.1 (.LiteralExpr a.2)))))
      g).diagnostics.diagnostics =
      g.diagnostics.diagnostics ++
        assigns.map (fun a =>
          ({ severity := .ERROR, message := "Unknown variable name: " ++ a.1.lexeme,
             location := {} } : Diagnostic)) := by
    have hgen : generate L
        (assigns.map (fun a => some (.ExpressionStmt (.AssignExpr a.1 (.LiteralExpr a.2)))))
        g = lowerMain L
        (assigns.map (fun a => some (.ExpressionStmt (.AssignExpr a.1 (.LiteralExpr a.2)))))
        g := by
      unfold generate
      simp only [hv]
    rw [hgen, lowerMain_eq]
    unfold CodeGenerator.CreateRet
    rw [diagnostics_Insert]
    exact assignUnknown_list L assigns (mainStart g) hy
  refine ⟨?_, h2, ?_⟩
  · intro statements g0
    rw [lowerMain_eq, acceptStatements_foldl]
  · rw [h2, List.length_append, List.length_map]

/-- Witness for C25: `a = 1; b = "s"; c = null;` on a freshly initialized generator,
with the verifier that checks the block structure. -/
theorem batch_diagnostics_witness :
    (generate LLVM.structural
      [some (.ExpressionStmt (.AssignExpr (Token.identifier "a") (.LiteralExpr (.int 1)))),
       some (.ExpressionStmt (.AssignExpr (Token.identifier "b")
        (.LiteralExpr (.string "s")))),
       some (.ExpressionStmt (.AssignExpr (Token.identifier "c") (.LiteralExpr .null)))]
      (CodeGenerator.init "m")).diagnostics.diagnostics =
      [{ severity := .ERROR, message := "Unknown variable name: a", location := {} },
       { severity := .ERROR, message := "Unknown variable name: b", location := {} },
       { severity := .ERROR, message := "Unknown variable name: c", location := {} }] :=
  (batch_diagnostics LLVM.structural
    [(Token.identifier "a", .int 1), (Token.identifier "b", .string "s"),
     (Token.identifier "c", .null)]
    (CodeGenerator.init "m") (by decide) (by decide!)).2.1

/-- C23 (parameters of a function), as amended.  Let the parameters of
`function name(p1, .., pn) body` have pairwise distinct names, `f` be the function the
declaration creates, `e` its entry block and `s` the state reached after the parameter
loop.  The body is lowered in `s`.  In `s` the function `f` has `n` parameters of type
int32, named as the parameters are, returns int32, and its only block is `e`; the block
`e` holds the `n` slot allocations, the latest at the head, followed by the `n` stores,
in the order of the parameters; for every `i` the slot of identity `k + i`, where `k`
is the counter of identities before the declaration, is allocated in `e` under the name
of the parameter `i`, the argument `i` of `f` is stored into it in `e`, and the name of
the parameter `i` is bound to it. -/
theorem parameters_of_function (L : LLVM) (name : Token) (params : List Token)
    (body : List (Option Stmt)) (g : CodeGenerator)
    (hnd : (params.map (fun p => p.lexeme)).Nodup) :
    (Stmt.FunctionStmt name params body).accept L g =
      visitFunctionStmt L name params
        (fun _ => acceptStatements L body (functionStart name params g)) g ∧
    (∃ fn : IRFunction,
      (functionStart name params g).module.functions[g.module.functions.length]? =
        some fn ∧
      fn.returnType = getIntType ∧
      fn.paramTypes = List.replicate params.length getIntType ∧
      fn.isVarArg = false ∧
      fn.argNames = params.map (fun p => p.lexeme) ∧
      fn.blocks = [g.module.blocks.length]) ∧
    (functionStart name params g).insertBlock = some g.module.blocks.length ∧
    (functionStart name params g).module.instructionsOf g.module.blocks.length =
      (parameterAllocas g.module.nextValue
        (params.map (fun p => (p.lexeme, getIntType)))).reverse ++
      parameterStores g.module.functions.length 0 g.module.nextValue
        (params.map (fun p => (p.lexeme, getIntType))) ∧
    ((functionStart name params g).module.instructionsOf g.module.blocks.length).length =
      params.length + params.length ∧
    ∀ (i : Nat) (p : Token), params[i]? = some p →
      Instruction.Alloca (g.module.nextValue + i) getIntType p.lexeme ∈
        (functionStart name params g).module.instructionsOf g.module.blocks.length ∧
      Instruction.Store (some (.Argument g.module.functions.length i getIntType))
        (.Instruction (g.module.nextValue + i) (.pointer getIntType)) ∈
        (functionStart name params g).module.instructionsOf g.module.blocks.length ∧
      mapFind (functionStart name params g).named_values p.lexeme =
        some { id := g.module.nextValue + i, allocatedType := getIntType,
               name := p.lexeme } := by
  have hnames : setArgNames (params.map (fun p => p.lexeme)) [] 0 =
      params.map (fun p => p.lexeme) := by
    rw [setArgNames_nodup _ _ _ (by simpa using hnd), List.nil_append]
  have hzip : (params.map (fun p => p.lexeme)).zip (params.map (fun _ => getIntType)) =
      params.map (fun p => (p.lexeme, getIntType)) := by
    rw [List.zip_map']
  obtain ⟨s1, s2, s3, s4, s5, s6, s7⟩ := loopStart_spec name params g
    g.symbol_table.enterScope
  have hargs : ∀ (i : Nat) (p : Token), params[i]? = some p →
      (params.map (fun p => (p.lexeme, getIntType)))[i]? = some (p.lexeme, getIntType) := by
    intro i p h
    rw [List.getElem?_map, h]
    rfl
  have hnd2 : ((params.map (fun p => (p.lexeme, getIntType))).map Prod.fst).Nodup := by
    rw [List.map_map]
    exact hnd
  have hentry : (functionStart name params g).module.instructionsOf g.module.blocks.length =
      (parameterAllocas g.module.nextValue
        (params.map (fun p => (p.lexeme, getIntType)))).reverse ++
      parameterStores g.module.functions.length 0 g.module.nextValue
        (params.map (fun p => (p.lexeme, getIntType))) := by
    rw [declareFunction_entered, hnames, hzip,
      bindParameters_entry _ _ _ _ _ s1 s2 s3, s4, s5, List.append_nil]
  refine ⟨?_, ?_, ?_, hentry, ?_, ?_⟩
  · rw [Stmt.accept]
    rfl
  · refine ⟨{
      name := (uniqueName g.module.symbolNames name.lexeme "." g.module.lastUnique).1,
      returnType := getIntType,
      paramTypes := params.map (fun _ => getIntType),
      isVarArg := false,
      argNames := setArgNames (params.map (fun p => p.lexeme)) [] 0,
      blocks := [g.module.blocks.length] }, ?_, rfl, ?_, rfl, hnames, rfl⟩
    · rw [declareFunction_entered, (bindParameters_others _ _ _ _).2.1]
      exact s7
    · show params.map (fun _ => getIntType) = _
      rw [List.map_const']
  · rw [declareFunction_entered, bindParameters_insertBlock]
    exact s2
  · rw [hentry, List.length_append, List.length_reverse, parameterAllocas_length,
      parameterStores_length, List.length_map]
  · intro i p h
    refine ⟨?_, ?_, ?_⟩
    · rw [hentry]
      exact List.mem_append_left _ (List.mem_reverse.mpr
        (parameterAllocas_mem _ _ _ _ (hargs i p h)))
    · rw [hentry]
      have := parameterStores_mem g.module.functions.length _ 0 g.module.nextValue i _
        (hargs i p h)
      rw [Nat.zero_add] at this
      exact List.mem_append_right _ this
    · rw [declareFunction_entered, hnames, hzip,
        bindParameters_bound _ _ _ _ hnd2 i _ (hargs i p h), s5]

/-- Witness for C23: `function f(a, b)` on a freshly initialized generator. -/
theorem parameters_of_function_witness :
    (functionStart (Token.identifier "f") [Token.identifier "a", Token.identifier "b"]
      (CodeGenerator.init "m")).module.instructionsOf 1 =
      [.Alloca 2 getIntType "b", .Alloca 1 getIntType "a",
       .Store (some (.Argument 2 0 getIntType)) (.Instruction 1 (.pointer getIntType)),
       .Store (some (.Argument 2 1 getIntType)) (.Instruction 2 (.pointer getIntType))] ∧
    mapFind (functionStart (Token.identifier "f")
      [Token.identifier "a", Token.identifier "b"]
      (CodeGenerator.init "m")).named_values "b" =
      some { id := 2, allocatedType := getIntType, name := "b" } :=
  ⟨(parameters_of_function LLVM.plain (Token.identifier "f")
      [Token.identifier "a", Token.identifier "b"] [] (CodeGenerator.init "m")
      (by decide)).2.2.2.1,
    ((parameters_of_function LLVM.plain (Token.identifier "f")
      [Token.identifier "a", Token.identifier "b"] [] (CodeGenerator.init "m")
      (by decide)).2.2.2.2.2 1 (Token.identifier "b") rfl).2.2⟩

/-- C23 fails as stated: in `function f(a, a)` with the body `return a;` the second parameter
gets the slot 2, named `a1`, into which the second argument is stored, but its name `a`
is bound to the slot 1 of the first parameter, and that is the slot the body reads. -/
theorem duplicate_parameter_shares_slot :
    (functionStart (Token.identifier "f") [Token.identifier "a", Token.identifier "a"]
      (CodeGenerator.init "m")).module.instructionsOf 1 =
      [.Alloca 2 getIntType "a1", .Alloca 1 getIntType "a",
       .Store (some (.Argument 2 0 getIntType)) (.Instruction 1 (.pointer getIntType)),
       .Store (some (.Argument 2 1 getIntType)) (.Instruction 2 (.pointer getIntType))] ∧
    mapFind (functionStart (Token.identifier "f")
      [Token.identifier "a", Token.identifier "a"]
      (CodeGenerator.init "m")).named_values "a" =
      some { id := 1, allocatedType := getIntType, name := "a" } ∧
    (lowerMain LLVM.plain
      [some (.FunctionStmt (Token.identifier "f")
        [Token.identifier "a", Token.identifier "a"]
        [some (.ReturnStmt (Token.ofType .RETURN "return")
          (some (.VariableExpr (Token.identifier "a"))))])]
      (CodeGenerator.init "m")).module.instructionsOf 2 =
      [.Alloca 2 getIntType "a1", .Alloca 1 getIntType "a",
       .Store (some (.Argument 3 0 getIntType)) (.Instruction 1 (.pointer getIntType)),
       .Store (some (.Argument 3 1 getIntType)) (.Instruction 2 (.pointer getIntType)),
       .Load 3 getIntType (.Instruction 1 (.pointer getIntType)) "a",
       .Ret (.Instruction 3 getIntType),
       .Ret (.ConstantInt getIntType 0)] := by
  refine ⟨by decide!, by decide!, by decide!⟩

/-- C31 (`define`).  When the name is not defined in the scope itself, whatever its
parent chain defines, `Scope::define` returns true and the scope afterwards holds the
previous symbols followed by the new symbol, with the kind and the type given: the name
resolves locally to it, every other name resolves locally as before, and the parent is
the same.  When the name is defined in the scope, `define` returns false and the scope is
unchanged, the existing symbol with it.  `SymbolTable::define` is `Scope::define` on the
current scope. -/
theorem define_contract (sc : Scope) (name : String) (kind : SymbolKind)
    (type : Option Nat) :
    (sc.resolveLocal name = none →
      (sc.define name kind type).1 = true ∧
      (sc.define name kind type).2.symbols =
        sc.symbols ++ [(name, { name := name, kind := kind, type := type })] ∧
      (sc.define name kind type).2.resolveLocal name =
        some { name := name, kind := kind, type := type } ∧
      (∀ other, other ≠ name →
        (sc.define name kind type).2.resolveLocal other = sc.resolveLocal other) ∧
      (sc.define name kind type).2.getParent = sc.getParent) ∧
    (∀ sym, sc.resolveLocal name = some sym →
      (sc.define name kind type).1 = false ∧
      (sc.define name kind type).2 = sc ∧
      (sc.define name kind type).2.resolveLocal name = some sym) ∧
    (∀ t : SymbolTable,
      (t.define name kind type).1 = (t.current_scope.define name kind type).1 ∧
      (t.define name kind type).2.current_scope =
        (t.current_scope.define name kind type).2) := by
  refine ⟨?_, ?_, fun t => ⟨rfl, rfl⟩⟩
  · intro h
    unfold Scope.resolveLocal at h
    have e : sc.define name kind type =
        (true, .mk (sc.symbols ++ [(name, { name := name, kind := kind, type := type })])
          sc.getParent) := by
      unfold Scope.define
      simp only [h]
    rw [e]
    refine ⟨rfl, rfl, ?_, ?_, rfl⟩
    · exact lookup_append_self _ _ _ h
    · intro other ho
      exact lookup_append_other _ _ _ _ ho
  · intro sym h
    have e : sc.define name kind type = (false, sc) := by
      unfold Scope.resolveLocal at h
      unfold Scope.define
      simp only [h]
    rw [e]
    exact ⟨rfl, rfl, h⟩

/-- C31, instances: `x` is defined in the parent scope only, so `define` in the inner
scope returns true and the inner scope then holds the new symbol; a second `define` of
`x` there returns false and keeps the variable. -/
theorem define_contract_witness :
    ((Scope.mk [] (some (.mk [("x", { name := "x", kind := .FUNCTION })] none))).define "x"
      .VARIABLE none).1 = true ∧
    ((Scope.mk [("x", { name := "x", kind := .VARIABLE })] none).define "x"
      .PARAMETER (some 1)).2 = Scope.mk [("x", { name := "x", kind := .VARIABLE })] none :=
  ⟨((define_contract (Scope.mk [] (some (.mk [("x", { name := "x", kind := .FUNCTION })] none)))
      "x" .VARIABLE none).1 rfl).1,
    ((define_contract (Scope.mk [("x", { name := "x", kind := .VARIABLE })] none)
      "x" .PARAMETER (some 1)).2.1 { name := "x", kind := .VARIABLE } rfl).2.1⟩

/-- C32 (`resolve` and the scope stack).  `SymbolTable::resolve` returns the first
symbol that `resolveLocal` finds on the chain of scopes from the current scope to the
global scope, innermost first, and null exactly when no scope of the chain defines the
name.  Entering a scope, defining a name in it and leaving it gives the table back:
every name resolves as before.  `exitScope` at the global scope leaves the table
unchanged. -/
theorem resolve_walks_outward (t : SymbolTable) (name x : String) (kind : SymbolKind)
    (type : Option Nat) :
    t.resolve name = t.current_scope.chain.findSome? (fun s => s.resolveLocal name) ∧
    (t.resolve name = none ↔ ∀ s ∈ t.current_scope.chain, s.resolveLocal name = none) ∧
    (t.enterScope.define x kind type).2.exitScope = t ∧
    (t.enterScope.define x kind type).2.exitScope.resolve name = t.resolve name ∧
    ((t.enterScope.define x kind type).2.resolve x =
      some { name := x, kind := kind, type := type }) ∧
    (t.current_scope.getParent = none → t.exitScope = t) := by
  have h1 : t.resolve name =
      t.current_scope.chain.findSome? (fun s => s.resolveLocal name) :=
    Scope.resolve_chain _ _
  refine ⟨h1, ?_, SymbolTable.enter_define_exit t x kind type, ?_, ?_, ?_⟩
  · rw [h1, List.findSome?_eq_none_iff]
  · rw [SymbolTable.enter_define_exit]
  · unfold SymbolTable.resolve SymbolTable.define SymbolTable.enterScope Scope.define
    simp [Scope.symbols, Scope.getParent, List.lookup, Scope.resolve]
  · intro h
    unfold SymbolTable.exitScope
    simp only [h]

/-- C32, an instance: the global scope defines `x` as a function; inside an entered scope
that defines `x` as a variable `x` resolves to the variable, after `exitScope` to the
function again, and a further `exitScope` changes nothing. -/
theorem resolve_walks_outward_witness :
    (({ current_scope := .mk [("x", { name := "x", kind := .FUNCTION })] none } :
      SymbolTable).enterScope.define "x" .VARIABLE none).2.resolve "x" =
      some { name := "x", kind := .VARIABLE } ∧
    (({ current_scope := .mk [("x", { name := "x", kind := .FUNCTION })] none } :
      SymbolTable).enterScope.define "x" .VARIABLE none).2.exitScope.resolve "x" =
      some { name := "x", kind := .FUNCTION } ∧
    ({ current_scope := .mk [("x", { name := "x", kind := .FUNCTION })] none } :
      SymbolTable).exitScope =
      { current_scope := .mk [("x", { name := "x", kind := .FUNCTION })] none } :=
  ⟨(resolve_walks_outward
      { current_scope := .mk [("x", { name := "x", kind := .FUNCTION })] none }
      "x" "x" .VARIABLE none).2.2.2.2.1,
    (resolve_walks_outward
      { current_scope := .mk [("x", { name := "x", kind := .FUNCTION })] none }
      "x" "x" .VARIABLE none).2.2.2.1,
    (resolve_walks_outward
      { current_scope := .mk [("x", { name := "x", kind := .FUNCTION })] none }
      "x" "x" .VARIABLE none).2.2.2.2.2 rfl⟩

/-- C39 at its failing input.  Let the token under the cursor of the prototype parser be
neither LET nor END_OF_FILE.  Then an iteration of the loop of `Parser::parse` neither
moves the cursor nor changes `result`: the loop continues in the very state it was in,
and for every bound on the number of iterations the bound is reached without a return
and without an exception.  This is so in particular from the start, for every token
list whose first token is not LET and not END_OF_FILE. -/
theorem prototype_parse_without_let (p : prototype.Parser)
    (hlet : p.peek.type ≠ .LET) (hend : p.peek.type ≠ .END_OF_FILE) :
    (∀ (fuel : Nat) (result : Option prototype.Expr),
      prototype.Parser.parseLoop (fuel + 1) result p =
        prototype.Parser.parseLoop fuel result p) ∧
    (∀ (fuel : Nat) (result : Option prototype.Expr),
      prototype.Parser.parseLoop fuel result p = .outOfFuel) ∧
    (p.current = 0 → ∀ fuel : Nat,
      prototype.Parser.parse fuel { tokens := p.tokens } = .outOfFuel) := by
  have h1 : ∀ (fuel : Nat) (result : Option prototype.Expr),
      prototype.Parser.parseLoop (fuel + 1) result p =
        prototype.Parser.parseLoop fuel result p := by
    intro fuel result
    rw [prototype.Parser.parseLoop]
    simp [prototype.Parser.isAtEnd, prototype.Parser.matchOne, hlet, hend]
  have h2 : ∀ (fuel : Nat) (result : Option prototype.Expr),
      prototype.Parser.parseLoop fuel result p = .outOfFuel := by
    intro fuel result
    induction fuel with
    | zero => rfl
    | succ n ih => rw [h1, ih]
  refine ⟨h1, h2, ?_⟩
  intro h0 fuel
  have e : ({ tokens := p.tokens } : prototype.Parser) = p := by
    cases p
    simp only at h0
    subst h0
    rfl
  unfold prototype.Parser.parse
  rw [e]
  exact h2 fuel none

/-- C39, an instance: on the token list `1` END_OF_FILE the loop never ends, whereas on
`let x = 1 ;` END_OF_FILE it returns the number after six iterations at most. -/
theorem prototype_parse_without_let_witness :
    (∀ fuel : Nat,
      prototype.Parser.parse fuel
        { tokens := [{ type := .NUMBER, text := "1" }, { type := .END_OF_FILE, text := "" }] }
        = .outOfFuel) ∧
    prototype.Parser.parse 6
      { tokens := [{ type := .LET, text := "let" }, { type := .IDENTIFIER, text := "x" },
          { type := .EQUALS, text := "=" }, { type := .NUMBER, text := "1" },
          { type := .SEMICOLON, text := ";" }, { type := .END_OF_FILE, text := "" }] } =
      .ok (some (.NumberExpr 1))
        { tokens := [{ type := .LET, text := "let" }, { type := .IDENTIFIER, text := "x" },
            { type := .EQUALS, text := "=" }, { type := .NUMBER, text := "1" },
            { type := .SEMICOLON, text := ";" }, { type := .END_OF_FILE, text := "" }],
          current := 5 } :=
  ⟨(prototype_parse_without_let
      { tokens := [{ type := .NUMBER, text := "1" }, { type := .END_OF_FILE, text := "" }] }
      (by decide) (by decide)).2.2 rfl,
    by decide⟩

/-- C33 at its failing input.  A function declaration lowered while the block `b` is
current leaves the insertion point in a block created by the declaration, a block of the
declared function: it is not set back to `b`, and whatever is lowered next is appended
there.  For the program `function f() {} print("x");` lowered by `generate`, `main`
is function 2 and `f` function 3: the only block of `main`, block 1, stays empty, without
a return, and the block 2 of `f` holds the default return of `f`, then the call of the
top-level statement, then the `return 0` that `generate` means for `main`. -/
theorem insertion_point_after_function (L : LLVM) (name : Token) (params : List Token)
    (body : List (Option Stmt)) (g : CodeGenerator) (b : Nat)
    (hb : g.insertBlock = some b) (hlt : b < g.module.blocks.length) :
    (∃ t, ((Stmt.FunctionStmt name params body).accept L g).insertBlock = some t ∧
      t ≠ b ∧ g.module.blocks.length ≤ t ∧
      t < ((Stmt.FunctionStmt name params body).accept L g).module.blocks.length) ∧
    ((Stmt.FunctionStmt name params body).accept L g).insertBlock ≠ g.insertBlock ∧
    (generate LLVM.plain
      [some (.FunctionStmt (Token.identifier "f") [] []),
       some (.ExpressionStmt (.CallExpr (.VariableExpr (Token.identifier "print"))
        (Token.ofType .RIGHT_PAREN ")") [.LiteralExpr (.string "x")]))]
      (CodeGenerator.init "m")).module.blocksOf 2 = [1] ∧
    (generate LLVM.plain
      [some (.FunctionStmt (Token.identifier "f") [] []),
       some (.ExpressionStmt (.CallExpr (.VariableExpr (Token.identifier "print"))
        (Token.ofType .RIGHT_PAREN ")") [.LiteralExpr (.string "x")]))]
      (CodeGenerator.init "m")).module.instructionsOf 1 = [] ∧
    (generate LLVM.plain
      [some (.FunctionStmt (Token.identifier "f") [] []),
       some (.ExpressionStmt (.CallExpr (.VariableExpr (Token.identifier "print"))
        (Token.ofType .RIGHT_PAREN ")") [.LiteralExpr (.string "x")]))]
      (CodeGenerator.init "m")).module.blocksOf 3 = [2] ∧
    (generate LLVM.plain
      [some (.FunctionStmt (Token.identifier "f") [] []),
       some (.ExpressionStmt (.CallExpr (.VariableExpr (Token.identifier "print"))
        (Token.ofType .RIGHT_PAREN ")") [.LiteralExpr (.string "x")]))]
      (CodeGenerator.init "m")).module.instructionsOf 2 =
      [.Ret (.ConstantInt getIntType 0),
       .Op 1 .InBoundsGEP
        [.GlobalVariable 0 (.pointer (.array 2 (.integer 8))), .ConstantInt getIntType 0,
          .ConstantInt getIntType 0] (.pointer (.integer 8)) "str_ptr",
       .Call 2 (some 1) [some (.Instruction 1 (.pointer (.integer 8)))] .void "call",
       .Ret (.ConstantInt getIntType 0)] := by
  obtain ⟨t, h1, h2, h3⟩ := functionStmt_insertBlock L name params body g
  refine ⟨⟨t, h1, by omega, h2, h3⟩, ?_, by decide!, by decide!, by decide!, by decide!⟩
  rw [h1, hb]
  intro h
  have := Option.some.inj h
  omega

/-- C33, an instance: `function f() {}` lowered at the start of `main`, where block 1
is current, leaves block 2, the entry block of `f`, current. -/
theorem insertion_point_after_function_witness :
    ∃ t, ((Stmt.FunctionStmt (Token.identifier "f") [] []).accept LLVM.plain
        (mainStart (CodeGenerator.init "m"))).insertBlock = some t ∧
      t ≠ 1 ∧ (mainStart (CodeGenerator.init "m")).module.blocks.length ≤ t ∧
      t < ((Stmt.FunctionStmt (Token.identifier "f") [] []).accept LLVM.plain
        (mainStart (CodeGenerator.init "m"))).module.blocks.length :=
  (insertion_point_after_function LLVM.plain (Token.identifier "f") [] []
    (mainStart (CodeGenerator.init "m")) 1 (by decide) (by decide)).1

/-- C38 at its failing inputs.  An assignment to a bound name whose right-hand side
lowers to the null sentinel builds the store with the null sentinel as the value stored,
and pushes null.  A call to a known function whose argument lowers to the null sentinel
builds the call with the null sentinel among the arguments.  Only the declaration tests
the value of the initializer before it builds the store.  For `var x = 1; x = y;`, where
`y` is unknown, the block of `main` holds the store of null into the slot of `x`; for
`print(y);` it holds the call of `print` with the null argument; for `var x = y;` it
holds the slot and no store. -/
theorem null_operand_reaches_builder (L : LLVM) (name : Token) (value : Expr)
    (g : CodeGenerator) (slot : AllocaInst) (b : Nat)
    (hn : (popValue (value.accept L g)).1 = none)
    (hs : mapFind (popValue (value.accept L g)).2.named_values name.lexeme = some slot)
    (hb : (popValue (value.accept L g)).2.insertBlock = some b)
    (hlt : b < (popValue (value.accept L g)).2.module.blocks.length) :
    (Expr.AssignExpr name value).accept L g =
      pushValue none ((popValue (value.accept L g)).2.CreateStore none slot.value) ∧
    ((Expr.AssignExpr name value).accept L g).module.instructionsOf b =
      (popValue (value.accept L g)).2.module.instructionsOf b ++
        [.Store none slot.value] ∧
    (∀ (callee paren : Token) (arguments : List Expr) (x : CodeGenerator) (f k : Nat)
      (hk : k < arguments.length),
      x.module.getFunction callee.lexeme = some f →
      (popValue ((arguments.get ⟨k, hk⟩).accept L
        ((arguments.take k).foldl (argumentStep L) x))).1 = none →
      ∃ args : List (Option Value),
        args[k]? = some none ∧
        (Expr.CallExpr (.VariableExpr callee) paren arguments).accept L x =
          pushValue
            (some (.Instruction (acceptArguments L arguments [] x).2.module.nextValue
              ((acceptArguments L arguments [] x).2.module.returnTypeOf (some f))))
            ((acceptArguments L arguments [] x).2.takeValue.Insert
              (.Call (acceptArguments L arguments [] x).2.module.nextValue (some f) args
                ((acceptArguments L arguments [] x).2.module.returnTypeOf (some f))
                "call"))) ∧
    (generate LLVM.plain
      [some (.VarDeclStmt (Token.identifier "x") (some (.LiteralExpr (.int 1))) false),
       some (.ExpressionStmt (.AssignExpr (Token.identifier "x")
        (.VariableExpr (Token.identifier "y"))))]
      (CodeGenerator.init "m")).module.instructionsOf 1 =
      [.Alloca 1 getIntType "x",
       .Store (some (.ConstantInt getIntType 1)) (.Instruction 1 (.pointer getIntType)),
       .Store none (.Instruction 1 (.pointer getIntType)),
       .Ret (.ConstantInt getIntType 0)] ∧
    (generate LLVM.plain
      [some (.ExpressionStmt (.CallExpr (.VariableExpr (Token.identifier "print"))
        (Token.ofType .RIGHT_PAREN ")") [.VariableExpr (Token.identifier "y")]))]
      (CodeGenerator.init "m")).module.instructionsOf 1 =
      [.Call 1 (some 1) [none] .void "call", .Ret (.ConstantInt getIntType 0)] ∧
    (generate LLVM.plain
      [some (.VarDeclStmt (Token.identifier "x")
        (some (.VariableExpr (Token.identifier "y"))) false)]
      (CodeGenerator.init "m")).module.instructionsOf 1 =
      [.Alloca 1 getIntType "x", .Ret (.ConstantInt getIntType 0)] := by
  have h1 : (Expr.AssignExpr name value).accept L g =
      pushValue none ((popValue (value.accept L g)).2.CreateStore none slot.value) := by
    rw [Expr.accept]
    unfold visitAssignExpr
    simp only [hs, hn]
  refine ⟨h1, ?_, ?_, by decide!, by decide!, by decide!⟩
  · rw [h1]
    show ((popValue (value.accept L g)).2.Insert
      (.Store none slot.value)).module.instructionsOf b = _
    unfold CodeGenerator.Insert
    rw [hb]
    exact instructionsOf_appendInstruction _ _ _ hlt
  · intro callee paren arguments x f k hk hf hnull
    refine ⟨(acceptArguments L arguments [] x).1, ?_,
      callExpr_of_function L callee paren arguments x f hf⟩
    rw [(acceptArguments_spec L arguments x).2.2 k hk, hnull]

/-- C38, an instance: `x = y` with `x` bound to slot 1 and `y` unknown, at the start of
`main`. -/
theorem null_operand_reaches_builder_witness :
    ((Expr.AssignExpr (Token.identifier "x") (.VariableExpr (Token.identifier "y"))).accept
      LLVM.plain
      { mainStart (CodeGenerator.init "m") with
        named_values := [("x", { id := 1, allocatedType := getIntType, name := "x" })]
      }).module.instructionsOf 1 =
      [.Store none (.Instruction 1 (.pointer getIntType))] :=
  (null_operand_reaches_builder LLVM.plain (Token.identifier "x")
    (.VariableExpr (Token.identifier "y"))
    { mainStart (CodeGenerator.init "m") with
      named_values := [("x", { id := 1, allocatedType := getIntType, name := "x" })] }
    { id := 1, allocatedType := getIntType, name := "x" } 1
    (by decide) (by decide) (by decide) (by decide)).2.1

/-- C34 (live-block re-reading).  Let the condition of
`if (condition) then_branch else else_branch` and the condition of
`while (wcondition) body` lower to non-null values.  Whatever the arms and the body
are, the branch that closes the then arm is appended to the block `t` that is current
when the then arm has been lowered, the branch that closes the else arm to the block `e`
current after the else arm, and the branch back to the condition block to the block `b`
current after the body; no other block receives anything at these three points.  An arm
or a body that is, or ends with, an if statement or a while statement whose condition
lowers to a value, or an expression statement of a logical expression whose operands
lower to integer values, leaves as current block the merge or exit block of that nested
construct, which is a block created by the construct and so is not the then, else or
body block created before. -/
theorem live_block_rereading (L : LLVM) (condition wcondition : Expr) (then_branch : Stmt)
    (else_branch : Option Stmt) (body : Stmt) (g : CodeGenerator) (c0 w0 : Value)
    (hc : (popValue (condition.accept L g)).1 = some c0)
    (hw : (popValue (wcondition.accept L (whileStart g).state)).1 = some w0) :
    (∃ (st : IfStart) (thenEnd elseEnd : CodeGenerator) (t e : Nat),
      st = ifStart L c0 (popValue (condition.accept L g)).2 ∧
      thenEnd = then_branch.accept L st.state ∧
      elseEnd = acceptIfPresent L else_branch (ifElseStart st thenEnd) ∧
      (Stmt.IfStmt condition then_branch else_branch).accept L g = ifEnd st elseEnd ∧
      thenEnd.insertBlock = some t ∧
      (t = st.then_bb ∨ st.state.module.blocks.length ≤ t) ∧
      (ifElseStart st thenEnd).module.instructionsOf t =
        thenEnd.module.instructionsOf t ++ [.Br st.merge_bb] ∧
      (∀ c, c ≠ t → (ifElseStart st thenEnd).module.instructionsOf c =
        thenEnd.module.instructionsOf c) ∧
      elseEnd.insertBlock = some e ∧
      (e = st.else_bb ∨ thenEnd.module.blocks.length ≤ e) ∧
      (ifEnd st elseEnd).module.instructionsOf e =
        elseEnd.module.instructionsOf e ++ [.Br st.merge_bb] ∧
      (∀ c, c ≠ e → (ifEnd st elseEnd).module.instructionsOf c =
        elseEnd.module.instructionsOf c)) ∧
    (∃ (ws : WhileStart) (bodyStart bodyEnd : CodeGenerator) (b : Nat),
      ws = whileStart g ∧
      bodyStart =
        (whileBodyStart L ws w0 (popValue (wcondition.accept L ws.state)).2).2 ∧
      bodyEnd = body.accept L bodyStart ∧
      (Stmt.WhileStmt wcondition body).accept L g = whileEnd ws bodyEnd ∧
      bodyEnd.insertBlock = some b ∧
      (b = ws.body_bb ∨ bodyStart.module.blocks.length ≤ b) ∧
      (whileEnd ws bodyEnd).module.instructionsOf b =
        bodyEnd.module.instructionsOf b ++ [.Br ws.cond_bb] ∧
      (∀ c, c ≠ b → (whileEnd ws bodyEnd).module.instructionsOf c =
        bodyEnd.module.instructionsOf c)) ∧
    (∀ (x : CodeGenerator) (c : Expr) (a : Stmt) (a1 : Option Stmt) (v : Value),
      (popValue (c.accept L x)).1 = some v →
      ∃ m, ((Stmt.IfStmt c a a1).accept L x).insertBlock = some m ∧
        x.module.blocks.length ≤ m) ∧
    (∀ (x : CodeGenerator) (c : Expr) (a : Stmt) (v : Value),
      (popValue (c.accept L (whileStart x).state)).1 = some v →
      ((Stmt.WhileStmt c a).accept L x).insertBlock = some (x.module.blocks.length + 2)) ∧
    (∀ (x : CodeGenerator) (left right : Expr) (op : Token) (l r : Value),
      (op.type = .AND ∨ op.type = .OR) →
      (logicalLeft (left.accept L) x).left = some l → l.getType.isIntegerTy = true →
      (popValue (right.accept L (logicalBranch L op (x.module.blocks.length)
        (x.module.blocks.length + 1) l (logicalLeft (left.accept L) x).state))).1 = some r →
      r.getType.isIntegerTy = true →
      ((Stmt.ExpressionStmt (.BinaryExpr left op right)).accept L x).insertBlock =
        some (x.module.blocks.length + 1)) := by
  refine ⟨?_, ?_, ?_, ?_, ?_⟩
  · -- the if statement
    have hs : Frame g (popValue (condition.accept L g)).2 :=
      (Expr.accept_frame L condition g).popValue
    obtain ⟨b1, b2, b3, b4, b5, _⟩ := ifStart_blocks L c0 (popValue (condition.accept L g)).2
    have ht := Stmt.accept_sframe L then_branch
      (ifStart L c0 (popValue (condition.accept L g)).2).state
    obtain ⟨t, htb, htlt⟩ := ht.validInsert ⟨_, b5, by rw [b4]; omega⟩
    have htc := ht.insertBlock_cases _ t b5 htb
    obtain ⟨c1, c2⟩ := ifElseStart_blocks (ifStart L c0 (popValue (condition.accept L g)).2)
      (then_branch.accept L (ifStart L c0 (popValue (condition.accept L g)).2).state)
    have he := acceptIfPresent_sframe L else_branch
      (ifElseStart (ifStart L c0 (popValue (condition.accept L g)).2)
        (then_branch.accept L (ifStart L c0 (popValue (condition.accept L g)).2).state))
    have hlen1 := ht.1
    obtain ⟨e, heb, helt⟩ := he.validInsert ⟨_, c2, by rw [c1, b2]; omega⟩
    have hec := he.insertBlock_cases _ e c2 heb
    obtain ⟨k1, k2⟩ := closeBlock_append
      (then_branch.accept L (ifStart L c0 (popValue (condition.accept L g)).2).state)
      (ifStart L c0 (popValue (condition.accept L g)).2).merge_bb
      (ifStart L c0 (popValue (condition.accept L g)).2).function
      (ifStart L c0 (popValue (condition.accept L g)).2).else_bb
      (ifStart L c0 (popValue (condition.accept L g)).2).else_bb t htb htlt
    obtain ⟨q1, q2⟩ := closeBlock_append
      (acceptIfPresent L else_branch
        (ifElseStart (ifStart L c0 (popValue (condition.accept L g)).2)
          (then_branch.accept L (ifStart L c0 (popValue (condition.accept L g)).2).state)))
      (ifStart L c0 (popValue (condition.accept L g)).2).merge_bb
      (ifStart L c0 (popValue (condition.accept L g)).2).function
      (ifStart L c0 (popValue (condition.accept L g)).2).merge_bb
      (ifStart L c0 (popValue (condition.accept L g)).2).merge_bb e heb helt
    refine ⟨_, _, _, t, e, rfl, rfl, rfl, ?_, htb, ?_, k1, k2, heb, ?_, q1, q2⟩
    · rw [Stmt.accept]
      exact visitIfStmt_of_condition L _ _ _ g c0 hc
    · rw [b1]
      exact htc
    · rw [← c1]
      exact hec
  · -- the while statement
    obtain ⟨b1, b2, b3, b4, b5⟩ := whileStart_blocks g
    have hcf : SFrame (whileStart g).state
        (popValue (wcondition.accept L (whileStart g).state)).2 :=
      SFrame.of_frame (Expr.accept_frame L wcondition _).popValue
    obtain ⟨w1, w2, _⟩ := whileBodyStart_blocks L (whileStart g) w0
      (popValue (wcondition.accept L (whileStart g).state)).2
    have hlenc := hcf.1
    have hb := Stmt.accept_sframe L body (whileBodyStart L (whileStart g) w0
      (popValue (wcondition.accept L (whileStart g).state)).2).2
    obtain ⟨b, hbb, hblt⟩ := hb.validInsert ⟨_, w2, by rw [w1, b2]; omega⟩
    have hbc := hb.insertBlock_cases _ b w2 hbb
    obtain ⟨q1, q2⟩ := closeBlock_append
      (body.accept L (whileBodyStart L (whileStart g) w0
        (popValue (wcondition.accept L (whileStart g).state)).2).2)
      (whileStart g).cond_bb (whileStart g).function (whileStart g).exit_bb
      (whileStart g).exit_bb b hbb hblt
    refine ⟨_, _, _, b, rfl, rfl, rfl, ?_, hbb, hbc, q1, q2⟩
    rw [Stmt.accept]
    exact visitWhileStmt_of_condition L _ _ g w0 hw
  · intro x c a a1 v hcv
    obtain ⟨h1, h2⟩ := ifStmt_insertBlock L c a a1 x v hcv
    exact ⟨_, h1, by omega⟩
  · intro x c a v hcv
    exact whileStmt_insertBlock L c a x v hcv
  · intro x left right op l r hop hl hli hr hri
    rw [Stmt.accept]
    unfold visitExpressionStmt
    have hp : ∀ y : CodeGenerator, (popValue y).2.insertBlock = y.insertBlock := by
      intro y
      unfold popValue
      split <;> rfl
    rw [hp]
    exact logicalExpr_insertBlock L left right op x l r hop hl hli hr hri

/-- C34, an instance: `if (1) if (2) {}` lowered at the start of `main`.  The then block
of the outer statement is block 2; the nested statement, lowered from it, ends in its
merge block 7, and it is block 7 that receives the branch to the outer merge block 4,
while block 2 ends with the conditional branch of the nested statement. -/
theorem live_block_rereading_witness :
    (∃ m, ((Stmt.IfStmt (.LiteralExpr (.int 2)) (.BlockStmt []) none).accept LLVM.plain
        (ifStart LLVM.plain (.ConstantInt getIntType 1)
          (mainStart (CodeGenerator.init "m"))).state).insertBlock = some m ∧
      (ifStart LLVM.plain (.ConstantInt getIntType 1)
        (mainStart (CodeGenerator.init "m"))).state.module.blocks.length ≤ m) ∧
    (lowerMain LLVM.plain
      [some (.IfStmt (.LiteralExpr (.int 1))
        (.IfStmt (.LiteralExpr (.int 2)) (.BlockStmt []) none) none)]
      (CodeGenerator.init "m")).module.instructionsOf 7 = [.Br 4] ∧
    (lowerMain LLVM.plain
      [some (.IfStmt (.LiteralExpr (.int 1))
        (.IfStmt (.LiteralExpr (.int 2)) (.BlockStmt []) none) none)]
      (CodeGenerator.init "m")).module.instructionsOf 2 =
      [.Op 2 .ICmpNE [.ConstantInt getIntType 2, .ConstantInt getIntType 0] getBoolType
        "ifcond",
       .CondBr (.Instruction 2 getBoolType) 5 6] :=
  ⟨(live_block_rereading LLVM.plain (.LiteralExpr (.int 1)) (.LiteralExpr (.int 1))
      (.IfStmt (.LiteralExpr (.int 2)) (.BlockStmt []) none) none (.BlockStmt [])
      (mainStart (CodeGenerator.init "m")) (.ConstantInt getIntType 1)
      (.ConstantInt getIntType 1) (by decide) (by decide)).2.2.1
      (ifStart LLVM.plain (.ConstantInt getIntType 1)
        (mainStart (CodeGenerator.init "m"))).state
      (.LiteralExpr (.int 2)) (.BlockStmt []) none (.ConstantInt getIntType 2) (by decide),
    by decide!, by decide!⟩

/-- C36 (the parser terminates).  From every parser state, with a bound on the depth of
calls of twenty for each token from the cursor to the end of the vector and fourteen
more, `Parser::parse` returns a statement list: it ends at an END_OF_FILE token, on the
same tokens, and when the vector ends with an END_OF_FILE token and the cursor started
inside it the cursor never leaves it.  `Parser::declaration`, which is one iteration of
the loop of `parse`, of a block and of a function body, always returns: from a state
that is not at the end it returns with the cursor moved forward by one token at least.
It is the `try` block followed by the handler: a `ParseError` that leaves the `try`
block is replaced by a null statement in the state after `synchronize`, so that no
`ParseError` leaves `declaration`. -/
theorem parse_terminates (stod : String → Option Double) (p : Parser) (fuel : Nat)
    (hf : 20 * p.rest + 14 ≤ fuel) :
    (∃ statements q, parse stod fuel p = some (statements, q) ∧ q.isAtEnd = true ∧
      q.tokens = p.tokens ∧ (p.InBounds → q.InBounds)) ∧
    (∀ (x : Parser) (f : Nat), 20 * x.rest + 13 ≤ f →
      ∃ s q, declaration stod f x = .ok s q ∧ q.tokens = x.tokens ∧ q.rest ≤ x.rest ∧
        (x.isAtEnd = false → q.rest + 1 ≤ x.rest) ∧ (x.InBounds → q.InBounds)) ∧
    (∀ (x : Parser) (f : Nat),
      declaration stod (f + 1) x =
        match declarationTry stod f x with
        | .ok s p1 => .ok s p1
        | .thrown _ p1 => .ok none p1.synchronize
        | .outOfFuel => .outOfFuel) ∧
    (∀ (x : Parser) (f : Nat) (e : ParseError) (q : Parser),
      declaration stod f x ≠ .thrown e q) := by
  refine ⟨?_, ?_, fun x f => declaration_eq stod f x, ?_⟩
  · obtain ⟨ss, q, h1, h2, h3⟩ := parseLoop_terminates stod p.rest fuel [] p
      (Nat.le_refl _) hf
    exact ⟨ss, q, h1, h2, h3.1, h3.2.2⟩
  · intro x f hx
    have h := (statementsTerminate stod x.rest).declaration x f (Nat.le_refl _) hx
    cases ho : declaration stod f x with
    | ok s q =>
      rw [ho] at h
      exact ⟨s, q, rfl, h.1.1, by have := h.1.2.1; omega, h.2, h.1.2.2⟩
    | thrown e q =>
      rw [ho] at h
      exact absurd h (by simp [Outcome.Returns])
    | outOfFuel =>
      rw [ho] at h
      exact absurd h (by simp [Outcome.Returns])
  · intro x f e q
    cases f with
    | zero =>
      rw [declaration]
      exact fun h => Outcome.noConfusion h
    | succ f =>
      rw [declaration_eq]
      cases declarationTry stod f x <;> exact fun h => Outcome.noConfusion h

/-- C36, an instance: the tokens of `1 + ; 2 ;`.  The first statement throws at the
semicolon, the parser synchronizes after it, and `parse` returns the null entry followed
by the second statement. -/
theorem parse_terminates_witness :
    (∃ statements q,
      parse (fun _ => none) 134
        { tokens := [Token.ofType .INTEGER_LITERAL "1", Token.ofType .PLUS "+",
            Token.ofType .SEMICOLON ";", Token.ofType .INTEGER_LITERAL "2",
            Token.ofType .SEMICOLON ";", Token.ofType .END_OF_FILE ""] } =
        some (statements, q) ∧ q.isAtEnd = true ∧
      q.tokens = [Token.ofType .INTEGER_LITERAL "1", Token.ofType .PLUS "+",
        Token.ofType .SEMICOLON ";", Token.ofType .INTEGER_LITERAL "2",
        Token.ofType .SEMICOLON ";", Token.ofType .END_OF_FILE ""] ∧
      (({ tokens := [Token.ofType .INTEGER_LITERAL "1", Token.ofType .PLUS "+",
            Token.ofType .SEMICOLON ";", Token.ofType .INTEGER_LITERAL "2",
            Token.ofType .SEMICOLON ";", Token.ofType .END_OF_FILE ""] } :
          Parser).InBounds → q.InBounds)) ∧
    (parse (fun _ => none) 134
      { tokens := [Token.ofType .INTEGER_LITERAL "1", Token.ofType .PLUS "+",
          Token.ofType .SEMICOLON ";", Token.ofType .INTEGER_LITERAL "2",
          Token.ofType .SEMICOLON ";", Token.ofType .END_OF_FILE ""] }).map
      (fun r => (r.1, r.2.current)) =
      some ([none, some (.ExpressionStmt (.LiteralExpr (.int 2)))], 5) :=
  ⟨(parse_terminates (fun _ => none)
      { tokens := [Token.ofType .INTEGER_LITERAL "1", Token.ofType .PLUS "+",
          Token.ofType .SEMICOLON ";", Token.ofType .INTEGER_LITERAL "2",
          Token.ofType .SEMICOLON ";", Token.ofType .END_OF_FILE ""] } 134
      (by decide)).1,
    by rfl⟩

/-- C35 (precedence and associativity).  The methods of the parser form a ladder: each
parses its operands with the next one, in the order assignment, `||`, `&&`, equality,
comparison, term, factor, unary, call, so that an operator binds tighter the further
down its method is.  The six binary levels are the operand followed by the loop over
the operators of the level, and every run of that loop folds the operands met to the
left.  An assignment parses its right-hand side with `assignment` itself, so that it
nests to the right.  A unary operator applies to a unary expression, and otherwise
`unary` is `call`.  The instances: `a - b - c` is `(a - b) - c`, `a + b * c` is
`a + (b * c)`, `a * b + c` is `(a * b) + c`, `a = b = c` is `a = (b = c)`, and for each
pair of neighbouring levels the operator of the lower level is the operand of the
other. -/
theorem precedence_and_associativity (stod : String → Option Double) :
    (∀ f p, expression stod (f + 1) p = assignment stod f p) ∧
    (∀ f p name p1 value p2, logicalOr stod f p = .ok (.VariableExpr name) p1 →
      (p1.matchOne .EQUAL).1 = true →
      assignment stod f (p1.matchOne .EQUAL).2 = .ok value p2 →
      assignment stod (f + 1) p = .ok (.AssignExpr name value) p2) ∧
    (∀ f p expr p1, logicalOr stod f p = .ok expr p1 → (p1.matchOne .EQUAL).1 = false →
      assignment stod (f + 1) p = .ok expr p1) ∧
    (∀ f p, logicalOr stod (f + 1) p =
      (logicalAnd stod f p).bind (fun expr p1 =>
        binaryLoop [.OR] (fun q => logicalAnd stod f q) f expr p1)) ∧
    (∀ f p, logicalAnd stod (f + 1) p =
      (equality stod f p).bind (fun expr p1 =>
        binaryLoop [.AND] (fun q => equality stod f q) f expr p1)) ∧
    (∀ f p, equality stod (f + 1) p =
      (comparison stod f p).bind (fun expr p1 =>
        binaryLoop [.BANG_EQUAL, .EQUAL_EQUAL] (fun q => comparison stod f q) f expr p1)) ∧
    (∀ f p, comparison stod (f + 1) p =
      (term stod f p).bind (fun expr p1 =>
        binaryLoop [.GREATER, .GREATER_EQUAL, .LESS, .LESS_EQUAL] (fun q => term stod f q) f
          expr p1)) ∧
    (∀ f p, term stod (f + 1) p =
      (factor stod f p).bind (fun expr p1 =>
        binaryLoop [.MINUS, .PLUS] (fun q => factor stod f q) f expr p1)) ∧
    (∀ f p, factor stod (f + 1) p =
      (unary stod f p).bind (fun expr p1 =>
        binaryLoop [.SLASH, .STAR, .PERCENT] (fun q => unary stod f q) f expr p1)) ∧
    (∀ f p, (p.matchAny [.BANG, .MINUS]).1 = true →
      unary stod (f + 1) p =
        (unary stod f (p.matchAny [.BANG, .MINUS]).2).map (fun right =>
          .UnaryExpr (p.matchAny [.BANG, .MINUS]).2.previous right)) ∧
    (∀ f p, (p.matchAny [.BANG, .MINUS]).1 = false → unary stod (f + 1) p = call stod f p) ∧
    (∀ f p, call stod (f + 1) p =
      (primary stod f p).bind (fun expr p1 => callLoop stod f expr p1)) ∧
    (∀ (types : List TokenType) (operand : Parser → Outcome Expr)
      (steps : List (Token × Expr)) (fuel : Nat) (expr : Expr) (p q : Parser),
      LoopRun types operand p steps q → steps.length + 1 ≤ fuel →
      binaryLoop types operand fuel expr p =
        .ok (steps.foldl (fun acc step => .BinaryExpr acc step.1 step.2) expr) q) ∧
    expressionOf [Token.identifier "a", Token.ofType .MINUS "-", Token.identifier "b",
        Token.ofType .MINUS "-", Token.identifier "c"] =
      some (.BinaryExpr
        (.BinaryExpr (.variable "a") (Token.ofType .MINUS "-") (.variable "b"))
        (Token.ofType .MINUS "-") (.variable "c")) ∧
    expressionOf [Token.identifier "a", Token.ofType .PLUS "+", Token.identifier "b",
        Token.ofType .STAR "*", Token.identifier "c"] =
      some (.BinaryExpr (.variable "a") (Token.ofType .PLUS "+")
        (.BinaryExpr (.variable "b") (Token.ofType .STAR "*") (.variable "c"))) ∧
    expressionOf [Token.identifier "a", Token.ofType .STAR "*", Token.identifier "b",
        Token.ofType .PLUS "+", Token.identifier "c"] =
      some (.BinaryExpr
        (.BinaryExpr (.variable "a") (Token.ofType .STAR "*") (.variable "b"))
        (Token.ofType .PLUS "+") (.variable "c")) ∧
    expressionOf [Token.identifier "a", Token.ofType .EQUAL "=", Token.identifier "b",
        Token.ofType .EQUAL "=", Token.identifier "c"] =
      some (.AssignExpr (Token.identifier "a")
        (.AssignExpr (Token.identifier "b") (.variable "c"))) ∧
    expressionOf [Token.identifier "a", Token.ofType .EQUAL "=", Token.identifier "b",
        Token.ofType .OR "||", Token.identifier "c"] =
      some (.AssignExpr (Token.identifier "a")
        (.BinaryExpr (.variable "b") (Token.ofType .OR "||") (.variable "c"))) ∧
    expressionOf [Token.identifier "a", Token.ofType .OR "||", Token.identifier "b",
        Token.ofType .AND "&&", Token.identifier "c"] =
      some (.BinaryExpr (.variable "a") (Token.ofType .OR "||")
        (.BinaryExpr (.variable "b") (Token.ofType .AND "&&") (.variable "c"))) ∧
    expressionOf [Token.identifier "a", Token.ofType .AND "&&", Token.identifier "b",
        Token.ofType .EQUAL_EQUAL "==", Token.identifier "c"] =
      some (.BinaryExpr (.variable "a") (Token.ofType .AND "&&")
        (.BinaryExpr (.variable "b") (Token.ofType .EQUAL_EQUAL "==") (.variable "c"))) ∧
    expressionOf [Token.identifier "a", Token.ofType .BANG_EQUAL "!=", Token.identifier "b",
        Token.ofType .LESS "<", Token.identifier "c"] =
      some (.BinaryExpr (.variable "a") (Token.ofType .BANG_EQUAL "!=")
        (.BinaryExpr (.variable "b") (Token.ofType .LESS "<") (.variable "c"))) ∧
    expressionOf [Token.identifier "a", Token.ofType .GREATER_EQUAL ">=",
        Token.identifier "b", Token.ofType .PLUS "+", Token.identifier "c"] =
      some (.BinaryExpr (.variable "a") (Token.ofType .GREATER_EQUAL ">=")
        (.BinaryExpr (.variable "b") (Token.ofType .PLUS "+") (.variable "c"))) ∧
    expressionOf [Token.identifier "a", Token.ofType .PERCENT "%", Token.ofType .MINUS "-",
        Token.identifier "b"] =
      some (.BinaryExpr (.variable "a") (Token.ofType .PERCENT "%")
        (.UnaryExpr (Token.ofType .MINUS "-") (.variable "b"))) ∧
    expressionOf [Token.ofType .BANG "!", Token.identifier "a",
        Token.ofType .LEFT_PAREN "(", Token.ofType .RIGHT_PAREN ")"] =
      some (.UnaryExpr (Token.ofType .BANG "!")
        (.CallExpr (.variable "a") (Token.ofType .RIGHT_PAREN ")") [])) := by
  refine ⟨fun f p => by rw [expression], ?_, ?_, fun f p => by rw [logicalOr],
    fun f p => by rw [logicalAnd], fun f p => by rw [equality],
    fun f p => by rw [comparison], fun f p => by rw [term], fun f p => by rw [factor],
    ?_, ?_, fun f p => by rw [call], binaryLoop_run,
    rfl, rfl, rfl, rfl, rfl, rfl, rfl, rfl, rfl, rfl, rfl⟩
  · intro f p name p1 value p2 h1 h2 h3
    rw [assignment]
    simp only [h1, Outcome.bind, h2, if_true, h3]
  · intro f p expr p1 h1 h2
    rw [assignment]
    simp only [h1, Outcome.bind, h2, Bool.false_eq_true, if_false]
  · intro f p h
    rw [unary]
    simp only [h, if_true]
  · intro f p h
    rw [unary]
    simp only [h, Bool.false_eq_true, if_false]

/-- C35, an instance of the fold: the loop of `term` started after `a` on the tokens of
`a - b + c` runs over `- b` and `+ c` and returns `(a - b) + c`. -/
theorem precedence_and_associativity_witness :
    binaryLoop [.MINUS, .PLUS] (fun q => factor (fun _ => none) 10 q) 3 (.variable "a")
      { tokens := [Token.identifier "a", Token.ofType .MINUS "-", Token.identifier "b",
          Token.ofType .PLUS "+", Token.identifier "c", Token.ofType .END_OF_FILE ""],
        current := 1 } =
      .ok
        ([(Token.ofType .MINUS "-", Expr.variable "b"),
          (Token.ofType .PLUS "+", Expr.variable "c")].foldl
            (fun acc step => .BinaryExpr acc step.1 step.2) (.variable "a"))
        { tokens := [Token.identifier "a", Token.ofType .MINUS "-", Token.identifier "b",
            Token.ofType .PLUS "+", Token.identifier "c", Token.ofType .END_OF_FILE ""],
          current := 5 } :=
  (precedence_and_associativity (fun _ => none)).2.2.2.2.2.2.2.2.2.2.2.2.1
    [.MINUS, .PLUS] (fun q => factor (fun _ => none) 10 q)
    [(Token.ofType .MINUS "-", Expr.variable "b"), (Token.ofType .PLUS "+", Expr.variable "c")]
    3 (.variable "a") _ _
    ⟨rfl, rfl, _, rfl, rfl, rfl, _, rfl, rfl, rfl⟩ (by decide)

/-- C37, amended.  Let the statements hold no return statement and no function
declaration, at any depth, and let their lowering report no diagnostic.  After `generate`,
in the function `main` that `generate` created: every block of the block list ends with
exactly one terminator, as its last instruction; every target of every instruction of
these blocks is a block of the list; the block that is current when the statements have been
lowered, which is the insertion block after `generate`, is a block of the list and ends
with the return of the integer constant 0; and the structural check of the function
passes. -/
theorem main_blocks_terminated (L : LLVM) (statements : List (Option Stmt))
    (g : CodeGenerator) (hplain : plainStatements statements = true)
    (hd : (lowerMain L statements g).diagnostics.diagnostics = g.diagnostics.diagnostics) :
    (g.module.createFunction getIntType [] false "main").1 = g.module.functions.length ∧
    (∀ c ∈ (generate L statements g).module.blocksOf g.module.functions.length,
      ∃ blk, (generate L statements g).module.blocks[c]? = some blk ∧
        blk.oneTerminatorLast = true) ∧
    (∀ c ∈ (generate L statements g).module.blocksOf g.module.functions.length,
      ∀ i ∈ (generate L statements g).module.instructionsOf c, ∀ d ∈ i.successors,
        d ∈ (generate L statements g).module.blocksOf g.module.functions.length) ∧
    (∃ e, (acceptStatements L statements (mainStart g)).insertBlock = some e ∧
      (generate L statements g).insertBlock = some e ∧
      e ∈ (generate L statements g).module.blocksOf g.module.functions.length ∧
      ((generate L statements g).module.instructionsOf e).getLast? =
        some (.Ret (.ConstantInt getIntType 0))) ∧
    verifyFunctionStructure (generate L statements g).module g.module.functions.length =
      false := by
  obtain ⟨e, he, hl, _, hi, hB⟩ := lowerMain_building L statements g hplain hd
  rw [module_generate]
  have h1 : ∀ c ∈ (lowerMain L statements g).module.blocksOf g.module.functions.length,
      ∃ blk, (lowerMain L statements g).module.blocks[c]? = some blk ∧
        blk.oneTerminatorLast = true := by
    intro c hc
    have hlt := (hB.inList c hc).1
    have hcl := hB.closed c hc (List.not_mem_nil _)
    refine ⟨_, List.getElem?_eq_getElem hlt, ?_⟩
    unfold IRModule.instructionsOf at hcl
    rw [List.getElem?_eq_getElem hlt] at hcl
    exact closed_oneTerminatorLast hcl
  refine ⟨rfl, h1, ?_, ⟨e, he, ?_, hl, ?_⟩, ?_⟩
  · intro c hc i hi1 d hd1
    rcases closed_targets (hB.closed c hc (List.not_mem_nil _)) i hi1 d hd1 with h | h
    · exact h
    · exact absurd h (List.not_mem_nil _)
  · have e1 : (generate L statements g).insertBlock =
        (lowerMain L statements g).insertBlock := by
      unfold generate
      simp only []
      split <;> rfl
    rw [e1, lowerMain_eq]
    unfold CodeGenerator.CreateRet
    rw [insertBlock_Insert]
    exact he
  · rw [hi]
    simp
  · unfold verifyFunctionStructure
    rw [Bool.not_eq_false', List.all_eq_true]
    intro c hc
    obtain ⟨blk, e1, e2⟩ := h1 c hc
    rw [e1]
    exact e2

/-- C37, an instance: `while (1) if (2) {}`.  After `generate` the insertion block is the
exit block of the loop, block 4, which ends with `return 0`, and the six blocks of `main`
pass the structural check. -/
theorem main_blocks_terminated_witness :
    (∃ e, (acceptStatements LLVM.plain
        [some (.WhileStmt (.LiteralExpr (.int 1))
          (.IfStmt (.LiteralExpr (.int 2)) (.BlockStmt []) none))]
        (mainStart (CodeGenerator.init "m"))).insertBlock = some e ∧
      (generate LLVM.plain
        [some (.WhileStmt (.LiteralExpr (.int 1))
          (.IfStmt (.LiteralExpr (.int 2)) (.BlockStmt []) none))]
        (CodeGenerator.init "m")).insertBlock = some e ∧
      e ∈ (generate LLVM.plain
        [some (.WhileStmt (.LiteralExpr (.int 1))
          (.IfStmt (.LiteralExpr (.int 2)) (.BlockStmt []) none))]
        (CodeGenerator.init "m")).module.blocksOf
          (CodeGenerator.init "m").module.functions.length ∧
      ((generate LLVM.plain
        [some (.WhileStmt (.LiteralExpr (.int 1))
          (.IfStmt (.LiteralExpr (.int 2)) (.BlockStmt []) none))]
        (CodeGenerator.init "m")).module.instructionsOf e).getLast? =
        some (.Ret (.ConstantInt getIntType 0))) ∧
    verifyFunctionStructure (generate LLVM.plain
        [some (.WhileStmt (.LiteralExpr (.int 1))
          (.IfStmt (.LiteralExpr (.int 2)) (.BlockStmt []) none))]
        (CodeGenerator.init "m")).module (CodeGenerator.init "m").module.functions.length =
      false :=
  (main_blocks_terminated LLVM.plain
    [some (.WhileStmt (.LiteralExpr (.int 1))
      (.IfStmt (.LiteralExpr (.int 2)) (.BlockStmt []) none))]
    (CodeGenerator.init "m") (by decide) (by decide)).2.2.2

/-- C37 as stated, refuted on its last part.  The program `true && false || true;` holds
no return statement and no function declaration, and its lowering reports no diagnostic.
The blocks of a logical expression are created before its left operand is lowered, so
the blocks of the inner expression follow those of the outer one in the block list of
`main`, which is 1, 2, 3, 4, 5.  The last block of the list, block 5, is the merge block
of the inner expression and ends with the conditional branch of the outer one; the
`return 0` is in block 3, the merge block of the outer expression, where lowering
ended. -/
theorem return_not_in_last_block :
    plainStatements
      [some (.ExpressionStmt (.BinaryExpr
        (.BinaryExpr (.LiteralExpr (.bool true)) (Token.ofType .AND "&&")
          (.LiteralExpr (.bool false)))
        (Token.ofType .OR "||") (.LiteralExpr (.bool true))))] = true ∧
    (generate LLVM.structural
      [some (.ExpressionStmt (.BinaryExpr
        (.BinaryExpr (.LiteralExpr (.bool true)) (Token.ofType .AND "&&")
          (.LiteralExpr (.bool false)))
        (Token.ofType .OR "||") (.LiteralExpr (.bool true))))]
      (CodeGenerator.init "m")).diagnostics.diagnostics = [] ∧
    (generate LLVM.structural
      [some (.ExpressionStmt (.BinaryExpr
        (.BinaryExpr (.LiteralExpr (.bool true)) (Token.ofType .AND "&&")
          (.LiteralExpr (.bool false)))
        (Token.ofType .OR "||") (.LiteralExpr (.bool true))))]
      (CodeGenerator.init "m")).module.blocksOf 2 = [1, 2, 3, 4, 5] ∧
    ((generate LLVM.structural
      [some (.ExpressionStmt (.BinaryExpr
        (.BinaryExpr (.LiteralExpr (.bool true)) (Token.ofType .AND "&&")
          (.LiteralExpr (.bool false)))
        (Token.ofType .OR "||") (.LiteralExpr (.bool true))))]
      (CodeGenerator.init "m")).module.blocksOf 2).getLast?.bind
        (fun c => ((generate LLVM.structural
          [some (.ExpressionStmt (.BinaryExpr
            (.BinaryExpr (.LiteralExpr (.bool true)) (Token.ofType .AND "&&")
              (.LiteralExpr (.bool false)))
            (Token.ofType .OR "||") (.LiteralExpr (.bool true))))]
          (CodeGenerator.init "m")).module.instructionsOf c).getLast?) ≠
      some (.Ret (.ConstantInt getIntType 0)) ∧
    (generate LLVM.structural
      [some (.ExpressionStmt (.BinaryExpr
        (.BinaryExpr (.LiteralExpr (.bool true)) (Token.ofType .AND "&&")
          (.LiteralExpr (.bool false)))
        (Token.ofType .OR "||") (.LiteralExpr (.bool true))))]
      (CodeGenerator.init "m")).module.instructionsOf 5 =
      [.PHI 1 getBoolType
        [(.ConstantInt getBoolType 0, some 1), (.ConstantInt getBoolType 0, some 4)]
        "logical",
       .CondBr (.Instruction 1 getBoolType) 3 2] ∧
    (generate LLVM.structural
      [some (.ExpressionStmt (.BinaryExpr
        (.BinaryExpr (.LiteralExpr (.bool true)) (Token.ofType .AND "&&")
          (.LiteralExpr (.bool false)))
        (Token.ofType .OR "||") (.LiteralExpr (.bool true))))]
      (CodeGenerator.init "m")).insertBlock = some 3 ∧
    (generate LLVM.structural
      [some (.ExpressionStmt (.BinaryExpr
        (.BinaryExpr (.LiteralExpr (.bool true)) (Token.ofType .AND "&&")
          (.LiteralExpr (.bool false)))
        (Token.ofType .OR "||") (.LiteralExpr (.bool true))))]
      (CodeGenerator.init "m")).module.instructionsOf 3 =
      [.PHI 2 getBoolType
        [(.ConstantInt getBoolType 1, some 1), (.ConstantInt getBoolType 1, some 2)]
        "logical",
       .Ret (.ConstantInt getIntType 0)] := by
  decide

end mana
